import Mathlib

/-!
# Hasura metadata reconciliation (`internal/lib/hasura/metadata`)

A shallow embedding of `metadata.go`: the data model, the merge engine and the
two-phase driver `ApplyMetadata`, followed by the properties proved about them.

Conventions of the embedding
* Go slices are `List`s (the nil slice and the empty slice are both `[]`).
* A Go `map[string]V` is a `GoMap V`: either the nil map or an association list
  in which the first binding of a key is the live one.
* `json.RawMessage` is a `RawMessage`: nil, bytes that are not JSON, or the
  text of a JSON value (kept as the value's tree).
* The network is an explicit `Transport` oracle; every call of `postMetadata`
  is appended to a request trace that is threaded through the driver.
* A Go `string` is a `String`: Unicode text. The bytes `json.Marshal` returns
  are the JSON value they are the text of, so that two texts of one value
  (spacing, escapes) are one value.
-/

set_option autoImplicit false

namespace metadata

/-! ## Go maps -/

/-- Go `map[string]V`. `nil` is the nil map; `mk es` is a non-nil map whose
bindings are `es`, the first binding of a key shadowing later ones. -/
inductive GoMap (V : Type) where
  | nil : GoMap V
  | mk (entries : List (String × V)) : GoMap V
deriving DecidableEq, Repr

namespace GoMap

variable {V : Type}

/-- The bindings of a map; the nil map has none. -/
def entries : GoMap V → List (String × V)
  | nil => []
  | mk es => es

/-- Go `make(map[string]V)`: the empty non-nil map. -/
def make : GoMap V := mk []

/-- Go `v, ok := m[k]`. -/
def get? (m : GoMap V) (k : String) : Option V :=
  m.entries.lookup k

/-- Go `m[k]` for a `map[string]bool`: the zero value `false` when `k` is missing. -/
def getBool (m : GoMap Bool) (k : String) : Bool :=
  (m.get? k).getD false

/-- Go `m[k]` with the zero value `zero` of the element type for a missing key. -/
def getD (m : GoMap V) (k : String) (zero : V) : V :=
  (m.get? k).getD zero

/-- Go `m[k] = v` (on a non-nil map). -/
def set (m : GoMap V) (k : String) (v : V) : GoMap V :=
  mk ((k, v) :: m.entries)

/-- The keys of a map, each once. -/
def keys (m : GoMap V) : List String :=
  (m.entries.map Prod.fst).dedup

/-- Go `len(m)`: the number of keys. -/
def len (m : GoMap V) : Nat :=
  m.keys.length

/-- Go `maps.Copy(dst, src)`: `for k, v := range src { dst[k] = v }`.
The bindings of `src` are written back to front, so that the live binding of
each key is the one written last. -/
def copy (dst src : GoMap V) : GoMap V :=
  src.entries.foldr (fun kv d => d.set kv.1 kv.2) dst

end GoMap

/-! ## JSON values and raw messages -/

/-- A JSON value. Numbers keep their literal text. -/
inductive JSON where
  | null
  | bool (b : Bool)
  | num (lit : String)
  | str (s : String)
  | arr (elems : List JSON)
  | obj (members : List (String × JSON))

mutual
/-- Boolean equality test on JSON values. -/
def JSON.beq : JSON → JSON → Bool
  | .null, .null => true
  | .bool a, .bool b => a == b
  | .num a, .num b => a == b
  | .str a, .str b => a == b
  | .arr a, .arr b => JSON.beqList a b
  | .obj a, .obj b => JSON.beqMembers a b
  | _, _ => false
/-- Boolean equality test on lists of JSON values. -/
def JSON.beqList : List JSON → List JSON → Bool
  | [], [] => true
  | x :: xs, y :: ys => JSON.beq x y && JSON.beqList xs ys
  | _, _ => false
/-- Boolean equality test on the member lists of JSON objects. -/
def JSON.beqMembers : List (String × JSON) → List (String × JSON) → Bool
  | [], [] => true
  | (k, x) :: xs, (l, y) :: ys => k == l && JSON.beq x y && JSON.beqMembers xs ys
  | _, _ => false
end

mutual
theorem json_beq_iff : ∀ a b : JSON, JSON.beq a b = true ↔ a = b
  | .null, b => by cases b <;> simp [JSON.beq]
  | .bool a, b => by cases b <;> simp [JSON.beq]
  | .num a, b => by cases b <;> simp [JSON.beq]
  | .str a, b => by cases b <;> simp [JSON.beq]
  | .arr a, b => by cases b <;> simp [JSON.beq, json_beqList_iff a]
  | .obj a, b => by cases b <;> simp [JSON.beq, json_beqMembers_iff a]
theorem json_beqList_iff : ∀ a b : List JSON, JSON.beqList a b = true ↔ a = b
  | [], b => by cases b <;> simp [JSON.beqList]
  | x :: xs, b => by
    cases b <;> simp [JSON.beqList, json_beq_iff x, json_beqList_iff xs]
theorem json_beqMembers_iff :
    ∀ a b : List (String × JSON), JSON.beqMembers a b = true ↔ a = b
  | [], b => by cases b <;> simp [JSON.beqMembers]
  | (k, x) :: xs, b => by
    cases b with
    | nil => simp [JSON.beqMembers]
    | cons y ys =>
      obtain ⟨l, y⟩ := y
      simp [JSON.beqMembers, json_beq_iff x, json_beqMembers_iff xs, and_assoc]
end

instance : DecidableEq JSON := fun a b => decidable_of_iff _ (json_beq_iff a b)

/-- Go `json.RawMessage` (a byte slice holding encoded JSON). A slice that
holds a text of a JSON value is represented by that value: the white space
between its tokens and the spelling of the escapes in its strings are not
represented, so two texts of the same value are not told apart. Equality of
raw messages is therefore equality of the values they encode, not of their
bytes; what `json.Marshal` does to the bytes is `compactJSON`. -/
inductive RawMessage where
  /-- The nil slice. -/
  | nil
  /-- Bytes that are not the text of a JSON value (the empty slice included). -/
  | invalid (bytes : String)
  /-- A text of the JSON value `v`. -/
  | valid (v : JSON)
deriving DecidableEq

/-- Go `len(raw) > 0`. -/
def RawMessage.nonEmpty : RawMessage → Bool
  | .nil => false
  | .invalid bytes => bytes != ""
  | .valid _ => true

/-- A Go value of interface type `any`, as far as this package looks at it:
what `encoding/json` produces (`nil`, `bool`, `float64`, `string`, `[]any`,
`map[string]any`) and the `[]string` or `int` a caller may write by hand. -/
inductive GoAny where
  | nil
  | bool (b : Bool)
  | int (n : Int)
  | float64 (lit : String)
  | string (s : String)
  | strings (l : List String)
  | slice (elems : List GoAny)
  | map (members : List (String × GoAny))

mutual
/-- Boolean equality test on `any` values. -/
def GoAny.beq : GoAny → GoAny → Bool
  | .nil, .nil => true
  | .bool a, .bool b => a == b
  | .int a, .int b => a == b
  | .float64 a, .float64 b => a == b
  | .string a, .string b => a == b
  | .strings a, .strings b => a == b
  | .slice a, .slice b => GoAny.beqList a b
  | .map a, .map b => GoAny.beqMembers a b
  | _, _ => false
/-- Boolean equality test on lists of `any` values. -/
def GoAny.beqList : List GoAny → List GoAny → Bool
  | [], [] => true
  | x :: xs, y :: ys => GoAny.beq x y && GoAny.beqList xs ys
  | _, _ => false
/-- Boolean equality test on the bindings of `map[string]any` values. -/
def GoAny.beqMembers : List (String × GoAny) → List (String × GoAny) → Bool
  | [], [] => true
  | (k, x) :: xs, (l, y) :: ys => k == l && GoAny.beq x y && GoAny.beqMembers xs ys
  | _, _ => false
end

mutual
theorem goAny_beq_iff : ∀ a b : GoAny, GoAny.beq a b = true ↔ a = b
  | .nil, b => by cases b <;> simp [GoAny.beq]
  | .bool a, b => by cases b <;> simp [GoAny.beq]
  | .int a, b => by cases b <;> simp [GoAny.beq]
  | .float64 a, b => by cases b <;> simp [GoAny.beq]
  | .string a, b => by cases b <;> simp [GoAny.beq]
  | .strings a, b => by cases b <;> simp [GoAny.beq]
  | .slice a, b => by cases b <;> simp [GoAny.beq, goAny_beqList_iff a]
  | .map a, b => by cases b <;> simp [GoAny.beq, goAny_beqMembers_iff a]
theorem goAny_beqList_iff : ∀ a b : List GoAny, GoAny.beqList a b = true ↔ a = b
  | [], b => by cases b <;> simp [GoAny.beqList]
  | x :: xs, b => by
    cases b <;> simp [GoAny.beqList, goAny_beq_iff x, goAny_beqList_iff xs]
theorem goAny_beqMembers_iff :
    ∀ a b : List (String × GoAny), GoAny.beqMembers a b = true ↔ a = b
  | [], b => by cases b <;> simp [GoAny.beqMembers]
  | (k, x) :: xs, b => by
    cases b with
    | nil => simp [GoAny.beqMembers]
    | cons y ys =>
      obtain ⟨l, y⟩ := y
      simp [GoAny.beqMembers, goAny_beq_iff x, goAny_beqMembers_iff xs, and_assoc]
end

instance : DecidableEq GoAny := fun a b => decidable_of_iff _ (goAny_beq_iff a b)

/-! ## Request and configuration types -/

/-- Go `Table`: a database table by schema and name. -/
structure Table where
  Schema : String
  Name : String
deriving DecidableEq

/-- Go `CustomRootFields`. -/
structure CustomRootFields where
  Select : String
  SelectByPk : String
  SelectAggregate : String
  Insert : String
  InsertOne : String
  Update : String
  UpdateByPk : String
  Delete : String
  DeleteByPk : String
  AdditionalProperties : GoMap RawMessage
deriving DecidableEq

/-- Go `Configuration`. -/
structure Configuration where
  CustomName : String
  CustomRootFields : CustomRootFields
  CustomColumnNames : GoMap String
  AdditionalProperties : GoMap RawMessage
deriving DecidableEq

/-- Go `ObjectRelationshipConfigUsing`. -/
structure ObjectRelationshipConfigUsing where
  ForeignKeyConstraintOn : GoAny
deriving DecidableEq

/-- Go `ObjectRelationshipConfig`. -/
structure ObjectRelationshipConfig where
  Name : String
  Using : ObjectRelationshipConfigUsing
deriving DecidableEq

/-- Go `ForeignKeyConstraintOn`. -/
structure ForeignKeyConstraintOn where
  Table : Table
  Columns : List String
deriving DecidableEq

/-- Go `ArrayRelationshipConfigUsing`. -/
structure ArrayRelationshipConfigUsing where
  ForeignKeyConstraintOn : ForeignKeyConstraintOn
deriving DecidableEq

/-- Go `ArrayRelationshipConfig`. -/
structure ArrayRelationshipConfig where
  Name : String
  Using : ArrayRelationshipConfigUsing
deriving DecidableEq

/-! ## Merge engine -/

/-- Go `mergeCustomRootFields`. -/
def mergeCustomRootFields (existing ours : CustomRootFields) : CustomRootFields :=
  let merged := ours
  if existing.AdditionalProperties.len > 0 then
    { merged with
      AdditionalProperties := GoMap.copy GoMap.make existing.AdditionalProperties }
  else
    merged

/-- Go `mergeConfiguration`. -/
def mergeConfiguration (existing ours : Configuration) : Configuration :=
  let merged := ours
  let merged := { merged with
    CustomRootFields := mergeCustomRootFields existing.CustomRootFields ours.CustomRootFields }
  if existing.AdditionalProperties.len > 0 then
    { merged with
      AdditionalProperties := GoMap.copy GoMap.make existing.AdditionalProperties }
  else
    merged

/-- Go `mergeObjectRelationships`. The two loops are folds over `ours` and
`existing`; the state of the first is the pair `(merged, seen)`. -/
def mergeObjectRelationships (existing ours : List ObjectRelationshipConfig) :
    List ObjectRelationshipConfig :=
  let init : List ObjectRelationshipConfig × GoMap Bool := ([], GoMap.make)
  let afterOurs := ours.foldl (fun st r => (st.1 ++ [r], st.2.set r.Name true)) init
  let seen := afterOurs.2
  existing.foldl (fun merged r => if !seen.getBool r.Name then merged ++ [r] else merged)
    afterOurs.1

/-- Go `mergeArrayRelationships`. -/
def mergeArrayRelationships (existing ours : List ArrayRelationshipConfig) :
    List ArrayRelationshipConfig :=
  let init : List ArrayRelationshipConfig × GoMap Bool := ([], GoMap.make)
  let afterOurs := ours.foldl (fun st r => (st.1 ++ [r], st.2.set r.Name true)) init
  let seen := afterOurs.2
  existing.foldl (fun merged r => if !seen.getBool r.Name then merged ++ [r] else merged)
    afterOurs.1

/-! ## Errors -/

/-- A Go `error` value, as far as the package distinguishes errors: its own
`*apiError`, an error built by `fmt.Errorf` around another one with `%w` (the
verb always ends the format string here), and any other error. -/
inductive GoError where
  | apiError (code msg : String)
  | wrapError (pfx : String) (err : GoError)
  | errorString (msg : String)
deriving DecidableEq

/-- Go `err.Error()`. -/
def GoError.Error : GoError → String
  | .apiError _ msg => msg
  | .wrapError pfx err => pfx ++ err.Error
  | .errorString msg => msg

/-- Go `errors.As(err, &metaErr)` for `metaErr *apiError`: the code of the first
`*apiError` in the chain of `err`, if there is one. -/
def GoError.asApiError : GoError → Option String
  | .apiError code _ => some code
  | .wrapError _ err => err.asApiError
  | .errorString _ => none

/-- Go `errors.As(err, &metaErr) && metaErr.Code() == code`. -/
def GoError.hasCode (err : GoError) (code : String) : Bool :=
  match err.asApiError with
  | some c => c == code
  | none => false

deriving instance DecidableEq for Except

/-! ## Connection settings -/

def defaultTimeout : Int := 10

def defaultDBName : String := "default"

def errorCodeAlreadyTracked : String := "already-tracked"

def errorCodeAlreadyExists : String := "already-exists"

/-- Go `time.Second`, in nanoseconds. -/
def timeSecond : Int := 1000000000

/-- Go `Config`. `Timeout` is a `time.Duration`, in nanoseconds. -/
structure Config where
  URL : String
  AdminSecret : String
  DBName : String
  Timeout : Int
deriving DecidableEq

/-- Go `Config.timeout`. -/
def Config.timeout (c : Config) : Int :=
  if c.Timeout > 0 then c.Timeout else defaultTimeout * timeSecond

/-- Go `Config.dbName`. -/
def Config.dbName (c : Config) : String :=
  if c.DBName != "" then c.DBName else defaultDBName

/-! ## Requests -/

/-- Go `PgTrackTableArgs`. -/
structure PgTrackTableArgs where
  Source : String
  Table : Table
  Configuration : Configuration
  ObjectRelationships : List ObjectRelationshipConfig
  ArrayRelationships : List ArrayRelationshipConfig
deriving DecidableEq

/-- Go `TrackTable` (its field `Type` is `Type_` here). -/
structure TrackTable where
  Type_ : String
  Args : PgTrackTableArgs
  IsEnum : Bool
deriving DecidableEq

/-- Go `createObjectRelationshipUsing`. -/
structure createObjectRelationshipUsing where
  ForeignKeyConstraintOn : List String
deriving DecidableEq

/-- Go `createObjectRelationshipArgs`. -/
structure createObjectRelationshipArgs where
  Table : Table
  Name : String
  Source : String
  Using : createObjectRelationshipUsing
deriving DecidableEq

/-- Go `createObjectRelationship`. -/
structure createObjectRelationship where
  Type_ : String
  Args : createObjectRelationshipArgs
deriving DecidableEq

/-- Go `createArrayRelationshipUsing`. -/
structure createArrayRelationshipUsing where
  ForeignKeyConstraintOn : ForeignKeyConstraintOn
deriving DecidableEq

/-- Go `createArrayRelationshipArgs`. -/
structure createArrayRelationshipArgs where
  Table : Table
  Name : String
  Source : String
  Using : createArrayRelationshipUsing
deriving DecidableEq

/-- Go `createArrayRelationship`. -/
structure createArrayRelationship where
  Type_ : String
  Args : createArrayRelationshipArgs
deriving DecidableEq

/-- Go `setTableCustomizationArgs`. -/
structure setTableCustomizationArgs where
  Source : String
  Table : Table
  Configuration : Configuration
deriving DecidableEq

/-- Go `setTableCustomization`. -/
structure setTableCustomization where
  Type_ : String
  Args : setTableCustomizationArgs
deriving DecidableEq

/-- Go `exportMetadataRequest`. -/
structure exportMetadataRequest where
  Type_ : String
  Version : Int
deriving DecidableEq

/-- Go `exportMetadataTable`. -/
structure exportMetadataTable where
  Table : Table
  Configuration : Option RawMessage
  ObjectRelationships : List ObjectRelationshipConfig
  ArrayRelationships : List ArrayRelationshipConfig
deriving DecidableEq

/-- Go `exportMetadataSource`. -/
structure exportMetadataSource where
  Name : String
  Tables : List exportMetadataTable
deriving DecidableEq

/-- Go `exportMetadataMetadata`. -/
structure exportMetadataMetadata where
  Sources : List exportMetadataSource
deriving DecidableEq

/-- Go `exportMetadataResponse`. -/
structure exportMetadataResponse where
  Metadata : exportMetadataMetadata
deriving DecidableEq

/-- Go `existingTableMetadata`. -/
structure existingTableMetadata where
  Configuration : RawMessage
  ObjectRelationships : List ObjectRelationshipConfig
  ArrayRelationships : List ArrayRelationshipConfig
deriving DecidableEq

/-- The zero value of `existingTableMetadata`, which a Go map yields for a missing key. -/
def existingTableMetadata.zero : existingTableMetadata :=
  { Configuration := RawMessage.nil, ObjectRelationships := [], ArrayRelationships := [] }

/-- The `data any` handed to `postMetadata`: one of the five request types
the package posts. -/
inductive Request where
  | exportMetadata (r : exportMetadataRequest)
  | trackTable (r : TrackTable)
  | setTableCustomization (r : setTableCustomization)
  | createObjectRelationship (r : createObjectRelationship)
  | createArrayRelationship (r : createArrayRelationship)
deriving DecidableEq

/-- The body of a successful response. The package does one thing with a body,
and only with that of `export_metadata`: `json.Unmarshal(body, &resp)` for an
`exportMetadataResponse`. A body is represented by the outcome of that call. -/
inductive Body where
  /-- Bytes the decoder rejects, with the decoder's error. -/
  | undecodable (err : GoError)
  /-- Bytes the decoder turns into `resp`. -/
  | decodes (resp : exportMetadataResponse)
deriving DecidableEq

/-- Go `json.Unmarshal(body, &resp)` in `fetchExistingTableMetadata`. -/
def Body.unmarshal : Body → Except GoError exportMetadataResponse
  | .undecodable err => .error err
  | .decodes resp => .ok resp

/-- The world behind `postMetadata`, for calls that return: what a call
returns, given the requests posted before it and the request posted now. It
stands for everything in the function body (encoding the request, the HTTP
exchange with the gateway at `cfg.URL`, reading and classifying the response),
so it may answer a request differently each time. A call that panics (see
`postMetadata.classify`) has no answer of this type: the driver with that
outcome is `wire.ApplyMetadata`, and `wire_applyMetadata_eq` relates the
two. -/
abbrev Transport := List Request → Request → Except GoError Body

/-- Go `postMetadata`, for a call that returns: one exchange. The request is
appended to the trace of requests posted so far. The function with its third
outcome, the panic, is `wire.postMetadata`. -/
def postMetadata (net : Transport) (_cfg : Config) (data : Request) (trace : List Request) :
    Except GoError Body × List Request :=
  (net trace data, trace ++ [data])

/-! ## Decoding a stored configuration

`encoding/json` as the two `UnmarshalJSON` methods use it: into a struct of
string, map and `CustomRootFields` fields, and into a `map[string]json.RawMessage`.
The decoder reports a mismatch between a JSON value and its Go target as an
error after decoding the rest; only the presence of an error is kept here. -/

/-- The zero value of `CustomRootFields`. -/
def CustomRootFields.zero : CustomRootFields :=
  { Select := "", SelectByPk := "", SelectAggregate := "", Insert := "", InsertOne := "",
    Update := "", UpdateByPk := "", Delete := "", DeleteByPk := "",
    AdditionalProperties := GoMap.nil }

/-- The zero value of `Configuration`. -/
def Configuration.zero : Configuration :=
  { CustomName := "", CustomRootFields := CustomRootFields.zero,
    CustomColumnNames := GoMap.nil, AdditionalProperties := GoMap.nil }

/-- Go `customRootFieldsAlias`. -/
structure customRootFieldsAlias where
  Select : String
  SelectByPk : String
  SelectAggregate : String
  Insert : String
  InsertOne : String
  Update : String
  UpdateByPk : String
  Delete : String
  DeleteByPk : String
deriving DecidableEq

/-- Go `configurationAlias`. -/
structure configurationAlias where
  CustomName : String
  CustomRootFields : CustomRootFields
  CustomColumnNames : GoMap String
deriving DecidableEq

/-- Go `customRootFieldsKnownKeys`. -/
def customRootFieldsKnownKeys : GoMap Bool :=
  GoMap.mk [("select", true), ("select_by_pk", true), ("select_aggregate", true),
    ("insert", true), ("insert_one", true), ("update", true), ("update_by_pk", true),
    ("delete", true), ("delete_by_pk", true)]

/-- Go `configurationKnownKeys`. -/
def configurationKnownKeys : GoMap Bool :=
  GoMap.mk [("custom_name", true), ("custom_root_fields", true), ("custom_column_names", true)]

/-- The JSON names of the fields of `customRootFieldsAlias`, from its tags. -/
def customRootFieldsAliasFields : List String :=
  ["select", "select_by_pk", "select_aggregate", "insert", "insert_one", "update",
   "update_by_pk", "delete", "delete_by_pk"]

/-- The JSON names of the fields of `configurationAlias`, from its tags. -/
def configurationAliasFields : List String :=
  ["custom_name", "custom_root_fields", "custom_column_names"]

/-- Case folding of one rune as `encoding/json` does it for field names: the
least rune of the simple-folding orbit. Only the orbits that meet ASCII are
folded (the letters, with U+017F for `s` and U+212A for `k`); no other rune can
occur in a name equal, after folding, to one of the field names above. -/
def foldRune (c : Char) : Char :=
  if 'a' ≤ c ∧ c ≤ 'z' then Char.ofNat (c.toNat - 32)
  else if c = Char.ofNat 0x17F then 'S'
  else if c = Char.ofNat 0x212A then 'K'
  else c

/-- Case folding of a member name. -/
def foldName (s : String) : String :=
  String.mk (s.data.map foldRune)

/-- The struct field a JSON member name selects: the field with exactly that
name, else the field with the same folded name. -/
def findField (fields : List String) (key : String) : Option String :=
  match fields.find? (fun f => f == key) with
  | some f => some f
  | none => fields.find? (fun f => foldName f == foldName key)

/-- The error of a JSON value that does not fit its Go target. -/
def unmarshalTypeError : GoError :=
  GoError.errorString "json: cannot unmarshal value into Go value"

/-- The error of bytes that are not JSON. -/
def syntaxError : GoError :=
  GoError.errorString "json: invalid JSON text"

/-- Decoding a JSON value into a Go `string` holding `cur`: a JSON string
replaces it, `null` leaves it, anything else is a type error. -/
def decodeString (cur : String) : JSON → Except GoError String
  | .str s => .ok s
  | .null => .ok cur
  | _ => .error unmarshalTypeError

/-- Decoding a JSON value into a Go `map[string]string` holding `cur`: `null`
makes it nil; an object writes its members, in order, into the map (made first
if it is nil), `null` member values becoming the empty string. -/
def decodeStringMap (cur : GoMap String) : JSON → Except GoError (GoMap String)
  | .null => .ok GoMap.nil
  | .obj members =>
    members.foldlM
      (fun m kv => do
        let s ← decodeString "" kv.2
        pure (m.set kv.1 s))
      (match cur with
       | GoMap.nil => GoMap.make
       | m => m)
  | _ => .error unmarshalTypeError

/-- Decoding one member of a JSON object into a `customRootFieldsAlias`. -/
def customRootFieldsAlias.decodeMember (a : customRootFieldsAlias) (kv : String × JSON) :
    Except GoError customRootFieldsAlias :=
  match findField customRootFieldsAliasFields kv.1 with
  | some "select" => do
    let s ← decodeString a.Select kv.2
    pure { a with Select := s }
  | some "select_by_pk" => do
    let s ← decodeString a.SelectByPk kv.2
    pure { a with SelectByPk := s }
  | some "select_aggregate" => do
    let s ← decodeString a.SelectAggregate kv.2
    pure { a with SelectAggregate := s }
  | some "insert" => do
    let s ← decodeString a.Insert kv.2
    pure { a with Insert := s }
  | some "insert_one" => do
    let s ← decodeString a.InsertOne kv.2
    pure { a with InsertOne := s }
  | some "update" => do
    let s ← decodeString a.Update kv.2
    pure { a with Update := s }
  | some "update_by_pk" => do
    let s ← decodeString a.UpdateByPk kv.2
    pure { a with UpdateByPk := s }
  | some "delete" => do
    let s ← decodeString a.Delete kv.2
    pure { a with Delete := s }
  | some "delete_by_pk" => do
    let s ← decodeString a.DeleteByPk kv.2
    pure { a with DeleteByPk := s }
  | _ => pure a

/-- Go `json.Unmarshal(data, &alias)` for a zero `customRootFieldsAlias`. -/
def unmarshalCustomRootFieldsAlias : RawMessage → Except GoError customRootFieldsAlias
  | .valid (.obj members) =>
    members.foldlM customRootFieldsAlias.decodeMember
      { Select := "", SelectByPk := "", SelectAggregate := "", Insert := "", InsertOne := "",
        Update := "", UpdateByPk := "", Delete := "", DeleteByPk := "" }
  | .valid .null =>
    .ok { Select := "", SelectByPk := "", SelectAggregate := "", Insert := "", InsertOne := "",
          Update := "", UpdateByPk := "", Delete := "", DeleteByPk := "" }
  | .valid _ => .error unmarshalTypeError
  | _ => .error syntaxError

/-- Go `json.Unmarshal(data, &allFields)` for a nil `map[string]json.RawMessage`:
each member of an object is stored under its name with the text of its value,
a later member replacing an earlier one of the same name. -/
def unmarshalRawMessageMap : RawMessage → Except GoError (GoMap RawMessage)
  | .valid (.obj members) =>
    .ok (members.foldl (fun m kv => m.set kv.1 (RawMessage.valid kv.2)) GoMap.make)
  | .valid .null => .ok GoMap.nil
  | .valid _ => .error unmarshalTypeError
  | _ => .error syntaxError

/-- The loop `for k, v := range allFields { if !known[k] { extra[k] = v } }`
of both `UnmarshalJSON` methods, on a fresh `extra`. The bindings are visited
back to front, so that the live binding of a key is written last. -/
def extraFields (known : GoMap Bool) (allFields : GoMap RawMessage) : GoMap RawMessage :=
  allFields.entries.foldr
    (fun kv extra => if !known.getBool kv.1 then extra.set kv.1 kv.2 else extra)
    GoMap.make

/-- Go `(*CustomRootFields).UnmarshalJSON`, on the receiver `c`. -/
def CustomRootFields.UnmarshalJSON (c : CustomRootFields) (data : RawMessage) :
    Except GoError CustomRootFields :=
  match unmarshalCustomRootFieldsAlias data with
  | .error err => .error (GoError.wrapError "unmarshaling custom root fields: " err)
  | .ok alias_ =>
    let c := { c with
      Select := alias_.Select
      SelectByPk := alias_.SelectByPk
      SelectAggregate := alias_.SelectAggregate
      Insert := alias_.Insert
      InsertOne := alias_.InsertOne
      Update := alias_.Update
      UpdateByPk := alias_.UpdateByPk
      Delete := alias_.Delete
      DeleteByPk := alias_.DeleteByPk }
    match unmarshalRawMessageMap data with
    | .error err =>
      .error (GoError.wrapError "unmarshaling custom root fields into map: " err)
    | .ok allFields =>
      let extra := extraFields customRootFieldsKnownKeys allFields
      if extra.len > 0 then
        .ok { c with AdditionalProperties := extra }
      else
        .ok c

/-- Decoding one member of a JSON object into a `configurationAlias`. The
member `custom_root_fields` goes through `CustomRootFields.UnmarshalJSON`. -/
def configurationAlias.decodeMember (a : configurationAlias) (kv : String × JSON) :
    Except GoError configurationAlias :=
  match findField configurationAliasFields kv.1 with
  | some "custom_name" => do
    let s ← decodeString a.CustomName kv.2
    pure { a with CustomName := s }
  | some "custom_root_fields" => do
    let c ← CustomRootFields.UnmarshalJSON a.CustomRootFields (RawMessage.valid kv.2)
    pure { a with CustomRootFields := c }
  | some "custom_column_names" => do
    let m ← decodeStringMap a.CustomColumnNames kv.2
    pure { a with CustomColumnNames := m }
  | _ => pure a

/-- Go `json.Unmarshal(data, &alias)` for a zero `configurationAlias`. -/
def unmarshalConfigurationAlias : RawMessage → Except GoError configurationAlias
  | .valid (.obj members) =>
    members.foldlM configurationAlias.decodeMember
      { CustomName := "", CustomRootFields := CustomRootFields.zero,
        CustomColumnNames := GoMap.nil }
  | .valid .null =>
    .ok { CustomName := "", CustomRootFields := CustomRootFields.zero,
          CustomColumnNames := GoMap.nil }
  | .valid _ => .error unmarshalTypeError
  | _ => .error syntaxError

/-- Go `(*Configuration).UnmarshalJSON`, on the receiver `c`. Called on a zero
receiver it is also `json.Unmarshal(data, &existing)` for `var existing
Configuration`, which hands every JSON text to this method and rejects
anything else. -/
def Configuration.UnmarshalJSON (c : Configuration) (data : RawMessage) :
    Except GoError Configuration :=
  match unmarshalConfigurationAlias data with
  | .error err => .error (GoError.wrapError "unmarshaling configuration: " err)
  | .ok alias_ =>
    let c := { c with
      CustomName := alias_.CustomName
      CustomRootFields := alias_.CustomRootFields
      CustomColumnNames := alias_.CustomColumnNames }
    match unmarshalRawMessageMap data with
    | .error err => .error (GoError.wrapError "unmarshaling configuration into map: " err)
    | .ok allFields =>
      let extra := extraFields configurationKnownKeys allFields
      if extra.len > 0 then
        .ok { c with AdditionalProperties := extra }
      else
        .ok c

/-! ## Encoding a configuration

`encoding/json` as the two `MarshalJSON` methods use it. The bytes that
`json.Marshal` returns are represented by the JSON value they are the text of:
the members of an object in the order they are written. -/

/-- The code points of a key. `json.Marshal` writes the keys of a map in the
byte order of their UTF-8 text, which is the order of their code points. -/
def keyCode (s : String) : List Nat :=
  s.data.map Char.toNat

/-- The order in which `json.Marshal` writes the keys of a map. -/
def keyLE (a b : String) : Prop :=
  keyCode a ≤ keyCode b

instance : DecidableRel keyLE :=
  fun a b => inferInstanceAs (Decidable (keyCode a ≤ keyCode b))

/-- The keys of a map, sorted as `json.Marshal` writes them. -/
def GoMap.sortedKeys {V : Type} (m : GoMap V) : List String :=
  m.keys.insertionSort keyLE

/-- The error `json.Marshal` makes of the error of a `MarshalJSON` method. -/
def marshalerError (err : GoError) : GoError :=
  GoError.wrapError "json: error calling MarshalJSON: " err

/-- What `compactJSON` writes for one character: `<`, `>`, `&`, U+2028 and
U+2029 as the escape `\u` with four hexadecimal digits, any other character
as it is. -/
def compactJSON.escape (c : Char) : List Char :=
  if c.toNat = 60 then [Char.ofNat 92, 'u', '0', '0', '3', 'c']
  else if c.toNat = 62 then [Char.ofNat 92, 'u', '0', '0', '3', 'e']
  else if c.toNat = 38 then [Char.ofNat 92, 'u', '0', '0', '2', '6']
  else if c.toNat = 8232 then [Char.ofNat 92, 'u', '2', '0', '2', '8']
  else if c.toNat = 8233 then [Char.ofNat 92, 'u', '2', '0', '2', '9']
  else [c]

/-- The loop of `compactJSON`: `inString` tells whether the character is inside
a string, `escaped` whether it follows a backslash there. -/
def compactJSON.loop : Bool → Bool → List Char → List Char
  | _, _, [] => []
  | true, true, c :: rest => compactJSON.escape c ++ compactJSON.loop true false rest
  | true, false, c :: rest =>
    if c.toNat = 92 then compactJSON.escape c ++ compactJSON.loop true true rest
    else if c.toNat = 34 then compactJSON.escape c ++ compactJSON.loop false false rest
    else compactJSON.escape c ++ compactJSON.loop true false rest
  | false, _, c :: rest =>
    if c.toNat = 32 ∨ c.toNat = 9 ∨ c.toNat = 13 ∨ c.toNat = 10 then
      compactJSON.loop false false rest
    else if c.toNat = 34 then compactJSON.escape c ++ compactJSON.loop true false rest
    else compactJSON.escape c ++ compactJSON.loop false false rest

/-- The bytes `json.Marshal` writes for a `json.RawMessage` that holds the text
`src` of a JSON value (`appendCompact(dst, src, true)` of `encoding/json`): the
white space between the tokens is dropped, and `<`, `>`, `&`, U+2028 and U+2029
are written as escapes. The text written encodes the same JSON value. -/
def compactJSON (src : String) : String :=
  String.mk (compactJSON.loop false false src.toList)

/-- Go `json.RawMessage.MarshalJSON` as `json.Marshal` calls it: a nil message
is written as `null`, any other message is written compacted (`compactJSON`),
after the check that it is the text of a JSON value. The text written encodes
the same JSON value as the message. -/
def marshalRawMessage : RawMessage → Except GoError JSON
  | .nil => .ok JSON.null
  | .invalid _ => .error (marshalerError syntaxError)
  | .valid v => .ok v

/-- The members `json.Marshal` writes for the keys `ks` of a
`map[string]json.RawMessage`, in that order. -/
def marshalRawMessageMembers (m : GoMap RawMessage) :
    List String → Except GoError (List (String × JSON))
  | [] => .ok []
  | k :: ks =>
    match marshalRawMessage (m.getD k RawMessage.nil) with
    | .error err => .error err
    | .ok v =>
      match marshalRawMessageMembers m ks with
      | .error err => .error err
      | .ok rest => .ok ((k, v) :: rest)

/-- Go `json.Marshal(m)` for a `map[string]json.RawMessage`: `null` for the nil
map, else an object with one member per key, the keys sorted. -/
def marshalRawMessageMap (m : GoMap RawMessage) : Except GoError JSON :=
  match m with
  | GoMap.nil => .ok JSON.null
  | m =>
    match marshalRawMessageMembers m m.sortedKeys with
    | .error err => .error err
    | .ok members => .ok (JSON.obj members)

/-- Go `json.Marshal(m)` for a `map[string]string`. -/
def marshalStringMap (m : GoMap String) : JSON :=
  match m with
  | GoMap.nil => JSON.null
  | m => JSON.obj (m.sortedKeys.map (fun k => (k, JSON.str (m.getD k ""))))

/-- Go `json.Marshal(alias)` for a `customRootFieldsAlias`: the nine fields in
the order of the struct. It has no failing case. -/
def marshalCustomRootFieldsAlias (alias_ : customRootFieldsAlias) : Except GoError JSON :=
  .ok (JSON.obj
    [ ("select", JSON.str alias_.Select),
      ("select_by_pk", JSON.str alias_.SelectByPk),
      ("select_aggregate", JSON.str alias_.SelectAggregate),
      ("insert", JSON.str alias_.Insert),
      ("insert_one", JSON.str alias_.InsertOne),
      ("update", JSON.str alias_.Update),
      ("update_by_pk", JSON.str alias_.UpdateByPk),
      ("delete", JSON.str alias_.Delete),
      ("delete_by_pk", JSON.str alias_.DeleteByPk) ])

/-- Go `CustomRootFields.MarshalJSON`. -/
def CustomRootFields.MarshalJSON (c : CustomRootFields) : Except GoError JSON :=
  let alias_ : customRootFieldsAlias :=
    { Select := c.Select
      SelectByPk := c.SelectByPk
      SelectAggregate := c.SelectAggregate
      Insert := c.Insert
      InsertOne := c.InsertOne
      Update := c.Update
      UpdateByPk := c.UpdateByPk
      Delete := c.Delete
      DeleteByPk := c.DeleteByPk }
  match marshalCustomRootFieldsAlias alias_ with
  | .error err => .error (GoError.wrapError "marshaling custom root fields: " err)
  | .ok b =>
    if c.AdditionalProperties.len == 0 then
      .ok b
    else
      match unmarshalRawMessageMap (RawMessage.valid b) with
      | .error err =>
        .error (GoError.wrapError "unmarshaling custom root fields for merge: " err)
      | .ok m =>
        let m := GoMap.copy m c.AdditionalProperties
        marshalRawMessageMap m

/-- Go `json.Marshal(alias)` for a `configurationAlias`: the three fields in
the order of the struct, `custom_root_fields` through its `MarshalJSON`. -/
def marshalConfigurationAlias (alias_ : configurationAlias) : Except GoError JSON :=
  match CustomRootFields.MarshalJSON alias_.CustomRootFields with
  | .error err => .error (marshalerError err)
  | .ok rootFields =>
    .ok (JSON.obj
      [ ("custom_name", JSON.str alias_.CustomName),
        ("custom_root_fields", rootFields),
        ("custom_column_names", marshalStringMap alias_.CustomColumnNames) ])

/-- Go `Configuration.MarshalJSON`. -/
def Configuration.MarshalJSON (c : Configuration) : Except GoError JSON :=
  let alias_ : configurationAlias :=
    { CustomName := c.CustomName
      CustomRootFields := c.CustomRootFields
      CustomColumnNames := c.CustomColumnNames }
  match marshalConfigurationAlias alias_ with
  | .error err => .error (GoError.wrapError "marshaling configuration: " err)
  | .ok b =>
    if c.AdditionalProperties.len == 0 then
      .ok b
    else
      match unmarshalRawMessageMap (RawMessage.valid b) with
      | .error err => .error (GoError.wrapError "unmarshaling configuration for merge: " err)
      | .ok m =>
        let m := GoMap.copy m c.AdditionalProperties
        marshalRawMessageMap m

/-! ## Snapshot fetcher -/

/-- The key of a table in the snapshot map: `Schema + "." + Name`. -/
def tableKey (table : Table) : String :=
  table.Schema ++ "." ++ table.Name

/-- Go `fetchExistingTableMetadata`. The result map is filled source by source
and table by table, a later table replacing an earlier one with the same key. -/
def fetchExistingTableMetadata (net : Transport) (cfg : Config) (trace : List Request) :
    Except GoError (GoMap existingTableMetadata) × List Request :=
  match postMetadata net cfg
      (Request.exportMetadata { Type_ := "export_metadata", Version := 2 }) trace with
  | (.error err, trace) => (.error (GoError.wrapError "problem fetching metadata: " err), trace)
  | (.ok body, trace) =>
    match body.unmarshal with
    | .error err =>
      (.error (GoError.wrapError "problem parsing metadata response: " err), trace)
    | .ok resp =>
      let dbName := cfg.dbName
      let result := resp.Metadata.Sources.foldl
        (fun result source =>
          if source.Name != dbName then result
          else
            source.Tables.foldl
              (fun result table =>
                let key := tableKey table.Table
                let config :=
                  match table.Configuration with
                  | some raw => raw
                  | none => RawMessage.nil
                result.set key
                  { Configuration := config
                    ObjectRelationships := table.ObjectRelationships
                    ArrayRelationships := table.ArrayRelationships })
              result)
        GoMap.make
      (.ok result, trace)

/-! ## Reconciliation driver -/

/-- Go `applyTableCustomization`. The warning logged when the stored
configuration does not parse is not part of the model. -/
def applyTableCustomization (net : Transport) (cfg : Config) (table : TrackTable)
    (existingConfigJSON : RawMessage) (trace : List Request) :
    Option GoError × List Request :=
  let config := table.Args.Configuration
  let config :=
    if existingConfigJSON.nonEmpty then
      match Configuration.UnmarshalJSON Configuration.zero existingConfigJSON with
      | .error _ => config
      | .ok existing => mergeConfiguration existing config
    else config
  let customization : setTableCustomization :=
    { Type_ := "pg_set_table_customization"
      Args := { Source := table.Args.Source
                Table := table.Args.Table
                Configuration := config } }
  match postMetadata net cfg (Request.setTableCustomization customization) trace with
  | (.error err, trace) => (some err, trace)
  | (.ok _, trace) => (none, trace)

/-- Go `fkConstraintColumns`. -/
def fkConstraintColumns (v : GoAny) : List String :=
  match v with
  | .string v => [v]
  | .strings v => v
  | .slice v =>
    v.foldl
      (fun cols item =>
        match item with
        | .string s => cols ++ [s]
        | _ => cols)
      []
  | _ => []

/-- The request `applyObjectRelationships` builds for `rel`. -/
def objectRelationshipRequest (table : TrackTable) (rel : ObjectRelationshipConfig) :
    createObjectRelationship :=
  { Type_ := "pg_create_object_relationship"
    Args := { Source := table.Args.Source
              Table := table.Args.Table
              Name := rel.Name
              Using := { ForeignKeyConstraintOn :=
                           fkConstraintColumns rel.Using.ForeignKeyConstraintOn } } }

/-- The loop `for _, rel := range merged` of `applyObjectRelationships`. -/
def applyObjectRelationships.loop (net : Transport) (cfg : Config) (table : TrackTable)
    (existingNames : GoMap Bool) :
    List ObjectRelationshipConfig → List Request → Option GoError × List Request
  | [], trace => (none, trace)
  | rel :: rest, trace =>
    if existingNames.getBool rel.Name then
      applyObjectRelationships.loop net cfg table existingNames rest trace
    else
      let relationship := objectRelationshipRequest table rel
      match postMetadata net cfg (Request.createObjectRelationship relationship) trace with
      | (.error err, trace) =>
        if err.hasCode errorCodeAlreadyExists then
          applyObjectRelationships.loop net cfg table existingNames rest trace
        else
          (some (GoError.wrapError
            ("problem creating object relationship " ++ rel.Name ++ " for table "
              ++ table.Args.Table.Schema ++ "." ++ table.Args.Table.Name ++ ": ") err), trace)
      | (.ok _, trace) => applyObjectRelationships.loop net cfg table existingNames rest trace

/-- Go `applyObjectRelationships`. -/
def applyObjectRelationships (net : Transport) (cfg : Config) (table : TrackTable)
    (existing : List ObjectRelationshipConfig) (trace : List Request) :
    Option GoError × List Request :=
  let existingNames := existing.foldl (fun m r => m.set r.Name true) (GoMap.make : GoMap Bool)
  let merged := mergeObjectRelationships existing table.Args.ObjectRelationships
  applyObjectRelationships.loop net cfg table existingNames merged trace

/-- The request `applyArrayRelationships` builds for `rel`. -/
def arrayRelationshipRequest (table : TrackTable) (rel : ArrayRelationshipConfig) :
    createArrayRelationship :=
  { Type_ := "pg_create_array_relationship"
    Args := { Source := table.Args.Source
              Table := table.Args.Table
              Name := rel.Name
              Using := { ForeignKeyConstraintOn := rel.Using.ForeignKeyConstraintOn } } }

/-- The loop `for _, rel := range merged` of `applyArrayRelationships`. -/
def applyArrayRelationships.loop (net : Transport) (cfg : Config) (table : TrackTable)
    (existingNames : GoMap Bool) :
    List ArrayRelationshipConfig → List Request → Option GoError × List Request
  | [], trace => (none, trace)
  | rel :: rest, trace =>
    if existingNames.getBool rel.Name then
      applyArrayRelationships.loop net cfg table existingNames rest trace
    else
      let relationship := arrayRelationshipRequest table rel
      match postMetadata net cfg (Request.createArrayRelationship relationship) trace with
      | (.error err, trace) =>
        if err.hasCode errorCodeAlreadyExists then
          applyArrayRelationships.loop net cfg table existingNames rest trace
        else
          (some (GoError.wrapError
            ("problem creating array relationship " ++ rel.Name ++ " for table "
              ++ table.Args.Table.Schema ++ "." ++ table.Args.Table.Name ++ ": ") err), trace)
      | (.ok _, trace) => applyArrayRelationships.loop net cfg table existingNames rest trace

/-- Go `applyArrayRelationships`. -/
def applyArrayRelationships (net : Transport) (cfg : Config) (table : TrackTable)
    (existing : List ArrayRelationshipConfig) (trace : List Request) :
    Option GoError × List Request :=
  let existingNames := existing.foldl (fun m r => m.set r.Name true) (GoMap.make : GoMap Bool)
  let merged := mergeArrayRelationships existing table.Args.ArrayRelationships
  applyArrayRelationships.loop net cfg table existingNames merged trace

/-- The first loop of `ApplyMetadata` (Phase A): track each table, or update
its customization when it is tracked already. -/
def ApplyMetadata.trackLoop (net : Transport) (cfg : Config)
    (existingMeta : GoMap existingTableMetadata) :
    List TrackTable → List Request → Option GoError × List Request
  | [], trace => (none, trace)
  | table :: rest, trace =>
    match postMetadata net cfg (Request.trackTable table) trace with
    | (.error err, trace) =>
      if err.hasCode errorCodeAlreadyTracked then
        match applyTableCustomization net cfg table
            (existingMeta.getD (tableKey table.Args.Table)
              existingTableMetadata.zero).Configuration trace with
        | (some err, trace) =>
          (some (GoError.wrapError
            ("problem updating customization for table "
              ++ table.Args.Table.Schema ++ "." ++ table.Args.Table.Name ++ ": ") err), trace)
        | (none, trace) => ApplyMetadata.trackLoop net cfg existingMeta rest trace
      else
        (some (GoError.wrapError
          ("problem adding metadata for table "
            ++ table.Args.Table.Schema ++ "." ++ table.Args.Table.Name ++ ": ") err), trace)
    | (.ok _, trace) => ApplyMetadata.trackLoop net cfg existingMeta rest trace

/-- The second loop of `ApplyMetadata` (Phase B): create the missing
relationships of each table, object relationships first. -/
def ApplyMetadata.relationshipLoop (net : Transport) (cfg : Config)
    (existingMeta : GoMap existingTableMetadata) :
    List TrackTable → List Request → Option GoError × List Request
  | [], trace => (none, trace)
  | table :: rest, trace =>
    let existing := existingMeta.getD (tableKey table.Args.Table) existingTableMetadata.zero
    match applyObjectRelationships net cfg table existing.ObjectRelationships trace with
    | (some err, trace) => (some err, trace)
    | (none, trace) =>
      match applyArrayRelationships net cfg table existing.ArrayRelationships trace with
      | (some err, trace) => (some err, trace)
      | (none, trace) => ApplyMetadata.relationshipLoop net cfg existingMeta rest trace

/-- The baseline snapshot of a run: what `fetchExistingTableMetadata` returns,
or the empty map when it fails (the failure is logged, not returned). -/
def ApplyMetadata.baseline (net : Transport) (cfg : Config) (trace : List Request) :
    GoMap existingTableMetadata :=
  match (fetchExistingTableMetadata net cfg trace).1 with
  | .error _ => GoMap.make
  | .ok existingMeta => existingMeta

/-- Go `ApplyMetadata`, started after the requests in `trace`: the error it
returns (`none` for nil) and the trace extended by the requests it posts. -/
def ApplyMetadata (net : Transport) (cfg : Config) (tables : List TrackTable)
    (trace : List Request) : Option GoError × List Request :=
  let existingMeta := ApplyMetadata.baseline net cfg trace
  let trace := (fetchExistingTableMetadata net cfg trace).2
  match ApplyMetadata.trackLoop net cfg existingMeta tables trace with
  | (some err, trace) => (some err, trace)
  | (none, trace) => ApplyMetadata.relationshipLoop net cfg existingMeta tables trace

/-! ## Classification of a response

The end of `postMetadata`, after the exchange: from the status code and the
body of the response to what the function does. The driver above sees a call
of `postMetadata` through a `Transport`, that is, through what the call
returns; here the response itself is the input. -/

/-- Go `hasuraErrResponse`. -/
structure hasuraErrResponse where
  Path : String
  Error : String
  Code : String
deriving DecidableEq

/-- The bytes of a response body: their text, and the JSON value the text
encodes when it is a JSON text. -/
structure ResponseBody where
  text : String
  json : Option JSON
deriving DecidableEq

/-- Go `http.Response`, as far as `postMetadata` reads it. -/
structure Response where
  StatusCode : Int
  Body : ResponseBody
deriving DecidableEq

/-- Go `http.StatusOK`. -/
def httpStatusOK : Int := 200

/-- The JSON names of the fields of `hasuraErrResponse`, from its tags. -/
def hasuraErrResponseFields : List String :=
  ["path", "error", "code"]

/-- Decoding one member of a JSON object into a `hasuraErrResponse`. -/
def hasuraErrResponse.decodeMember (a : hasuraErrResponse) (kv : String × JSON) :
    Except GoError hasuraErrResponse :=
  match findField hasuraErrResponseFields kv.1 with
  | some "path" => do
    let s ← decodeString a.Path kv.2
    pure { a with Path := s }
  | some "error" => do
    let s ← decodeString a.Error kv.2
    pure { a with Error := s }
  | some "code" => do
    let s ← decodeString a.Code kv.2
    pure { a with Code := s }
  | _ => pure a

/-- Go `json.Unmarshal(body, &errResponse)` for `var errResponse
*hasuraErrResponse`: the pointer afterwards, `none` for nil. An object is
decoded into a fresh struct; `null` leaves the pointer nil and is no error;
any other value, and bytes that are not JSON, are an error. -/
def unmarshalErrResponse (body : ResponseBody) : Except GoError (Option hasuraErrResponse) :=
  match body.json with
  | none => .error syntaxError
  | some .null => .ok none
  | some (.obj members) =>
    match members.foldlM hasuraErrResponse.decodeMember
        { Path := "", Error := "", Code := "" } with
    | .error err => .error err
    | .ok errResponse => .ok (some errResponse)
  | some _ => .error unmarshalTypeError

/-- What the end of `postMetadata` does with a response. -/
inductive PostOutcome where
  /-- The statement `return body, nil`. -/
  | returns (body : ResponseBody)
  /-- The statement `return nil, err`. -/
  | fails (err : GoError)
  /-- A nil pointer is dereferenced: the call does not return. -/
  | panics
deriving DecidableEq

/-- Go `fmt.Errorf("status_code: %d\nresponse: %s", resp.StatusCode, body)`. -/
def statusError (resp : Response) : GoError :=
  GoError.errorString
    ("status_code: " ++ toString resp.StatusCode ++ "\nresponse: " ++ resp.Body.text)

/-- Go `postMetadata`, from `if resp.StatusCode != http.StatusOK` to the end.
After a successful `json.Unmarshal` the code reads `errResponse.Code`, which
dereferences the pointer. -/
def postMetadata.classify (resp : Response) : PostOutcome :=
  if resp.StatusCode != httpStatusOK then
    match unmarshalErrResponse resp.Body with
    | .error _ => PostOutcome.fails (statusError resp)
    | .ok none => PostOutcome.panics
    | .ok (some errResponse) =>
      if errResponse.Code == errorCodeAlreadyTracked
          || errResponse.Code == errorCodeAlreadyExists then
        PostOutcome.fails (GoError.apiError errResponse.Code errResponse.Error)
      else
        PostOutcome.fails (statusError resp)
  else
    PostOutcome.returns resp.Body

/-! ## The driver on the wire

The driver once more, one step closer to the gateway: a call of `postMetadata`
is the exchange followed by `postMetadata.classify` on the response read, so a
call returns a body, returns an error, or panics. Nothing in the package
recovers from a panic: the function that made the call does not return, and
neither do its callers. -/

/-- What a call does: it returns a value, or it panics and does not return. -/
inductive Outcome (α : Type) where
  | returns (a : α)
  | panics
deriving DecidableEq

/-- What `postMetadata` reads from the gateway: the response, and the bytes of
its body as `fetchExistingTableMetadata` decodes them when they are returned. -/
structure Reply where
  Response : Response
  Export : Body
deriving DecidableEq

/-- The exchange of `postMetadata`, given the requests posted before and the
request posted now: the error of one of the steps before the status is looked
at (encoding the request, building it, `client.Do`, reading the body), or the
reply read. -/
abbrev Gateway := List Request → Request → Except GoError Reply

/-- Go `postMetadata`, with the end of the function (`postMetadata.classify`)
applied to the response read. -/
def wire.postMetadata (gw : Gateway) (_cfg : Config) (data : Request) (trace : List Request) :
    Outcome (Except GoError Body) × List Request :=
  match gw trace data with
  | .error err => (.returns (.error err), trace ++ [data])
  | .ok reply =>
    match postMetadata.classify reply.Response with
    | .returns _ => (.returns (.ok reply.Export), trace ++ [data])
    | .fails err => (.returns (.error err), trace ++ [data])
    | .panics => (.panics, trace ++ [data])

/-- Go `fetchExistingTableMetadata`, on the wire. -/
def wire.fetchExistingTableMetadata (gw : Gateway) (cfg : Config) (trace : List Request) :
    Outcome (Except GoError (GoMap existingTableMetadata)) × List Request :=
  match wire.postMetadata gw cfg
      (Request.exportMetadata { Type_ := "export_metadata", Version := 2 }) trace with
  | (.panics, trace) => (.panics, trace)
  | (.returns (.error err), trace) =>
    (.returns (.error (GoError.wrapError "problem fetching metadata: " err)), trace)
  | (.returns (.ok body), trace) =>
    match body.unmarshal with
    | .error err =>
      (.returns (.error (GoError.wrapError "problem parsing metadata response: " err)), trace)
    | .ok resp =>
      let dbName := cfg.dbName
      let result := resp.Metadata.Sources.foldl
        (fun result source =>
          if source.Name != dbName then result
          else
            source.Tables.foldl
              (fun result table =>
                let key := tableKey table.Table
                let config :=
                  match table.Configuration with
                  | some raw => raw
                  | none => RawMessage.nil
                result.set key
                  { Configuration := config
                    ObjectRelationships := table.ObjectRelationships
                    ArrayRelationships := table.ArrayRelationships })
              result)
        GoMap.make
      (.returns (.ok result), trace)

/-- Go `applyTableCustomization`, on the wire. -/
def wire.applyTableCustomization (gw : Gateway) (cfg : Config) (table : TrackTable)
    (existingConfigJSON : RawMessage) (trace : List Request) :
    Outcome (Option GoError) × List Request :=
  let config := table.Args.Configuration
  let config :=
    if existingConfigJSON.nonEmpty then
      match Configuration.UnmarshalJSON Configuration.zero existingConfigJSON with
      | .error _ => config
      | .ok existing => mergeConfiguration existing config
    else config
  let customization : setTableCustomization :=
    { Type_ := "pg_set_table_customization"
      Args := { Source := table.Args.Source
                Table := table.Args.Table
                Configuration := config } }
  match wire.postMetadata gw cfg (Request.setTableCustomization customization) trace with
  | (.panics, trace) => (.panics, trace)
  | (.returns (.error err), trace) => (.returns (some err), trace)
  | (.returns (.ok _), trace) => (.returns none, trace)

/-- The loop of `applyObjectRelationships`, on the wire. -/
def wire.applyObjectRelationships.loop (gw : Gateway) (cfg : Config) (table : TrackTable)
    (existingNames : GoMap Bool) :
    List ObjectRelationshipConfig → List Request → Outcome (Option GoError) × List Request
  | [], trace => (.returns none, trace)
  | rel :: rest, trace =>
    if existingNames.getBool rel.Name then
      wire.applyObjectRelationships.loop gw cfg table existingNames rest trace
    else
      let relationship := objectRelationshipRequest table rel
      match wire.postMetadata gw cfg (Request.createObjectRelationship relationship) trace with
      | (.panics, trace) => (.panics, trace)
      | (.returns (.error err), trace) =>
        if err.hasCode errorCodeAlreadyExists then
          wire.applyObjectRelationships.loop gw cfg table existingNames rest trace
        else
          (.returns (some (GoError.wrapError
            ("problem creating object relationship " ++ rel.Name ++ " for table "
              ++ table.Args.Table.Schema ++ "." ++ table.Args.Table.Name ++ ": ") err)), trace)
      | (.returns (.ok _), trace) =>
        wire.applyObjectRelationships.loop gw cfg table existingNames rest trace

/-- Go `applyObjectRelationships`, on the wire. -/
def wire.applyObjectRelationships (gw : Gateway) (cfg : Config) (table : TrackTable)
    (existing : List ObjectRelationshipConfig) (trace : List Request) :
    Outcome (Option GoError) × List Request :=
  let existingNames := existing.foldl (fun m r => m.set r.Name true) (GoMap.make : GoMap Bool)
  let merged := mergeObjectRelationships existing table.Args.ObjectRelationships
  wire.applyObjectRelationships.loop gw cfg table existingNames merged trace

/-- The loop of `applyArrayRelationships`, on the wire. -/
def wire.applyArrayRelationships.loop (gw : Gateway) (cfg : Config) (table : TrackTable)
    (existingNames : GoMap Bool) :
    List ArrayRelationshipConfig → List Request → Outcome (Option GoError) × List Request
  | [], trace => (.returns none, trace)
  | rel :: rest, trace =>
    if existingNames.getBool rel.Name then
      wire.applyArrayRelationships.loop gw cfg table existingNames rest trace
    else
      let relationship := arrayRelationshipRequest table rel
      match wire.postMetadata gw cfg (Request.createArrayRelationship relationship) trace with
      | (.panics, trace) => (.panics, trace)
      | (.returns (.error err), trace) =>
        if err.hasCode errorCodeAlreadyExists then
          wire.applyArrayRelationships.loop gw cfg table existingNames rest trace
        else
          (.returns (some (GoError.wrapError
            ("problem creating array relationship " ++ rel.Name ++ " for table "
              ++ table.Args.Table.Schema ++ "." ++ table.Args.Table.Name ++ ": ") err)), trace)
      | (.returns (.ok _), trace) =>
        wire.applyArrayRelationships.loop gw cfg table existingNames rest trace

/-- Go `applyArrayRelationships`, on the wire. -/
def wire.applyArrayRelationships (gw : Gateway) (cfg : Config) (table : TrackTable)
    (existing : List ArrayRelationshipConfig) (trace : List Request) :
    Outcome (Option GoError) × List Request :=
  let existingNames := existing.foldl (fun m r => m.set r.Name true) (GoMap.make : GoMap Bool)
  let merged := mergeArrayRelationships existing table.Args.ArrayRelationships
  wire.applyArrayRelationships.loop gw cfg table existingNames merged trace

/-- The first loop of `ApplyMetadata`, on the wire. -/
def wire.ApplyMetadata.trackLoop (gw : Gateway) (cfg : Config)
    (existingMeta : GoMap existingTableMetadata) :
    List TrackTable → List Request → Outcome (Option GoError) × List Request
  | [], trace => (.returns none, trace)
  | table :: rest, trace =>
    match wire.postMetadata gw cfg (Request.trackTable table) trace with
    | (.panics, trace) => (.panics, trace)
    | (.returns (.error err), trace) =>
      if err.hasCode errorCodeAlreadyTracked then
        match wire.applyTableCustomization gw cfg table
            (existingMeta.getD (tableKey table.Args.Table)
              existingTableMetadata.zero).Configuration trace with
        | (.panics, trace) => (.panics, trace)
        | (.returns (some err), trace) =>
          (.returns (some (GoError.wrapError
            ("problem updating customization for table "
              ++ table.Args.Table.Schema ++ "." ++ table.Args.Table.Name ++ ": ") err)), trace)
        | (.returns none, trace) => wire.ApplyMetadata.trackLoop gw cfg existingMeta rest trace
      else
        (.returns (some (GoError.wrapError
          ("problem adding metadata for table "
            ++ table.Args.Table.Schema ++ "." ++ table.Args.Table.Name ++ ": ") err)), trace)
    | (.returns (.ok _), trace) => wire.ApplyMetadata.trackLoop gw cfg existingMeta rest trace

/-- The second loop of `ApplyMetadata`, on the wire. -/
def wire.ApplyMetadata.relationshipLoop (gw : Gateway) (cfg : Config)
    (existingMeta : GoMap existingTableMetadata) :
    List TrackTable → List Request → Outcome (Option GoError) × List Request
  | [], trace => (.returns none, trace)
  | table :: rest, trace =>
    let existing := existingMeta.getD (tableKey table.Args.Table) existingTableMetadata.zero
    match wire.applyObjectRelationships gw cfg table existing.ObjectRelationships trace with
    | (.panics, trace) => (.panics, trace)
    | (.returns (some err), trace) => (.returns (some err), trace)
    | (.returns none, trace) =>
      match wire.applyArrayRelationships gw cfg table existing.ArrayRelationships trace with
      | (.panics, trace) => (.panics, trace)
      | (.returns (some err), trace) => (.returns (some err), trace)
      | (.returns none, trace) =>
        wire.ApplyMetadata.relationshipLoop gw cfg existingMeta rest trace

/-- Go `ApplyMetadata`, on the wire: what the call does (the error it returns,
`none` for nil, or a panic) and the trace extended by the requests it posts.
A failed fetch is logged and replaced by the empty map; a fetch that panics
ends the call. -/
def wire.ApplyMetadata (gw : Gateway) (cfg : Config) (tables : List TrackTable)
    (trace : List Request) : Outcome (Option GoError) × List Request :=
  match wire.fetchExistingTableMetadata gw cfg trace with
  | (.panics, trace) => (.panics, trace)
  | (.returns fetched, trace) =>
    let existingMeta :=
      match fetched with
      | .error _ => GoMap.make
      | .ok existingMeta => existingMeta
    match wire.ApplyMetadata.trackLoop gw cfg existingMeta tables trace with
    | (.panics, trace) => (.panics, trace)
    | (.returns (some err), trace) => (.returns (some err), trace)
    | (.returns none, trace) => wire.ApplyMetadata.relationshipLoop gw cfg existingMeta tables trace

/-- A gateway answers like a transport when every call of `postMetadata` on it
returns, and returns what the transport says. -/
def Gateway.answersLike (gw : Gateway) (net : Transport) : Prop :=
  ∀ (cfg : Config) (data : Request) (trace : List Request),
    (wire.postMetadata gw cfg data trace).1 = Outcome.returns (net trace data)

/-! ## Vocabulary of the statements

The requests a run is expected to post, written from the words of the
specification, to be compared with what the driver does. -/

/-- The `export_metadata` request of `fetchExistingTableMetadata`. -/
def exportRequest : Request :=
  Request.exportMetadata { Type_ := "export_metadata", Version := 2 }

/-- The request `applyTableCustomization` posts for `table` when the stored
configuration is `existingConfigJSON`. -/
def customizationRequest (table : TrackTable) (existingConfigJSON : RawMessage) :
    setTableCustomization :=
  { Type_ := "pg_set_table_customization"
    Args := { Source := table.Args.Source
              Table := table.Args.Table
              Configuration :=
                if existingConfigJSON.nonEmpty then
                  match Configuration.UnmarshalJSON Configuration.zero existingConfigJSON with
                  | .error _ => table.Args.Configuration
                  | .ok existing => mergeConfiguration existing table.Args.Configuration
                else table.Args.Configuration } }

/-- The object relationships to create for a table: those of the merged list
whose `Name` is not the `Name` of a relationship of the existing snapshot, in
merged-list order. -/
def missingObjectRelationships (existing desired : List ObjectRelationshipConfig) :
    List ObjectRelationshipConfig :=
  (mergeObjectRelationships existing desired).filter
    (fun rel => decide (∀ e ∈ existing, e.Name ≠ rel.Name))

/-- The array relationships to create for a table, likewise. -/
def missingArrayRelationships (existing desired : List ArrayRelationshipConfig) :
    List ArrayRelationshipConfig :=
  (mergeArrayRelationships existing desired).filter
    (fun rel => decide (∀ e ∈ existing, e.Name ≠ rel.Name))

/-- The create requests of a table in Phase B: one `pg_create_object_relationship`
for each missing object relationship, then one `pg_create_array_relationship`
for each missing array relationship. -/
def relationshipRequests (existingMeta : GoMap existingTableMetadata) (table : TrackTable) :
    List Request :=
  (missingObjectRelationships
      (existingMeta.getD (tableKey table.Args.Table) existingTableMetadata.zero).ObjectRelationships
      table.Args.ObjectRelationships).map
    (fun rel => Request.createObjectRelationship (objectRelationshipRequest table rel))
  ++
  (missingArrayRelationships
      (existingMeta.getD (tableKey table.Args.Table) existingTableMetadata.zero).ArrayRelationships
      table.Args.ArrayRelationships).map
    (fun rel => Request.createArrayRelationship (arrayRelationshipRequest table rel))

/-- The requests of Phase A for a list of tables, each paired with a flag
telling whether its customization was updated: `pg_track_table`, followed by
`pg_set_table_customization` when the flag is set. -/
def trackRequests (existingMeta : GoMap existingTableMetadata)
    (tables : List (TrackTable × Bool)) : List Request :=
  tables.flatMap
    (fun p =>
      Request.trackTable p.1 ::
        (if p.2 then
          [Request.setTableCustomization
            (customizationRequest p.1
              (existingMeta.getD (tableKey p.1.Args.Table)
                existingTableMetadata.zero).Configuration)]
         else []))

/-- Whether a request is a create-relationship request, of either kind. -/
def Request.isCreate : Request → Bool
  | .createObjectRelationship _ => true
  | .createArrayRelationship _ => true
  | _ => false

/-- Whether a request is a `TrackTable` or a `setTableCustomization`, the two
requests of Phase A. -/
def Request.isTrackOrCustomize : Request → Bool
  | .trackTable _ => true
  | .setTableCustomization _ => true
  | _ => false

/-- Whether the answer to a request is a hard failure, one the driver does not
absorb: a track request absorbs the already-tracked marker, a create request
the already-exists marker, a customization request nothing, and the export
request everything (its failure only degrades the baseline). -/
def Request.failsHard (r : Request) (answer : Except GoError Body) : Bool :=
  match answer with
  | .ok _ => false
  | .error e =>
    match r with
    | .exportMetadata _ => false
    | .trackTable _ => !e.hasCode errorCodeAlreadyTracked
    | .setTableCustomization _ => true
    | .createObjectRelationship _ => !e.hasCode errorCodeAlreadyExists
    | .createArrayRelationship _ => !e.hasCode errorCodeAlreadyExists

/-- Whether none of the requests `issued`, posted one after the other after
`trace`, is answered with a hard failure. -/
def noHardFailure (net : Transport) : List Request → List Request → Bool
  | _, [] => true
  | trace, r :: rest =>
    !r.failsHard (net trace r) && noHardFailure net (trace ++ [r]) rest

/-- The error a run is expected to return when request `r` is answered with
the hard failure `e`: `e` wrapped in a message that names the table of the
request, and the relationship for a create request. -/
def abortError (r : Request) (e : GoError) : GoError :=
  match r with
  | .exportMetadata _ => e
  | .trackTable t =>
    GoError.wrapError
      ("problem adding metadata for table "
        ++ t.Args.Table.Schema ++ "." ++ t.Args.Table.Name ++ ": ") e
  | .setTableCustomization c =>
    GoError.wrapError
      ("problem updating customization for table "
        ++ c.Args.Table.Schema ++ "." ++ c.Args.Table.Name ++ ": ") e
  | .createObjectRelationship c =>
    GoError.wrapError
      ("problem creating object relationship " ++ c.Args.Name ++ " for table "
        ++ c.Args.Table.Schema ++ "." ++ c.Args.Table.Name ++ ": ") e
  | .createArrayRelationship c =>
    GoError.wrapError
      ("problem creating array relationship " ++ c.Args.Name ++ " for table "
        ++ c.Args.Table.Schema ++ "." ++ c.Args.Table.Name ++ ": ") e

/-- What a stage of the driver, started after `trace`, is expected to return:
either no error after requests none of which failed hard, or, after such
requests, one request that failed hard, nothing after it, and the error of
that request. -/
def AbortsOnHardFailure (net : Transport) (trace : List Request)
    (result : Option GoError × List Request) : Prop :=
  ∃ issued : List Request, result.2 = trace ++ issued ∧
    ((result.1 = none ∧ noHardFailure net trace issued = true) ∨
     (∃ (pre : List Request) (r : Request) (e : GoError),
        issued = pre ++ [r] ∧ noHardFailure net trace pre = true ∧
        net (trace ++ pre) r = Except.error e ∧
        r.failsHard (Except.error e) = true ∧
        result.1 = some (abortError r e)))

/-- The text `s` contains the text `x`. -/
def containsText (s x : String) : Prop :=
  ∃ pre post : String, s = pre ++ x ++ post

/-- The error of an answer: `nil` for a success. -/
def errorOf : Except GoError Body → Option GoError
  | .error err => some err
  | .ok _ => none

/-- The create requests of every declared relationship of a table: its object
relationships, then its array relationships. -/
def declaredRelationshipRequests (table : TrackTable) : List Request :=
  table.Args.ObjectRelationships.map
    (fun rel => Request.createObjectRelationship (objectRelationshipRequest table rel))
  ++
  table.Args.ArrayRelationships.map
    (fun rel => Request.createArrayRelationship (arrayRelationshipRequest table rel))

/-- The customization request that carries the desired configuration of a
table as it is declared. -/
def unmergedCustomizationRequest (table : TrackTable) : setTableCustomization :=
  { Type_ := "pg_set_table_customization"
    Args := { Source := table.Args.Source
              Table := table.Args.Table
              Configuration := table.Args.Configuration } }

/-- The string held by an `any` value, when it holds one (`s, ok := item.(string)`). -/
def GoAny.asString : GoAny → Option String
  | .string s => some s
  | _ => none

/-- Whether an `any` value is a string or a list (`[]string` or `[]any`), the
three shapes `fkConstraintColumns` has a case for. -/
def GoAny.isStringOrList : GoAny → Bool
  | .string _ => true
  | .strings _ => true
  | .slice _ => true
  | _ => false

/-- The snapshot entry `fetchExistingTableMetadata` stores for a table of the
export: its raw configuration (nil when the export has none) and its two
relationship lists. -/
def snapshotOf (table : exportMetadataTable) : existingTableMetadata :=
  { Configuration :=
      match table.Configuration with
      | some raw => raw
      | none => RawMessage.nil
    ObjectRelationships := table.ObjectRelationships
    ArrayRelationships := table.ArrayRelationships }

/-- The tables an export lists under the sources named `dbName`, in the order
of the response. -/
def listedTables (resp : exportMetadataResponse) (dbName : String) : List exportMetadataTable :=
  (resp.Metadata.Sources.filter (fun source => source.Name == dbName)).flatMap (·.Tables)

/-- The value of the last member named `key` of a JSON object (the one a
decoder keeps when a name occurs more than once). -/
def memberValue (members : List (String × JSON)) (key : String) : Option JSON :=
  members.reverse.lookup key

/-- The string a JSON value holds, or `cur` when it is no string. -/
def JSON.stringOr (cur : String) : JSON → String
  | .str s => s
  | _ => cur

/-- The string a JSON object holds under `key`, or `cur` when `key` is absent
or holds no string. -/
def memberStringOr (members : List (String × JSON)) (key cur : String) : String :=
  match memberValue members key with
  | some v => v.stringOr cur
  | none => cur

/-- The string a JSON object holds under `key`: the empty string when `key` is
absent. -/
def memberString (members : List (String × JSON)) (key : String) : String :=
  memberStringOr members key ""

/-- Whether a member name selects a field of a struct without being the name
of a field: it equals a field name only when letter case is ignored. -/
def isCaseVariant (fields : List String) (key : String) : Bool :=
  !fields.contains key && (findField fields key).isSome

/-- Whether a JSON value is a string. -/
def JSON.isStr : JSON → Bool
  | .str _ => true
  | _ => false

/-- Whether the members of a JSON object that are named after one of `fields`
hold strings. -/
def holdsStrings (fields : List String) (members : List (String × JSON)) : Bool :=
  members.all (fun kv => !fields.contains kv.1 || kv.2.isStr)

/-- Whether no member of a JSON object is named by a case variant of one of
`fields`. -/
def noCaseVariant (fields : List String) (members : List (String × JSON)) : Bool :=
  members.all (fun kv => !isCaseVariant fields kv.1)

/-- The JSON value `json.Marshal` writes for a raw message that it accepts:
`null` for the nil message, else the value the message is the text of. -/
def RawMessage.encoded : RawMessage → JSON
  | .valid v => v
  | _ => JSON.null

/-- Whether `json.Marshal` accepts a raw message: it is nil or the text of a
JSON value. -/
def RawMessage.marshals : RawMessage → Bool
  | .invalid _ => false
  | _ => true

/-- Whether a raw message is the text of a JSON value. -/
def RawMessage.isJSON : RawMessage → Bool
  | .valid _ => true
  | _ => false

/-- Whether `json.Marshal` accepts every value of a bag. -/
def bagMarshals (bag : GoMap RawMessage) : Bool :=
  bag.keys.all (fun k => (bag.getD k RawMessage.nil).marshals)

/-- Whether every value of a bag is the text of a JSON value. -/
def bagHoldsJSON (bag : GoMap RawMessage) : Bool :=
  bag.keys.all (fun k => (bag.getD k RawMessage.nil).isJSON)

/-- Whether no key of a bag is one of `fields`. -/
def bagDisjoint (fields : List String) (bag : GoMap RawMessage) : Bool :=
  bag.keys.all (fun k => !fields.contains k)

/-- Whether no key of a bag selects one of `fields` when decoded: none is a
field name and none is a case variant of one. -/
def bagForeign (fields : List String) (bag : GoMap RawMessage) : Bool :=
  bag.keys.all (fun k => (findField fields k).isNone)

/-- The members `CustomRootFields.MarshalJSON` writes for the nine fields. -/
def CustomRootFields.knownMembers (c : CustomRootFields) : List (String × JSON) :=
  [ ("select", JSON.str c.Select),
    ("select_by_pk", JSON.str c.SelectByPk),
    ("select_aggregate", JSON.str c.SelectAggregate),
    ("insert", JSON.str c.Insert),
    ("insert_one", JSON.str c.InsertOne),
    ("update", JSON.str c.Update),
    ("update_by_pk", JSON.str c.UpdateByPk),
    ("delete", JSON.str c.Delete),
    ("delete_by_pk", JSON.str c.DeleteByPk) ]

/-- The members `Configuration.MarshalJSON` writes for the three fields, given
the encoding `rootFields` of `CustomRootFields`. -/
def Configuration.knownMembers (c : Configuration) (rootFields : JSON) :
    List (String × JSON) :=
  [ ("custom_name", JSON.str c.CustomName),
    ("custom_root_fields", rootFields),
    ("custom_column_names", marshalStringMap c.CustomColumnNames) ]

/-- The map a `MarshalJSON` method encodes when the bag is not empty: the
members of the alias, read back into a map, with the bag copied over them. -/
def mergedMap (known : List (String × JSON)) (bag : GoMap RawMessage) : GoMap RawMessage :=
  GoMap.copy
    (known.foldl (fun m kv => m.set kv.1 (RawMessage.valid kv.2)) (GoMap.make : GoMap RawMessage))
    bag

/-- The members `json.Marshal` writes for a map of raw messages it accepts. -/
def encodedMembers (m : GoMap RawMessage) : List (String × JSON) :=
  m.sortedKeys.map (fun k => (k, (m.getD k RawMessage.nil).encoded))

/-- A JSON value is an object with exactly the keys of `known` and of `bag`,
each once, the keys of `bag` with the encoding of their values and the keys of
`known` with their values. -/
def SerializedAs (json : JSON) (known : List (String × JSON)) (bag : GoMap RawMessage) : Prop :=
  ∃ members, json = JSON.obj members ∧
    (members.map Prod.fst).Nodup ∧
    (∀ k, k ∈ members.map Prod.fst ↔ k ∈ known.map Prod.fst ∨ k ∈ bag.keys) ∧
    (∀ k raw, bag.get? k = some raw → (k, raw.encoded) ∈ members) ∧
    (∀ kv ∈ known, kv ∈ members)

/-- Whether a map is the nil map. -/
def GoMap.isNil {V : Type} : GoMap V → Bool
  | GoMap.nil => true
  | GoMap.mk _ => false

/-- Equality of two Go maps as values: both are nil or neither is, and they
hold the same binding under every key. -/
def GoMap.Same {V : Type} (a b : GoMap V) : Prop :=
  a.isNil = b.isNil ∧ ∀ k, a.get? k = b.get? k

/-- Equality of two `CustomRootFields` as values. -/
def CustomRootFields.Same (a b : CustomRootFields) : Prop :=
  a.Select = b.Select ∧ a.SelectByPk = b.SelectByPk ∧
  a.SelectAggregate = b.SelectAggregate ∧ a.Insert = b.Insert ∧
  a.InsertOne = b.InsertOne ∧ a.Update = b.Update ∧ a.UpdateByPk = b.UpdateByPk ∧
  a.Delete = b.Delete ∧ a.DeleteByPk = b.DeleteByPk ∧
  GoMap.Same a.AdditionalProperties b.AdditionalProperties

/-- Equality of two `Configuration`s as values. -/
def Configuration.Same (a b : Configuration) : Prop :=
  a.CustomName = b.CustomName ∧
  CustomRootFields.Same a.CustomRootFields b.CustomRootFields ∧
  GoMap.Same a.CustomColumnNames b.CustomColumnNames ∧
  GoMap.Same a.AdditionalProperties b.AdditionalProperties

/-- Whether two raw messages are texts of the same JSON value. Their bytes may
differ, in the white space between the tokens and in the spelling of the
escapes. -/
def RawMessage.sameJSON : RawMessage → RawMessage → Bool
  | .valid v, .valid w => decide (v = w)
  | _, _ => false

/-- Two bags hold the same JSON values: both are nil or neither is, they have
the same keys, and under each key both hold a text of the same JSON value. -/
def bagSameJSON (a b : GoMap RawMessage) : Prop :=
  a.isNil = b.isNil ∧
  (∀ k, (a.get? k).isSome = (b.get? k).isSome) ∧
  ∀ k x y, a.get? k = some x → b.get? k = some y → x.sameJSON y = true

/-- Two `CustomRootFields` with equal fields and bags that hold the same JSON
values. -/
def CustomRootFields.SameJSON (a b : CustomRootFields) : Prop :=
  a.Select = b.Select ∧ a.SelectByPk = b.SelectByPk ∧
  a.SelectAggregate = b.SelectAggregate ∧ a.Insert = b.Insert ∧
  a.InsertOne = b.InsertOne ∧ a.Update = b.Update ∧ a.UpdateByPk = b.UpdateByPk ∧
  a.Delete = b.Delete ∧ a.DeleteByPk = b.DeleteByPk ∧
  bagSameJSON a.AdditionalProperties b.AdditionalProperties

/-- Two `Configuration`s with equal known fields and bags that hold the same
JSON values, at both levels. -/
def Configuration.SameJSON (a b : Configuration) : Prop :=
  a.CustomName = b.CustomName ∧
  CustomRootFields.SameJSON a.CustomRootFields b.CustomRootFields ∧
  GoMap.Same a.CustomColumnNames b.CustomColumnNames ∧
  bagSameJSON a.AdditionalProperties b.AdditionalProperties

/-- What decoding makes of a bag that was encoded: a bag with the same keys,
each with the text of the value that was written for it, and nil when the
first bag is empty. -/
def ReadBack (bag bag' : GoMap RawMessage) : Prop :=
  bag'.isNil = decide (bag.len = 0) ∧
  ∀ k, bag'.get? k = (bag.get? k).map (fun raw => RawMessage.valid raw.encoded)

/-- Whether a bag is nil or has a key. -/
def unsetOrNonEmpty (bag : GoMap RawMessage) : Bool :=
  bag.isNil || decide (0 < bag.len)

/-- Whether the bag of a `CustomRootFields` can be written and read again: the
encoder accepts its values, and none of its keys selects one of the nine
fields when decoded. -/
def CustomRootFields.bagWritable (r : CustomRootFields) : Bool :=
  bagMarshals r.AdditionalProperties &&
    bagForeign customRootFieldsAliasFields r.AdditionalProperties

/-- Whether the bags of a `Configuration` can be written and read again, at
both levels. -/
def Configuration.bagsWritable (c : Configuration) : Bool :=
  bagMarshals c.AdditionalProperties &&
    bagForeign configurationAliasFields c.AdditionalProperties &&
    c.CustomRootFields.bagWritable

/-- Whether the bag of a `CustomRootFields` comes back as it is: it is nil or
not empty, its values are texts of JSON values, and none of its keys selects
one of the nine fields when decoded. -/
def CustomRootFields.bagFaithful (r : CustomRootFields) : Bool :=
  unsetOrNonEmpty r.AdditionalProperties &&
    bagHoldsJSON r.AdditionalProperties &&
    bagForeign customRootFieldsAliasFields r.AdditionalProperties

/-- Whether the bags of a `Configuration` come back as they are, at both
levels. -/
def Configuration.bagsFaithful (c : Configuration) : Bool :=
  unsetOrNonEmpty c.AdditionalProperties &&
    bagHoldsJSON c.AdditionalProperties &&
    bagForeign configurationAliasFields c.AdditionalProperties &&
    c.CustomRootFields.bagFaithful

/-- Writing a `CustomRootFields` and reading the text into a zero value. -/
def CustomRootFields.roundTrip (r : CustomRootFields) : Except GoError CustomRootFields :=
  match r.MarshalJSON with
  | .error err => .error err
  | .ok json => CustomRootFields.UnmarshalJSON CustomRootFields.zero (RawMessage.valid json)

/-- Writing a `Configuration` and reading the text into a zero value. -/
def Configuration.roundTrip (c : Configuration) : Except GoError Configuration :=
  match c.MarshalJSON with
  | .error err => .error err
  | .ok json => Configuration.UnmarshalJSON Configuration.zero (RawMessage.valid json)

/-- Whether the members of a JSON object that are named by a known key of
`Configuration` have the type of their field: `custom_name` a string,
`custom_root_fields` an object whose members named by a known root-field key
hold strings, `custom_column_names` an object of strings. -/
def wellTypedConfiguration (members : List (String × JSON)) : Bool :=
  members.all (fun kv =>
    if kv.1 = "custom_name" then kv.2.isStr
    else if kv.1 = "custom_root_fields" then
      match kv.2 with
      | .obj ms => holdsStrings customRootFieldsAliasFields ms
      | _ => false
    else if kv.1 = "custom_column_names" then
      match kv.2 with
      | .obj ms => ms.all (fun kv => kv.2.isStr)
      | _ => false
    else true)

/-- Whether the keys of a JSON configuration object are pairwise distinct and
none of them, nor any key of the object under `custom_root_fields`, is a case
variant of a known key of its level. -/
def plainKeys (members : List (String × JSON)) : Bool :=
  decide (members.map Prod.fst).Nodup &&
    noCaseVariant configurationAliasFields members &&
    members.all (fun kv =>
      if kv.1 = "custom_root_fields" then
        match kv.2 with
        | .obj ms => noCaseVariant customRootFieldsAliasFields ms
        | _ => true
      else true)

/-- The disjointness invariant of a `CustomRootFields`: no key of its bag is
one of the nine known keys. -/
def CustomRootFields.disjoint (r : CustomRootFields) : Bool :=
  r.AdditionalProperties.keys.all (fun k => !customRootFieldsKnownKeys.getBool k)

/-- The disjointness invariant of a `Configuration`, at both levels: no key of
its bag is one of the three known keys, and its `CustomRootFields` satisfies
the invariant. -/
def Configuration.disjoint (c : Configuration) : Bool :=
  c.AdditionalProperties.keys.all (fun k => !configurationKnownKeys.getBool k) &&
    c.CustomRootFields.disjoint

/-- The loop of `applyObjectRelationships` as the specification words it: a
create request for each relationship of `rels`, in order, an already-exists
answer being skipped and any other error ending the loop. -/
def applyObjectRelationships.direct (net : Transport) (cfg : Config) (table : TrackTable) :
    List ObjectRelationshipConfig → List Request → Option GoError × List Request
  | [], trace => (none, trace)
  | rel :: rest, trace =>
    let relationship : createObjectRelationship :=
      { Type_ := "pg_create_object_relationship"
        Args := { Source := table.Args.Source
                  Table := table.Args.Table
                  Name := rel.Name
                  Using := { ForeignKeyConstraintOn :=
                               fkConstraintColumns rel.Using.ForeignKeyConstraintOn } } }
    match postMetadata net cfg (Request.createObjectRelationship relationship) trace with
    | (.error err, trace) =>
      if err.hasCode errorCodeAlreadyExists then
        applyObjectRelationships.direct net cfg table rest trace
      else
        (some (GoError.wrapError
          ("problem creating object relationship " ++ rel.Name ++ " for table "
            ++ table.Args.Table.Schema ++ "." ++ table.Args.Table.Name ++ ": ") err), trace)
    | (.ok _, trace) => applyObjectRelationships.direct net cfg table rest trace

/-- The loop of `applyArrayRelationships` as the specification words it. -/
def applyArrayRelationships.direct (net : Transport) (cfg : Config) (table : TrackTable) :
    List ArrayRelationshipConfig → List Request → Option GoError × List Request
  | [], trace => (none, trace)
  | rel :: rest, trace =>
    let relationship : createArrayRelationship :=
      { Type_ := "pg_create_array_relationship"
        Args := { Source := table.Args.Source
                  Table := table.Args.Table
                  Name := rel.Name
                  Using := { ForeignKeyConstraintOn := rel.Using.ForeignKeyConstraintOn } } }
    match postMetadata net cfg (Request.createArrayRelationship relationship) trace with
    | (.error err, trace) =>
      if err.hasCode errorCodeAlreadyExists then
        applyArrayRelationships.direct net cfg table rest trace
      else
        (some (GoError.wrapError
          ("problem creating array relationship " ++ rel.Name ++ " for table "
            ++ table.Args.Table.Schema ++ "." ++ table.Args.Table.Name ++ ": ") err), trace)
    | (.ok _, trace) => applyArrayRelationships.direct net cfg table rest trace

/-- Whether an error carries an idempotent marker that the request does not
recognise: the already-exists marker for a track request, the already-tracked
marker for a create request, either marker for a customization request. -/
def Request.misplacedMarker (r : Request) (e : GoError) : Bool :=
  match r with
  | .exportMetadata _ => false
  | .trackTable _ => e.hasCode errorCodeAlreadyExists
  | .setTableCustomization _ =>
    e.hasCode errorCodeAlreadyTracked || e.hasCode errorCodeAlreadyExists
  | .createObjectRelationship _ => e.hasCode errorCodeAlreadyTracked
  | .createArrayRelationship _ => e.hasCode errorCodeAlreadyTracked

/-! ## Concrete values

The values of the package's tests and of the scenarios of the specification,
on which the statements below are exercised. -/

/-- An existing configuration named "old" that carries the unknown field `comment`. -/
def precedenceExisting : Configuration :=
  { Configuration.zero with
    CustomName := "old"
    AdditionalProperties := GoMap.mk [("comment", RawMessage.valid (JSON.str "x"))] }

/-- A desired configuration named "new" with no unknown field. -/
def precedenceDesired : Configuration :=
  { Configuration.zero with CustomName := "new" }

/-- A desired configuration that itself carries an unknown field. -/
def desiredWithExtras : Configuration :=
  { Configuration.zero with
    CustomName := "new"
    CustomRootFields :=
      { CustomRootFields.zero with
        AdditionalProperties := GoMap.mk [("select_stream", RawMessage.valid (JSON.str "s"))] }
    AdditionalProperties := GoMap.mk [("comment", RawMessage.valid (JSON.str "x"))] }

/-- The existing root fields of `TestMergeCustomRootFields`. -/
def rootFieldsExisting : CustomRootFields :=
  { CustomRootFields.zero with
    Select := "old_select"
    SelectByPk := "old_select_by_pk"
    AdditionalProperties :=
      GoMap.mk [("select_stream", RawMessage.valid (JSON.str "old_stream"))] }

/-- The desired root fields of `TestMergeCustomRootFields`. -/
def rootFieldsOurs : CustomRootFields :=
  { Select := "new_select", SelectByPk := "new_select_by_pk", SelectAggregate := "new_agg",
    Insert := "new_insert", InsertOne := "new_insert_one", Update := "new_update",
    UpdateByPk := "new_update_by_pk", Delete := "new_delete", DeleteByPk := "new_delete_by_pk",
    AdditionalProperties := GoMap.nil }

/-- An object relationship over a single foreign-key column. -/
def objRel (name col : String) : ObjectRelationshipConfig :=
  { Name := name, Using := { ForeignKeyConstraintOn := GoAny.string col } }

/-- An array relationship over one column of a table in schema `auth`. -/
def arrRel (name table col : String) : ArrayRelationshipConfig :=
  { Name := name
    Using := { ForeignKeyConstraintOn := { Table := { Schema := "auth", Name := table },
                                           Columns := [col] } } }

/-- The table `makeTable("auth", "users")` of `TestApplyMetadata`. -/
def usersTable : TrackTable :=
  { Type_ := "pg_track_table"
    IsEnum := false
    Args :=
      { Source := "default"
        Table := { Schema := "auth", Name := "users" }
        Configuration :=
          { CustomName := "users_custom"
            CustomRootFields := { CustomRootFields.zero with Select := "users_select" }
            CustomColumnNames := GoMap.mk [("id", "users_id")]
            AdditionalProperties := GoMap.nil }
        ObjectRelationships := [objRel "parent" "parent_id"]
        ArrayRelationships := [arrRel "children" "children" "users_id"] } }

/-- The stored configuration of `TestApplyTableCustomizationWithMerge`. -/
def storedConfigJSON : RawMessage :=
  RawMessage.valid (JSON.obj
    [("custom_name", JSON.str "old_name"),
     ("custom_root_fields",
        JSON.obj [("select", JSON.str "old_s"), ("select_stream", JSON.str "old_stream")]),
     ("custom_column_names", JSON.obj [("old_col", JSON.str "oc")]),
     ("column_config", JSON.obj [("id", JSON.obj [("comment", JSON.str "pk")])])])

/-- What `storedConfigJSON` parses to. -/
def storedConfig : Configuration :=
  { CustomName := "old_name"
    CustomRootFields :=
      { CustomRootFields.zero with
        Select := "old_s"
        AdditionalProperties :=
          GoMap.mk [("select_stream", RawMessage.valid (JSON.str "old_stream"))] }
    CustomColumnNames := GoMap.mk [("old_col", "oc")]
    AdditionalProperties :=
      GoMap.mk [("column_config",
        RawMessage.valid (JSON.obj [("id", JSON.obj [("comment", JSON.str "pk")])]))] }

/-- The body `{"message":"success"}`; decoded as an export response it has no source. -/
def successBody : Body :=
  Body.decodes { Metadata := { Sources := [] } }

/-- A gateway on which `auth.users` is tracked with `storedConfigJSON` and the
relationships `parent` and `children`: it exports that state, answers
`pg_track_table` with the already-tracked marker, and accepts the rest. -/
def trackedGateway : Transport := fun _ request =>
  match request with
  | .exportMetadata _ =>
    .ok (Body.decodes { Metadata := { Sources :=
      [{ Name := "default"
         Tables :=
           [{ Table := { Schema := "auth", Name := "users" }
              Configuration := some storedConfigJSON
              ObjectRelationships := [objRel "parent" "parent_id"]
              ArrayRelationships := [arrRel "children" "children" "users_id"] }] }] } })
  | .trackTable _ => .error (GoError.apiError errorCodeAlreadyTracked "already tracked")
  | _ => .ok successBody

/-- The connection settings of the tests. -/
def testConfig : Config :=
  { URL := "http://127.0.0.1", AdminSecret := "secret", DBName := "", Timeout := 0 }

/-- A declared table with the object relationships `A` and `C`. -/
def abcTable : TrackTable :=
  { Type_ := "pg_track_table"
    IsEnum := false
    Args :=
      { Source := "default"
        Table := { Schema := "auth", Name := "users" }
        Configuration := Configuration.zero
        ObjectRelationships := [objRel "A" "a_id", objRel "C" "c_id"]
        ArrayRelationships := [] } }

/-- A gateway on which `auth.users` has the object relationships `A` and `B`,
and which accepts every request. -/
def abGateway : Transport := fun _ request =>
  match request with
  | .exportMetadata _ =>
    .ok (Body.decodes { Metadata := { Sources :=
      [{ Name := "default"
         Tables :=
           [{ Table := { Schema := "auth", Name := "users" }
              Configuration := none
              ObjectRelationships := [objRel "A" "a_id", objRel "B" "b_id"]
              ArrayRelationships := [] }] }] } })
  | _ => .ok successBody

/-- A gateway with nothing tracked that accepts every request. -/
def freshGateway : Transport := fun _ request =>
  match request with
  | .exportMetadata _ =>
    .ok (Body.decodes { Metadata := { Sources := [{ Name := "default", Tables := [] }] } })
  | _ => .ok successBody

/-- A hard failure of the gateway: status 500 with an error of unknown code. -/
def internalError : GoError :=
  GoError.errorString "status_code: 500, code: unexpected"

/-- The gateway of the test "track table non-recoverable error is returned":
nothing is tracked and every track request is refused. -/
def refusingGateway : Transport := fun _ request =>
  match request with
  | .exportMetadata _ =>
    .ok (Body.decodes { Metadata := { Sources := [{ Name := "default", Tables := [] }] } })
  | .trackTable _ => .error internalError
  | _ => .ok successBody

/-- A gateway on which everything is tracked and no customization can be set. -/
def frozenGateway : Transport := fun _ request =>
  match request with
  | .exportMetadata _ =>
    .ok (Body.decodes { Metadata := { Sources := [{ Name := "default", Tables := [] }] } })
  | .trackTable _ => .error (GoError.apiError errorCodeAlreadyTracked "already tracked")
  | .setTableCustomization _ => .error internalError
  | _ => .ok successBody

/-- A gateway with nothing tracked that accepts tables and refuses every
relationship. -/
def noRelationshipGateway : Transport := fun _ request =>
  match request with
  | .exportMetadata _ =>
    .ok (Body.decodes { Metadata := { Sources := [{ Name := "default", Tables := [] }] } })
  | .createObjectRelationship _ => .error internalError
  | .createArrayRelationship _ => .error internalError
  | _ => .ok successBody

/-- The gateway of the test "fetchExistingTableMetadata failure degrades
gracefully": the export fails, every other request succeeds. -/
def failingExportGateway : Transport := fun _ request =>
  match request with
  | .exportMetadata _ => .error internalError
  | _ => .ok successBody

/-- A gateway whose export cannot be parsed and on which every table is tracked. -/
def garbledExportGateway : Transport := fun _ request =>
  match request with
  | .exportMetadata _ => .ok (Body.undecodable syntaxError)
  | .trackTable _ => .error (GoError.apiError errorCodeAlreadyTracked "already tracked")
  | _ => .ok successBody

/-- The table of `TestApplyTableCustomizationInvalidExistingConfig`. -/
def plainUsersTable : TrackTable :=
  { Type_ := "pg_track_table"
    IsEnum := false
    Args :=
      { Source := "default"
        Table := { Schema := "auth", Name := "users" }
        Configuration :=
          { CustomName := "users"
            CustomRootFields := { CustomRootFields.zero with Select := "s" }
            CustomColumnNames := GoMap.mk [("col", "c")]
            AdditionalProperties := GoMap.nil }
        ObjectRelationships := []
        ArrayRelationships := [] } }

/-- The stored configuration of `TestApplyTableCustomizationInvalidExistingConfig`,
bytes that are not JSON. -/
def invalidConfigJSON : RawMessage :=
  RawMessage.invalid "\x7binvalid json"

/-- A stored configuration that is JSON of the wrong shape: `custom_name` is a number. -/
def misshapenConfigJSON : RawMessage :=
  RawMessage.valid (JSON.obj [("custom_name", JSON.num "5")])

/-- A gateway that accepts every request. -/
def acceptingGateway : Transport := fun _ _ => .ok successBody

/-- The response of the test "already tracked table applies customization":
status 400 with the already-tracked error object. -/
def alreadyTrackedResponse : Response :=
  { StatusCode := 400
    Body :=
      { text := "\x7b\x22path\x22:\x22\x22,\x22error\x22:\x22already tracked\x22,\x22code\x22:\x22already-tracked\x22\x7d\n"
        json := some (JSON.obj [("path", JSON.str ""), ("error", JSON.str "already tracked"),
                                ("code", JSON.str "already-tracked")]) } }

/-- The response of the test "track table non-recoverable error is returned":
status 500 with an error object of unknown code. -/
def unexpectedCodeResponse : Response :=
  { StatusCode := 500
    Body :=
      { text := "\x7b\x22error\x22:\x22something went wrong\x22,\x22code\x22:\x22unexpected\x22\x7d"
        json := some (JSON.obj [("error", JSON.str "something went wrong"),
                                ("code", JSON.str "unexpected")]) } }

/-- A response with status 201 Created and the usual success body. -/
def createdResponse : Response :=
  { StatusCode := 201
    Body := { text := "\x7b\x22message\x22:\x22success\x22\x7d"
              json := some (JSON.obj [("message", JSON.str "success")]) } }

/-- A response with status 204 No Content and an empty body. -/
def noContentResponse : Response :=
  { StatusCode := 204, Body := { text := "", json := none } }

/-- A response with status 200 whose body is not JSON. -/
def okTextResponse : Response :=
  { StatusCode := 200, Body := { text := "ok", json := none } }

/-- A response with status 500 whose body is the JSON literal `null`. -/
def nullBodyResponse : Response :=
  { StatusCode := 500, Body := { text := "null", json := some JSON.null } }

/-- A response with status 502 whose body is plain text. -/
def badGatewayResponse : Response :=
  { StatusCode := 502, Body := { text := "Bad Gateway", json := none } }

/-- The object of the case `with additional properties` of
`TestCustomRootFieldsUnmarshalJSON`. -/
def rootFieldsObject : List (String × JSON) :=
  [ ("select", JSON.str "s"), ("select_by_pk", JSON.str "sbp"),
    ("select_aggregate", JSON.str "sa"), ("insert", JSON.str "i"),
    ("insert_one", JSON.str "io"), ("update", JSON.str "u"),
    ("update_by_pk", JSON.str "ubp"), ("delete", JSON.str "d"),
    ("delete_by_pk", JSON.str "dbp"), ("select_stream", JSON.str "ss"),
    ("custom_future_field", JSON.obj [("nested", JSON.bool true)]) ]

/-- The value the test expects for `rootFieldsObject`. -/
def rootFieldsDecoded : CustomRootFields :=
  { Select := "s", SelectByPk := "sbp", SelectAggregate := "sa", Insert := "i",
    InsertOne := "io", Update := "u", UpdateByPk := "ubp", Delete := "d", DeleteByPk := "dbp"
    AdditionalProperties :=
      GoMap.mk [ ("custom_future_field",
                   RawMessage.valid (JSON.obj [("nested", JSON.bool true)])),
                 ("select_stream", RawMessage.valid (JSON.str "ss")) ] }

/-- The configuration of `TestConfigurationMarshalPreservesAdditionalProperties`. -/
def columnConfigConfiguration : Configuration :=
  { CustomName := "cn"
    CustomRootFields := { CustomRootFields.zero with Select := "s" }
    CustomColumnNames := GoMap.mk [("col", "c")]
    AdditionalProperties :=
      GoMap.mk
        [("column_config",
          RawMessage.valid (JSON.obj [("id", JSON.obj [("comment", JSON.str "pk")])]))] }

/-- The root fields of the case `with additional properties` of
`TestCustomRootFieldsRoundTrip`. -/
def streamRootFields : CustomRootFields :=
  { Select := "s", SelectByPk := "sbp", SelectAggregate := "sa", Insert := "i",
    InsertOne := "io", Update := "u", UpdateByPk := "ubp", Delete := "d", DeleteByPk := "dbp"
    AdditionalProperties :=
      GoMap.mk [ ("select_stream", RawMessage.valid (JSON.str "ss")),
                 ("future_field", RawMessage.valid (JSON.num "42")) ] }

/-- Root fields whose bag holds a number under `Select`, a key that is none of
the nine known keys. -/
def capitalSelectRootFields : CustomRootFields :=
  { CustomRootFields.zero with
    Select := "s"
    AdditionalProperties := GoMap.mk [("Select", RawMessage.valid (JSON.num "42"))] }

/-- Root fields whose bag is the empty map, not the nil map. -/
def emptyBagRootFields : CustomRootFields :=
  { CustomRootFields.zero with Select := "s", AdditionalProperties := GoMap.make }

/-- Root fields whose bag holds a nil raw message. -/
def nilValueRootFields : CustomRootFields :=
  { CustomRootFields.zero with
    AdditionalProperties := GoMap.mk [("future_field", RawMessage.nil)] }

/-- Root fields whose bag holds bytes that are not JSON. -/
def brokenValueRootFields : CustomRootFields :=
  { CustomRootFields.zero with
    AdditionalProperties := GoMap.mk [("future_field", RawMessage.invalid "\x7b")] }

/-- Root fields whose bag holds a string under the key `select` written with
the long s (U+017F), which `encoding/json` folds to `s`. -/
def longSRootFields : CustomRootFields :=
  { CustomRootFields.zero with
    Select := "s"
    AdditionalProperties := GoMap.mk [("\u017felect", RawMessage.valid (JSON.str "x"))] }

/-- A configuration whose bag holds a number under `Custom_name`. -/
def capitalNameConfiguration : Configuration :=
  { Configuration.zero with
    CustomName := "cn"
    AdditionalProperties := GoMap.mk [("Custom_name", RawMessage.valid (JSON.num "7"))] }

/-- The configuration of `TestConfigurationRoundTrip`. -/
def roundTripConfiguration : Configuration :=
  { CustomName := "cn"
    CustomRootFields :=
      { CustomRootFields.zero with
        Select := "s"
        SelectByPk := "sbp"
        AdditionalProperties := GoMap.mk [("stream", RawMessage.valid (JSON.str "st"))] }
    CustomColumnNames := GoMap.mk [("col", "c")]
    AdditionalProperties :=
      GoMap.mk
        [("column_config",
          RawMessage.valid (JSON.obj [("id", JSON.obj [("comment", JSON.str "pk")])]))] }

/-- The object of the case `with additional properties at both levels` of
`TestConfigurationUnmarshalJSON`. -/
def bothLevelsObject : List (String × JSON) :=
  [ ("custom_name", JSON.str "cn"),
    ("custom_root_fields", JSON.obj [("select", JSON.str "s"), ("stream", JSON.str "st")]),
    ("custom_column_names", JSON.obj [("col", JSON.str "c")]),
    ("column_config", JSON.obj [("id", JSON.obj [("comment", JSON.str "pk")])]),
    ("comment", JSON.str "table comment") ]

/-- The value the test expects for `bothLevelsObject`. -/
def bothLevelsDecoded : Configuration :=
  { CustomName := "cn"
    CustomRootFields :=
      { CustomRootFields.zero with
        Select := "s"
        AdditionalProperties := GoMap.mk [("stream", RawMessage.valid (JSON.str "st"))] }
    CustomColumnNames := GoMap.mk [("col", "c")]
    AdditionalProperties :=
      GoMap.mk
        [ ("comment", RawMessage.valid (JSON.str "table comment")),
          ("column_config",
            RawMessage.valid (JSON.obj [("id", JSON.obj [("comment", JSON.str "pk")])])) ] }

/-- An export like the one of `TestFetchExistingTableMetadata`: under the
source `default`, `auth.users` with a configuration and relationships, and
`auth.roles` with neither. -/
def rolesExport : exportMetadataResponse :=
  { Metadata :=
    { Sources :=
      [ { Name := "default"
          Tables :=
            [ { Table := { Schema := "auth", Name := "users" }
                Configuration := some storedConfigJSON
                ObjectRelationships := [objRel "defaultRoleByRole" "default_role"]
                ArrayRelationships := [arrRel "userRoles" "user_roles" "user_id"] },
              { Table := { Schema := "auth", Name := "roles" }
                Configuration := none
                ObjectRelationships := []
                ArrayRelationships := [] } ] } ] } }

/-- A gateway that answers every request with `rolesExport`. -/
def rolesGateway : Transport := fun _ _ => .ok (Body.decodes rolesExport)

/-- Root fields whose bag holds a value under the known key `select`. -/
def shadowedSelectRootFields : CustomRootFields :=
  { CustomRootFields.zero with
    Select := "typed"
    AdditionalProperties := GoMap.mk [("select", RawMessage.valid (JSON.str "from_bag"))] }

/-- A configuration whose bag holds a value under the known key `custom_name`. -/
def shadowedNameConfiguration : Configuration :=
  { Configuration.zero with
    CustomName := "typed"
    AdditionalProperties :=
      GoMap.mk [("custom_name", RawMessage.valid (JSON.str "from_bag"))] }

/-- The already-tracked marker, as `postMetadata` returns it. -/
def alreadyTrackedError : GoError :=
  GoError.apiError errorCodeAlreadyTracked "already tracked"

/-- The already-exists marker, as `postMetadata` returns it. -/
def alreadyExistsError : GoError :=
  GoError.apiError errorCodeAlreadyExists "already exists"

/-- A gateway that answers every request but the export with the
already-exists marker. -/
def allExistsGateway : Transport := fun _ request =>
  match request with
  | .exportMetadata _ => .ok successBody
  | _ => .error alreadyExistsError

/-- A gateway that answers every request but the export with the
already-tracked marker. -/
def allTrackedGateway : Transport := fun _ request =>
  match request with
  | .exportMetadata _ => .ok successBody
  | _ => .error alreadyTrackedError

/-- A gateway that tracks every table and answers every create request with
the already-tracked marker. -/
def trackedOnCreateGateway : Transport := fun _ request =>
  match request with
  | .createObjectRelationship _ => .error alreadyTrackedError
  | .createArrayRelationship _ => .error alreadyTrackedError
  | _ => .ok successBody

/-- An export that lists, under the source `default`, the table named `c` of the
schema `a.b`, with a comment and the object relationship `owner`. -/
def dottedSchemaExport : exportMetadataResponse :=
  { Metadata :=
    { Sources :=
      [ { Name := "default"
          Tables :=
            [ { Table := { Schema := "a.b", Name := "c" }
                Configuration :=
                  some (RawMessage.valid (JSON.obj
                    [ ("custom_name", JSON.str "other"),
                      ("comment", JSON.str "comment of the table c of a.b") ]))
                ObjectRelationships := [objRel "owner" "owner_id"]
                ArrayRelationships := [] } ] } ] } }

/-- A gateway in the state of `dottedSchemaExport` on which every table is
tracked. -/
def dottedGateway : Transport := fun _ request =>
  match request with
  | .exportMetadata _ => .ok (Body.decodes dottedSchemaExport)
  | .trackTable _ => .error alreadyTrackedError
  | _ => .ok successBody

/-- The declared table named `b.c` of the schema `a`, with the object
relationship `owner`. -/
def dottedNameTable : TrackTable :=
  { Type_ := "pg_track_table"
    IsEnum := false
    Args :=
      { Source := "default"
        Table := { Schema := "a", Name := "b.c" }
        Configuration := { Configuration.zero with CustomName := "mine" }
        ObjectRelationships := [objRel "owner" "owner_id"]
        ArrayRelationships := [] } }

/-- The reply with status 200 and the body of an empty object. -/
def okReply : Reply :=
  { Response := { StatusCode := 200, Body := { text := "\x7b\x7d", json := some (JSON.obj []) } }
    Export := successBody }

/-- The reply with status 500 and the body `null`. -/
def nullReply : Reply :=
  { Response := nullBodyResponse
    Export := successBody }

/-- The reply with status 400 and the already-tracked marker. -/
def alreadyTrackedReply : Reply :=
  { Response := alreadyTrackedResponse
    Export := successBody }

/-- The reply with status 500 and a text that is not JSON. -/
def badGatewayReply : Reply :=
  { Response := badGatewayResponse
    Export := Body.undecodable syntaxError }

/-- A gateway that answers every track request with status 500 and the body
`null`, and every other request with status 200. -/
def nullOnTrackGateway : Gateway := fun _ request =>
  match request with
  | .trackTable _ => .ok nullReply
  | _ => .ok okReply

/-- A gateway on which every table is tracked already, and which answers every
customization request with status 500 and the body `null`. -/
def nullOnCustomizeGateway : Gateway := fun _ request =>
  match request with
  | .trackTable _ => .ok alreadyTrackedReply
  | .setTableCustomization _ => .ok nullReply
  | _ => .ok okReply

/-- A gateway that answers every create request for an object relationship with
status 500 and the body `null`, and every other request with status 200. -/
def nullOnCreateGateway : Gateway := fun _ request =>
  match request with
  | .createObjectRelationship _ => .ok nullReply
  | _ => .ok okReply

/-- A gateway that answers the export request with status 500 and the body
`null`, and every other request with status 200. -/
def nullExportGateway : Gateway := fun _ request =>
  match request with
  | .exportMetadata _ => .ok nullReply
  | _ => .ok okReply

/-- A gateway that answers the export request with status 500 and a text that
is not JSON, and every other request with status 200. -/
def badExportGateway : Gateway := fun _ request =>
  match request with
  | .exportMetadata _ => .ok badGatewayReply
  | _ => .ok okReply

/-- The transport of the calls on `badExportGateway`. -/
def badExportTransport : Transport := fun _ request =>
  match request with
  | .exportMetadata _ => .error (statusError badGatewayResponse)
  | _ => .ok successBody

/-- The response with status 201 and the already-tracked marker as body. -/
def createdMarkerResponse : Response :=
  { alreadyTrackedResponse with StatusCode := 201 }

/-- A text of the JSON object with the member `a` holding the string `<x>`,
written with a space after the colon. -/
def spacedText : String := "\x7b\x22a\x22: \x22<x>\x22\x7d"

end metadata

namespace oauth2

/-! ## Userinfo of the OAuth2 provider

The function `GetUserinfo` of `services/auth/go/oauth2/userinfo.go`. The row
type of a user, the response type and the collaborators of the provider are
declared elsewhere; they are taken here as far as `GetUserinfo` uses them. -/

/-- Go `pgtype.Text`: a nullable text column. -/
structure Text where
  String : String
  Valid : Bool
deriving DecidableEq, Repr

/-- Go `uuid.UUID`, represented by the text its method `String()` returns. -/
structure UUID where
  String : String
deriving DecidableEq, Repr

/-- The row of a user as `p.db.GetUser` returns it: the columns `GetUserinfo`
reads, and the remaining columns as one value of a type `ρ`. -/
structure AuthUser (ρ : Type) where
  Email : Text
  EmailVerified : Bool
  DisplayName : String
  AvatarUrl : String
  Locale : String
  PhoneNumber : Text
  PhoneNumberVerified : Bool
  Rest : ρ
deriving DecidableEq, Repr

/-- Go `api.OAuth2UserinfoResponse`, with the fields of the composite literal
in `GetUserinfo`; a nil pointer is `none`. -/
structure OAuth2UserinfoResponse where
  Sub : String
  Email : Option String
  EmailVerified : Option Bool
  Locale : Option String
  Name : Option String
  PhoneNumber : Option String
  PhoneNumberVerified : Option Bool
  Picture : Option String
  AdditionalProperties : metadata.GoMap metadata.GoAny
deriving DecidableEq

/-- Go `Error` of the package: an OAuth2 error code and its description. -/
structure Error where
  Err : String
  Description : String
deriving DecidableEq, Repr

/-- An `error` value returned by a collaborator, as far as `GetUserinfo` tells
errors apart: `pgx.ErrNoRows`, an error wrapping another, or any other. -/
inductive CallError where
  | errNoRows
  | wrapped (msg : String) (err : CallError)
  | other (msg : String)
deriving DecidableEq, Repr

/-- Go `errors.Is(err, pgx.ErrNoRows)`. -/
def CallError.isErrNoRows : CallError → Bool
  | .errNoRows => true
  | .wrapped _ err => err.isErrNoRows
  | .other _ => false

/-- The value returned by `p.resolveUserGraphQLRoles`, with the fields
`GetUserinfo` passes on. -/
structure GraphQLRoles where
  IsAnonymous : Bool
  AllowedRoles : List String
  DefaultRole : String
deriving DecidableEq, Repr

/-- The collaborators of `Provider` that `GetUserinfo` calls:
`p.db.GetUser(ctx, userID)`, `p.resolveUserGraphQLRoles(ctx, user, userID)` and
`p.signer.RawGraphQLClaims(ctx, userID, isAnonymous, allowedRoles, defaultRole,
nil, logger)`, the last returning the namespace and the claims as the `any`
value handed to `Set`. -/
structure Provider (ρ : Type) where
  GetUser : UUID → Except CallError (AuthUser ρ)
  resolveUserGraphQLRoles : AuthUser ρ → UUID → Except CallError GraphQLRoles
  RawGraphQLClaims : UUID → Bool → List String → String →
    Except CallError (String × metadata.GoAny)

/-- The type of the method `Set(fieldName, value)` of the response. -/
abbrev Setter : Type :=
  OAuth2UserinfoResponse → String → metadata.GoAny → OAuth2UserinfoResponse

/-- Go `(*Provider).GetUserinfo`. The method `Set` of the response is the
parameter `set`; what is written to the logger is left out. -/
def GetUserinfo {ρ : Type} (p : Provider ρ) (set : Setter) (userID : UUID)
    (scopes : List String) : Except Error OAuth2UserinfoResponse :=
  match p.GetUser userID with
  | .error err =>
    if err.isErrNoRows then
      .error { Err := "invalid_token", Description := "User not found" }
    else
      .error { Err := "server_error", Description := "Internal server error" }
  | .ok user =>
    let emailSet := scopes.contains "email" && user.Email.Valid
    let email : Option String := if emailSet then some user.Email.String else none
    let emailVerified : Option Bool := if emailSet then some user.EmailVerified else none
    let profile := scopes.contains "profile"
    let name : Option String :=
      if profile && user.DisplayName != "" then some user.DisplayName else none
    let picture : Option String :=
      if profile && user.AvatarUrl != "" then some user.AvatarUrl else none
    let locale : Option String :=
      if profile && user.Locale != "" then some user.Locale else none
    let phoneSet := scopes.contains "phone" && user.PhoneNumber.Valid
    let phoneNumber : Option String :=
      if phoneSet then some user.PhoneNumber.String else none
    let phoneNumberVerified : Option Bool :=
      if phoneSet then some user.PhoneNumberVerified else none
    let resp : OAuth2UserinfoResponse :=
      { Sub := userID.String
        Email := email
        EmailVerified := emailVerified
        Locale := locale
        Name := name
        PhoneNumber := phoneNumber
        PhoneNumberVerified := phoneNumberVerified
        Picture := picture
        AdditionalProperties := metadata.GoMap.nil }
    if scopes.contains "graphql" then
      match p.resolveUserGraphQLRoles user userID with
      | .error _ =>
        .error { Err := "server_error", Description := "Internal server error" }
      | .ok roles =>
        match p.RawGraphQLClaims userID roles.IsAnonymous roles.AllowedRoles
            roles.DefaultRole with
        | .error _ =>
          .error { Err := "server_error", Description := "Internal server error" }
        | .ok (ns, c) => .ok (set resp ns c)
    else
      .ok resp

/-- A setter that leaves the declared fields of the response as they are: it
writes to `AdditionalProperties` only. -/
def Setter.keepsDeclaredFields (set : Setter) : Prop :=
  ∀ (r : OAuth2UserinfoResponse) (ns : String) (c : metadata.GoAny),
    set r ns c = { r with AdditionalProperties := (set r ns c).AdditionalProperties }

/-- Two rows of a user agree on what the scopes in `scopes` disclose: the
address columns for `email`, the display name, avatar and locale for `profile`,
the phone columns for `phone`, and for `graphql` the roles resolved for the
row. -/
def agreeOnScopes {ρ : Type} (p : Provider ρ) (userID : UUID) (scopes : List String)
    (u v : AuthUser ρ) : Prop :=
  ("email" ∈ scopes → u.Email = v.Email ∧ u.EmailVerified = v.EmailVerified) ∧
  ("profile" ∈ scopes →
    u.DisplayName = v.DisplayName ∧ u.AvatarUrl = v.AvatarUrl ∧ u.Locale = v.Locale) ∧
  ("phone" ∈ scopes →
    u.PhoneNumber = v.PhoneNumber ∧ u.PhoneNumberVerified = v.PhoneNumberVerified) ∧
  ("graphql" ∈ scopes →
    p.resolveUserGraphQLRoles u userID = p.resolveUserGraphQLRoles v userID)

/-- The response `GetUserinfo` builds for a row before the claims are set: the
value of its variable `resp` right after the composite literal. -/
def declaredResponse {ρ : Type} (user : AuthUser ρ) (userID : UUID)
    (scopes : List String) : OAuth2UserinfoResponse :=
  { Sub := userID.String
    Email :=
      if scopes.contains "email" && user.Email.Valid then some user.Email.String else none
    EmailVerified :=
      if scopes.contains "email" && user.Email.Valid then some user.EmailVerified else none
    Locale :=
      if scopes.contains "profile" && user.Locale != "" then some user.Locale else none
    Name :=
      if scopes.contains "profile" && user.DisplayName != "" then some user.DisplayName
      else none
    PhoneNumber :=
      if scopes.contains "phone" && user.PhoneNumber.Valid then some user.PhoneNumber.String
      else none
    PhoneNumberVerified :=
      if scopes.contains "phone" && user.PhoneNumber.Valid then some user.PhoneNumberVerified
      else none
    Picture :=
      if scopes.contains "profile" && user.AvatarUrl != "" then some user.AvatarUrl else none
    AdditionalProperties := metadata.GoMap.nil }

/-! ## Concrete values of the userinfo statements -/

/-- The setter as the code generator writes it: the map is made when it is
nil, then the claims are stored under the namespace. -/
def generatedSet : Setter := fun r ns c =>
  { r with AdditionalProperties :=
      (match r.AdditionalProperties with
       | .nil => metadata.GoMap.make
       | m => m).set ns c }

/-- A user id. -/
def aliceID : UUID := { String := "6d0f3a0e-7c1b-4f53-9b1e-2f0a9d3c5e11" }

/-- A row with an address, a display name and a phone number. -/
def aliceRow : AuthUser String :=
  { Email := { String := "alice@example.com", Valid := true }
    EmailVerified := true
    DisplayName := "Alice"
    AvatarUrl := ""
    Locale := "en"
    PhoneNumber := { String := "+15550100", Valid := true }
    PhoneNumberVerified := false
    Rest := "user" }

/-- The row `aliceRow` with another phone number, verified. -/
def aliceRowOtherPhone : AuthUser String :=
  { aliceRow with
    PhoneNumber := { String := "+15550199", Valid := true }
    PhoneNumberVerified := true }

/-- A provider that finds the row `row` for every id, resolves the default
role from the remaining columns and signs the claims of the role. -/
def providerOf (row : AuthUser String) : Provider String :=
  { GetUser := fun _ => .ok row
    resolveUserGraphQLRoles := fun user _ =>
      .ok { IsAnonymous := false, AllowedRoles := [user.Rest, "me"], DefaultRole := user.Rest }
    RawGraphQLClaims := fun userID _ allowedRoles defaultRole =>
      .ok ("https://hasura.io/jwt/claims",
           metadata.GoAny.map
             [("x-hasura-user-id", metadata.GoAny.string userID.String),
              ("x-hasura-default-role", metadata.GoAny.string defaultRole),
              ("x-hasura-allowed-roles", metadata.GoAny.strings allowedRoles)]) }

/-- The response to the scopes `email` and `graphql` for `aliceRow`. -/
def aliceEmailGraphql : OAuth2UserinfoResponse :=
  { Sub := "6d0f3a0e-7c1b-4f53-9b1e-2f0a9d3c5e11"
    Email := some "alice@example.com"
    EmailVerified := some true
    Locale := none
    Name := none
    PhoneNumber := none
    PhoneNumberVerified := none
    Picture := none
    AdditionalProperties := metadata.GoMap.mk
      [("https://hasura.io/jwt/claims",
        metadata.GoAny.map
          [("x-hasura-user-id", metadata.GoAny.string "6d0f3a0e-7c1b-4f53-9b1e-2f0a9d3c5e11"),
           ("x-hasura-default-role", metadata.GoAny.string "user"),
           ("x-hasura-allowed-roles", metadata.GoAny.strings ["user", "me"])])] }

end oauth2

namespace metadata

/-! ## Lemmas on Go maps -/

theorem GoMap.entries_set {V : Type} (m : GoMap V) (k : String) (v : V) :
    (m.set k v).entries = (k, v) :: m.entries := rfl

theorem GoMap.entries_foldr_set {V : Type} (es : List (String × V)) (dst : GoMap V) :
    (es.foldr (fun kv d => GoMap.set d kv.1 kv.2) dst).entries = es ++ dst.entries := by
  induction es with
  | nil => rfl
  | cons kv es ih => rw [List.foldr_cons, GoMap.entries_set, ih]; rfl

theorem GoMap.copy_entries {V : Type} (dst src : GoMap V) :
    (GoMap.copy dst src).entries = src.entries ++ dst.entries :=
  GoMap.entries_foldr_set src.entries dst

theorem GoMap.len_pos_iff {V : Type} (m : GoMap V) : 0 < m.len ↔ m.entries ≠ [] := by
  unfold GoMap.len GoMap.keys
  rw [List.length_pos, Ne, List.dedup_eq_nil, List.map_eq_nil_iff]

theorem GoMap.len_eq_zero_iff {V : Type} (m : GoMap V) : m.len = 0 ↔ m.entries = [] := by
  have h := GoMap.len_pos_iff m
  constructor
  · intro h0
    by_contra hne
    have := h.mpr hne
    omega
  · intro he
    by_contra hne
    exact (h.mp (Nat.pos_of_ne_zero hne)) he

/-- Copying a non-empty map into a fresh one gives a map with the very same bindings. -/
theorem GoMap.copy_make_of_len_pos {V : Type} (src : GoMap V) (h : 0 < src.len) :
    GoMap.copy GoMap.make src = src := by
  have hne := (GoMap.len_pos_iff src).mp h
  cases src with
  | nil => exact absurd rfl hne
  | mk es =>
    cases es with
    | nil => exact absurd rfl hne
    | cons kv es =>
      have h1 := GoMap.copy_entries (GoMap.make : GoMap V) (GoMap.mk (kv :: es))
      have h2 : GoMap.copy (GoMap.make : GoMap V) (GoMap.mk (kv :: es))
          = GoMap.mk (GoMap.copy (GoMap.make : GoMap V) (GoMap.mk (kv :: es))).entries := rfl
      rw [h2, h1]
      simp [GoMap.entries, GoMap.make]

/-! ## Lemmas on the relationship merge -/

/-- The first loop of the merge, for any element type with a name: the list
grows by `ours`, and a name is seen afterwards iff it was seen before or is
the name of an element of `ours`. -/
theorem merge_first_loop {α : Type} (name : α → String) (ours : List α)
    (st : List α × GoMap Bool) :
    (ours.foldl (fun st r => (st.1 ++ [r], st.2.set (name r) true)) st).1 = st.1 ++ ours ∧
    ∀ n, (ours.foldl (fun st r => (st.1 ++ [r], st.2.set (name r) true)) st).2.getBool n
      = (decide (n ∈ ours.map name) || st.2.getBool n) := by
  induction ours generalizing st with
  | nil => simp
  | cons r rs ih =>
    obtain ⟨h1, h2⟩ := ih (st.1 ++ [r], st.2.set (name r) true)
    refine ⟨by simpa using h1, fun n => ?_⟩
    rw [List.foldl_cons, h2 n]
    by_cases hn : n = name r
    · subst hn
      simp [GoMap.getBool, GoMap.get?, GoMap.entries_set, List.lookup]
    · have hb : (n == name r) = false := by simpa using hn
      have hne : ¬ name r = n := fun h => hn h.symm
      simp [GoMap.getBool, GoMap.get?, GoMap.entries_set, List.lookup, hb, hn, hne]

/-- The second loop of the merge appends the elements whose name was not seen. -/
theorem merge_second_loop {α : Type} (name : α → String) (seen : GoMap Bool)
    (existing acc : List α) :
    existing.foldl (fun merged r => if !seen.getBool (name r) then merged ++ [r] else merged) acc
      = acc ++ existing.filter (fun r => !seen.getBool (name r)) := by
  induction existing generalizing acc with
  | nil => simp
  | cons r rs ih =>
    rw [List.foldl_cons, ih]
    by_cases h : seen.getBool (name r) <;> simp [h, List.filter_cons]

/-- Closed form of the two loops. -/
theorem merge_loops_eq {α : Type} (name : α → String) (existing ours : List α) :
    existing.foldl
        (fun merged r =>
          if !(ours.foldl (fun st r => (st.1 ++ [r], st.2.set (name r) true))
                (([] : List α), (GoMap.make : GoMap Bool))).2.getBool (name r)
          then merged ++ [r] else merged)
        (ours.foldl (fun st r => (st.1 ++ [r], st.2.set (name r) true))
          (([] : List α), (GoMap.make : GoMap Bool))).1
      = ours ++ existing.filter (fun r => decide (name r ∉ ours.map name)) := by
  obtain ⟨h1, h2⟩ := merge_first_loop name ours (([] : List α), (GoMap.make : GoMap Bool))
  rw [merge_second_loop, h1]
  simp only [List.nil_append]
  congr 1
  apply List.filter_congr
  intro r _
  rw [h2]
  by_cases hm : name r ∈ ours.map name <;>
    simp [GoMap.getBool, GoMap.get?, GoMap.make, GoMap.entries, hm]

theorem mergeObjectRelationships_eq (existing ours : List ObjectRelationshipConfig) :
    mergeObjectRelationships existing ours
      = ours ++ existing.filter (fun r => decide (r.Name ∉ ours.map (·.Name))) :=
  merge_loops_eq ObjectRelationshipConfig.Name existing ours

theorem mergeArrayRelationships_eq (existing ours : List ArrayRelationshipConfig) :
    mergeArrayRelationships existing ours
      = ours ++ existing.filter (fun r => decide (r.Name ∉ ours.map (·.Name))) :=
  merge_loops_eq ArrayRelationshipConfig.Name existing ours

/-! ## Merge engine: configuration -/

/-- C1: the merged configuration takes every known field from `desired`:
`CustomName` and `CustomColumnNames` are those of `desired`, `CustomRootFields`
is `mergeCustomRootFields` of the two root-field records, and each of its nine
named root fields is the one of `desired`; no known field of `existing` occurs
in the result. -/
theorem mergeConfiguration_known_fields (existing desired : Configuration) :
    (mergeConfiguration existing desired).CustomName = desired.CustomName ∧
    (mergeConfiguration existing desired).CustomColumnNames = desired.CustomColumnNames ∧
    (mergeConfiguration existing desired).CustomRootFields
      = mergeCustomRootFields existing.CustomRootFields desired.CustomRootFields ∧
    (mergeConfiguration existing desired).CustomRootFields.Select
      = desired.CustomRootFields.Select ∧
    (mergeConfiguration existing desired).CustomRootFields.SelectByPk
      = desired.CustomRootFields.SelectByPk ∧
    (mergeConfiguration existing desired).CustomRootFields.SelectAggregate
      = desired.CustomRootFields.SelectAggregate ∧
    (mergeConfiguration existing desired).CustomRootFields.Insert
      = desired.CustomRootFields.Insert ∧
    (mergeConfiguration existing desired).CustomRootFields.InsertOne
      = desired.CustomRootFields.InsertOne ∧
    (mergeConfiguration existing desired).CustomRootFields.Update
      = desired.CustomRootFields.Update ∧
    (mergeConfiguration existing desired).CustomRootFields.UpdateByPk
      = desired.CustomRootFields.UpdateByPk ∧
    (mergeConfiguration existing desired).CustomRootFields.Delete
      = desired.CustomRootFields.Delete ∧
    (mergeConfiguration existing desired).CustomRootFields.DeleteByPk
      = desired.CustomRootFields.DeleteByPk := by
  unfold mergeConfiguration mergeCustomRootFields
  by_cases h1 : existing.AdditionalProperties.len > 0 <;>
    by_cases h2 : existing.CustomRootFields.AdditionalProperties.len > 0 <;>
    simp [h1, h2]

/-- C2: when the bag of `existing` is non-empty, the bag of the merged
configuration is a copy of it: the same map, binding for binding, with the same
keys and the same number of keys, whatever the bag of `desired` holds. -/
theorem mergeConfiguration_keeps_existing_bag (existing desired : Configuration)
    (h : 0 < existing.AdditionalProperties.len) :
    (mergeConfiguration existing desired).AdditionalProperties
      = existing.AdditionalProperties ∧
    (∀ k, (mergeConfiguration existing desired).AdditionalProperties.get? k
      = existing.AdditionalProperties.get? k) ∧
    (mergeConfiguration existing desired).AdditionalProperties.keys
      = existing.AdditionalProperties.keys ∧
    (mergeConfiguration existing desired).AdditionalProperties.len
      = existing.AdditionalProperties.len := by
  have hb : (mergeConfiguration existing desired).AdditionalProperties
      = existing.AdditionalProperties := by
    unfold mergeConfiguration
    simp [h, GoMap.copy_make_of_len_pos]
  rw [hb]
  exact ⟨rfl, fun _ => rfl, rfl, rfl⟩

/-- C2, on the configurations of the merge-precedence scenario: existing
`{customName "old", comment: "x"}` and desired `{customName "new"}` merge to
`{customName "new", comment: "x"}`. -/
theorem mergeConfiguration_keeps_existing_bag_witness :
    0 < precedenceExisting.AdditionalProperties.len ∧
    ((mergeConfiguration precedenceExisting desiredWithExtras).AdditionalProperties
        = precedenceExisting.AdditionalProperties ∧
      (∀ k, (mergeConfiguration precedenceExisting desiredWithExtras).AdditionalProperties.get? k
        = precedenceExisting.AdditionalProperties.get? k) ∧
      (mergeConfiguration precedenceExisting desiredWithExtras).AdditionalProperties.keys
        = precedenceExisting.AdditionalProperties.keys ∧
      (mergeConfiguration precedenceExisting desiredWithExtras).AdditionalProperties.len
        = precedenceExisting.AdditionalProperties.len) ∧
    mergeConfiguration precedenceExisting precedenceDesired
      = { Configuration.zero with
          CustomName := "new"
          AdditionalProperties := GoMap.mk [("comment", RawMessage.valid (JSON.str "x"))] } :=
  ⟨by decide,
   mergeConfiguration_keeps_existing_bag precedenceExisting desiredWithExtras (by decide),
   by decide⟩

/-- C3 fails as stated: with an empty existing bag the merged bag is not empty
when `desired` carries a bag of its own, at both levels. -/
theorem mergeConfiguration_empty_existing_counterexample :
    Configuration.zero.AdditionalProperties.len = 0 ∧
    Configuration.zero.CustomRootFields.AdditionalProperties.len = 0 ∧
    (mergeConfiguration Configuration.zero desiredWithExtras).AdditionalProperties.len = 1 ∧
    (mergeConfiguration Configuration.zero
      desiredWithExtras).CustomRootFields.AdditionalProperties.len = 1 := by
  decide

/-- C3, amended: when the bag of `existing` is empty the merged bag is the bag
of `desired`, untouched, and so is empty whenever `desired` carries none; the
same holds one level down for the bag of `CustomRootFields`. -/
theorem mergeConfiguration_empty_existing_bag (existing desired : Configuration) :
    (existing.AdditionalProperties.len = 0 →
      (mergeConfiguration existing desired).AdditionalProperties
          = desired.AdditionalProperties ∧
      (desired.AdditionalProperties.len = 0 →
        (mergeConfiguration existing desired).AdditionalProperties.len = 0)) ∧
    (existing.CustomRootFields.AdditionalProperties.len = 0 →
      (mergeConfiguration existing desired).CustomRootFields.AdditionalProperties
          = desired.CustomRootFields.AdditionalProperties ∧
      (desired.CustomRootFields.AdditionalProperties.len = 0 →
        (mergeConfiguration existing desired).CustomRootFields.AdditionalProperties.len
          = 0)) := by
  constructor
  · intro h
    have hb : (mergeConfiguration existing desired).AdditionalProperties
        = desired.AdditionalProperties := by
      unfold mergeConfiguration
      simp [h]
    exact ⟨hb, fun hd => by rw [hb]; exact hd⟩
  · intro h
    have hb : (mergeConfiguration existing desired).CustomRootFields.AdditionalProperties
        = desired.CustomRootFields.AdditionalProperties := by
      unfold mergeConfiguration mergeCustomRootFields
      by_cases h1 : existing.AdditionalProperties.len > 0 <;> simp [h, h1]
    exact ⟨hb, fun hd => by rw [hb]; exact hd⟩

/-- C3, amended, on the configurations of `TestMergeConfigurationNoExistingExtras`
(no bag on either side) and on a desired configuration with bags of its own. -/
theorem mergeConfiguration_empty_existing_bag_witness :
    (mergeConfiguration Configuration.zero precedenceDesired).AdditionalProperties.len = 0 ∧
    (mergeConfiguration Configuration.zero
      precedenceDesired).CustomRootFields.AdditionalProperties.len = 0 ∧
    (mergeConfiguration Configuration.zero desiredWithExtras).AdditionalProperties
      = desiredWithExtras.AdditionalProperties ∧
    (mergeConfiguration Configuration.zero desiredWithExtras).CustomRootFields.AdditionalProperties
      = desiredWithExtras.CustomRootFields.AdditionalProperties :=
  ⟨((mergeConfiguration_empty_existing_bag Configuration.zero precedenceDesired).1
      (by decide)).2 (by decide),
   ((mergeConfiguration_empty_existing_bag Configuration.zero precedenceDesired).2
      (by decide)).2 (by decide),
   ((mergeConfiguration_empty_existing_bag Configuration.zero desiredWithExtras).1
      (by decide)).1,
   ((mergeConfiguration_empty_existing_bag Configuration.zero desiredWithExtras).2
      (by decide)).1⟩

/-- C4: `mergeCustomRootFields` takes the nine named root fields from
`desired`, and when the bag of `existing` is non-empty the merged bag is a copy
of it, binding for binding. -/
theorem mergeCustomRootFields_policy (existing desired : CustomRootFields) :
    (mergeCustomRootFields existing desired).Select = desired.Select ∧
    (mergeCustomRootFields existing desired).SelectByPk = desired.SelectByPk ∧
    (mergeCustomRootFields existing desired).SelectAggregate = desired.SelectAggregate ∧
    (mergeCustomRootFields existing desired).Insert = desired.Insert ∧
    (mergeCustomRootFields existing desired).InsertOne = desired.InsertOne ∧
    (mergeCustomRootFields existing desired).Update = desired.Update ∧
    (mergeCustomRootFields existing desired).UpdateByPk = desired.UpdateByPk ∧
    (mergeCustomRootFields existing desired).Delete = desired.Delete ∧
    (mergeCustomRootFields existing desired).DeleteByPk = desired.DeleteByPk ∧
    (0 < existing.AdditionalProperties.len →
      (mergeCustomRootFields existing desired).AdditionalProperties
          = existing.AdditionalProperties ∧
      (∀ k, (mergeCustomRootFields existing desired).AdditionalProperties.get? k
          = existing.AdditionalProperties.get? k) ∧
      (mergeCustomRootFields existing desired).AdditionalProperties.len
          = existing.AdditionalProperties.len) := by
  unfold mergeCustomRootFields
  by_cases h : existing.AdditionalProperties.len > 0
  · simp [h, GoMap.copy_make_of_len_pos]
  · simp [h]

/-- C4, on the root fields of `TestMergeCustomRootFields`. -/
theorem mergeCustomRootFields_policy_witness :
    0 < rootFieldsExisting.AdditionalProperties.len ∧
    (mergeCustomRootFields rootFieldsExisting rootFieldsOurs).AdditionalProperties
      = rootFieldsExisting.AdditionalProperties ∧
    mergeCustomRootFields rootFieldsExisting rootFieldsOurs
      = { rootFieldsOurs with
          AdditionalProperties :=
            GoMap.mk [("select_stream", RawMessage.valid (JSON.str "old_stream"))] } :=
  ⟨by decide,
   ((mergeCustomRootFields_policy rootFieldsExisting rootFieldsOurs).2.2.2.2.2.2.2.2.2
      (by decide)).1,
   by decide⟩

/-! ## Merge engine: relationships -/

/-- C5: merging object relationships yields `desired`, unchanged and in its
order, followed by exactly the elements of `existing` whose `Name` is the
`Name` of no element of `desired`, in the order of `existing`; every element of
the result is an element of one of the two inputs; and with no existing
relationship the result is `desired`. -/
theorem mergeObjectRelationships_spec (existing desired : List ObjectRelationshipConfig) :
    mergeObjectRelationships existing desired
      = desired ++ existing.filter (fun r => decide (∀ d ∈ desired, d.Name ≠ r.Name)) ∧
    (∀ r ∈ mergeObjectRelationships existing desired, r ∈ desired ∨ r ∈ existing) ∧
    mergeObjectRelationships [] desired = desired := by
  have hf : existing.filter (fun r => decide (r.Name ∉ desired.map (·.Name)))
      = existing.filter (fun r => decide (∀ d ∈ desired, d.Name ≠ r.Name)) := by
    apply List.filter_congr
    intro r _
    simp
  refine ⟨?_, ?_, ?_⟩
  · rw [mergeObjectRelationships_eq, hf]
  · intro r hr
    rw [mergeObjectRelationships_eq, List.mem_append] at hr
    rcases hr with hr | hr
    · exact Or.inl hr
    · exact Or.inr (List.mem_filter.mp hr).1
  · rw [mergeObjectRelationships_eq]
    simp

/-- C6: merging array relationships yields `desired` in its order followed by
exactly the elements of `existing` whose `Name` appears in no element of
`desired`, in the order of `existing`; every element of the result is an
element of one of the two inputs; and with no existing relationship the result
is `desired`. -/
theorem mergeArrayRelationships_spec (existing desired : List ArrayRelationshipConfig) :
    mergeArrayRelationships existing desired
      = desired ++ existing.filter (fun r => decide (∀ d ∈ desired, d.Name ≠ r.Name)) ∧
    (∀ r ∈ mergeArrayRelationships existing desired, r ∈ desired ∨ r ∈ existing) ∧
    mergeArrayRelationships [] desired = desired := by
  have hf : existing.filter (fun r => decide (r.Name ∉ desired.map (·.Name)))
      = existing.filter (fun r => decide (∀ d ∈ desired, d.Name ≠ r.Name)) := by
    apply List.filter_congr
    intro r _
    simp
  refine ⟨?_, ?_, ?_⟩
  · rw [mergeArrayRelationships_eq, hf]
  · intro r hr
    rw [mergeArrayRelationships_eq, List.mem_append] at hr
    rcases hr with hr | hr
    · exact Or.inl hr
    · exact Or.inr (List.mem_filter.mp hr).1
  · rw [mergeArrayRelationships_eq]
    simp

/-! ## Lemmas on the driver -/

theorem fetchExistingTableMetadata_trace (net : Transport) (cfg : Config)
    (trace : List Request) :
    (fetchExistingTableMetadata net cfg trace).2 = trace ++ [exportRequest] := by
  unfold fetchExistingTableMetadata postMetadata exportRequest
  cases h : net trace (Request.exportMetadata { Type_ := "export_metadata", Version := 2 }) with
  | error err => rfl
  | ok body =>
    simp only []
    cases body.unmarshal <;> rfl

theorem applyTableCustomization_eq (net : Transport) (cfg : Config) (table : TrackTable)
    (raw : RawMessage) (trace : List Request) :
    applyTableCustomization net cfg table raw trace
      = ((match net trace (Request.setTableCustomization (customizationRequest table raw)) with
          | .error err => some err
          | .ok _ => none),
         trace ++ [Request.setTableCustomization (customizationRequest table raw)]) := by
  unfold applyTableCustomization postMetadata customizationRequest
  simp only []
  split <;> simp_all

/-- The names recorded by the loop `for _, r := range existing { existingNames[r.Name] = true }`. -/
theorem existingNames_getBool {α : Type} (name : α → String) (existing : List α)
    (m : GoMap Bool) (n : String) :
    (existing.foldl (fun m r => m.set (name r) true) m).getBool n
      = (decide (n ∈ existing.map name) || m.getBool n) := by
  induction existing generalizing m with
  | nil => simp
  | cons r rs ih =>
    rw [List.foldl_cons, ih]
    by_cases hn : n = name r
    · subst hn
      simp [GoMap.getBool, GoMap.get?, GoMap.entries_set, List.lookup]
    · have hb : (n == name r) = false := by simpa using hn
      have hne : ¬ name r = n := fun h => hn h.symm
      simp [GoMap.getBool, GoMap.get?, GoMap.entries_set, List.lookup, hb, hn, hne]

/-- The requests posted by the loop of `applyObjectRelationships`: one for each
relationship whose name is not recorded, in order, up to the first hard failure. -/
theorem objectLoop_spec (net : Transport) (cfg : Config) (table : TrackTable)
    (names : GoMap Bool) (rels : List ObjectRelationshipConfig) (trace : List Request) :
    ∃ issued : List ObjectRelationshipConfig,
      (applyObjectRelationships.loop net cfg table names rels trace).2
        = trace ++ issued.map
            (fun rel => Request.createObjectRelationship (objectRelationshipRequest table rel)) ∧
      issued <+: rels.filter (fun rel => !names.getBool rel.Name) ∧
      ((applyObjectRelationships.loop net cfg table names rels trace).1 = none →
        issued = rels.filter (fun rel => !names.getBool rel.Name)) := by
  induction rels generalizing trace with
  | nil => exact ⟨[], by simp [applyObjectRelationships.loop]⟩
  | cons rel rest ih =>
    by_cases hn : names.getBool rel.Name = true
    · obtain ⟨issued, h1, h2, h3⟩ := ih trace
      refine ⟨issued, ?_, ?_, ?_⟩
      · simpa [applyObjectRelationships.loop, hn] using h1
      · simpa [List.filter_cons, hn] using h2
      · simpa [applyObjectRelationships.loop, List.filter_cons, hn] using h3
    · have hstep : ∀ r, applyObjectRelationships.loop net cfg table names rest
            (trace ++ [Request.createObjectRelationship (objectRelationshipRequest table rel)]) = r →
          ∃ issued : List ObjectRelationshipConfig,
            r.2 = trace ++ issued.map
              (fun rel => Request.createObjectRelationship (objectRelationshipRequest table rel)) ∧
            issued <+: (rel :: rest).filter (fun rel => !names.getBool rel.Name) ∧
            (r.1 = none → issued = (rel :: rest).filter (fun rel => !names.getBool rel.Name)) := by
        intro r hr
        obtain ⟨issued, h1, h2, h3⟩ := ih
          (trace ++ [Request.createObjectRelationship (objectRelationshipRequest table rel)])
        rw [hr] at h1 h3
        refine ⟨rel :: issued, ?_, ?_, ?_⟩
        · simpa using h1
        · simpa [List.filter_cons, hn] using h2
        · intro hnone
          simpa [List.filter_cons, hn] using h3 hnone
      rw [applyObjectRelationships.loop]
      simp only [hn, Bool.false_eq_true, if_false, postMetadata]
      cases hnet : net trace
          (Request.createObjectRelationship (objectRelationshipRequest table rel)) with
      | ok body => exact hstep _ rfl
      | error err =>
        by_cases hc : err.hasCode errorCodeAlreadyExists = true
        · simp only [hc, if_true]
          exact hstep _ rfl
        · simp only [hc, Bool.false_eq_true, if_false]
          refine ⟨[rel], by simp, ?_, by simp⟩
          simp [List.filter_cons, hn]

/-- The requests posted by the loop of `applyArrayRelationships`: one for each
relationship whose name is not recorded, in order, up to the first hard failure. -/
theorem arrayLoop_spec (net : Transport) (cfg : Config) (table : TrackTable)
    (names : GoMap Bool) (rels : List ArrayRelationshipConfig) (trace : List Request) :
    ∃ issued : List ArrayRelationshipConfig,
      (applyArrayRelationships.loop net cfg table names rels trace).2
        = trace ++ issued.map
            (fun rel => Request.createArrayRelationship (arrayRelationshipRequest table rel)) ∧
      issued <+: rels.filter (fun rel => !names.getBool rel.Name) ∧
      ((applyArrayRelationships.loop net cfg table names rels trace).1 = none →
        issued = rels.filter (fun rel => !names.getBool rel.Name)) := by
  induction rels generalizing trace with
  | nil => exact ⟨[], by simp [applyArrayRelationships.loop]⟩
  | cons rel rest ih =>
    by_cases hn : names.getBool rel.Name = true
    · obtain ⟨issued, h1, h2, h3⟩ := ih trace
      refine ⟨issued, ?_, ?_, ?_⟩
      · simpa [applyArrayRelationships.loop, hn] using h1
      · simpa [List.filter_cons, hn] using h2
      · simpa [applyArrayRelationships.loop, List.filter_cons, hn] using h3
    · have hstep : ∀ r, applyArrayRelationships.loop net cfg table names rest
            (trace ++ [Request.createArrayRelationship (arrayRelationshipRequest table rel)]) = r →
          ∃ issued : List ArrayRelationshipConfig,
            r.2 = trace ++ issued.map
              (fun rel => Request.createArrayRelationship (arrayRelationshipRequest table rel)) ∧
            issued <+: (rel :: rest).filter (fun rel => !names.getBool rel.Name) ∧
            (r.1 = none → issued = (rel :: rest).filter (fun rel => !names.getBool rel.Name)) := by
        intro r hr
        obtain ⟨issued, h1, h2, h3⟩ := ih
          (trace ++ [Request.createArrayRelationship (arrayRelationshipRequest table rel)])
        rw [hr] at h1 h3
        refine ⟨rel :: issued, ?_, ?_, ?_⟩
        · simpa using h1
        · simpa [List.filter_cons, hn] using h2
        · intro hnone
          simpa [List.filter_cons, hn] using h3 hnone
      rw [applyArrayRelationships.loop]
      simp only [hn, Bool.false_eq_true, if_false, postMetadata]
      cases hnet : net trace
          (Request.createArrayRelationship (arrayRelationshipRequest table rel)) with
      | ok body => exact hstep _ rfl
      | error err =>
        by_cases hc : err.hasCode errorCodeAlreadyExists = true
        · simp only [hc, if_true]
          exact hstep _ rfl
        · simp only [hc, Bool.false_eq_true, if_false]
          refine ⟨[rel], by simp, ?_, by simp⟩
          simp [List.filter_cons, hn]

theorem applyObjectRelationships_spec (net : Transport) (cfg : Config) (table : TrackTable)
    (existing : List ObjectRelationshipConfig) (trace : List Request) :
    ∃ issued : List ObjectRelationshipConfig,
      (applyObjectRelationships net cfg table existing trace).2
        = trace ++ issued.map
            (fun rel => Request.createObjectRelationship (objectRelationshipRequest table rel)) ∧
      issued <+: missingObjectRelationships existing table.Args.ObjectRelationships ∧
      ((applyObjectRelationships net cfg table existing trace).1 = none →
        issued = missingObjectRelationships existing table.Args.ObjectRelationships) := by
  have hf : (mergeObjectRelationships existing table.Args.ObjectRelationships).filter
        (fun rel => !(existing.foldl (fun m r => m.set r.Name true)
            (GoMap.make : GoMap Bool)).getBool rel.Name)
      = missingObjectRelationships existing table.Args.ObjectRelationships := by
    unfold missingObjectRelationships
    apply List.filter_congr
    intro rel _
    rw [existingNames_getBool ObjectRelationshipConfig.Name]
    by_cases hm : rel.Name ∈ existing.map ObjectRelationshipConfig.Name
    · have hm2 := hm
      simp only [List.mem_map] at hm2
      obtain ⟨e, he, hen⟩ := hm2
      have : ¬ ∀ e ∈ existing, e.Name ≠ rel.Name := fun h => h e he hen
      simp [hm, this, GoMap.getBool, GoMap.get?, GoMap.make, GoMap.entries]
    · have : ∀ e ∈ existing, e.Name ≠ rel.Name := fun e he hen =>
        hm (List.mem_map.mpr ⟨e, he, hen⟩)
      simp [hm, GoMap.getBool, GoMap.get?, GoMap.make, GoMap.entries]
      exact this
  have h := objectLoop_spec net cfg table
    (existing.foldl (fun m r => m.set r.Name true) (GoMap.make : GoMap Bool))
    (mergeObjectRelationships existing table.Args.ObjectRelationships) trace
  rw [hf] at h
  exact h

theorem applyArrayRelationships_spec (net : Transport) (cfg : Config) (table : TrackTable)
    (existing : List ArrayRelationshipConfig) (trace : List Request) :
    ∃ issued : List ArrayRelationshipConfig,
      (applyArrayRelationships net cfg table existing trace).2
        = trace ++ issued.map
            (fun rel => Request.createArrayRelationship (arrayRelationshipRequest table rel)) ∧
      issued <+: missingArrayRelationships existing table.Args.ArrayRelationships ∧
      ((applyArrayRelationships net cfg table existing trace).1 = none →
        issued = missingArrayRelationships existing table.Args.ArrayRelationships) := by
  have hf : (mergeArrayRelationships existing table.Args.ArrayRelationships).filter
        (fun rel => !(existing.foldl (fun m r => m.set r.Name true)
            (GoMap.make : GoMap Bool)).getBool rel.Name)
      = missingArrayRelationships existing table.Args.ArrayRelationships := by
    unfold missingArrayRelationships
    apply List.filter_congr
    intro rel _
    rw [existingNames_getBool ArrayRelationshipConfig.Name]
    by_cases hm : rel.Name ∈ existing.map ArrayRelationshipConfig.Name
    · have hm2 := hm
      simp only [List.mem_map] at hm2
      obtain ⟨e, he, hen⟩ := hm2
      have : ¬ ∀ e ∈ existing, e.Name ≠ rel.Name := fun h => h e he hen
      simp [hm, this, GoMap.getBool, GoMap.get?, GoMap.make, GoMap.entries]
    · have : ∀ e ∈ existing, e.Name ≠ rel.Name := fun e he hen =>
        hm (List.mem_map.mpr ⟨e, he, hen⟩)
      simp [hm, GoMap.getBool, GoMap.get?, GoMap.make, GoMap.entries]
      exact this
  have h := arrayLoop_spec net cfg table
    (existing.foldl (fun m r => m.set r.Name true) (GoMap.make : GoMap Bool))
    (mergeArrayRelationships existing table.Args.ArrayRelationships) trace
  rw [hf] at h
  exact h

/-- Phase B posts, table by table, a prefix of the create requests of the
tables, and all of them when it returns no error. -/
theorem relationshipLoop_spec (net : Transport) (cfg : Config)
    (existingMeta : GoMap existingTableMetadata) (tables : List TrackTable)
    (trace : List Request) :
    ∃ issued : List Request,
      (ApplyMetadata.relationshipLoop net cfg existingMeta tables trace).2 = trace ++ issued ∧
      issued <+: tables.flatMap (relationshipRequests existingMeta) ∧
      ((ApplyMetadata.relationshipLoop net cfg existingMeta tables trace).1 = none →
        issued = tables.flatMap (relationshipRequests existingMeta)) := by
  induction tables generalizing trace with
  | nil => exact ⟨[], by simp [ApplyMetadata.relationshipLoop]⟩
  | cons table rest ih =>
    obtain ⟨io, ho1, ho2, ho3⟩ := applyObjectRelationships_spec net cfg table
      (existingMeta.getD (tableKey table.Args.Table)
        existingTableMetadata.zero).ObjectRelationships trace
    rw [ApplyMetadata.relationshipLoop]
    cases hobj : applyObjectRelationships net cfg table
        (existingMeta.getD (tableKey table.Args.Table)
          existingTableMetadata.zero).ObjectRelationships trace with
    | mk eo tro =>
      rw [hobj] at ho1 ho3
      try dsimp only at ho1 ho3
      cases eo with
      | some err =>
        refine ⟨_, ho1, ?_, by simp⟩
        rw [List.flatMap_cons, relationshipRequests, List.append_assoc]
        exact (ho2.map _).trans (List.prefix_append _ _)
      | none =>
        have hio := ho3 rfl
        subst hio
        obtain ⟨ia, ha1, ha2, ha3⟩ := applyArrayRelationships_spec net cfg table
          (existingMeta.getD (tableKey table.Args.Table)
            existingTableMetadata.zero).ArrayRelationships tro
        try dsimp only
        cases harr : applyArrayRelationships net cfg table
            (existingMeta.getD (tableKey table.Args.Table)
              existingTableMetadata.zero).ArrayRelationships tro with
        | mk ea tra =>
          rw [harr] at ha1 ha3
          try dsimp only at ha1 ha3
          cases ea with
          | some err =>
            refine ⟨_, by rw [ha1, ho1, List.append_assoc], ?_, by simp⟩
            rw [List.flatMap_cons, relationshipRequests, List.append_assoc]
            apply (List.prefix_append_right_inj _).mpr
            exact (ha2.map _).trans (List.prefix_append _ _)
          | none =>
            have hia := ha3 rfl
            subst hia
            obtain ⟨ir, hr1, hr2, hr3⟩ := ih tra
            try dsimp only
            refine ⟨relationshipRequests existingMeta table ++ ir, ?_, ?_, ?_⟩
            · rw [hr1, ha1, ho1, relationshipRequests]
              simp [List.append_assoc]
            · rw [List.flatMap_cons]
              exact (List.prefix_append_right_inj _).mpr hr2
            · intro hn
              rw [List.flatMap_cons, hr3 hn]

/-- Phase A posts, table by table, a track request optionally followed by a
customization request, up to the first hard failure. -/
theorem trackLoop_spec (net : Transport) (cfg : Config)
    (existingMeta : GoMap existingTableMetadata) (tables : List TrackTable)
    (trace : List Request) :
    ∃ customized : List Bool, customized.length = tables.length ∧
      ∃ issued : List Request,
        (ApplyMetadata.trackLoop net cfg existingMeta tables trace).2 = trace ++ issued ∧
        issued <+: trackRequests existingMeta (tables.zip customized) ∧
        ((ApplyMetadata.trackLoop net cfg existingMeta tables trace).1 = none →
          issued = trackRequests existingMeta (tables.zip customized)) := by
  induction tables generalizing trace with
  | nil => exact ⟨[], rfl, [], by simp [ApplyMetadata.trackLoop, trackRequests]⟩
  | cons table rest ih =>
    rw [ApplyMetadata.trackLoop]
    simp only [postMetadata]
    cases hnet : net trace (Request.trackTable table) with
    | ok body =>
      obtain ⟨flags, hlen, issued, h1, h2, h3⟩ := ih (trace ++ [Request.trackTable table])
      refine ⟨false :: flags, by simp [hlen], Request.trackTable table :: issued, ?_, ?_, ?_⟩
      · simpa using h1
      · simpa [trackRequests] using h2
      · intro hn
        simpa [trackRequests] using h3 hn
    | error err =>
      by_cases hc : err.hasCode errorCodeAlreadyTracked = true
      · simp only [hc, if_true, applyTableCustomization_eq]
        cases hset : net (trace ++ [Request.trackTable table])
            (Request.setTableCustomization (customizationRequest table
              (existingMeta.getD (tableKey table.Args.Table)
                existingTableMetadata.zero).Configuration)) with
        | ok body =>
          obtain ⟨flags, hlen, issued, h1, h2, h3⟩ := ih
            (trace ++ [Request.trackTable table] ++
              [Request.setTableCustomization (customizationRequest table
                (existingMeta.getD (tableKey table.Args.Table)
                  existingTableMetadata.zero).Configuration)])
          refine ⟨true :: flags, by simp [hlen],
            Request.trackTable table :: Request.setTableCustomization (customizationRequest table
                (existingMeta.getD (tableKey table.Args.Table)
                  existingTableMetadata.zero).Configuration) :: issued, ?_, ?_, ?_⟩
          · simpa using h1
          · simpa [trackRequests] using h2
          · intro hn
            simpa [trackRequests] using h3 hn
        | error err2 =>
          refine ⟨true :: List.replicate rest.length false, by simp,
            [Request.trackTable table, Request.setTableCustomization (customizationRequest table
                (existingMeta.getD (tableKey table.Args.Table)
                  existingTableMetadata.zero).Configuration)], ?_, ?_, ?_⟩
          · simp
          · simp [trackRequests]
          · simp
      · simp only [hc, Bool.false_eq_true, if_false]
        refine ⟨false :: List.replicate rest.length false, by simp,
          [Request.trackTable table], by simp, ?_, by simp⟩
        simp [trackRequests]

/-- In Phase A, a track request answered with the already-tracked marker is
followed at once by the customization request of the same table. -/
theorem trackLoop_customizes (net : Transport) (cfg : Config)
    (existingMeta : GoMap existingTableMetadata) (tables : List TrackTable)
    (trace before after : List Request) (t : TrackTable) (e : GoError)
    (hrun : (ApplyMetadata.trackLoop net cfg existingMeta tables trace).2
      = trace ++ (before ++ Request.trackTable t :: after))
    (hans : net (trace ++ before) (Request.trackTable t) = Except.error e)
    (hcode : e.hasCode errorCodeAlreadyTracked = true) :
    ∃ rest, after = Request.setTableCustomization
      (customizationRequest t
        (existingMeta.getD (tableKey t.Args.Table) existingTableMetadata.zero).Configuration)
      :: rest := by
  induction tables generalizing trace before with
  | nil =>
    simp [ApplyMetadata.trackLoop] at hrun
  | cons table rest ih =>
    rw [ApplyMetadata.trackLoop] at hrun
    simp only [postMetadata] at hrun
    cases hnet : net trace (Request.trackTable table) with
    | ok body =>
      rw [hnet] at hrun
      simp only [] at hrun
      obtain ⟨_, _, issued, h1, _, _⟩ := trackLoop_spec net cfg existingMeta rest
        (trace ++ [Request.trackTable table])
      cases before with
      | nil =>
        rw [h1] at hrun
        simp at hrun
        obtain ⟨ht, _⟩ := hrun
        subst ht
        simp [hnet] at hans
      | cons b before' =>
        have hb : b = Request.trackTable table := by
          rw [h1] at hrun
          simp at hrun
          exact hrun.1.symm
        subst hb
        exact ih (trace ++ [Request.trackTable table]) before'
          (by simpa using hrun) (by simpa using hans)
    | error err =>
      rw [hnet] at hrun
      simp only [] at hrun
      by_cases hc : err.hasCode errorCodeAlreadyTracked = true
      · simp only [hc, if_true, applyTableCustomization_eq] at hrun
        cases hset : net (trace ++ [Request.trackTable table])
            (Request.setTableCustomization (customizationRequest table
              (existingMeta.getD (tableKey table.Args.Table)
                existingTableMetadata.zero).Configuration)) with
        | ok body =>
          rw [hset] at hrun
          simp only [] at hrun
          obtain ⟨_, _, issued, h1, _, _⟩ := trackLoop_spec net cfg existingMeta rest
            (trace ++ [Request.trackTable table] ++
              [Request.setTableCustomization (customizationRequest table
                (existingMeta.getD (tableKey table.Args.Table)
                  existingTableMetadata.zero).Configuration)])
          cases before with
          | nil =>
            rw [h1] at hrun
            simp at hrun
            obtain ⟨ht, hafter⟩ := hrun
            subst ht
            exact ⟨issued, hafter.symm⟩
          | cons b before' =>
            cases before' with
            | nil =>
              rw [h1] at hrun
              simp at hrun
            | cons b' before'' =>
              have hb : b = Request.trackTable table ∧
                  b' = Request.setTableCustomization (customizationRequest table
                    (existingMeta.getD (tableKey table.Args.Table)
                      existingTableMetadata.zero).Configuration) := by
                rw [h1] at hrun
                simp at hrun
                exact ⟨hrun.1.symm, hrun.2.1.symm⟩
              obtain ⟨hb1, hb2⟩ := hb
              subst hb1 hb2
              exact ih (trace ++ [Request.trackTable table] ++
                  [Request.setTableCustomization (customizationRequest table
                    (existingMeta.getD (tableKey table.Args.Table)
                      existingTableMetadata.zero).Configuration)]) before''
                (by simpa using hrun) (by simpa using hans)
        | error err2 =>
          rw [hset] at hrun
          simp only [] at hrun
          cases before with
          | nil =>
            simp at hrun
            obtain ⟨ht, hafter⟩ := hrun
            subst ht
            exact ⟨[], hafter.symm⟩
          | cons b before' =>
            cases before' with
            | nil => simp at hrun
            | cons b' before'' => simp at hrun
      · simp only [hc, Bool.false_eq_true, if_false] at hrun
        cases before with
        | nil =>
          simp at hrun
          obtain ⟨ht, _⟩ := hrun
          subst ht
          simp only [List.append_nil] at hans
          rw [hnet] at hans
          cases hans
          exact absurd hcode hc
        | cons b before' => simp at hrun

theorem trackRequests_isTrackOrCustomize (existingMeta : GoMap existingTableMetadata)
    (tables : List (TrackTable × Bool)) (r : Request)
    (h : r ∈ trackRequests existingMeta tables) : r.isTrackOrCustomize = true := by
  unfold trackRequests at h
  rw [List.mem_flatMap] at h
  obtain ⟨p, _, hp⟩ := h
  rw [List.mem_cons] at hp
  rcases hp with hp | hp
  · subst hp; rfl
  · by_cases hf : p.2 = true
    · simp [hf] at hp
      subst hp; rfl
    · simp [hf] at hp

theorem relationshipRequests_isCreate (existingMeta : GoMap existingTableMetadata)
    (tables : List TrackTable) (r : Request)
    (h : r ∈ tables.flatMap (relationshipRequests existingMeta)) : r.isCreate = true := by
  rw [List.mem_flatMap] at h
  obtain ⟨t, _, ht⟩ := h
  unfold relationshipRequests at ht
  rw [List.mem_append, List.mem_map, List.mem_map] at ht
  rcases ht with ⟨_, _, hr⟩ | ⟨_, _, hr⟩ <;> (subst hr; rfl)

/-- Only the desired relationships can be missing: the filter of Phase B drops
every element the merge took from the existing side. -/
theorem missingObjectRelationships_eq (existing desired : List ObjectRelationshipConfig) :
    missingObjectRelationships existing desired
      = desired.filter (fun rel => decide (∀ e ∈ existing, e.Name ≠ rel.Name)) := by
  unfold missingObjectRelationships
  rw [mergeObjectRelationships_eq, List.filter_append]
  have : (existing.filter (fun r => decide (r.Name ∉ desired.map (·.Name)))).filter
      (fun rel => decide (∀ e ∈ existing, e.Name ≠ rel.Name)) = [] := by
    rw [List.filter_eq_nil_iff]
    intro a ha
    have hmem := (List.mem_filter.mp ha).1
    simp only [decide_eq_true_eq]
    exact fun h => h a hmem rfl
  rw [this, List.append_nil]

theorem missingArrayRelationships_eq (existing desired : List ArrayRelationshipConfig) :
    missingArrayRelationships existing desired
      = desired.filter (fun rel => decide (∀ e ∈ existing, e.Name ≠ rel.Name)) := by
  unfold missingArrayRelationships
  rw [mergeArrayRelationships_eq, List.filter_append]
  have : (existing.filter (fun r => decide (r.Name ∉ desired.map (·.Name)))).filter
      (fun rel => decide (∀ e ∈ existing, e.Name ≠ rel.Name)) = [] := by
    rw [List.filter_eq_nil_iff]
    intro a ha
    have hmem := (List.mem_filter.mp ha).1
    simp only [decide_eq_true_eq]
    exact fun h => h a hmem rfl
  rw [this, List.append_nil]

/-- A stored configuration that parses is not empty. -/
theorem unmarshalJSON_ok_nonEmpty (c E : Configuration) (raw : RawMessage)
    (h : Configuration.UnmarshalJSON c raw = Except.ok E) : raw.nonEmpty = true := by
  cases raw with
  | valid v => rfl
  | nil => simp [Configuration.UnmarshalJSON, unmarshalConfigurationAlias] at h
  | invalid bytes => simp [Configuration.UnmarshalJSON, unmarshalConfigurationAlias] at h

theorem customizationRequest_of_parsed (table : TrackTable) (raw : RawMessage)
    (E : Configuration)
    (h : Configuration.UnmarshalJSON Configuration.zero raw = Except.ok E) :
    customizationRequest table raw
      = { Type_ := "pg_set_table_customization"
          Args := { Source := table.Args.Source
                    Table := table.Args.Table
                    Configuration := mergeConfiguration E table.Args.Configuration } } := by
  unfold customizationRequest
  rw [unmarshalJSON_ok_nonEmpty _ _ _ h, h]
  rfl

/-- `ApplyMetadata` is the export request followed by the two loops. -/
theorem ApplyMetadata_eq (net : Transport) (cfg : Config) (tables : List TrackTable)
    (trace : List Request) :
    ApplyMetadata net cfg tables trace
      = match ApplyMetadata.trackLoop net cfg (ApplyMetadata.baseline net cfg trace) tables
            (trace ++ [exportRequest]) with
        | (some err, trA) => (some err, trA)
        | (none, trA) =>
          ApplyMetadata.relationshipLoop net cfg (ApplyMetadata.baseline net cfg trace)
            tables trA := by
  unfold ApplyMetadata
  simp only [fetchExistingTableMetadata_trace]

/-- The trace of a run: the export request, the requests of Phase A, the
requests of Phase B (none unless Phase A went through). -/
theorem ApplyMetadata_trace (net : Transport) (cfg : Config) (tables : List TrackTable)
    (trace : List Request) :
    ∃ issued : List Request,
      (ApplyMetadata net cfg tables trace).2
        = (ApplyMetadata.trackLoop net cfg (ApplyMetadata.baseline net cfg trace) tables
            (trace ++ [exportRequest])).2 ++ issued ∧
      issued <+: tables.flatMap (relationshipRequests (ApplyMetadata.baseline net cfg trace)) ∧
      (issued ≠ [] →
        (ApplyMetadata.trackLoop net cfg (ApplyMetadata.baseline net cfg trace) tables
            (trace ++ [exportRequest])).1 = none) ∧
      ((ApplyMetadata net cfg tables trace).1 = none →
        (ApplyMetadata.trackLoop net cfg (ApplyMetadata.baseline net cfg trace) tables
            (trace ++ [exportRequest])).1 = none ∧
        issued = tables.flatMap
          (relationshipRequests (ApplyMetadata.baseline net cfg trace))) := by
  rw [ApplyMetadata_eq]
  cases hA : ApplyMetadata.trackLoop net cfg (ApplyMetadata.baseline net cfg trace) tables
      (trace ++ [exportRequest]) with
  | mk eA trA =>
    cases eA with
    | some err => exact ⟨[], by simp⟩
    | none =>
      obtain ⟨issued, h1, h2, h3⟩ := relationshipLoop_spec net cfg
        (ApplyMetadata.baseline net cfg trace) tables trA
      refine ⟨issued, ?_, h2, fun _ => rfl, fun hn => ⟨rfl, h3 ?_⟩⟩
      · simpa using h1
      · simpa using hn

/-! ## Phase A: customization of tracked tables -/

/-- C7: in any run, a `pg_track_table` request that is answered with the
already-tracked marker, for a table whose baseline configuration parses to `E`,
is followed at once by the `pg_set_table_customization` request for the same
source and table carrying `mergeConfiguration E desired`; and for a single
declared table all of whose relationships are in the baseline, the run posts
`export_metadata`, `pg_track_table`, `pg_set_table_customization` and nothing else. -/
theorem applyMetadata_merges_when_already_tracked (net : Transport) (cfg : Config)
    (trace₀ : List Request) :
    (∀ (tables : List TrackTable) (before after : List Request) (t : TrackTable)
        (e : GoError) (E : Configuration),
      (ApplyMetadata net cfg tables trace₀).2
          = trace₀ ++ (before ++ Request.trackTable t :: after) →
      net (trace₀ ++ before) (Request.trackTable t) = Except.error e →
      e.hasCode errorCodeAlreadyTracked = true →
      Configuration.UnmarshalJSON Configuration.zero
          ((ApplyMetadata.baseline net cfg trace₀).getD (tableKey t.Args.Table)
            existingTableMetadata.zero).Configuration = Except.ok E →
      ∃ rest, after = Request.setTableCustomization
          { Type_ := "pg_set_table_customization"
            Args := { Source := t.Args.Source
                      Table := t.Args.Table
                      Configuration := mergeConfiguration E t.Args.Configuration } }
        :: rest) ∧
    (∀ (t : TrackTable) (e : GoError) (E : Configuration),
      net (trace₀ ++ [exportRequest]) (Request.trackTable t) = Except.error e →
      e.hasCode errorCodeAlreadyTracked = true →
      Configuration.UnmarshalJSON Configuration.zero
          ((ApplyMetadata.baseline net cfg trace₀).getD (tableKey t.Args.Table)
            existingTableMetadata.zero).Configuration = Except.ok E →
      (∀ r ∈ t.Args.ObjectRelationships,
        ∃ x ∈ ((ApplyMetadata.baseline net cfg trace₀).getD (tableKey t.Args.Table)
          existingTableMetadata.zero).ObjectRelationships, x.Name = r.Name) →
      (∀ r ∈ t.Args.ArrayRelationships,
        ∃ x ∈ ((ApplyMetadata.baseline net cfg trace₀).getD (tableKey t.Args.Table)
          existingTableMetadata.zero).ArrayRelationships, x.Name = r.Name) →
      (ApplyMetadata net cfg [t] trace₀).2
        = trace₀ ++ [exportRequest, Request.trackTable t,
            Request.setTableCustomization
              { Type_ := "pg_set_table_customization"
                Args := { Source := t.Args.Source
                          Table := t.Args.Table
                          Configuration := mergeConfiguration E t.Args.Configuration } }]) := by
  constructor
  · intro tables before after t e E hrun hans hcode hparse
    obtain ⟨issuedB, hB1, hB2, _, _⟩ := ApplyMetadata_trace net cfg tables trace₀
    obtain ⟨flags, _, issuedA, hA1, _, _⟩ := trackLoop_spec net cfg
      (ApplyMetadata.baseline net cfg trace₀) tables (trace₀ ++ [exportRequest])
    rw [hB1, hA1] at hrun
    have hcreate : ∀ r ∈ issuedB, r.isCreate = true := fun r hr =>
      relationshipRequests_isCreate _ tables r (hB2.subset hr)
    have hrun2 : exportRequest :: (issuedA ++ issuedB)
        = before ++ Request.trackTable t :: after := by
      have := hrun
      simp only [List.append_assoc, List.singleton_append] at this
      exact List.append_cancel_left this
    cases before with
    | nil =>
      simp [exportRequest] at hrun2
    | cons b before' =>
      simp only [List.cons_append, List.cons.injEq] at hrun2
      obtain ⟨hb, hrest⟩ := hrun2
      subst hb
      rw [List.append_eq_append_iff] at hrest
      rw [← customizationRequest_of_parsed t _ E hparse]
      rcases hrest with ⟨a', _, ha2⟩ | ⟨c', hc1, hc2⟩
      · have hmem : Request.trackTable t ∈ issuedB := by
          rw [ha2]
          simp
        have := hcreate _ hmem
        simp [Request.isCreate] at this
      · cases c' with
        | nil =>
          have hmem : Request.trackTable t ∈ issuedB := by
            rw [List.nil_append] at hc2
            rw [← hc2]
            exact List.mem_cons_self _ _
          have := hcreate _ hmem
          simp [Request.isCreate] at this
        | cons x c'' =>
          simp only [List.cons_append, List.cons.injEq] at hc2
          obtain ⟨hx, hafter⟩ := hc2
          subst hx
          obtain ⟨rest, hrest⟩ := trackLoop_customizes net cfg
            (ApplyMetadata.baseline net cfg trace₀) tables (trace₀ ++ [exportRequest])
            before' c'' t e
            (by rw [hA1, hc1])
            (by simpa using hans) hcode
          exact ⟨rest ++ issuedB, by rw [hafter, hrest]; rfl⟩
  · intro t e E hans hcode hparse hobj harr
    rw [← customizationRequest_of_parsed t _ E hparse]
    have hmissing : relationshipRequests (ApplyMetadata.baseline net cfg trace₀) t = [] := by
      unfold relationshipRequests
      rw [missingObjectRelationships_eq, missingArrayRelationships_eq]
      have h1 : t.Args.ObjectRelationships.filter
          (fun rel => decide (∀ e ∈ ((ApplyMetadata.baseline net cfg trace₀).getD
            (tableKey t.Args.Table) existingTableMetadata.zero).ObjectRelationships,
            e.Name ≠ rel.Name)) = [] := by
        rw [List.filter_eq_nil_iff]
        intro r hr
        obtain ⟨x, hx, hxn⟩ := hobj r hr
        simp only [decide_eq_true_eq]
        exact fun h => h x hx hxn
      have h2 : t.Args.ArrayRelationships.filter
          (fun rel => decide (∀ e ∈ ((ApplyMetadata.baseline net cfg trace₀).getD
            (tableKey t.Args.Table) existingTableMetadata.zero).ArrayRelationships,
            e.Name ≠ rel.Name)) = [] := by
        rw [List.filter_eq_nil_iff]
        intro r hr
        obtain ⟨x, hx, hxn⟩ := harr r hr
        simp only [decide_eq_true_eq]
        exact fun h => h x hx hxn
      rw [h1, h2]
      rfl
    obtain ⟨issuedB, hB1, hB2, _, _⟩ := ApplyMetadata_trace net cfg [t] trace₀
    have hB : issuedB = [] := by
      simpa [hmissing] using hB2
    rw [hB1, hB, List.append_nil, ApplyMetadata.trackLoop]
    simp only [postMetadata, hans, hcode, if_true, applyTableCustomization_eq]
    cases net (trace₀ ++ [exportRequest] ++ [Request.trackTable t])
        (Request.setTableCustomization (customizationRequest t
          ((ApplyMetadata.baseline net cfg trace₀).getD (tableKey t.Args.Table)
            existingTableMetadata.zero).Configuration)) <;>
      simp [ApplyMetadata.trackLoop]

/-- C7 on the gateway of `TestApplyTableCustomizationWithMerge`: the run for
`auth.users` posts three requests, the last one carrying the desired known
fields together with the unknown fields `column_config` and `select_stream` of
the stored configuration. -/
theorem applyMetadata_merges_when_already_tracked_witness :
    (ApplyMetadata trackedGateway testConfig [usersTable] []).2
      = [exportRequest, Request.trackTable usersTable,
          Request.setTableCustomization
            { Type_ := "pg_set_table_customization"
              Args := { Source := "default"
                        Table := { Schema := "auth", Name := "users" }
                        Configuration :=
                          mergeConfiguration storedConfig usersTable.Args.Configuration } }] ∧
    (∃ rest,
      [Request.setTableCustomization
        { Type_ := "pg_set_table_customization"
          Args := { Source := "default"
                    Table := { Schema := "auth", Name := "users" }
                    Configuration :=
                      mergeConfiguration storedConfig usersTable.Args.Configuration } }]
      = Request.setTableCustomization
          { Type_ := "pg_set_table_customization"
            Args := { Source := usersTable.Args.Source
                      Table := usersTable.Args.Table
                      Configuration :=
                        mergeConfiguration storedConfig usersTable.Args.Configuration } }
        :: rest) ∧
    mergeConfiguration storedConfig usersTable.Args.Configuration
      = { CustomName := "users_custom"
          CustomRootFields :=
            { CustomRootFields.zero with
              Select := "users_select"
              AdditionalProperties :=
                GoMap.mk [("select_stream", RawMessage.valid (JSON.str "old_stream"))] }
          CustomColumnNames := GoMap.mk [("id", "users_id")]
          AdditionalProperties :=
            GoMap.mk [("column_config",
              RawMessage.valid (JSON.obj [("id", JSON.obj [("comment", JSON.str "pk")])]))] } :=
  ⟨(applyMetadata_merges_when_already_tracked trackedGateway testConfig []).2 usersTable
      (GoError.apiError errorCodeAlreadyTracked "already tracked") storedConfig
      (by rfl) (by decide) (by decide) (by decide) (by decide),
   (applyMetadata_merges_when_already_tracked trackedGateway testConfig []).1 [usersTable]
      [exportRequest] _ usersTable
      (GoError.apiError errorCodeAlreadyTracked "already tracked") storedConfig
      (by decide) (by rfl) (by decide) (by decide),
   by decide⟩

/-! ## Phase B and the shape of a run -/

theorem isCreate_of_isTrackOrCustomize (r : Request) (h : r.isTrackOrCustomize = true) :
    r.isCreate = false := by
  cases r <;> simp_all [Request.isCreate, Request.isTrackOrCustomize]

/-- The requests of a run, split into the export request, Phase A and Phase B. -/
theorem ApplyMetadata_phases (net : Transport) (cfg : Config) (tables : List TrackTable)
    (trace₀ : List Request) :
    ∃ (customized : List Bool) (phaseA phaseB : List Request),
      customized.length = tables.length ∧
      (ApplyMetadata net cfg tables trace₀).2
        = trace₀ ++ exportRequest :: (phaseA ++ phaseB) ∧
      phaseA <+: trackRequests (ApplyMetadata.baseline net cfg trace₀)
        (tables.zip customized) ∧
      phaseB <+: tables.flatMap (relationshipRequests (ApplyMetadata.baseline net cfg trace₀)) ∧
      (phaseB ≠ [] →
        phaseA = trackRequests (ApplyMetadata.baseline net cfg trace₀)
          (tables.zip customized)) ∧
      ((ApplyMetadata net cfg tables trace₀).1 = none →
        phaseA = trackRequests (ApplyMetadata.baseline net cfg trace₀)
          (tables.zip customized) ∧
        phaseB = tables.flatMap
          (relationshipRequests (ApplyMetadata.baseline net cfg trace₀))) := by
  obtain ⟨issuedB, hB1, hB2, hB3, hB4⟩ := ApplyMetadata_trace net cfg tables trace₀
  obtain ⟨flags, hlen, issuedA, hA1, hA2, hA3⟩ := trackLoop_spec net cfg
    (ApplyMetadata.baseline net cfg trace₀) tables (trace₀ ++ [exportRequest])
  refine ⟨flags, issuedA, issuedB, hlen, ?_, hA2, hB2, fun hne => hA3 (hB3 hne),
    fun hn => ⟨hA3 (hB4 hn).1, (hB4 hn).2⟩⟩
  rw [hB1, hA1]
  simp

/-- The create requests among the requests a run adds to the trace. -/
theorem ApplyMetadata_creates (net : Transport) (cfg : Config) (tables : List TrackTable)
    (trace₀ : List Request) :
    ∃ (customized : List Bool) (phaseA phaseB : List Request),
      (ApplyMetadata net cfg tables trace₀).2
        = trace₀ ++ exportRequest :: (phaseA ++ phaseB) ∧
      phaseA <+: trackRequests (ApplyMetadata.baseline net cfg trace₀)
        (tables.zip customized) ∧
      phaseB <+: tables.flatMap (relationshipRequests (ApplyMetadata.baseline net cfg trace₀)) ∧
      ((ApplyMetadata net cfg tables trace₀).1 = none →
        phaseB = tables.flatMap
          (relationshipRequests (ApplyMetadata.baseline net cfg trace₀))) ∧
      (((ApplyMetadata net cfg tables trace₀).2.drop trace₀.length).filter Request.isCreate
        = phaseB) := by
  obtain ⟨flags, phaseA, phaseB, _, hrun, hA, hB, _, hnone⟩ :=
    ApplyMetadata_phases net cfg tables trace₀
  refine ⟨flags, phaseA, phaseB, hrun, hA, hB, fun hn => (hnone hn).2, ?_⟩
  rw [hrun, List.drop_left, List.filter_cons, List.filter_append]
  have h1 : phaseA.filter Request.isCreate = [] := by
    rw [List.filter_eq_nil_iff]
    intro r hr
    have := isCreate_of_isTrackOrCustomize r
      (trackRequests_isTrackOrCustomize _ _ r (hA.subset hr))
    simp [this]
  have h2 : phaseB.filter Request.isCreate = phaseB := by
    rw [List.filter_eq_self]
    intro r hr
    exact relationshipRequests_isCreate _ tables r (hB.subset hr)
  rw [h1, h2]
  simp [exportRequest, Request.isCreate]

/-- C8: in Phase B the create requests posted for a table are requests for the
missing relationships of that table (those of the merged list whose `Name` is
no `Name` of the existing snapshot), in merged-list order and of the matching
kind, and for no other relationship: a call posts a prefix of that list, cut
only by a hard failure, and the whole list when it returns no error. The same
holds for a whole run: its create requests are, table by table in declared
order, a prefix of the create requests of the tables, and all of them when the
run returns no error. -/
theorem phaseB_creates_exactly_missing (net : Transport) (cfg : Config) :
    (∀ (table : TrackTable) (existing : List ObjectRelationshipConfig)
        (trace : List Request),
      ∃ issued : List ObjectRelationshipConfig,
        (applyObjectRelationships net cfg table existing trace).2
          = trace ++ issued.map
              (fun rel =>
                Request.createObjectRelationship (objectRelationshipRequest table rel)) ∧
        issued <+: missingObjectRelationships existing table.Args.ObjectRelationships ∧
        ((applyObjectRelationships net cfg table existing trace).1 = none →
          issued = missingObjectRelationships existing table.Args.ObjectRelationships)) ∧
    (∀ (table : TrackTable) (existing : List ArrayRelationshipConfig)
        (trace : List Request),
      ∃ issued : List ArrayRelationshipConfig,
        (applyArrayRelationships net cfg table existing trace).2
          = trace ++ issued.map
              (fun rel =>
                Request.createArrayRelationship (arrayRelationshipRequest table rel)) ∧
        issued <+: missingArrayRelationships existing table.Args.ArrayRelationships ∧
        ((applyArrayRelationships net cfg table existing trace).1 = none →
          issued = missingArrayRelationships existing table.Args.ArrayRelationships)) ∧
    (∀ (tables : List TrackTable) (trace₀ : List Request),
      ((ApplyMetadata net cfg tables trace₀).2.drop trace₀.length).filter Request.isCreate
        <+: tables.flatMap (relationshipRequests (ApplyMetadata.baseline net cfg trace₀)) ∧
      ((ApplyMetadata net cfg tables trace₀).1 = none →
        ((ApplyMetadata net cfg tables trace₀).2.drop trace₀.length).filter Request.isCreate
          = tables.flatMap (relationshipRequests (ApplyMetadata.baseline net cfg trace₀)))) := by
  refine ⟨fun table existing trace => applyObjectRelationships_spec net cfg table existing trace,
    fun table existing trace => applyArrayRelationships_spec net cfg table existing trace,
    fun tables trace₀ => ?_⟩
  obtain ⟨_, _, phaseB, _, _, hB, hnone, hcreates⟩ := ApplyMetadata_creates net cfg tables trace₀
  rw [hcreates]
  exact ⟨hB, hnone⟩

/-- C8 on the relationship-union scenario: existing `[A, B]` and desired
`[A, C]` merge to `[A, C, B]`, of which only `C` is missing, and the run posts
a single create request, for `C`. -/
theorem phaseB_creates_exactly_missing_witness :
    mergeObjectRelationships [objRel "A" "a_id", objRel "B" "b_id"]
        [objRel "A" "a_id", objRel "C" "c_id"]
      = [objRel "A" "a_id", objRel "C" "c_id", objRel "B" "b_id"] ∧
    missingObjectRelationships [objRel "A" "a_id", objRel "B" "b_id"]
        [objRel "A" "a_id", objRel "C" "c_id"]
      = [objRel "C" "c_id"] ∧
    ((ApplyMetadata abGateway testConfig [abcTable] []).2.drop 0).filter Request.isCreate
      = [Request.createObjectRelationship
          { Type_ := "pg_create_object_relationship"
            Args := { Table := { Schema := "auth", Name := "users" }
                      Name := "C"
                      Source := "default"
                      Using := { ForeignKeyConstraintOn := ["c_id"] } } }] :=
  ⟨by decide, by decide,
   (((phaseB_creates_exactly_missing abGateway testConfig).2.2 [abcTable] []).2
      (by decide)).trans (by decide)⟩

/-- C9: the requests of a run are the `export_metadata` request, then Phase A,
then Phase B. Phase A is, table by table in declared order, a `pg_track_table`
request optionally followed by a `pg_set_table_customization` request of the
same table; Phase B is, table by table in declared order, the object-relationship
creates of a table followed by its array-relationship creates. A hard failure
cuts the run short (each phase is a prefix of its full list), Phase B starts
only after Phase A covered every table, and a run without error covers every
table in both phases. Phase A holds no other request than these two kinds and
Phase B nothing but create requests, so the export request is the first and
only one and nothing following a create request is a track or customization
request. -/
theorem applyMetadata_trace_shape (net : Transport) (cfg : Config)
    (tables : List TrackTable) (trace₀ : List Request) :
    ∃ (customized : List Bool) (phaseA phaseB : List Request),
      customized.length = tables.length ∧
      (ApplyMetadata net cfg tables trace₀).2
        = trace₀ ++ exportRequest :: (phaseA ++ phaseB) ∧
      phaseA <+: trackRequests (ApplyMetadata.baseline net cfg trace₀)
        (tables.zip customized) ∧
      phaseB <+: tables.flatMap (relationshipRequests (ApplyMetadata.baseline net cfg trace₀)) ∧
      (phaseB ≠ [] →
        phaseA = trackRequests (ApplyMetadata.baseline net cfg trace₀)
          (tables.zip customized)) ∧
      ((ApplyMetadata net cfg tables trace₀).1 = none →
        phaseA = trackRequests (ApplyMetadata.baseline net cfg trace₀)
          (tables.zip customized) ∧
        phaseB = tables.flatMap
          (relationshipRequests (ApplyMetadata.baseline net cfg trace₀))) ∧
      (∀ r ∈ phaseA, r.isTrackOrCustomize = true) ∧
      (∀ r ∈ phaseB, r.isCreate = true) ∧
      (∀ (before after : List Request) (r : Request),
        (ApplyMetadata net cfg tables trace₀).2 = trace₀ ++ (before ++ r :: after) →
        r.isCreate = true →
        ∀ r' ∈ after, r'.isCreate = true ∧ r'.isTrackOrCustomize = false) := by
  obtain ⟨flags, phaseA, phaseB, hlen, hrun, hA, hB, hne, hnone⟩ :=
    ApplyMetadata_phases net cfg tables trace₀
  have hAk : ∀ r ∈ phaseA, r.isTrackOrCustomize = true := fun r hr =>
    trackRequests_isTrackOrCustomize _ _ r (hA.subset hr)
  have hBk : ∀ r ∈ phaseB, r.isCreate = true := fun r hr =>
    relationshipRequests_isCreate _ tables r (hB.subset hr)
  have hBt : ∀ r ∈ phaseB, r.isCreate = true ∧ r.isTrackOrCustomize = false := by
    intro r hr
    have := hBk r hr
    cases r <;> simp_all [Request.isCreate, Request.isTrackOrCustomize]
  refine ⟨flags, phaseA, phaseB, hlen, hrun, hA, hB, hne, hnone, hAk, hBk, ?_⟩
  intro before after r hsplit hr r' hr'
  rw [hrun] at hsplit
  have hsplit2 := List.append_cancel_left hsplit
  cases before with
  | nil =>
    simp only [List.nil_append, List.cons.injEq] at hsplit2
    obtain ⟨hx, _⟩ := hsplit2
    subst hx
    simp [exportRequest, Request.isCreate] at hr
  | cons b before' =>
    simp only [List.cons_append, List.cons.injEq] at hsplit2
    obtain ⟨_, hrest⟩ := hsplit2
    rw [List.append_eq_append_iff] at hrest
    rcases hrest with ⟨a', _, ha2⟩ | ⟨c', hc1, hc2⟩
    · apply hBt
      rw [ha2]
      exact List.mem_append_right _ (List.mem_cons_of_mem _ hr')
    · cases c' with
      | nil =>
        apply hBt
        rw [List.nil_append] at hc2
        rw [← hc2]
        exact List.mem_cons_of_mem _ hr'
      | cons x c'' =>
        simp only [List.cons_append, List.cons.injEq] at hc2
        obtain ⟨hx, _⟩ := hc2
        subst hx
        have hmem : r ∈ phaseA := by
          rw [hc1]
          exact List.mem_append_right _ (List.mem_cons_self _ _)
        have := isCreate_of_isTrackOrCustomize r (hAk r hmem)
        rw [this] at hr
        cases hr

/-- C9 on `makeTable("auth", "users")` against a gateway where the table is
tracked already and its relationships exist: no flag list other than `[true]`
fits the run, whose three requests are the export, the track and the
customization request. -/
theorem applyMetadata_trace_shape_witness :
    ∃ (customized : List Bool) (phaseA phaseB : List Request),
      customized.length = [usersTable].length ∧
      (ApplyMetadata trackedGateway testConfig [usersTable] []).2
        = [] ++ exportRequest :: (phaseA ++ phaseB) ∧
      phaseA <+: trackRequests (ApplyMetadata.baseline trackedGateway testConfig [])
        ([usersTable].zip customized) ∧
      phaseB <+: [usersTable].flatMap
        (relationshipRequests (ApplyMetadata.baseline trackedGateway testConfig [])) ∧
      (phaseB ≠ [] →
        phaseA = trackRequests (ApplyMetadata.baseline trackedGateway testConfig [])
          ([usersTable].zip customized)) ∧
      ((ApplyMetadata trackedGateway testConfig [usersTable] []).1 = none →
        phaseA = trackRequests (ApplyMetadata.baseline trackedGateway testConfig [])
          ([usersTable].zip customized) ∧
        phaseB = [usersTable].flatMap
          (relationshipRequests (ApplyMetadata.baseline trackedGateway testConfig []))) ∧
      (∀ r ∈ phaseA, r.isTrackOrCustomize = true) ∧
      (∀ r ∈ phaseB, r.isCreate = true) ∧
      (∀ (before after : List Request) (r : Request),
        (ApplyMetadata trackedGateway testConfig [usersTable] []).2
          = [] ++ (before ++ r :: after) →
        r.isCreate = true →
        ∀ r' ∈ after, r'.isCreate = true ∧ r'.isTrackOrCustomize = false) :=
  applyMetadata_trace_shape trackedGateway testConfig [usersTable] []

theorem noHardFailure_append (net : Transport) (trace a b : List Request) :
    noHardFailure net trace (a ++ b)
      = (noHardFailure net trace a && noHardFailure net (trace ++ a) b) := by
  induction a generalizing trace with
  | nil => simp [noHardFailure]
  | cons r rs ih =>
    simp [noHardFailure, ih, Bool.and_assoc]

/-- A stage that posts nothing and returns no error. -/
theorem abortsOnHardFailure_nil (net : Transport) (trace : List Request) :
    AbortsOnHardFailure net trace (none, trace) :=
  ⟨[], by simp, Or.inl ⟨rfl, rfl⟩⟩

/-- A request that does not fail hard, followed by a stage. -/
theorem abortsOnHardFailure_cons (net : Transport) (trace : List Request) (r : Request)
    (result : Option GoError × List Request)
    (hr : r.failsHard (net trace r) = false)
    (h : AbortsOnHardFailure net (trace ++ [r]) result) :
    AbortsOnHardFailure net trace result := by
  obtain ⟨issued, h2, h⟩ := h
  refine ⟨r :: issued, by simpa using h2, ?_⟩
  rcases h with ⟨hn, hno⟩ | ⟨pre, r', e, hi, hno, hnet, hf, herr⟩
  · exact Or.inl ⟨hn, by simp [noHardFailure, hr, hno]⟩
  · refine Or.inr ⟨r :: pre, r', e, by simp [hi], by simp [noHardFailure, hr, hno], ?_, hf, herr⟩
    simpa using hnet

/-- A request that fails hard ends the stage. -/
theorem abortsOnHardFailure_abort (net : Transport) (trace : List Request) (r : Request)
    (e : GoError) (hnet : net trace r = Except.error e)
    (hf : r.failsHard (Except.error e) = true) :
    AbortsOnHardFailure net trace (some (abortError r e), trace ++ [r]) :=
  ⟨[r], rfl, Or.inr ⟨[], r, e, rfl, rfl, by simpa using hnet, hf, rfl⟩⟩

/-- Two stages in a row, the second one run when the first returns no error. -/
theorem abortsOnHardFailure_seq (net : Transport) (trace : List Request)
    (first second : Option GoError × List Request)
    (h1 : AbortsOnHardFailure net trace first) (hnone : first.1 = none)
    (h2 : AbortsOnHardFailure net first.2 second) :
    AbortsOnHardFailure net trace second := by
  obtain ⟨i1, e1, h1⟩ := h1
  obtain ⟨i2, e2, h2⟩ := h2
  have hno1 : noHardFailure net trace i1 = true := by
    rcases h1 with ⟨_, hno⟩ | ⟨_, _, _, _, _, _, _, herr⟩
    · exact hno
    · rw [hnone] at herr
      cases herr
  rw [e1] at e2 h2
  refine ⟨i1 ++ i2, by rw [e2, List.append_assoc], ?_⟩
  rcases h2 with ⟨hn, hno⟩ | ⟨pre, r, e, hi, hno, hnet, hf, herr⟩
  · exact Or.inl ⟨hn, by rw [noHardFailure_append, hno1, hno]; rfl⟩
  · refine Or.inr ⟨i1 ++ pre, r, e, by rw [hi, List.append_assoc], ?_, ?_, hf, herr⟩
    · rw [noHardFailure_append, hno1, hno]; rfl
    · rw [← List.append_assoc]
      exact hnet

/-- A stage whose error, if any, is passed on unchanged. -/
theorem abortsOnHardFailure_of_eq (net : Transport) (trace : List Request)
    (a b : Option GoError × List Request) (hab : a = b)
    (h : AbortsOnHardFailure net trace a) : AbortsOnHardFailure net trace b :=
  hab ▸ h

/-- A request answered with a hard failure is the last one of its stage, and
the stage returns the error of that request. -/
theorem abortsOnHardFailure_at (net : Transport) (trace : List Request)
    (result : Option GoError × List Request) (h : AbortsOnHardFailure net trace result)
    (before after : List Request) (r : Request) (e : GoError)
    (hsplit : result.2 = trace ++ (before ++ r :: after))
    (hnet : net (trace ++ before) r = Except.error e)
    (hf : r.failsHard (Except.error e) = true) :
    after = [] ∧ result.1 = some (abortError r e) := by
  obtain ⟨issued, hi, h⟩ := h
  rw [hi] at hsplit
  have hissued : issued = before ++ r :: after := List.append_cancel_left hsplit
  have hhard : ∀ l, noHardFailure net trace (before ++ r :: l) = true → False := by
    intro l hl
    rw [noHardFailure_append] at hl
    simp [noHardFailure, hnet, hf] at hl
  rcases h with ⟨_, hno⟩ | ⟨pre, r', e', hp, hno, hnet', hf', herr⟩
  · rw [hissued] at hno
    exact absurd hno (fun h => hhard after h)
  · rw [hissued] at hp
    rcases List.eq_nil_or_concat after with ha | ⟨after', x, ha⟩
    · subst ha
      have hp2 : before ++ [r] = pre ++ [r'] := hp
      obtain ⟨hb, hr⟩ := List.append_inj' hp2 rfl
      simp only [List.cons.injEq, and_true] at hr
      subst hb hr
      rw [hnet] at hnet'
      cases hnet'
      exact ⟨rfl, herr⟩
    · subst ha
      have hp2 : (before ++ r :: after') ++ [x] = pre ++ [r'] := by
        rw [← hp]; simp
      obtain ⟨hb, _⟩ := List.append_inj' hp2 rfl
      rw [← hb] at hno
      exact absurd hno (fun h => hhard after' h)

/-- A stage none of whose requests can fail hard returns no error. -/
theorem abortsOnHardFailure_none (net : Transport) (trace : List Request)
    (result : Option GoError × List Request) (h : AbortsOnHardFailure net trace result)
    (hnet : ∀ (history : List Request) (r : Request), r.failsHard (net history r) = false) :
    result.1 = none := by
  obtain ⟨issued, _, h⟩ := h
  rcases h with ⟨hn, _⟩ | ⟨pre, r, e, _, _, hnet', hf, _⟩
  · exact hn
  · have := hnet (trace ++ pre) r
    rw [hnet', hf] at this
    cases this

theorem objectLoop_aborts (net : Transport) (cfg : Config) (table : TrackTable)
    (names : GoMap Bool) (rels : List ObjectRelationshipConfig) (trace : List Request) :
    AbortsOnHardFailure net trace
      (applyObjectRelationships.loop net cfg table names rels trace) := by
  induction rels generalizing trace with
  | nil =>
    rw [applyObjectRelationships.loop]
    exact abortsOnHardFailure_nil net trace
  | cons rel rest ih =>
    rw [applyObjectRelationships.loop]
    by_cases hn : names.getBool rel.Name = true
    · simp only [hn, if_true]
      exact ih trace
    · simp only [hn, Bool.false_eq_true, if_false, postMetadata]
      cases hnet : net trace
          (Request.createObjectRelationship (objectRelationshipRequest table rel)) with
      | ok body =>
        exact abortsOnHardFailure_cons net trace _ _ (by simp [Request.failsHard, hnet]) (ih _)
      | error err =>
        by_cases hc : err.hasCode errorCodeAlreadyExists = true
        · simp only [hc, if_true]
          exact abortsOnHardFailure_cons net trace _ _
            (by simp [Request.failsHard, hnet, hc]) (ih _)
        · simp only [hc, Bool.false_eq_true, if_false]
          exact abortsOnHardFailure_abort net trace
            (Request.createObjectRelationship (objectRelationshipRequest table rel)) err hnet
            (by simp [Request.failsHard, hc])

theorem arrayLoop_aborts (net : Transport) (cfg : Config) (table : TrackTable)
    (names : GoMap Bool) (rels : List ArrayRelationshipConfig) (trace : List Request) :
    AbortsOnHardFailure net trace
      (applyArrayRelationships.loop net cfg table names rels trace) := by
  induction rels generalizing trace with
  | nil =>
    rw [applyArrayRelationships.loop]
    exact abortsOnHardFailure_nil net trace
  | cons rel rest ih =>
    rw [applyArrayRelationships.loop]
    by_cases hn : names.getBool rel.Name = true
    · simp only [hn, if_true]
      exact ih trace
    · simp only [hn, Bool.false_eq_true, if_false, postMetadata]
      cases hnet : net trace
          (Request.createArrayRelationship (arrayRelationshipRequest table rel)) with
      | ok body =>
        exact abortsOnHardFailure_cons net trace _ _ (by simp [Request.failsHard, hnet]) (ih _)
      | error err =>
        by_cases hc : err.hasCode errorCodeAlreadyExists = true
        · simp only [hc, if_true]
          exact abortsOnHardFailure_cons net trace _ _
            (by simp [Request.failsHard, hnet, hc]) (ih _)
        · simp only [hc, Bool.false_eq_true, if_false]
          exact abortsOnHardFailure_abort net trace
            (Request.createArrayRelationship (arrayRelationshipRequest table rel)) err hnet
            (by simp [Request.failsHard, hc])

theorem relationshipLoop_aborts (net : Transport) (cfg : Config)
    (existingMeta : GoMap existingTableMetadata) (tables : List TrackTable)
    (trace : List Request) :
    AbortsOnHardFailure net trace
      (ApplyMetadata.relationshipLoop net cfg existingMeta tables trace) := by
  induction tables generalizing trace with
  | nil =>
    rw [ApplyMetadata.relationshipLoop]
    exact abortsOnHardFailure_nil net trace
  | cons table rest ih =>
    have ho : AbortsOnHardFailure net trace (applyObjectRelationships net cfg table
        (existingMeta.getD (tableKey table.Args.Table)
          existingTableMetadata.zero).ObjectRelationships trace) :=
      objectLoop_aborts net cfg table _ _ trace
    rw [ApplyMetadata.relationshipLoop]
    cases hobj : applyObjectRelationships net cfg table
        (existingMeta.getD (tableKey table.Args.Table)
          existingTableMetadata.zero).ObjectRelationships trace with
    | mk eo tro =>
      rw [hobj] at ho
      cases eo with
      | some err => exact ho
      | none =>
        have ha : AbortsOnHardFailure net tro (applyArrayRelationships net cfg table
            (existingMeta.getD (tableKey table.Args.Table)
              existingTableMetadata.zero).ArrayRelationships tro) :=
          arrayLoop_aborts net cfg table _ _ tro
        try dsimp only
        cases harr : applyArrayRelationships net cfg table
            (existingMeta.getD (tableKey table.Args.Table)
              existingTableMetadata.zero).ArrayRelationships tro with
        | mk ea tra =>
          rw [harr] at ha
          cases ea with
          | some err => exact abortsOnHardFailure_seq net trace _ _ ho rfl ha
          | none =>
            try dsimp only
            exact abortsOnHardFailure_seq net trace _ _
              (abortsOnHardFailure_seq net trace _ _ ho rfl ha) rfl (ih tra)

theorem trackLoop_aborts (net : Transport) (cfg : Config)
    (existingMeta : GoMap existingTableMetadata) (tables : List TrackTable)
    (trace : List Request) :
    AbortsOnHardFailure net trace
      (ApplyMetadata.trackLoop net cfg existingMeta tables trace) := by
  induction tables generalizing trace with
  | nil =>
    rw [ApplyMetadata.trackLoop]
    exact abortsOnHardFailure_nil net trace
  | cons table rest ih =>
    rw [ApplyMetadata.trackLoop]
    simp only [postMetadata]
    cases hnet : net trace (Request.trackTable table) with
    | ok body =>
      exact abortsOnHardFailure_cons net trace _ _ (by simp [Request.failsHard, hnet]) (ih _)
    | error err =>
      by_cases hc : err.hasCode errorCodeAlreadyTracked = true
      · simp only [hc, if_true, applyTableCustomization_eq]
        apply abortsOnHardFailure_cons net trace (Request.trackTable table) _
          (by simp [Request.failsHard, hnet, hc])
        cases hset : net (trace ++ [Request.trackTable table])
            (Request.setTableCustomization (customizationRequest table
              (existingMeta.getD (tableKey table.Args.Table)
                existingTableMetadata.zero).Configuration)) with
        | ok body =>
          exact abortsOnHardFailure_cons net _ _ _ (by simp [Request.failsHard, hset]) (ih _)
        | error err2 =>
          exact abortsOnHardFailure_abort net _
            (Request.setTableCustomization (customizationRequest table
              (existingMeta.getD (tableKey table.Args.Table)
                existingTableMetadata.zero).Configuration)) err2 hset rfl
      · simp only [hc, Bool.false_eq_true, if_false]
        exact abortsOnHardFailure_abort net trace (Request.trackTable table) err hnet
          (by simp [Request.failsHard, hc])

/-- A run ends at the first request answered with a hard failure, with the
error of that request, and returns no error when there is none. -/
theorem ApplyMetadata_aborts (net : Transport) (cfg : Config) (tables : List TrackTable)
    (trace : List Request) :
    AbortsOnHardFailure net trace (ApplyMetadata net cfg tables trace) := by
  rw [ApplyMetadata_eq]
  have hexport : exportRequest.failsHard (net trace exportRequest) = false := by
    cases net trace exportRequest <;> rfl
  apply abortsOnHardFailure_cons net trace exportRequest _ hexport
  have hA := trackLoop_aborts net cfg (ApplyMetadata.baseline net cfg trace) tables
    (trace ++ [exportRequest])
  cases htrack : ApplyMetadata.trackLoop net cfg (ApplyMetadata.baseline net cfg trace) tables
      (trace ++ [exportRequest]) with
  | mk eA trA =>
    rw [htrack] at hA
    cases eA with
    | some err => exact hA
    | none =>
      exact abortsOnHardFailure_seq net _ _ _ hA rfl
        (relationshipLoop_aborts net cfg _ tables trA)

/-- Every request a run posts is the export request, the track request of a
declared table, the customization request of a declared table, or the create
request of a declared relationship of a declared table. -/
theorem ApplyMetadata_request_mem (net : Transport) (cfg : Config) (tables : List TrackTable)
    (trace₀ before after : List Request) (r : Request)
    (hsplit : (ApplyMetadata net cfg tables trace₀).2 = trace₀ ++ (before ++ r :: after)) :
    r = exportRequest ∨
    (∃ t ∈ tables, r = Request.trackTable t) ∨
    (∃ t ∈ tables, r = Request.setTableCustomization
      (customizationRequest t
        ((ApplyMetadata.baseline net cfg trace₀).getD (tableKey t.Args.Table)
          existingTableMetadata.zero).Configuration)) ∨
    (∃ t ∈ tables, ∃ rel ∈ t.Args.ObjectRelationships,
      r = Request.createObjectRelationship (objectRelationshipRequest t rel)) ∨
    (∃ t ∈ tables, ∃ rel ∈ t.Args.ArrayRelationships,
      r = Request.createArrayRelationship (arrayRelationshipRequest t rel)) := by
  obtain ⟨flags, phaseA, phaseB, _, hrun, hA, hB, _, _⟩ :=
    ApplyMetadata_phases net cfg tables trace₀
  rw [hrun] at hsplit
  have hmem : r ∈ exportRequest :: (phaseA ++ phaseB) := by
    rw [List.append_cancel_left hsplit]
    exact List.mem_append_right _ (List.mem_cons_self _ _)
  rw [List.mem_cons, List.mem_append] at hmem
  rcases hmem with h | h | h
  · exact Or.inl h
  · have h2 := hA.subset h
    unfold trackRequests at h2
    rw [List.mem_flatMap] at h2
    obtain ⟨p, hp, hr⟩ := h2
    have hpt : p.1 ∈ tables := (List.of_mem_zip hp).1
    rw [List.mem_cons] at hr
    rcases hr with hr | hr
    · exact Or.inr (Or.inl ⟨p.1, hpt, hr⟩)
    · by_cases hf : p.2 = true
      · simp only [hf, if_true, List.mem_singleton] at hr
        exact Or.inr (Or.inr (Or.inl ⟨p.1, hpt, hr⟩))
      · simp [hf] at hr
  · have h2 := hB.subset h
    rw [List.mem_flatMap] at h2
    obtain ⟨t, ht, hr⟩ := h2
    unfold relationshipRequests at hr
    rw [List.mem_append, List.mem_map, List.mem_map] at hr
    rcases hr with ⟨rel, hrel, hr⟩ | ⟨rel, hrel, hr⟩
    · rw [missingObjectRelationships_eq] at hrel
      exact Or.inr (Or.inr (Or.inr (Or.inl ⟨t, ht, rel, (List.mem_filter.mp hrel).1, hr.symm⟩)))
    · rw [missingArrayRelationships_eq] at hrel
      exact Or.inr (Or.inr (Or.inr (Or.inr ⟨t, ht, rel, (List.mem_filter.mp hrel).1, hr.symm⟩)))

theorem containsText_mid (a x b : String) : containsText (a ++ x ++ b) x :=
  ⟨a, b, rfl⟩

/-! ## Phase A: hard failures -/

/-- Phase A, when the failing call returns its error: a `pg_track_table`
request answered with an error other than the already-tracked marker, and a
`pg_set_table_customization` request answered with any error, is the last
request of the run: nothing is posted after it,
neither for later tables nor for any relationship. The run returns an error
whose message is "problem adding metadata for table" (respectively "problem
updating customization for table") followed by `schema.name` of the table of
the request, which is a declared table, and the message of the failure. -/
theorem applyMetadata_aborts_in_phaseA (net : Transport) (cfg : Config)
    (tables : List TrackTable) (trace₀ : List Request) :
    (∀ (before after : List Request) (t : TrackTable) (e : GoError),
      (ApplyMetadata net cfg tables trace₀).2
          = trace₀ ++ (before ++ Request.trackTable t :: after) →
      net (trace₀ ++ before) (Request.trackTable t) = Except.error e →
      e.hasCode errorCodeAlreadyTracked = false →
      after = [] ∧ t ∈ tables ∧
      ∃ err, (ApplyMetadata net cfg tables trace₀).1 = some err ∧
        err.Error = "problem adding metadata for table "
          ++ (t.Args.Table.Schema ++ "." ++ t.Args.Table.Name) ++ (": " ++ e.Error) ∧
        containsText err.Error (t.Args.Table.Schema ++ "." ++ t.Args.Table.Name)) ∧
    (∀ (before after : List Request) (c : setTableCustomization) (e : GoError),
      (ApplyMetadata net cfg tables trace₀).2
          = trace₀ ++ (before ++ Request.setTableCustomization c :: after) →
      net (trace₀ ++ before) (Request.setTableCustomization c) = Except.error e →
      after = [] ∧ (∃ t ∈ tables, c.Args.Table = t.Args.Table) ∧
      ∃ err, (ApplyMetadata net cfg tables trace₀).1 = some err ∧
        err.Error = "problem updating customization for table "
          ++ (c.Args.Table.Schema ++ "." ++ c.Args.Table.Name) ++ (": " ++ e.Error) ∧
        containsText err.Error (c.Args.Table.Schema ++ "." ++ c.Args.Table.Name)) := by
  have hrun := ApplyMetadata_aborts net cfg tables trace₀
  constructor
  · intro before after t e hsplit hnet hcode
    obtain ⟨hafter, herr⟩ := abortsOnHardFailure_at net trace₀ _ hrun before after
      (Request.trackTable t) e hsplit hnet (by simp [Request.failsHard, hcode])
    have hdecl : t ∈ tables := by
      rcases ApplyMetadata_request_mem net cfg tables trace₀ before after _ hsplit with
        h | ⟨t', ht', h⟩ | ⟨_, _, h⟩ | ⟨_, _, _, _, h⟩ | ⟨_, _, _, _, h⟩
      · simp [exportRequest] at h
      · cases h
        exact ht'
      · cases h
      · cases h
      · cases h
    refine ⟨hafter, hdecl, _, herr, ?_, ?_⟩
    · simp [abortError, GoError.Error, String.append_assoc]
    · have : (abortError (Request.trackTable t) e).Error
          = "problem adding metadata for table "
            ++ (t.Args.Table.Schema ++ "." ++ t.Args.Table.Name) ++ (": " ++ e.Error) := by
        simp [abortError, GoError.Error, String.append_assoc]
      rw [this]
      exact containsText_mid _ _ _
  · intro before after c e hsplit hnet
    obtain ⟨hafter, herr⟩ := abortsOnHardFailure_at net trace₀ _ hrun before after
      (Request.setTableCustomization c) e hsplit hnet rfl
    have hdecl : ∃ t ∈ tables, c.Args.Table = t.Args.Table := by
      rcases ApplyMetadata_request_mem net cfg tables trace₀ before after _ hsplit with
        h | ⟨_, _, h⟩ | ⟨t', ht', h⟩ | ⟨_, _, _, _, h⟩ | ⟨_, _, _, _, h⟩
      · simp [exportRequest] at h
      · cases h
      · cases h
        exact ⟨t', ht', rfl⟩
      · cases h
      · cases h
    refine ⟨hafter, hdecl, _, herr, ?_, ?_⟩
    · simp [abortError, GoError.Error, String.append_assoc]
    · have : (abortError (Request.setTableCustomization c) e).Error
          = "problem updating customization for table "
            ++ (c.Args.Table.Schema ++ "." ++ c.Args.Table.Name) ++ (": " ++ e.Error) := by
        simp [abortError, GoError.Error, String.append_assoc]
      rw [this]
      exact containsText_mid _ _ _

/-- Phase A on the gateway of the test "track table non-recoverable error is
returned" and on a gateway that refuses customizations: the run ends at the
failing request with an error that names `auth.users`. -/
theorem applyMetadata_aborts_in_phaseA_witness :
    (([] : List Request) = [] ∧ usersTable ∈ [usersTable] ∧
      ∃ err, (ApplyMetadata refusingGateway testConfig [usersTable] []).1 = some err ∧
        err.Error = "problem adding metadata for table "
          ++ (usersTable.Args.Table.Schema ++ "." ++ usersTable.Args.Table.Name)
          ++ (": " ++ internalError.Error) ∧
        containsText err.Error
          (usersTable.Args.Table.Schema ++ "." ++ usersTable.Args.Table.Name)) ∧
    ApplyMetadata refusingGateway testConfig [usersTable] []
      = (some (GoError.wrapError "problem adding metadata for table auth.users: "
            internalError),
         [exportRequest, Request.trackTable usersTable]) ∧
    ApplyMetadata frozenGateway testConfig [usersTable, usersTable] []
      = (some (GoError.wrapError "problem updating customization for table auth.users: "
            internalError),
         [exportRequest, Request.trackTable usersTable,
          Request.setTableCustomization (customizationRequest usersTable RawMessage.nil)]) :=
  ⟨(applyMetadata_aborts_in_phaseA refusingGateway testConfig [usersTable] []).1
      [exportRequest] [] usersTable internalError (by decide) (by rfl) (by decide),
   by decide, by decide⟩

/-! ## Phase B: hard failures and absorbed answers -/

/-- Phase B, when the failing call returns its error: a create-relationship
request, of either kind, answered with an error other than the already-exists
marker is the last request of the run. The run
returns an error whose message is "problem creating object relationship"
(respectively "array relationship") followed by the name of the relationship,
"for table", `schema.name` of the table and the message of the failure; the
request is the one of a declared relationship of a declared table. -/
theorem applyMetadata_aborts_in_phaseB (net : Transport) (cfg : Config)
    (tables : List TrackTable) (trace₀ : List Request) :
    (∀ (before after : List Request) (r : createObjectRelationship) (e : GoError),
      (ApplyMetadata net cfg tables trace₀).2
          = trace₀ ++ (before ++ Request.createObjectRelationship r :: after) →
      net (trace₀ ++ before) (Request.createObjectRelationship r) = Except.error e →
      e.hasCode errorCodeAlreadyExists = false →
      after = [] ∧
      (∃ t ∈ tables, ∃ rel ∈ t.Args.ObjectRelationships,
        r = objectRelationshipRequest t rel) ∧
      ∃ err, (ApplyMetadata net cfg tables trace₀).1 = some err ∧
        err.Error = ("problem creating object relationship " ++ r.Args.Name ++ " for table ")
          ++ (r.Args.Table.Schema ++ "." ++ r.Args.Table.Name) ++ (": " ++ e.Error) ∧
        containsText err.Error r.Args.Name ∧
        containsText err.Error (r.Args.Table.Schema ++ "." ++ r.Args.Table.Name)) ∧
    (∀ (before after : List Request) (r : createArrayRelationship) (e : GoError),
      (ApplyMetadata net cfg tables trace₀).2
          = trace₀ ++ (before ++ Request.createArrayRelationship r :: after) →
      net (trace₀ ++ before) (Request.createArrayRelationship r) = Except.error e →
      e.hasCode errorCodeAlreadyExists = false →
      after = [] ∧
      (∃ t ∈ tables, ∃ rel ∈ t.Args.ArrayRelationships,
        r = arrayRelationshipRequest t rel) ∧
      ∃ err, (ApplyMetadata net cfg tables trace₀).1 = some err ∧
        err.Error = ("problem creating array relationship " ++ r.Args.Name ++ " for table ")
          ++ (r.Args.Table.Schema ++ "." ++ r.Args.Table.Name) ++ (": " ++ e.Error) ∧
        containsText err.Error r.Args.Name ∧
        containsText err.Error (r.Args.Table.Schema ++ "." ++ r.Args.Table.Name)) := by
  have hrun := ApplyMetadata_aborts net cfg tables trace₀
  constructor
  · intro before after r e hsplit hnet hcode
    obtain ⟨hafter, herr⟩ := abortsOnHardFailure_at net trace₀ _ hrun before after
      (Request.createObjectRelationship r) e hsplit hnet (by simp [Request.failsHard, hcode])
    have hdecl : ∃ t ∈ tables, ∃ rel ∈ t.Args.ObjectRelationships,
        r = objectRelationshipRequest t rel := by
      rcases ApplyMetadata_request_mem net cfg tables trace₀ before after _ hsplit with
        h | ⟨_, _, h⟩ | ⟨_, _, h⟩ | ⟨t', ht', rel, hrel, h⟩ | ⟨_, _, _, _, h⟩
      · simp [exportRequest] at h
      · cases h
      · cases h
      · cases h
        exact ⟨t', ht', rel, hrel, rfl⟩
      · cases h
    have hmsg : (abortError (Request.createObjectRelationship r) e).Error
        = ("problem creating object relationship " ++ r.Args.Name ++ " for table ")
          ++ (r.Args.Table.Schema ++ "." ++ r.Args.Table.Name) ++ (": " ++ e.Error) := by
      simp [abortError, GoError.Error, String.append_assoc]
    refine ⟨hafter, hdecl, _, herr, hmsg, ?_, ?_⟩
    · refine ⟨"problem creating object relationship ",
        " for table " ++ (r.Args.Table.Schema ++ "." ++ r.Args.Table.Name) ++ (": " ++ e.Error),
        ?_⟩
      rw [hmsg]
      simp [String.append_assoc]
    · rw [hmsg]
      exact containsText_mid _ _ _
  · intro before after r e hsplit hnet hcode
    obtain ⟨hafter, herr⟩ := abortsOnHardFailure_at net trace₀ _ hrun before after
      (Request.createArrayRelationship r) e hsplit hnet (by simp [Request.failsHard, hcode])
    have hdecl : ∃ t ∈ tables, ∃ rel ∈ t.Args.ArrayRelationships,
        r = arrayRelationshipRequest t rel := by
      rcases ApplyMetadata_request_mem net cfg tables trace₀ before after _ hsplit with
        h | ⟨_, _, h⟩ | ⟨_, _, h⟩ | ⟨_, _, _, _, h⟩ | ⟨t', ht', rel, hrel, h⟩
      · simp [exportRequest] at h
      · cases h
      · cases h
      · cases h
      · cases h
        exact ⟨t', ht', rel, hrel, rfl⟩
    have hmsg : (abortError (Request.createArrayRelationship r) e).Error
        = ("problem creating array relationship " ++ r.Args.Name ++ " for table ")
          ++ (r.Args.Table.Schema ++ "." ++ r.Args.Table.Name) ++ (": " ++ e.Error) := by
      simp [abortError, GoError.Error, String.append_assoc]
    refine ⟨hafter, hdecl, _, herr, hmsg, ?_, ?_⟩
    · refine ⟨"problem creating array relationship ",
        " for table " ++ (r.Args.Table.Schema ++ "." ++ r.Args.Table.Name) ++ (": " ++ e.Error),
        ?_⟩
      rw [hmsg]
      simp [String.append_assoc]
    · rw [hmsg]
      exact containsText_mid _ _ _

/-- Phase B on `makeTable("auth", "users")` against a gateway that refuses every
relationship: the run ends at the create request of `parent` with an error
that names `parent` and `auth.users`. -/
theorem applyMetadata_aborts_in_phaseB_witness :
    (([] : List Request) = [] ∧
      (∃ t ∈ [usersTable], ∃ rel ∈ t.Args.ObjectRelationships,
        objectRelationshipRequest usersTable (objRel "parent" "parent_id")
          = objectRelationshipRequest t rel) ∧
      ∃ err, (ApplyMetadata noRelationshipGateway testConfig [usersTable] []).1 = some err ∧
        err.Error = ("problem creating object relationship "
            ++ (objectRelationshipRequest usersTable (objRel "parent" "parent_id")).Args.Name
            ++ " for table ")
          ++ ((objectRelationshipRequest usersTable (objRel "parent" "parent_id")).Args.Table.Schema
            ++ "."
            ++ (objectRelationshipRequest usersTable (objRel "parent" "parent_id")).Args.Table.Name)
          ++ (": " ++ internalError.Error) ∧
        containsText err.Error
          (objectRelationshipRequest usersTable (objRel "parent" "parent_id")).Args.Name ∧
        containsText err.Error
          ((objectRelationshipRequest usersTable (objRel "parent" "parent_id")).Args.Table.Schema
            ++ "."
            ++ (objectRelationshipRequest usersTable
                (objRel "parent" "parent_id")).Args.Table.Name)) ∧
    ApplyMetadata noRelationshipGateway testConfig [usersTable] []
      = (some (GoError.wrapError
            "problem creating object relationship parent for table auth.users: "
            internalError),
         [exportRequest, Request.trackTable usersTable,
          Request.createObjectRelationship
            (objectRelationshipRequest usersTable (objRel "parent" "parent_id"))]) :=
  ⟨(applyMetadata_aborts_in_phaseB noRelationshipGateway testConfig [usersTable] []).1
      [exportRequest, Request.trackTable usersTable] []
      (objectRelationshipRequest usersTable (objRel "parent" "parent_id")) internalError
      (by decide) (by rfl) (by decide),
   by decide⟩

/-- Phase A when every track request succeeds: one track request per table. -/
theorem trackLoop_all_ok (net : Transport) (cfg : Config)
    (existingMeta : GoMap existingTableMetadata) (tables : List TrackTable)
    (trace : List Request)
    (hnet : ∀ (history : List Request) (t : TrackTable),
      ∃ body, net history (Request.trackTable t) = Except.ok body) :
    ApplyMetadata.trackLoop net cfg existingMeta tables trace
      = (none, trace ++ tables.map Request.trackTable) := by
  induction tables generalizing trace with
  | nil => simp [ApplyMetadata.trackLoop]
  | cons table rest ih =>
    obtain ⟨body, hb⟩ := hnet trace table
    rw [ApplyMetadata.trackLoop]
    simp only [postMetadata, hb]
    rw [ih]
    simp

/-- A run in which every track request succeeds and no request fails hard. -/
theorem ApplyMetadata_all_tracked (net : Transport) (cfg : Config) (tables : List TrackTable)
    (trace₀ : List Request)
    (htrack : ∀ (history : List Request) (t : TrackTable),
      ∃ body, net history (Request.trackTable t) = Except.ok body)
    (hnet : ∀ (history : List Request) (r : Request), r.failsHard (net history r) = false) :
    ApplyMetadata net cfg tables trace₀
      = (none,
         trace₀ ++ exportRequest ::
           (tables.map Request.trackTable
             ++ tables.flatMap (relationshipRequests (ApplyMetadata.baseline net cfg trace₀)))) := by
  have hnone := abortsOnHardFailure_none net trace₀ _
    (ApplyMetadata_aborts net cfg tables trace₀) hnet
  have hrun := ApplyMetadata_eq net cfg tables trace₀
  rw [trackLoop_all_ok net cfg _ tables _ htrack] at hrun
  simp only [] at hrun
  obtain ⟨issued, h1, _, h3⟩ := relationshipLoop_spec net cfg
    (ApplyMetadata.baseline net cfg trace₀) tables
    (trace₀ ++ [exportRequest] ++ tables.map Request.trackTable)
  rw [← hrun] at h1 h3
  have h2 : (ApplyMetadata net cfg tables trace₀).2
      = trace₀ ++ exportRequest ::
          (tables.map Request.trackTable
            ++ tables.flatMap
              (relationshipRequests (ApplyMetadata.baseline net cfg trace₀))) := by
    rw [h1, h3 hnone]
    simp
  exact Prod.ext hnone h2

/-- A baseline whose fetch failed has no entry. -/
theorem baseline_of_failed_fetch (net : Transport) (cfg : Config) (trace : List Request)
    (e : GoError) (h : (fetchExistingTableMetadata net cfg trace).1 = Except.error e)
    (key : String) : (ApplyMetadata.baseline net cfg trace).get? key = none := by
  unfold ApplyMetadata.baseline
  rw [h]
  rfl

/-- The fetch fails when the export request does, or when its body does not parse. -/
theorem fetch_fails (net : Transport) (cfg : Config) (trace : List Request)
    (h : (∃ e, net trace exportRequest = Except.error e) ∨
      (∃ body e, net trace exportRequest = Except.ok body ∧ body.unmarshal = Except.error e)) :
    ∃ e, (fetchExistingTableMetadata net cfg trace).1 = Except.error e := by
  unfold fetchExistingTableMetadata postMetadata
  unfold exportRequest at h
  rcases h with ⟨e, he⟩ | ⟨body, e, hb, he⟩
  · rw [he]
    exact ⟨_, rfl⟩
  · rw [hb]
    simp only [he]
    exact ⟨_, rfl⟩

/-- For a table without baseline entry, nothing is merged and everything declared is missing. -/
theorem relationshipRequests_of_absent (existingMeta : GoMap existingTableMetadata)
    (table : TrackTable) (h : existingMeta.get? (tableKey table.Args.Table) = none) :
    relationshipRequests existingMeta table = declaredRelationshipRequests table := by
  have hz : existingMeta.getD (tableKey table.Args.Table) existingTableMetadata.zero
      = existingTableMetadata.zero := by
    simp [GoMap.getD, h]
  unfold relationshipRequests declaredRelationshipRequests
  rw [hz, missingObjectRelationships_eq, missingArrayRelationships_eq]
  simp [existingTableMetadata.zero]

/-- A run against an empty baseline in which every request other than the
export succeeds. -/
theorem ApplyMetadata_empty_baseline (net : Transport) (cfg : Config)
    (tables : List TrackTable) (trace₀ : List Request)
    (hempty : ∀ key, (ApplyMetadata.baseline net cfg trace₀).get? key = none)
    (hother : ∀ (history : List Request) (r : Request),
      (∀ x, r ≠ Request.exportMetadata x) → ∃ body, net history r = Except.ok body) :
    ApplyMetadata net cfg tables trace₀
      = (none,
         trace₀ ++ exportRequest ::
           (tables.map Request.trackTable
             ++ tables.flatMap declaredRelationshipRequests)) := by
  have hflat : tables.flatMap (relationshipRequests (ApplyMetadata.baseline net cfg trace₀))
      = tables.flatMap declaredRelationshipRequests := by
    induction tables with
    | nil => rfl
    | cons t ts ih =>
      rw [List.flatMap_cons, List.flatMap_cons, ih,
        relationshipRequests_of_absent _ t (hempty _)]
  have hrun := ApplyMetadata_all_tracked net cfg tables trace₀
    (fun history t => hother history (Request.trackTable t) (fun x h => by cases h))
    (by
      intro history r
      cases r with
      | exportMetadata x => cases net history (Request.exportMetadata x) <;> rfl
      | trackTable x =>
        obtain ⟨b, hb⟩ := hother history (Request.trackTable x) (fun x h => by cases h)
        rw [hb]; rfl
      | setTableCustomization x =>
        obtain ⟨b, hb⟩ := hother history (Request.setTableCustomization x)
          (fun x h => by cases h)
        rw [hb]; rfl
      | createObjectRelationship x =>
        obtain ⟨b, hb⟩ := hother history (Request.createObjectRelationship x)
          (fun x h => by cases h)
        rw [hb]; rfl
      | createArrayRelationship x =>
        obtain ⟨b, hb⟩ := hother history (Request.createArrayRelationship x)
          (fun x h => by cases h)
        rw [hb]; rfl)
  rw [hrun, hflat]

/-- When the call of the export request returns an error, or its body does not
parse, and every other request succeeds, `ApplyMetadata` returns no error and posts, after the
export request, one track request per declared table and then one create
request per declared relationship; these are the requests of a run whose
export succeeds with an empty baseline. -/
theorem applyMetadata_survives_failed_fetch (net : Transport) (cfg : Config)
    (tables : List TrackTable) (trace₀ : List Request)
    (hfetch : (∃ e, net trace₀ exportRequest = Except.error e) ∨
      (∃ body e, net trace₀ exportRequest = Except.ok body ∧ body.unmarshal = Except.error e))
    (hother : ∀ (history : List Request) (r : Request),
      (∀ x, r ≠ Request.exportMetadata x) → ∃ body, net history r = Except.ok body) :
    ApplyMetadata net cfg tables trace₀
      = (none,
         trace₀ ++ exportRequest ::
           (tables.map Request.trackTable
             ++ tables.flatMap declaredRelationshipRequests)) ∧
    ∀ (net' : Transport),
      (∃ m, (fetchExistingTableMetadata net' cfg trace₀).1 = Except.ok m ∧
        ∀ key, m.get? key = none) →
      (∀ (history : List Request) (r : Request),
        (∀ x, r ≠ Request.exportMetadata x) → ∃ body, net' history r = Except.ok body) →
      ApplyMetadata net' cfg tables trace₀ = ApplyMetadata net cfg tables trace₀ := by
  obtain ⟨e, he⟩ := fetch_fails net cfg trace₀ hfetch
  have hrun := ApplyMetadata_empty_baseline net cfg tables trace₀
    (baseline_of_failed_fetch net cfg trace₀ e he) hother
  refine ⟨hrun, ?_⟩
  intro net' hempty hother'
  obtain ⟨m, hm, hkeys⟩ := hempty
  rw [hrun]
  apply ApplyMetadata_empty_baseline net' cfg tables trace₀ _ hother'
  intro key
  unfold ApplyMetadata.baseline
  rw [hm]
  exact hkeys key

/-- The run on the gateway of the test "fetchExistingTableMetadata failure
degrades gracefully": four requests for `makeTable("auth", "users")`, the same
as against the gateway of the happy path. -/
theorem applyMetadata_survives_failed_fetch_witness :
    (ApplyMetadata failingExportGateway testConfig [usersTable] []
        = (none,
           [] ++ exportRequest ::
             ([usersTable].map Request.trackTable
               ++ [usersTable].flatMap declaredRelationshipRequests)) ∧
      ∀ (net' : Transport),
        (∃ m, (fetchExistingTableMetadata net' testConfig []).1 = Except.ok m ∧
          ∀ key, m.get? key = none) →
        (∀ (history : List Request) (r : Request),
          (∀ x, r ≠ Request.exportMetadata x) → ∃ body, net' history r = Except.ok body) →
        ApplyMetadata net' testConfig [usersTable] []
          = ApplyMetadata failingExportGateway testConfig [usersTable] []) ∧
    (ApplyMetadata failingExportGateway testConfig [usersTable] []).2.length = 4 ∧
    ApplyMetadata failingExportGateway testConfig [usersTable] []
      = ApplyMetadata freshGateway testConfig [usersTable] [] :=
  ⟨applyMetadata_survives_failed_fetch failingExportGateway testConfig [usersTable] []
      (Or.inl ⟨internalError, rfl⟩)
      (by
        intro history r hne
        cases r with
        | exportMetadata x => exact absurd rfl (hne x)
        | trackTable x => exact ⟨_, rfl⟩
        | setTableCustomization x => exact ⟨_, rfl⟩
        | createObjectRelationship x => exact ⟨_, rfl⟩
        | createArrayRelationship x => exact ⟨_, rfl⟩),
   by decide, by decide⟩

/-- C16: `applyTableCustomization` returns exactly what the customization
request returns, whatever the stored configuration is; and when the stored
configuration is absent or empty, or does not parse, that request carries the
desired configuration unchanged, so that a parse failure is not an error of
the call. -/
theorem applyTableCustomization_falls_back (net : Transport) (cfg : Config)
    (table : TrackTable) (existingConfigJSON : RawMessage) (trace : List Request) :
    (∃ request : setTableCustomization,
      applyTableCustomization net cfg table existingConfigJSON trace
        = (errorOf (net trace (Request.setTableCustomization request)),
           trace ++ [Request.setTableCustomization request])) ∧
    ((existingConfigJSON.nonEmpty = false ∨
        ∃ e, Configuration.UnmarshalJSON Configuration.zero existingConfigJSON
          = Except.error e) →
      applyTableCustomization net cfg table existingConfigJSON trace
        = (errorOf (net trace (Request.setTableCustomization
              { Type_ := "pg_set_table_customization"
                Args := { Source := table.Args.Source
                          Table := table.Args.Table
                          Configuration := table.Args.Configuration } })),
           trace ++ [Request.setTableCustomization
              { Type_ := "pg_set_table_customization"
                Args := { Source := table.Args.Source
                          Table := table.Args.Table
                          Configuration := table.Args.Configuration } }])) := by
  have hgen : applyTableCustomization net cfg table existingConfigJSON trace
      = (errorOf (net trace (Request.setTableCustomization
            (customizationRequest table existingConfigJSON))),
         trace ++ [Request.setTableCustomization
            (customizationRequest table existingConfigJSON)]) := by
    rw [applyTableCustomization_eq]
    cases net trace (Request.setTableCustomization
      (customizationRequest table existingConfigJSON)) <;> rfl
  refine ⟨⟨_, hgen⟩, ?_⟩
  intro h
  have hreq : customizationRequest table existingConfigJSON
      = { Type_ := "pg_set_table_customization"
          Args := { Source := table.Args.Source
                    Table := table.Args.Table
                    Configuration := table.Args.Configuration } } := by
    unfold customizationRequest
    rcases h with h | ⟨e, he⟩
    · simp [h]
    · simp [he]
  rw [hgen, hreq]

/-- C16 on the stored configurations of `TestApplyTableCustomizationWithoutExistingConfig`
(nil), of `TestApplyTableCustomizationInvalidExistingConfig` (bytes that are
not JSON) and on JSON of the wrong shape: the call returns no error and sends
the declared configuration. -/
theorem applyTableCustomization_falls_back_witness :
    applyTableCustomization acceptingGateway testConfig plainUsersTable RawMessage.nil []
      = (errorOf (acceptingGateway [] (Request.setTableCustomization
            { Type_ := "pg_set_table_customization"
              Args := { Source := plainUsersTable.Args.Source
                        Table := plainUsersTable.Args.Table
                        Configuration := plainUsersTable.Args.Configuration } })),
         [] ++ [Request.setTableCustomization
            { Type_ := "pg_set_table_customization"
              Args := { Source := plainUsersTable.Args.Source
                        Table := plainUsersTable.Args.Table
                        Configuration := plainUsersTable.Args.Configuration } }]) ∧
    applyTableCustomization acceptingGateway testConfig plainUsersTable invalidConfigJSON []
      = (none, [Request.setTableCustomization (unmergedCustomizationRequest plainUsersTable)]) ∧
    applyTableCustomization acceptingGateway testConfig plainUsersTable misshapenConfigJSON []
      = (none, [Request.setTableCustomization (unmergedCustomizationRequest plainUsersTable)]) ∧
    (∃ e, Configuration.UnmarshalJSON Configuration.zero invalidConfigJSON = Except.error e) ∧
    (∃ e, Configuration.UnmarshalJSON Configuration.zero misshapenConfigJSON
      = Except.error e) :=
  ⟨(applyTableCustomization_falls_back acceptingGateway testConfig plainUsersTable
      RawMessage.nil []).2 (Or.inl rfl),
   by decide, by decide, ⟨_, rfl⟩, ⟨_, rfl⟩⟩

/-! ## Classification of a response: properties -/

theorem classify_ok (resp : Response) (h : resp.StatusCode = httpStatusOK) :
    postMetadata.classify resp = PostOutcome.returns resp.Body := by
  simp [postMetadata.classify, h]

theorem classify_not_ok (resp : Response) (h : resp.StatusCode ≠ httpStatusOK) :
    postMetadata.classify resp
      = match unmarshalErrResponse resp.Body with
        | .error _ => PostOutcome.fails (statusError resp)
        | .ok none => PostOutcome.panics
        | .ok (some errResponse) =>
          if errResponse.Code == errorCodeAlreadyTracked
              || errResponse.Code == errorCodeAlreadyExists then
            PostOutcome.fails (GoError.apiError errResponse.Code errResponse.Error)
          else
            PostOutcome.fails (statusError resp) := by
  simp [postMetadata.classify, h]

theorem statusError_asApiError (resp : Response) : (statusError resp).asApiError = none := rfl

/-- C18 fails as stated: the response with status 201, a status of the 2xx
range, whose body is the error object with the code "already-tracked" is
classified as the marker, an error in which `errors.As` finds an `*apiError`
with that code. -/
theorem classify_marker_counterexample :
    (200 ≤ createdMarkerResponse.StatusCode ∧ createdMarkerResponse.StatusCode < 300) ∧
    postMetadata.classify createdMarkerResponse
      = PostOutcome.fails (GoError.apiError "already-tracked" "already tracked") ∧
    (GoError.apiError "already-tracked" "already tracked").asApiError
      = some "already-tracked" ∧
    (GoError.apiError "already-tracked" "already tracked").hasCode errorCodeAlreadyTracked
      = true := by
  decide

/-- C18, amended: the end of `postMetadata` returns an error recognisable as a
marker (one in which `errors.As` finds an `*apiError`) if and only if the
status is not 200, the other statuses of the 2xx range included, and the body
decodes to an error object whose code is exactly
"already-tracked" or "already-exists"; the error is then the `apiError` with
the code and the error text of the body. An error object with any other code,
the empty one included, gives the status error, in which no `*apiError` is
found. -/
theorem classify_marker (resp : Response) :
    (∀ err : GoError,
      (postMetadata.classify resp = PostOutcome.fails err ∧ err.asApiError.isSome = true) ↔
      (resp.StatusCode ≠ httpStatusOK ∧
        ∃ body : hasuraErrResponse, unmarshalErrResponse resp.Body = Except.ok (some body) ∧
          (body.Code = "already-tracked" ∨ body.Code = "already-exists") ∧
          err = GoError.apiError body.Code body.Error)) ∧
    (∀ body : hasuraErrResponse,
      resp.StatusCode ≠ httpStatusOK →
      unmarshalErrResponse resp.Body = Except.ok (some body) →
      (body.Code = "already-tracked" ∨ body.Code = "already-exists") →
      ∃ err, postMetadata.classify resp = PostOutcome.fails err ∧
        err.asApiError = some body.Code ∧ err.Error = body.Error ∧
        (err.hasCode errorCodeAlreadyTracked = true ∨
          err.hasCode errorCodeAlreadyExists = true)) ∧
    (∀ body : hasuraErrResponse,
      resp.StatusCode ≠ httpStatusOK →
      unmarshalErrResponse resp.Body = Except.ok (some body) →
      body.Code ≠ "already-tracked" → body.Code ≠ "already-exists" →
      postMetadata.classify resp = PostOutcome.fails (statusError resp) ∧
      (statusError resp).asApiError = none ∧
      (statusError resp).hasCode errorCodeAlreadyTracked = false ∧
      (statusError resp).hasCode errorCodeAlreadyExists = false) := by
  refine ⟨?_, ?_, ?_⟩
  · intro err
    constructor
    · rintro ⟨hc, hm⟩
      by_cases hs : resp.StatusCode = httpStatusOK
      · rw [classify_ok resp hs] at hc
        cases hc
      · refine ⟨hs, ?_⟩
        rw [classify_not_ok resp hs] at hc
        cases hu : unmarshalErrResponse resp.Body with
        | error e =>
          rw [hu] at hc
          simp only [PostOutcome.fails.injEq] at hc
          rw [← hc, statusError_asApiError] at hm
          cases hm
        | ok p =>
          rw [hu] at hc
          cases p with
          | none => cases hc
          | some body =>
            simp only [] at hc
            by_cases hk : (body.Code == errorCodeAlreadyTracked
                || body.Code == errorCodeAlreadyExists) = true
            · rw [if_pos hk] at hc
              simp only [PostOutcome.fails.injEq] at hc
              refine ⟨body, rfl, ?_, hc.symm⟩
              simpa [errorCodeAlreadyTracked, errorCodeAlreadyExists] using hk
            · rw [if_neg hk] at hc
              simp only [PostOutcome.fails.injEq] at hc
              rw [← hc, statusError_asApiError] at hm
              cases hm
    · rintro ⟨hs, body, hu, hk, he⟩
      rw [classify_not_ok resp hs, hu, he]
      have hk2 : (body.Code == errorCodeAlreadyTracked
          || body.Code == errorCodeAlreadyExists) = true := by
        simpa [errorCodeAlreadyTracked, errorCodeAlreadyExists] using hk
      simp only [hk2, if_true]
      exact ⟨trivial, rfl⟩
  · intro body hs hu hk
    rw [classify_not_ok resp hs, hu]
    have hk2 : (body.Code == errorCodeAlreadyTracked
        || body.Code == errorCodeAlreadyExists) = true := by
      simpa [errorCodeAlreadyTracked, errorCodeAlreadyExists] using hk
    simp only [hk2, if_true]
    refine ⟨_, rfl, rfl, rfl, ?_⟩
    rcases hk with hk | hk
    · left
      simp [GoError.hasCode, GoError.asApiError, hk, errorCodeAlreadyTracked]
    · right
      simp [GoError.hasCode, GoError.asApiError, hk, errorCodeAlreadyExists]
  · intro body hs hu h1 h2
    rw [classify_not_ok resp hs, hu]
    have hk2 : ¬ (body.Code == errorCodeAlreadyTracked
        || body.Code == errorCodeAlreadyExists) = true := by
      simp [errorCodeAlreadyTracked, errorCodeAlreadyExists, h1, h2]
    simp only [hk2, if_false]
    exact ⟨rfl, rfl, rfl, rfl⟩

/-- C18, amended, on the responses of the tests: status 400 with code
"already-tracked" gives the marker with the code and the error text of the
body, status 500 with code "unexpected" gives the status error. -/
theorem classify_marker_witness :
    (∃ err, postMetadata.classify alreadyTrackedResponse = PostOutcome.fails err ∧
      err.asApiError = some "already-tracked" ∧ err.Error = "already tracked" ∧
      (err.hasCode errorCodeAlreadyTracked = true ∨
        err.hasCode errorCodeAlreadyExists = true)) ∧
    (postMetadata.classify unexpectedCodeResponse
        = PostOutcome.fails (statusError unexpectedCodeResponse) ∧
      (statusError unexpectedCodeResponse).asApiError = none ∧
      (statusError unexpectedCodeResponse).hasCode errorCodeAlreadyTracked = false ∧
      (statusError unexpectedCodeResponse).hasCode errorCodeAlreadyExists = false) ∧
    postMetadata.classify alreadyTrackedResponse
      = PostOutcome.fails (GoError.apiError "already-tracked" "already tracked") :=
  ⟨(classify_marker alreadyTrackedResponse).2.1
      { Path := "", Error := "already tracked", Code := "already-tracked" }
      (by decide) (by decide) (Or.inl rfl),
   (classify_marker unexpectedCodeResponse).2.2
      { Path := "", Error := "something went wrong", Code := "unexpected" }
      (by decide) (by decide) (by decide) (by decide),
   by decide⟩

/-- C19 fails as stated: a response with status 201, and one with status 204,
both in the 2xx range, are not returned as a success; `postMetadata` returns
the status error for them. -/
theorem classify_created_counterexample :
    (200 ≤ createdResponse.StatusCode ∧ createdResponse.StatusCode < 300) ∧
    postMetadata.classify createdResponse ≠ PostOutcome.returns createdResponse.Body ∧
    postMetadata.classify createdResponse = PostOutcome.fails (statusError createdResponse) ∧
    (200 ≤ noContentResponse.StatusCode ∧ noContentResponse.StatusCode < 300) ∧
    postMetadata.classify noContentResponse
      = PostOutcome.fails (GoError.errorString "status_code: 204\nresponse: ") := by
  decide

/-- C19, amended: a response with status 200 is returned as a success with its
raw body, whatever the body is, and no response with another status is: the
end of `postMetadata` returns a body only for status 200, and then the body of
the response. -/
theorem classify_success_iff_status_ok (resp : Response) :
    (resp.StatusCode = 200 → postMetadata.classify resp = PostOutcome.returns resp.Body) ∧
    (∀ body, postMetadata.classify resp = PostOutcome.returns body →
      resp.StatusCode = 200 ∧ body = resp.Body) ∧
    (resp.StatusCode ≠ 200 → ∀ body, postMetadata.classify resp ≠ PostOutcome.returns body) := by
  have hsome : ∀ body, postMetadata.classify resp = PostOutcome.returns body →
      resp.StatusCode = 200 ∧ body = resp.Body := by
    intro body hc
    by_cases hs : resp.StatusCode = httpStatusOK
    · rw [classify_ok resp hs] at hc
      simp only [PostOutcome.returns.injEq] at hc
      exact ⟨hs, hc.symm⟩
    · rw [classify_not_ok resp hs] at hc
      cases hu : unmarshalErrResponse resp.Body with
      | error e =>
        rw [hu] at hc
        cases hc
      | ok p =>
        rw [hu] at hc
        cases p with
        | none => cases hc
        | some b =>
          simp only [] at hc
          split at hc <;> cases hc
  exact ⟨fun hs => classify_ok resp hs, hsome, fun hs body hc => hs (hsome body hc).1⟩

/-- C19, amended, on a response with status 200 whose body is not JSON, and on
the response with status 201. -/
theorem classify_success_iff_status_ok_witness :
    postMetadata.classify okTextResponse = PostOutcome.returns okTextResponse.Body ∧
    (∀ body, postMetadata.classify createdResponse ≠ PostOutcome.returns body) :=
  ⟨(classify_success_iff_status_ok okTextResponse).1 (by decide),
   (classify_success_iff_status_ok createdResponse).2.2 (by decide)⟩

/-- A response whose status is not 200 and whose body does not decode to an
error object (bytes that are not JSON, or a JSON value that is neither an
object nor `null`, or an object with a member of the wrong type) gives the
status error, which carries the status code and the text of the body. -/
theorem classify_unstructured (resp : Response) (e : GoError)
    (hs : resp.StatusCode ≠ httpStatusOK)
    (hu : unmarshalErrResponse resp.Body = Except.error e) :
    postMetadata.classify resp
      = PostOutcome.fails (GoError.errorString
          ("status_code: " ++ toString resp.StatusCode ++ "\nresponse: " ++ resp.Body.text)) := by
  rw [classify_not_ok resp hs, hu]
  rfl

/-- C20 fails on the code: for a response with status 500 whose body is the
JSON literal `null`, decoding succeeds and leaves the pointer nil, and the end
of `postMetadata` dereferences it; no error value is returned. Plain text with
the same kind of status does give the status error. -/
theorem classify_null_body_panics :
    unmarshalErrResponse nullBodyResponse.Body = Except.ok none ∧
    postMetadata.classify nullBodyResponse = PostOutcome.panics ∧
    (∀ err, postMetadata.classify nullBodyResponse ≠ PostOutcome.fails err) ∧
    postMetadata.classify badGatewayResponse
      = PostOutcome.fails (GoError.errorString "status_code: 502\nresponse: Bad Gateway") := by
  refine ⟨by decide, by decide, ?_, by decide⟩
  intro err h
  have hp : postMetadata.classify nullBodyResponse = PostOutcome.panics := by decide
  rw [hp] at h
  cases h

/-! ## Foreign-key columns -/

/-- The loop of `fkConstraintColumns` over a `[]any`: the columns collected so
far, followed by the strings among the remaining items, in order. -/
theorem fkConstraintColumns_loop (elems : List GoAny) (acc : List String) :
    elems.foldl
        (fun cols item =>
          match item with
          | .string s => cols ++ [s]
          | _ => cols)
        acc
      = acc ++ elems.filterMap GoAny.asString := by
  induction elems generalizing acc with
  | nil => simp
  | cons item rest ih =>
    rw [List.foldl_cons, ih]
    cases item <;> simp [GoAny.asString, List.filterMap_cons]

/-- C27: on a list, `fkConstraintColumns` returns exactly the string elements
of the input, in their order: a `[]string` is returned as it is, a `[]any` is
returned without its non-string elements (so a `[]any` of strings only gives
those strings), and `["a", 42, "b"]` gives `["a", "b"]`, for `42` an `int` as
well as a decoded JSON number. -/
theorem fkConstraintColumns_of_list (l : List String) (elems : List GoAny) :
    fkConstraintColumns (GoAny.strings l) = l ∧
    fkConstraintColumns (GoAny.slice elems) = elems.filterMap GoAny.asString ∧
    fkConstraintColumns (GoAny.slice (l.map GoAny.string)) = l ∧
    fkConstraintColumns
        (GoAny.slice [GoAny.string "a", GoAny.int 42, GoAny.string "b"]) = ["a", "b"] ∧
    fkConstraintColumns
        (GoAny.slice [GoAny.string "a", GoAny.float64 "42", GoAny.string "b"]) = ["a", "b"] := by
  have hslice : ∀ es : List GoAny,
      fkConstraintColumns (GoAny.slice es) = es.filterMap GoAny.asString := by
    intro es
    show es.foldl _ [] = _
    rw [fkConstraintColumns_loop]
    rfl
  refine ⟨rfl, hslice elems, ?_, by decide, by decide⟩
  rw [hslice]
  induction l with
  | nil => rfl
  | cons s rest ih => simpa [List.filterMap_cons, GoAny.asString] using ih

/-- C28: on a bare string `s`, the empty string included, `fkConstraintColumns`
returns the one-element list `[s]`. -/
theorem fkConstraintColumns_of_string (s : String) :
    fkConstraintColumns (GoAny.string s) = [s] ∧
    fkConstraintColumns (GoAny.string "") = [""] ∧
    fkConstraintColumns (GoAny.string "user_id") = ["user_id"] :=
  ⟨rfl, rfl, rfl⟩

/-- C29: on every input that is neither a string nor a list (nil, a boolean, a
number, an object), `fkConstraintColumns` returns the empty list. The function
is total: it has a value on every input, and no case of it can fail. -/
theorem fkConstraintColumns_of_other (v : GoAny) (h : v.isStringOrList = false) :
    fkConstraintColumns v = [] := by
  cases v <;> first | rfl | (simp [GoAny.isStringOrList] at h)

/-- C29, on the inputs of `TestFkConstraintColumns` (`nil` and `12345`) and on
a boolean, a decoded number and an object. -/
theorem fkConstraintColumns_of_other_witness :
    fkConstraintColumns GoAny.nil = [] ∧
    fkConstraintColumns (GoAny.int 12345) = [] ∧
    fkConstraintColumns (GoAny.bool true) = [] ∧
    fkConstraintColumns (GoAny.float64 "1.5") = [] ∧
    fkConstraintColumns (GoAny.map [("column", GoAny.string "id")]) = [] :=
  ⟨fkConstraintColumns_of_other GoAny.nil rfl,
   fkConstraintColumns_of_other (GoAny.int 12345) rfl,
   fkConstraintColumns_of_other (GoAny.bool true) rfl,
   fkConstraintColumns_of_other (GoAny.float64 "1.5") rfl,
   fkConstraintColumns_of_other (GoAny.map [("column", GoAny.string "id")]) rfl⟩

/-! ## Snapshot fetcher: the map built from an export -/

/-- The inner loop of `fetchExistingTableMetadata`: the bindings written for
the tables of one source, the last table first, before the bindings already
there. -/
theorem snapshot_tables_loop (tables : List exportMetadataTable)
    (result : GoMap existingTableMetadata) :
    (tables.foldl
        (fun result table =>
          let key := tableKey table.Table
          let config :=
            match table.Configuration with
            | some raw => raw
            | none => RawMessage.nil
          result.set key
            { Configuration := config
              ObjectRelationships := table.ObjectRelationships
              ArrayRelationships := table.ArrayRelationships })
        result).entries
      = (tables.reverse.map (fun t => (tableKey t.Table, snapshotOf t))) ++ result.entries := by
  induction tables generalizing result with
  | nil => simp
  | cons t rest ih =>
    rw [List.foldl_cons, ih]
    simp [GoMap.entries_set, snapshotOf]

/-- The outer loop of `fetchExistingTableMetadata`: the bindings of the tables
listed under the sources named `dbName`, the last table first. -/
theorem snapshot_sources_loop (dbName : String) (sources : List exportMetadataSource)
    (result : GoMap existingTableMetadata) :
    (sources.foldl
        (fun result source =>
          if source.Name != dbName then result
          else
            source.Tables.foldl
              (fun result table =>
                let key := tableKey table.Table
                let config :=
                  match table.Configuration with
                  | some raw => raw
                  | none => RawMessage.nil
                result.set key
                  { Configuration := config
                    ObjectRelationships := table.ObjectRelationships
                    ArrayRelationships := table.ArrayRelationships })
              result)
        result).entries
      = (((sources.filter (fun source => source.Name == dbName)).flatMap
            (·.Tables)).reverse.map (fun t => (tableKey t.Table, snapshotOf t)))
          ++ result.entries := by
  induction sources generalizing result with
  | nil => simp
  | cons s rest ih =>
    rw [List.foldl_cons, ih]
    by_cases hs : s.Name = dbName
    · simp [hs, snapshot_tables_loop, List.filter_cons, List.flatMap_cons]
    · simp [hs, List.filter_cons]

/-- Looking a key up among the bindings of a list of tables finds the first
table with that key. -/
theorem lookup_snapshot (tables : List exportMetadataTable) (key : String) :
    (tables.map (fun t => (tableKey t.Table, snapshotOf t))).lookup key
      = (tables.find? (fun t => tableKey t.Table == key)).map snapshotOf := by
  induction tables with
  | nil => rfl
  | cons t rest ih =>
    by_cases hk : key = tableKey t.Table
    · subst hk
      simp [List.lookup, List.find?]
    · have h1 : (key == tableKey t.Table) = false := by simpa using hk
      have h2 : (tableKey t.Table == key) = false := by
        simpa using fun h => hk h.symm
      simp only [List.map_cons, List.lookup, h1, List.find?, h2]
      exact ih

/-- The map `fetchExistingTableMetadata` returns for an export that parses:
under each key, the entry of the last listed table with that key. -/
theorem fetchExistingTableMetadata_ok (net : Transport) (cfg : Config) (trace : List Request)
    (resp : exportMetadataResponse)
    (h : net trace exportRequest = .ok (Body.decodes resp)) :
    ∃ result, (fetchExistingTableMetadata net cfg trace).1 = .ok result ∧
      ∀ key, result.get? key
        = ((listedTables resp cfg.dbName).reverse.find?
            (fun t => tableKey t.Table == key)).map snapshotOf := by
  unfold exportRequest at h
  unfold fetchExistingTableMetadata postMetadata
  simp only [h, Body.unmarshal]
  refine ⟨_, rfl, fun key => ?_⟩
  unfold GoMap.get?
  rw [snapshot_sources_loop]
  simp only [GoMap.make, GoMap.entries, List.append_nil]
  rw [lookup_snapshot]
  rfl

theorem GoMap.get?_set {V : Type} (m : GoMap V) (k k' : String) (v : V) :
    (m.set k v).get? k' = if k' = k then some v else m.get? k' := by
  unfold GoMap.get?
  rw [GoMap.entries_set]
  by_cases h : k' = k
  · subst h
    simp [List.lookup]
  · have hb : (k' == k) = false := by simpa using h
    simp [List.lookup, hb, h]

theorem lookup_isSome_iff {V : Type} (l : List (String × V)) (k : String) :
    (l.lookup k).isSome = true ↔ k ∈ l.map Prod.fst := by
  induction l with
  | nil => simp
  | cons kv rest ih =>
    obtain ⟨k0, v0⟩ := kv
    by_cases h : k = k0
    · subst h
      simp [List.lookup]
    · have hb : (k == k0) = false := by simpa using h
      simp [List.lookup, hb, h, ih]

theorem lookup_eq_none_iff {V : Type} (l : List (String × V)) (k : String) :
    l.lookup k = none ↔ k ∉ l.map Prod.fst := by
  rw [← lookup_isSome_iff]
  cases l.lookup k <;> simp

theorem lookup_map_snd {V W : Type} (g : V → W) (l : List (String × V)) (k : String) :
    (l.map (fun kv => (kv.1, g kv.2))).lookup k = (l.lookup k).map g := by
  induction l with
  | nil => rfl
  | cons kv rest ih =>
    obtain ⟨k0, v0⟩ := kv
    by_cases h : k = k0
    · subst h
      simp [List.lookup]
    · have hb : (k == k0) = false := by simpa using h
      simp only [List.map_cons, List.lookup, hb]
      exact ih

theorem lookup_filter_key {V : Type} (p : String → Bool) (l : List (String × V)) (k : String) :
    (l.filter (fun kv => p kv.1)).lookup k = if p k then l.lookup k else none := by
  induction l with
  | nil => simp
  | cons kv rest ih =>
    obtain ⟨k0, v0⟩ := kv
    by_cases hp : p k0 = true
    · by_cases h : k = k0
      · subst h
        simp [List.filter_cons, hp, List.lookup]
      · have hb : (k == k0) = false := by simpa using h
        simp only [List.filter_cons, hp, if_true, List.lookup, hb]
        exact ih
    · by_cases h : k = k0
      · subst h
        have hp' : p k = false := by simpa using hp
        simp only [List.filter_cons, hp, hp', if_false, Bool.false_eq_true]
        rw [ih]
        simp [hp']
      · have hb : (k == k0) = false := by simpa using h
        simp only [List.filter_cons, hp, if_false, List.lookup, hb, Bool.false_eq_true]
        exact ih

/-- Looking a key up in a list whose keys are pairwise distinct finds the
binding that is in the list. -/
theorem lookup_of_mem_nodup {V : Type} (l : List (String × V)) (k : String) (v : V)
    (hnd : (l.map Prod.fst).Nodup) (hmem : (k, v) ∈ l) : l.lookup k = some v := by
  induction l with
  | nil => cases hmem
  | cons kv rest ih =>
    obtain ⟨k0, v0⟩ := kv
    simp only [List.map_cons, List.nodup_cons] at hnd
    rcases List.mem_cons.mp hmem with h | h
    · cases h
      simp [List.lookup]
    · have hk : k ≠ k0 := by
        intro hk
        subst hk
        exact hnd.1 (List.mem_map.mpr ⟨(k, v), h, rfl⟩)
      have hb : (k == k0) = false := by simpa using hk
      simp only [List.lookup, hb]
      exact ih hnd.2 h

theorem lookup_reverse_of_nodup {V : Type} (l : List (String × V)) (k : String)
    (hnd : (l.map Prod.fst).Nodup) : l.reverse.lookup k = l.lookup k := by
  cases h : l.lookup k with
  | none =>
    rw [lookup_eq_none_iff] at h ⊢
    simpa using h
  | some v =>
    have hmem : (k, v) ∈ l := by
      clear hnd
      induction l with
      | nil => cases h
      | cons kv rest ih =>
        obtain ⟨k0, v0⟩ := kv
        by_cases hk : k = k0
        · subst hk
          simp [List.lookup] at h
          subst h
          exact List.mem_cons_self _ _
        · have hb : (k == k0) = false := by simpa using hk
          simp only [List.lookup, hb] at h
          exact List.mem_cons_of_mem _ (ih h)
    apply lookup_of_mem_nodup
    · simpa [List.map_reverse] using hnd
    · exact List.mem_reverse.mpr hmem

theorem GoMap.mem_keys {V : Type} (m : GoMap V) (k : String) :
    k ∈ m.keys ↔ (m.get? k).isSome = true := by
  unfold GoMap.keys GoMap.get?
  rw [List.mem_dedup, lookup_isSome_iff]

theorem GoMap.get?_copy {V : Type} (dst src : GoMap V) (k : String) :
    (GoMap.copy dst src).get? k = (src.get? k).or (dst.get? k) := by
  unfold GoMap.get?
  rw [GoMap.copy_entries, List.lookup_append]

theorem GoMap.entries_foldl_set {α V : Type} (f : α → String × V) (l : List α) (m : GoMap V) :
    (l.foldl (fun m x => m.set (f x).1 (f x).2) m).entries = l.reverse.map f ++ m.entries := by
  induction l generalizing m with
  | nil => rfl
  | cons x rest ih =>
    rw [List.foldl_cons, ih, GoMap.entries_set]
    simp

theorem extraFields_entries (known : GoMap Bool) (allFields : GoMap RawMessage) :
    (extraFields known allFields).entries
      = allFields.entries.filter (fun kv => !known.getBool kv.1) := by
  unfold extraFields
  induction allFields.entries with
  | nil => rfl
  | cons kv rest ih =>
    rw [List.foldr_cons]
    by_cases h : known.getBool kv.1 = true
    · simp only [h, Bool.not_true, Bool.false_eq_true, if_false, List.filter_cons]
      exact ih
    · have hf : known.getBool kv.1 = false := by simpa using h
      simp only [hf, Bool.not_false, if_true, List.filter_cons, GoMap.entries_set]
      rw [ih]

theorem extraFields_get? (known : GoMap Bool) (allFields : GoMap RawMessage) (k : String) :
    (extraFields known allFields).get? k
      = if known.getBool k then none else allFields.get? k := by
  unfold GoMap.get?
  rw [extraFields_entries, lookup_filter_key (fun k => !known.getBool k)]
  cases known.getBool k <;> simp

theorem GoMap.len_pos_iff_key {V : Type} (m : GoMap V) :
    0 < m.len ↔ ∃ k, (m.get? k).isSome = true := by
  unfold GoMap.len
  rw [List.length_pos_iff_exists_mem]
  constructor
  · rintro ⟨k, hk⟩
    exact ⟨k, (GoMap.mem_keys m k).mp hk⟩
  · rintro ⟨k, hk⟩
    exact ⟨k, (GoMap.mem_keys m k).mpr hk⟩

theorem GoMap.len_eq_zero_iff_key {V : Type} (m : GoMap V) :
    m.len = 0 ↔ ∀ k, m.get? k = none := by
  constructor
  · intro h k
    cases hg : m.get? k with
    | none => rfl
    | some v =>
      have : 0 < m.len := (GoMap.len_pos_iff_key m).mpr ⟨k, by rw [hg]; rfl⟩
      omega
  · intro h
    by_contra hne
    obtain ⟨k, hk⟩ := (GoMap.len_pos_iff_key m).mp (Nat.pos_of_ne_zero hne)
    rw [h k] at hk
    cases hk

theorem keyCode_injective : Function.Injective keyCode := by
  intro a b h
  unfold keyCode at h
  have hinj : Function.Injective Char.toNat := by
    intro c d hcd
    apply Char.ext
    apply UInt32.ext
    exact hcd
  have := List.map_injective_iff.mpr hinj h
  exact String.ext this

instance : IsTotal String keyLE := ⟨fun a b => le_total (keyCode a) (keyCode b)⟩

instance : IsTrans String keyLE :=
  ⟨fun a b c hab hbc => @le_trans (List Nat) _ (keyCode a) (keyCode b) (keyCode c) hab hbc⟩

instance : IsAntisymm String keyLE :=
  ⟨fun a b hab hba => keyCode_injective (@le_antisymm (List Nat) _ (keyCode a) (keyCode b) hab hba)⟩

theorem GoMap.mem_sortedKeys {V : Type} (m : GoMap V) (k : String) :
    k ∈ m.sortedKeys ↔ (m.get? k).isSome = true := by
  unfold GoMap.sortedKeys
  rw [List.mem_insertionSort, GoMap.mem_keys]

theorem GoMap.nodup_sortedKeys {V : Type} (m : GoMap V) : m.sortedKeys.Nodup := by
  unfold GoMap.sortedKeys
  rw [(List.perm_insertionSort keyLE m.keys).nodup_iff]
  exact List.nodup_dedup _

/-- The sorted keys of a map depend on its set of keys only. -/
theorem GoMap.sortedKeys_congr {V W : Type} (m : GoMap V) (m' : GoMap W)
    (h : ∀ k, (m.get? k).isSome = (m'.get? k).isSome) : m.sortedKeys = m'.sortedKeys := by
  apply @List.eq_of_perm_of_sorted String keyLE _ _ _
  · rw [List.perm_ext_iff_of_nodup (GoMap.nodup_sortedKeys m) (GoMap.nodup_sortedKeys m')]
    intro k
    rw [GoMap.mem_sortedKeys, GoMap.mem_sortedKeys, h k]
  · exact List.sorted_insertionSort keyLE _
  · exact List.sorted_insertionSort keyLE _

/-! ## Decoding root fields -/

theorem findField_of_not_variant (fields : List String) (k : String)
    (h : isCaseVariant fields k = false) (hk : k ∉ fields) : findField fields k = none := by
  unfold isCaseVariant at h
  have hc : fields.contains k = false := by simpa using hk
  rw [hc] at h
  cases hf : findField fields k with
  | none => rfl
  | some f => rw [hf] at h; simp at h

theorem memberValue_cons (k : String) (v : JSON) (rest : List (String × JSON)) (f : String) :
    memberValue ((k, v) :: rest) f
      = (memberValue rest f).or (if f = k then some v else none) := by
  unfold memberValue
  rw [List.reverse_cons, List.lookup_append]
  congr 1
  by_cases h : f = k
  · subst h
    simp [List.lookup]
  · have hb : (f == k) = false := by simpa using h
    simp [List.lookup, hb, h]

theorem memberValue_mem (members : List (String × JSON)) (f : String) (v : JSON)
    (h : memberValue members f = some v) : (f, v) ∈ members := by
  unfold memberValue at h
  have : (f, v) ∈ members.reverse := by
    generalize members.reverse = l at h
    induction l with
    | nil => cases h
    | cons kv rest ih =>
      obtain ⟨k0, v0⟩ := kv
      by_cases hk : f = k0
      · subst hk
        simp [List.lookup] at h
        subst h
        exact List.mem_cons_self _ _
      · have hb : (f == k0) = false := by simpa using hk
        simp only [List.lookup, hb] at h
        exact List.mem_cons_of_mem _ (ih h)
  exact List.mem_reverse.mp this

theorem memberStringOr_cons (k : String) (v : JSON) (rest : List (String × JSON))
    (f cur : String) (h : ∀ kv ∈ rest, kv.1 = f → ∃ s, kv.2 = JSON.str s) :
    memberStringOr ((k, v) :: rest) f cur
      = memberStringOr rest f
          (if k = f then v.stringOr cur else cur) := by
  unfold memberStringOr
  rw [memberValue_cons]
  cases hm : memberValue rest f with
  | some x =>
    obtain ⟨s, hs⟩ := h (f, x) (memberValue_mem rest f x hm) rfl
    simp only at hs
    subst hs
    rfl
  | none =>
    by_cases hk : k = f
    · subst hk
      simp only [Option.none_or, if_true]
    · have hk' : ¬ f = k := fun h => hk h.symm
      simp [hk, hk']

theorem crf_decodeMember_eq (a : customRootFieldsAlias) (k : String) (v : JSON)
    (hexact : isCaseVariant customRootFieldsAliasFields k = false)
    (hstr : k ∈ customRootFieldsAliasFields → ∃ s, v = JSON.str s) :
    customRootFieldsAlias.decodeMember a (k, v)
      = .ok { Select := if k = "select" then v.stringOr a.Select else a.Select
              SelectByPk := if k = "select_by_pk" then v.stringOr a.SelectByPk else a.SelectByPk
              SelectAggregate := if k = "select_aggregate" then v.stringOr a.SelectAggregate else a.SelectAggregate
              Insert := if k = "insert" then v.stringOr a.Insert else a.Insert
              InsertOne := if k = "insert_one" then v.stringOr a.InsertOne else a.InsertOne
              Update := if k = "update" then v.stringOr a.Update else a.Update
              UpdateByPk := if k = "update_by_pk" then v.stringOr a.UpdateByPk else a.UpdateByPk
              Delete := if k = "delete" then v.stringOr a.Delete else a.Delete
              DeleteByPk := if k = "delete_by_pk" then v.stringOr a.DeleteByPk else a.DeleteByPk } := by
  by_cases hk : k ∈ customRootFieldsAliasFields
  · obtain ⟨s, rfl⟩ := hstr hk
    simp only [customRootFieldsAliasFields, List.mem_cons, List.mem_singleton, List.not_mem_nil,
      or_false] at hk
    rcases hk with rfl | rfl | rfl | rfl | rfl | rfl | rfl | rfl | rfl <;> rfl
  · have hnone := findField_of_not_variant _ k hexact hk
    unfold customRootFieldsAlias.decodeMember
    simp only [hnone]
    simp only [customRootFieldsAliasFields, List.mem_cons, List.mem_singleton, List.not_mem_nil,
      or_false, not_or] at hk
    obtain ⟨h1, h2, h3, h4, h5, h6, h7, h8, h9⟩ := hk
    simp only [h1, h2, h3, h4, h5, h6, h7, h8, h9, if_false]
    rfl

theorem memberStringOr_nil (f cur : String) : memberStringOr [] f cur = cur := rfl

/-- Decoding the members of an object into a `customRootFieldsAlias`, when the
members named after a field hold strings and no other member selects a field:
each field ends up with the string of the last member of its name. -/
theorem crf_alias_fold (members : List (String × JSON)) (a : customRootFieldsAlias)
    (hexact : ∀ kv ∈ members, isCaseVariant customRootFieldsAliasFields kv.1 = false)
    (hstr : ∀ kv ∈ members, kv.1 ∈ customRootFieldsAliasFields → ∃ s, kv.2 = JSON.str s) :
    members.foldlM customRootFieldsAlias.decodeMember a
      = .ok { Select := memberStringOr members "select" a.Select
              SelectByPk := memberStringOr members "select_by_pk" a.SelectByPk
              SelectAggregate := memberStringOr members "select_aggregate" a.SelectAggregate
              Insert := memberStringOr members "insert" a.Insert
              InsertOne := memberStringOr members "insert_one" a.InsertOne
              Update := memberStringOr members "update" a.Update
              UpdateByPk := memberStringOr members "update_by_pk" a.UpdateByPk
              Delete := memberStringOr members "delete" a.Delete
              DeleteByPk := memberStringOr members "delete_by_pk" a.DeleteByPk } := by
  induction members generalizing a with
  | nil => rfl
  | cons kv rest ih =>
    obtain ⟨k, v⟩ := kv
    have hrest : ∀ f, f ∈ customRootFieldsAliasFields →
        ∀ kv ∈ rest, kv.1 = f → ∃ s, kv.2 = JSON.str s := by
      intro f hf kv hkv hk
      exact hstr kv (List.mem_cons_of_mem _ hkv) (hk ▸ hf)
    rw [List.foldlM_cons,
      crf_decodeMember_eq a k v (hexact (k, v) (List.mem_cons_self _ _))
        (hstr (k, v) (List.mem_cons_self _ _))]
    show rest.foldlM customRootFieldsAlias.decodeMember _ = _
    rw [ih _ (fun kv h => hexact kv (List.mem_cons_of_mem _ h))
      (fun kv h => hstr kv (List.mem_cons_of_mem _ h))]
    simp only [memberStringOr_cons k v rest _ _ (hrest "select" (by decide)),
      memberStringOr_cons k v rest _ _ (hrest "select_by_pk" (by decide)),
      memberStringOr_cons k v rest _ _ (hrest "select_aggregate" (by decide)),
      memberStringOr_cons k v rest _ _ (hrest "insert" (by decide)),
      memberStringOr_cons k v rest _ _ (hrest "insert_one" (by decide)),
      memberStringOr_cons k v rest _ _ (hrest "update" (by decide)),
      memberStringOr_cons k v rest _ _ (hrest "update_by_pk" (by decide)),
      memberStringOr_cons k v rest _ _ (hrest "delete" (by decide)),
      memberStringOr_cons k v rest _ _ (hrest "delete_by_pk" (by decide))]

theorem customRootFieldsKnownKeys_getBool (k : String) :
    customRootFieldsKnownKeys.getBool k = decide (k ∈ customRootFieldsAliasFields) := by
  by_cases hk : k ∈ customRootFieldsAliasFields
  · rw [decide_eq_true hk]
    simp only [customRootFieldsAliasFields, List.mem_cons, List.mem_singleton, List.not_mem_nil,
      or_false] at hk
    rcases hk with rfl | rfl | rfl | rfl | rfl | rfl | rfl | rfl | rfl <;> rfl
  · rw [decide_eq_false hk]
    have : customRootFieldsKnownKeys.get? k = none := by
      unfold GoMap.get?
      rw [lookup_eq_none_iff]
      exact hk
    unfold GoMap.getBool
    rw [this]
    rfl

theorem configurationKnownKeys_getBool (k : String) :
    configurationKnownKeys.getBool k = decide (k ∈ configurationAliasFields) := by
  by_cases hk : k ∈ configurationAliasFields
  · rw [decide_eq_true hk]
    simp only [configurationAliasFields, List.mem_cons, List.mem_singleton, List.not_mem_nil,
      or_false] at hk
    rcases hk with rfl | rfl | rfl <;> rfl
  · rw [decide_eq_false hk]
    have : configurationKnownKeys.get? k = none := by
      unfold GoMap.get?
      rw [lookup_eq_none_iff]
      exact hk
    unfold GoMap.getBool
    rw [this]
    rfl

/-- The map `json.Unmarshal` makes of an object: under each name, the text of
the value of the last member of that name. -/
theorem rawMembers_get? (members : List (String × JSON)) (k : String) :
    (members.foldl (fun m kv => m.set kv.1 (RawMessage.valid kv.2))
        (GoMap.make : GoMap RawMessage)).get? k
      = (memberValue members k).map RawMessage.valid := by
  unfold GoMap.get? memberValue
  rw [GoMap.entries_foldl_set (fun kv : String × JSON => (kv.1, RawMessage.valid kv.2))]
  simp only [GoMap.make, GoMap.entries, List.append_nil]
  exact lookup_map_snd RawMessage.valid members.reverse k

/-- The bag the loop over `allFields` builds from an object: the members whose
name is not a known key. -/
theorem extraFields_members_get? (known : GoMap Bool) (members : List (String × JSON))
    (k : String) :
    (extraFields known
        (members.foldl (fun m kv => m.set kv.1 (RawMessage.valid kv.2))
          (GoMap.make : GoMap RawMessage))).get? k
      = if known.getBool k then none else (memberValue members k).map RawMessage.valid := by
  rw [extraFields_get?, rawMembers_get?]

/-- The value `(*CustomRootFields).UnmarshalJSON` leaves in the receiver `c`
for an object whose members named after a field hold strings and none of whose
other members selects a field. -/
theorem crf_unmarshal_eq (c : CustomRootFields) (members : List (String × JSON))
    (hexact : ∀ kv ∈ members, isCaseVariant customRootFieldsAliasFields kv.1 = false)
    (hstr : ∀ kv ∈ members, kv.1 ∈ customRootFieldsAliasFields → ∃ s, kv.2 = JSON.str s) :
    CustomRootFields.UnmarshalJSON c (RawMessage.valid (JSON.obj members))
      = .ok { Select := memberString members "select"
              SelectByPk := memberString members "select_by_pk"
              SelectAggregate := memberString members "select_aggregate"
              Insert := memberString members "insert"
              InsertOne := memberString members "insert_one"
              Update := memberString members "update"
              UpdateByPk := memberString members "update_by_pk"
              Delete := memberString members "delete"
              DeleteByPk := memberString members "delete_by_pk"
              AdditionalProperties :=
                if 0 < (extraFields customRootFieldsKnownKeys
                    (members.foldl (fun m kv => m.set kv.1 (RawMessage.valid kv.2))
                      (GoMap.make : GoMap RawMessage))).len
                then extraFields customRootFieldsKnownKeys
                    (members.foldl (fun m kv => m.set kv.1 (RawMessage.valid kv.2))
                      (GoMap.make : GoMap RawMessage))
                else c.AdditionalProperties } := by
  unfold CustomRootFields.UnmarshalJSON unmarshalCustomRootFieldsAlias unmarshalRawMessageMap
  simp only [crf_alias_fold members _ hexact hstr]
  split <;> rfl

/-- The bag `(*CustomRootFields).UnmarshalJSON` leaves in a zero receiver. -/
theorem crf_bag_get? (members : List (String × JSON)) (k : String) :
    (if 0 < (extraFields customRootFieldsKnownKeys
          (members.foldl (fun m kv => m.set kv.1 (RawMessage.valid kv.2))
            (GoMap.make : GoMap RawMessage))).len
      then extraFields customRootFieldsKnownKeys
          (members.foldl (fun m kv => m.set kv.1 (RawMessage.valid kv.2))
            (GoMap.make : GoMap RawMessage))
      else GoMap.nil).get? k
      = if k ∈ customRootFieldsAliasFields then none
        else (memberValue members k).map RawMessage.valid := by
  have hget := extraFields_members_get? customRootFieldsKnownKeys members k
  rw [customRootFieldsKnownKeys_getBool] at hget
  simp only [decide_eq_true_eq] at hget
  split
  · exact hget
  · rename_i hlen
    have h0 := (GoMap.len_eq_zero_iff_key _).mp (Nat.eq_zero_of_not_pos hlen) k
    rw [← hget, h0]
    rfl

theorem holdsStrings_iff (fields : List String) (members : List (String × JSON)) :
    holdsStrings fields members = true ↔
      ∀ kv ∈ members, kv.1 ∈ fields → ∃ s, kv.2 = JSON.str s := by
  unfold holdsStrings
  rw [List.all_eq_true]
  constructor
  · intro h kv hkv hk
    have := h kv hkv
    have hc : fields.contains kv.1 = true := by simpa using hk
    rw [hc] at this
    cases hv : kv.2 <;> simp [hv, JSON.isStr] at this
    exact ⟨_, rfl⟩
  · intro h kv hkv
    by_cases hk : kv.1 ∈ fields
    · obtain ⟨s, hs⟩ := h kv hkv hk
      simp [hs, JSON.isStr]
    · simp [hk]

theorem noCaseVariant_iff (fields : List String) (members : List (String × JSON)) :
    noCaseVariant fields members = true ↔
      ∀ kv ∈ members, isCaseVariant fields kv.1 = false := by
  unfold noCaseVariant
  rw [List.all_eq_true]
  constructor
  · intro h kv hkv
    simpa using h kv hkv
  · intro h kv hkv
    simp [h kv hkv]

/-- C24 fails as stated. The object `{"Select": 42}` has none of the nine keys,
so each known key that is present holds a string, yet decoding it fails; and
the object `{"Select": "x"}` decodes with the field `Select` equal to `"x"`
although it has no value for the key `select`. -/
theorem customRootFields_case_variant_counterexample :
    holdsStrings customRootFieldsAliasFields [("Select", JSON.num "42")] = true ∧
    CustomRootFields.UnmarshalJSON CustomRootFields.zero
        (RawMessage.valid (JSON.obj [("Select", JSON.num "42")]))
      = .error (GoError.wrapError "unmarshaling custom root fields: " unmarshalTypeError) ∧
    holdsStrings customRootFieldsAliasFields [("Select", JSON.str "x")] = true ∧
    memberValue [("Select", JSON.str "x")] "select" = none ∧
    CustomRootFields.UnmarshalJSON CustomRootFields.zero
        (RawMessage.valid (JSON.obj [("Select", JSON.str "x")]))
      = .ok { CustomRootFields.zero with
              Select := "x"
              AdditionalProperties :=
                GoMap.mk [("Select", RawMessage.valid (JSON.str "x"))] } := by
  decide

/-- C24, amended: for every JSON object whose members named by one of the nine
keys hold strings and none of whose other members is named by a case variant
of one of them, `CustomRootFields.UnmarshalJSON` on a zero value succeeds; each
of the nine fields is the string the object holds under its key, the empty
string when the key is absent; `AdditionalProperties` holds exactly the members
whose key is not among the nine, with their values; and it is left nil when
there is no such member, so that the empty object decodes to the zero value. -/
theorem customRootFields_unmarshal_object (members : List (String × JSON))
    (hstr : holdsStrings customRootFieldsAliasFields members = true)
    (hexact : noCaseVariant customRootFieldsAliasFields members = true) :
    (∃ c, CustomRootFields.UnmarshalJSON CustomRootFields.zero
          (RawMessage.valid (JSON.obj members)) = .ok c ∧
      c.Select = memberString members "select" ∧
      c.SelectByPk = memberString members "select_by_pk" ∧
      c.SelectAggregate = memberString members "select_aggregate" ∧
      c.Insert = memberString members "insert" ∧
      c.InsertOne = memberString members "insert_one" ∧
      c.Update = memberString members "update" ∧
      c.UpdateByPk = memberString members "update_by_pk" ∧
      c.Delete = memberString members "delete" ∧
      c.DeleteByPk = memberString members "delete_by_pk" ∧
      (∀ k, c.AdditionalProperties.get? k
        = if k ∈ customRootFieldsAliasFields then none
          else (memberValue members k).map RawMessage.valid) ∧
      ((∀ kv ∈ members, kv.1 ∈ customRootFieldsAliasFields) →
        c.AdditionalProperties = GoMap.nil) ∧
      ((∃ kv ∈ members, kv.1 ∉ customRootFieldsAliasFields) →
        c.AdditionalProperties ≠ GoMap.nil)) ∧
    CustomRootFields.UnmarshalJSON CustomRootFields.zero (RawMessage.valid (JSON.obj []))
      = .ok CustomRootFields.zero := by
  refine ⟨?_, by decide⟩
  rw [holdsStrings_iff] at hstr
  rw [noCaseVariant_iff] at hexact
  refine ⟨_, crf_unmarshal_eq CustomRootFields.zero members hexact hstr,
    rfl, rfl, rfl, rfl, rfl, rfl, rfl, rfl, rfl, ?_, ?_, ?_⟩
  · intro k
    exact crf_bag_get? members k
  · intro hall
    show (if _ then _ else _) = GoMap.nil
    rw [if_neg]
    · rfl
    · intro hpos
      obtain ⟨k, hk⟩ := (GoMap.len_pos_iff_key _).mp hpos
      rw [extraFields_members_get?, customRootFieldsKnownKeys_getBool] at hk
      by_cases hkf : k ∈ customRootFieldsAliasFields
      · simp [hkf] at hk
      · simp only [hkf, decide_False, Bool.false_eq_true, if_false] at hk
        cases hm : memberValue members k with
        | none => rw [hm] at hk; cases hk
        | some v => exact hkf (hall (k, v) (memberValue_mem members k v hm))
  · rintro ⟨kv, hkv, hnot⟩
    show (if _ then _ else _) ≠ GoMap.nil
    have hpos : 0 < (extraFields customRootFieldsKnownKeys
        (members.foldl (fun m kv => m.set kv.1 (RawMessage.valid kv.2))
          (GoMap.make : GoMap RawMessage))).len := by
      rw [GoMap.len_pos_iff_key]
      refine ⟨kv.1, ?_⟩
      rw [extraFields_members_get?, customRootFieldsKnownKeys_getBool]
      simp only [hnot, decide_False, Bool.false_eq_true, if_false]
      have hin : kv.1 ∈ members.reverse.map Prod.fst :=
        List.mem_map.mpr ⟨kv, List.mem_reverse.mpr hkv, rfl⟩
      have := (lookup_isSome_iff members.reverse kv.1).mpr hin
      unfold memberValue
      cases hl : List.lookup kv.1 members.reverse with
      | none => rw [hl] at this; cases this
      | some v => rfl
    rw [if_pos hpos]
    intro hnil
    rw [hnil] at hpos
    exact absurd hpos (by decide)

/-- C24, amended, on the objects of `TestCustomRootFieldsUnmarshalJSON`: the
object with two additional members decodes to the value the test expects. -/
theorem customRootFields_unmarshal_object_witness :
    holdsStrings customRootFieldsAliasFields rootFieldsObject = true ∧
    noCaseVariant customRootFieldsAliasFields rootFieldsObject = true ∧
    CustomRootFields.UnmarshalJSON CustomRootFields.zero
        (RawMessage.valid (JSON.obj rootFieldsObject)) = .ok rootFieldsDecoded ∧
    (∃ c, CustomRootFields.UnmarshalJSON CustomRootFields.zero
          (RawMessage.valid (JSON.obj rootFieldsObject)) = .ok c ∧
      c.Select = "s" ∧ c.DeleteByPk = "dbp" ∧
      c.AdditionalProperties.get? "select_stream" = some (RawMessage.valid (JSON.str "ss")) ∧
      c.AdditionalProperties.get? "select" = none) := by
  refine ⟨by decide, by decide, by decide, ?_⟩
  obtain ⟨⟨c, hc, h1, _, _, _, _, _, _, _, h9, hbag, _, _⟩, _⟩ :=
    customRootFields_unmarshal_object rootFieldsObject (by decide) (by decide)
  refine ⟨c, hc, ?_, ?_, ?_, ?_⟩
  · rw [h1]; decide
  · rw [h9]; decide
  · rw [hbag]; decide
  · rw [hbag]; decide

/-! ## Encoding: the members written -/

theorem marshalRawMessage_of_marshals (raw : RawMessage) (h : raw.marshals = true) :
    marshalRawMessage raw = .ok raw.encoded := by
  cases raw with
  | nil => rfl
  | valid v => rfl
  | invalid b => cases h

theorem marshalRawMessage_error (raw : RawMessage) (h : raw.marshals = false) :
    marshalRawMessage raw = .error (marshalerError syntaxError) := by
  cases raw with
  | nil => cases h
  | valid v => cases h
  | invalid b => rfl

theorem marshalRawMessageMembers_ok (m : GoMap RawMessage) (ks : List String)
    (h : ∀ k ∈ ks, (m.getD k RawMessage.nil).marshals = true) :
    marshalRawMessageMembers m ks
      = .ok (ks.map (fun k => (k, (m.getD k RawMessage.nil).encoded))) := by
  induction ks with
  | nil => rfl
  | cons k rest ih =>
    unfold marshalRawMessageMembers
    rw [marshalRawMessage_of_marshals _ (h k (List.mem_cons_self _ _)),
      ih (fun k hk => h k (List.mem_cons_of_mem _ hk))]
    rfl

theorem marshalRawMessageMembers_error (m : GoMap RawMessage) (ks : List String)
    (h : ∃ k ∈ ks, (m.getD k RawMessage.nil).marshals = false) :
    marshalRawMessageMembers m ks = .error (marshalerError syntaxError) := by
  induction ks with
  | nil =>
    obtain ⟨k, hk, _⟩ := h
    cases hk
  | cons k rest ih =>
    unfold marshalRawMessageMembers
    cases hm : (m.getD k RawMessage.nil).marshals with
    | false => rw [marshalRawMessage_error _ hm]
    | true =>
      rw [marshalRawMessage_of_marshals _ hm]
      obtain ⟨k', hk', hf⟩ := h
      rcases List.mem_cons.mp hk' with rfl | hr
      · rw [hm] at hf; cases hf
      · rw [ih ⟨k', hr, hf⟩]

theorem GoMap.copy_mk {V : Type} (es : List (String × V)) (src : GoMap V) :
    GoMap.copy (GoMap.mk es) src = GoMap.mk (src.entries ++ es) := by
  unfold GoMap.copy
  induction src.entries with
  | nil => rfl
  | cons kv rest ih =>
    rw [List.foldr_cons, ih]
    rfl

theorem GoMap.foldl_set_make {α V : Type} (f : α → String × V) (l : List α) :
    l.foldl (fun m x => m.set (f x).1 (f x).2) (GoMap.make : GoMap V)
      = GoMap.mk (l.reverse.map f) := by
  have h := GoMap.entries_foldl_set f l (GoMap.make : GoMap V)
  cases hl : l.foldl (fun m x => m.set (f x).1 (f x).2) (GoMap.make : GoMap V) with
  | nil =>
    cases l with
    | nil => cases hl
    | cons x rest =>
      exfalso
      rw [hl] at h
      simp [GoMap.entries] at h
  | mk es =>
    rw [hl] at h
    simp only [GoMap.entries, GoMap.make, List.append_nil] at h
    rw [h]

theorem mergedMap_eq (known : List (String × JSON)) (bag : GoMap RawMessage) :
    mergedMap known bag
      = GoMap.mk (bag.entries ++ known.reverse.map (fun kv => (kv.1, RawMessage.valid kv.2))) := by
  unfold mergedMap
  rw [GoMap.foldl_set_make (fun kv : String × JSON => (kv.1, RawMessage.valid kv.2)),
    GoMap.copy_mk]

theorem mergedMap_get? (known : List (String × JSON)) (bag : GoMap RawMessage) (k : String) :
    (mergedMap known bag).get? k
      = (bag.get? k).or ((memberValue known k).map RawMessage.valid) := by
  rw [mergedMap_eq]
  unfold GoMap.get? memberValue
  simp only [GoMap.entries]
  rw [List.lookup_append, lookup_map_snd RawMessage.valid]

/-- The encoding of the map a `MarshalJSON` method builds, when every value of
the bag is accepted by the encoder. -/
theorem marshal_mergedMap_ok (known : List (String × JSON)) (bag : GoMap RawMessage)
    (h : bagMarshals bag = true) :
    marshalRawMessageMap (mergedMap known bag)
      = .ok (JSON.obj (encodedMembers (mergedMap known bag))) := by
  have hall : ∀ k ∈ (mergedMap known bag).sortedKeys,
      ((mergedMap known bag).getD k RawMessage.nil).marshals = true := by
    intro k _
    unfold GoMap.getD
    rw [mergedMap_get?]
    cases hb : bag.get? k with
    | some raw =>
      unfold bagMarshals at h
      rw [List.all_eq_true] at h
      have hk : k ∈ bag.keys := (GoMap.mem_keys bag k).mpr (by rw [hb]; rfl)
      have := h k hk
      unfold GoMap.getD at this
      rw [hb] at this
      exact this
    | none =>
      cases memberValue known k <;> rfl
  rw [mergedMap_eq] at hall ⊢
  unfold marshalRawMessageMap
  simp only
  rw [marshalRawMessageMembers_ok _ _ hall]
  rfl

theorem marshal_mergedMap_error (known : List (String × JSON)) (bag : GoMap RawMessage)
    (h : bagMarshals bag = false) :
    marshalRawMessageMap (mergedMap known bag) = .error (marshalerError syntaxError) := by
  have hex : ∃ k ∈ (mergedMap known bag).sortedKeys,
      ((mergedMap known bag).getD k RawMessage.nil).marshals = false := by
    unfold bagMarshals at h
    rw [List.all_eq_false] at h
    obtain ⟨k, hk, hm⟩ := h
    have hsome := (GoMap.mem_keys bag k).mp hk
    refine ⟨k, ?_, ?_⟩
    · rw [GoMap.mem_sortedKeys, mergedMap_get?]
      cases hb : bag.get? k with
      | none => rw [hb] at hsome; cases hsome
      | some raw => rfl
    · unfold GoMap.getD
      rw [mergedMap_get?]
      cases hb : bag.get? k with
      | none => rw [hb] at hsome; cases hsome
      | some raw =>
        unfold GoMap.getD at hm
        rw [hb] at hm
        simpa using hm
  rw [mergedMap_eq] at hex ⊢
  unfold marshalRawMessageMap
  simp only
  rw [marshalRawMessageMembers_error _ _ hex]

/-- Closed form of `CustomRootFields.MarshalJSON`. -/
theorem crf_marshal_eq (c : CustomRootFields) :
    c.MarshalJSON
      = if c.AdditionalProperties.len = 0 then .ok (JSON.obj c.knownMembers)
        else if bagMarshals c.AdditionalProperties = true then
          .ok (JSON.obj (encodedMembers (mergedMap c.knownMembers c.AdditionalProperties)))
        else .error (marshalerError syntaxError) := by
  unfold CustomRootFields.MarshalJSON marshalCustomRootFieldsAlias
  simp only [beq_iff_eq]
  by_cases h0 : c.AdditionalProperties.len = 0
  · simp only [h0, if_true]
    rfl
  · simp only [h0, if_false]
    unfold unmarshalRawMessageMap
    simp only
    by_cases hm : bagMarshals c.AdditionalProperties = true
    · rw [if_pos hm]
      exact marshal_mergedMap_ok c.knownMembers c.AdditionalProperties hm
    · rw [if_neg hm]
      exact marshal_mergedMap_error c.knownMembers c.AdditionalProperties (by simpa using hm)

/-- Closed form of `Configuration.MarshalJSON`. -/
theorem configuration_marshal_eq (c : Configuration) :
    c.MarshalJSON
      = match c.CustomRootFields.MarshalJSON with
        | .error err => .error (GoError.wrapError "marshaling configuration: " (marshalerError err))
        | .ok rootFields =>
          if c.AdditionalProperties.len = 0 then .ok (JSON.obj (c.knownMembers rootFields))
          else if bagMarshals c.AdditionalProperties = true then
            .ok (JSON.obj
              (encodedMembers (mergedMap (c.knownMembers rootFields) c.AdditionalProperties)))
          else .error (marshalerError syntaxError) := by
  unfold Configuration.MarshalJSON marshalConfigurationAlias
  simp only [beq_iff_eq]
  cases hr : c.CustomRootFields.MarshalJSON with
  | error err => rfl
  | ok rootFields =>
    simp only
    by_cases h0 : c.AdditionalProperties.len = 0
    · simp only [h0, if_true]
      rfl
    · simp only [h0, if_false]
      unfold unmarshalRawMessageMap
      simp only
      by_cases hm : bagMarshals c.AdditionalProperties = true
      · rw [if_pos hm]
        exact marshal_mergedMap_ok (c.knownMembers rootFields) c.AdditionalProperties hm
      · rw [if_neg hm]
        exact marshal_mergedMap_error (c.knownMembers rootFields) c.AdditionalProperties
          (by simpa using hm)

/-! ## Encoding: the keys and values of the object -/

theorem memberValue_of_mem_nodup (members : List (String × JSON)) (k : String) (v : JSON)
    (hnd : (members.map Prod.fst).Nodup) (hmem : (k, v) ∈ members) :
    memberValue members k = some v := by
  unfold memberValue
  rw [lookup_reverse_of_nodup members k hnd]
  exact lookup_of_mem_nodup members k v hnd hmem

theorem memberValue_isSome_iff (members : List (String × JSON)) (k : String) :
    (memberValue members k).isSome = true ↔ k ∈ members.map Prod.fst := by
  unfold memberValue
  rw [lookup_isSome_iff]
  simp

theorem memberValue_eq_none (members : List (String × JSON)) (k : String)
    (h : k ∉ members.map Prod.fst) : memberValue members k = none := by
  have := memberValue_isSome_iff members k
  cases hm : memberValue members k with
  | none => rfl
  | some v =>
    rw [hm] at this
    exact absurd (this.mp rfl) h

theorem bagDisjoint_iff (fields : List String) (bag : GoMap RawMessage) :
    bagDisjoint fields bag = true ↔ ∀ k, (bag.get? k).isSome = true → k ∉ fields := by
  unfold bagDisjoint
  rw [List.all_eq_true]
  constructor
  · intro h k hk
    simpa using h k ((GoMap.mem_keys bag k).mpr hk)
  · intro h k hk
    simpa using h k ((GoMap.mem_keys bag k).mp hk)

theorem GoMap.keys_eq_nil_of_len {V : Type} (m : GoMap V) (h : m.len = 0) : m.keys = [] :=
  List.length_eq_zero.mp h

theorem encodedMembers_keys (m : GoMap RawMessage) :
    (encodedMembers m).map Prod.fst = m.sortedKeys := by
  unfold encodedMembers
  rw [List.map_map]
  exact List.map_id'' (fun _ => rfl) _

theorem mem_encodedMembers (m : GoMap RawMessage) (k : String) (raw : RawMessage)
    (h : m.get? k = some raw) : (k, raw.encoded) ∈ encodedMembers m := by
  unfold encodedMembers
  refine List.mem_map.mpr ⟨k, (GoMap.mem_sortedKeys m k).mpr (by rw [h]; rfl), ?_⟩
  unfold GoMap.getD
  rw [h]
  rfl

/-- The object written on the path without a bag. -/
theorem serializedAs_known (known : List (String × JSON)) (bag : GoMap RawMessage)
    (hnd : (known.map Prod.fst).Nodup) (h0 : bag.len = 0) :
    SerializedAs (JSON.obj known) known bag := by
  refine ⟨known, rfl, hnd, ?_, ?_, fun kv h => h⟩
  · intro k
    rw [GoMap.keys_eq_nil_of_len bag h0]
    simp
  · intro k raw hk
    rw [(GoMap.len_eq_zero_iff_key bag).mp h0 k] at hk
    cases hk

/-- The object written on the path with a bag, when no key of the bag is a
known key. -/
theorem serializedAs_merged (known : List (String × JSON)) (bag : GoMap RawMessage)
    (hnd : (known.map Prod.fst).Nodup)
    (hdisj : bagDisjoint (known.map Prod.fst) bag = true) :
    SerializedAs (JSON.obj (encodedMembers (mergedMap known bag))) known bag := by
  rw [bagDisjoint_iff] at hdisj
  refine ⟨_, rfl, ?_, ?_, ?_, ?_⟩
  · rw [encodedMembers_keys]
    exact GoMap.nodup_sortedKeys _
  · intro k
    rw [encodedMembers_keys, GoMap.mem_sortedKeys, mergedMap_get?, GoMap.mem_keys,
      ← memberValue_isSome_iff]
    cases bag.get? k <;> cases memberValue known k <;> simp
  · intro k raw hk
    apply mem_encodedMembers
    rw [mergedMap_get?, hk]
    rfl
  · intro kv hkv
    obtain ⟨k, v⟩ := kv
    have hk : k ∈ known.map Prod.fst := List.mem_map.mpr ⟨(k, v), hkv, rfl⟩
    have hb : bag.get? k = none := by
      cases hg : bag.get? k with
      | none => rfl
      | some raw => exact absurd hk (hdisj k (by rw [hg]; rfl))
    have := mem_encodedMembers (mergedMap known bag) k (RawMessage.valid v)
      (by rw [mergedMap_get?, hb, memberValue_of_mem_nodup known k v hnd hkv]; rfl)
    exact this

theorem crf_knownMembers_keys (c : CustomRootFields) :
    c.knownMembers.map Prod.fst = customRootFieldsAliasFields := rfl

theorem configuration_knownMembers_keys (c : Configuration) (rootFields : JSON) :
    (c.knownMembers rootFields).map Prod.fst = configurationAliasFields := rfl

theorem customRootFieldsAliasFields_nodup : customRootFieldsAliasFields.Nodup := by decide

theorem configurationAliasFields_nodup : configurationAliasFields.Nodup := by decide

theorem crf_serializedAs (r : CustomRootFields)
    (hr : bagDisjoint customRootFieldsAliasFields r.AdditionalProperties = true)
    (json : JSON) (h : r.MarshalJSON = .ok json) :
    SerializedAs json r.knownMembers r.AdditionalProperties := by
  rw [crf_marshal_eq] at h
  have hnd : (r.knownMembers.map Prod.fst).Nodup := by
    rw [crf_knownMembers_keys]; exact customRootFieldsAliasFields_nodup
  by_cases h0 : r.AdditionalProperties.len = 0
  · rw [if_pos h0] at h
    cases h
    exact serializedAs_known _ _ hnd h0
  · rw [if_neg h0] at h
    by_cases hm : bagMarshals r.AdditionalProperties = true
    · rw [if_pos hm] at h
      cases h
      exact serializedAs_merged _ _ hnd (by rw [crf_knownMembers_keys]; exact hr)
    · rw [if_neg hm] at h
      cases h

theorem configuration_serializedAs (c : Configuration)
    (hc : bagDisjoint configurationAliasFields c.AdditionalProperties = true)
    (json : JSON) (h : c.MarshalJSON = .ok json) :
    ∃ rootFields, c.CustomRootFields.MarshalJSON = .ok rootFields ∧
      SerializedAs json (c.knownMembers rootFields) c.AdditionalProperties := by
  rw [configuration_marshal_eq] at h
  cases hr : c.CustomRootFields.MarshalJSON with
  | error err => rw [hr] at h; cases h
  | ok rootFields =>
    rw [hr] at h
    simp only at h
    refine ⟨rootFields, rfl, ?_⟩
    have hnd : ((c.knownMembers rootFields).map Prod.fst).Nodup := by
      rw [configuration_knownMembers_keys]; exact configurationAliasFields_nodup
    by_cases h0 : c.AdditionalProperties.len = 0
    · rw [if_pos h0] at h
      cases h
      exact serializedAs_known _ _ hnd h0
    · rw [if_neg h0] at h
      by_cases hm : bagMarshals c.AdditionalProperties = true
      · rw [if_pos hm] at h
        cases h
        exact serializedAs_merged _ _ hnd (by rw [configuration_knownMembers_keys]; exact hc)
      · rw [if_neg hm] at h
        cases h

theorem crf_marshal_ok (r : CustomRootFields)
    (hm : bagMarshals r.AdditionalProperties = true) :
    ∃ json, r.MarshalJSON = .ok json := by
  rw [crf_marshal_eq]
  by_cases h0 : r.AdditionalProperties.len = 0
  · exact ⟨_, if_pos h0⟩
  · rw [if_neg h0, if_pos hm]
    exact ⟨_, rfl⟩

theorem configuration_marshal_ok (c : Configuration)
    (hm : bagMarshals c.AdditionalProperties = true)
    (hr : bagMarshals c.CustomRootFields.AdditionalProperties = true) :
    ∃ json, c.MarshalJSON = .ok json := by
  rw [configuration_marshal_eq]
  obtain ⟨rootFields, hrf⟩ := crf_marshal_ok c.CustomRootFields hr
  rw [hrf]
  simp only
  by_cases h0 : c.AdditionalProperties.len = 0
  · exact ⟨_, if_pos h0⟩
  · rw [if_neg h0, if_pos hm]
    exact ⟨_, rfl⟩

/-- C23: for a `Configuration` whose bag has none of the three known keys, the
object `MarshalJSON` returns has exactly the keys `custom_name`,
`custom_root_fields`, `custom_column_names` and the keys of the bag, each once;
each key of the bag carries the encoding of its bag value, and the known keys
carry `CustomName`, the encoding of `CustomRootFields` and the encoding of
`CustomColumnNames`. The same holds for a `CustomRootFields` whose bag has none
of the nine known keys. `MarshalJSON` returns such an object whenever the
values of the bags are texts the encoder accepts. -/
theorem marshalJSON_members (c : Configuration) (r : CustomRootFields)
    (hc : bagDisjoint configurationAliasFields c.AdditionalProperties = true)
    (hr : bagDisjoint customRootFieldsAliasFields r.AdditionalProperties = true) :
    (∀ json, c.MarshalJSON = .ok json →
      ∃ rootFields, c.CustomRootFields.MarshalJSON = .ok rootFields ∧
        ∃ members, json = JSON.obj members ∧
          (members.map Prod.fst).Nodup ∧
          (∀ k, k ∈ members.map Prod.fst ↔
            k ∈ configurationAliasFields ∨ k ∈ c.AdditionalProperties.keys) ∧
          (∀ k raw, c.AdditionalProperties.get? k = some raw → (k, raw.encoded) ∈ members) ∧
          ("custom_name", JSON.str c.CustomName) ∈ members ∧
          ("custom_root_fields", rootFields) ∈ members ∧
          ("custom_column_names", marshalStringMap c.CustomColumnNames) ∈ members) ∧
    (bagMarshals c.AdditionalProperties = true →
      bagMarshals c.CustomRootFields.AdditionalProperties = true →
      ∃ json, c.MarshalJSON = .ok json) ∧
    (∀ json, r.MarshalJSON = .ok json →
      SerializedAs json r.knownMembers r.AdditionalProperties) ∧
    (bagMarshals r.AdditionalProperties = true → ∃ json, r.MarshalJSON = .ok json) := by
  refine ⟨?_, configuration_marshal_ok c, crf_serializedAs r hr, crf_marshal_ok r⟩
  intro json hjson
  obtain ⟨rootFields, hrf, members, hm, hnd, hkeys, hbag, hknown⟩ :=
    configuration_serializedAs c hc json hjson
  refine ⟨rootFields, hrf, members, hm, hnd, ?_, hbag, ?_, ?_, ?_⟩
  · intro k
    rw [hkeys k, configuration_knownMembers_keys]
  · exact hknown _ (by simp [Configuration.knownMembers])
  · exact hknown _ (by simp [Configuration.knownMembers])
  · exact hknown _ (by simp [Configuration.knownMembers])

/-- C23, on the configuration of
`TestConfigurationMarshalPreservesAdditionalProperties` and on root fields with
two additional properties: the object written has `column_config` next to the
three known keys. -/
theorem marshalJSON_members_witness :
    bagDisjoint configurationAliasFields columnConfigConfiguration.AdditionalProperties = true ∧
    bagDisjoint customRootFieldsAliasFields streamRootFields.AdditionalProperties = true ∧
    columnConfigConfiguration.MarshalJSON
      = .ok (JSON.obj
          [ ("column_config", JSON.obj [("id", JSON.obj [("comment", JSON.str "pk")])]),
            ("custom_column_names", JSON.obj [("col", JSON.str "c")]),
            ("custom_name", JSON.str "cn"),
            ("custom_root_fields",
              JSON.obj (CustomRootFields.knownMembers
                { CustomRootFields.zero with Select := "s" })) ]) ∧
    (∃ json, streamRootFields.MarshalJSON = .ok json ∧
      SerializedAs json streamRootFields.knownMembers streamRootFields.AdditionalProperties) := by
  have h := marshalJSON_members columnConfigConfiguration streamRootFields (by decide) (by decide)
  refine ⟨by decide, by decide, by decide, ?_⟩
  obtain ⟨json, hjson⟩ := h.2.2.2 (by decide)
  exact ⟨json, hjson, h.2.2.1 json hjson⟩

/-! ## Reading back what was written: root fields -/

theorem find?_beq_of_mem (fields : List String) (k : String) (h : k ∈ fields) :
    fields.find? (fun f => f == k) = some k := by
  induction fields with
  | nil => cases h
  | cons f rest ih =>
    by_cases hf : f = k
    · subst hf
      simp [List.find?]
    · have hb : (f == k) = false := by simpa using hf
      rcases List.mem_cons.mp h with h1 | h1
      · exact absurd h1.symm hf
      · simp only [List.find?, hb]
        exact ih h1

theorem findField_of_mem (fields : List String) (k : String) (h : k ∈ fields) :
    findField fields k = some k := by
  unfold findField
  rw [find?_beq_of_mem fields k h]

theorem bagForeign_iff (fields : List String) (bag : GoMap RawMessage) :
    bagForeign fields bag = true ↔
      ∀ k, (bag.get? k).isSome = true → findField fields k = none := by
  unfold bagForeign
  rw [List.all_eq_true]
  constructor
  · intro h k hk
    simpa using h k ((GoMap.mem_keys bag k).mpr hk)
  · intro h k hk
    simpa using h k ((GoMap.mem_keys bag k).mp hk)

theorem bagDisjoint_of_foreign (fields : List String) (bag : GoMap RawMessage)
    (h : bagForeign fields bag = true) : bagDisjoint fields bag = true := by
  rw [bagForeign_iff] at h
  rw [bagDisjoint_iff]
  intro k hk hmem
  have := h k hk
  rw [findField_of_mem fields k hmem] at this
  cases this

theorem isCaseVariant_of_mem (fields : List String) (k : String) (h : k ∈ fields) :
    isCaseVariant fields k = false := by
  unfold isCaseVariant
  have : fields.contains k = true := by simpa using h
  rw [this]
  rfl

theorem isCaseVariant_of_findField_none (fields : List String) (k : String)
    (h : findField fields k = none) : isCaseVariant fields k = false := by
  unfold isCaseVariant
  rw [h]
  simp

theorem extraFields_isNil (known : GoMap Bool) (allFields : GoMap RawMessage) :
    (extraFields known allFields).isNil = false := by
  unfold extraFields
  induction allFields.entries with
  | nil => rfl
  | cons kv rest ih =>
    rw [List.foldr_cons]
    split
    · rfl
    · exact ih

theorem GoMap.isSome_get?_iff_len {V : Type} (m : GoMap V) :
    m.len = 0 ↔ ¬ ∃ k, (m.get? k).isSome = true := by
  rw [← GoMap.len_pos_iff_key]
  omega

/-- What an object tells about the members a decoder sees, when the object has
exactly the keys of `known` and of a bag none of whose keys selects a field. -/
theorem serialized_members (fields : List String) (known members : List (String × JSON))
    (bag : GoMap RawMessage) (hfields : known.map Prod.fst = fields)
    (hforeign : bagForeign fields bag = true)
    (hnd : (members.map Prod.fst).Nodup)
    (hkeys : ∀ k, k ∈ members.map Prod.fst ↔ k ∈ known.map Prod.fst ∨ k ∈ bag.keys)
    (hbag : ∀ k raw, bag.get? k = some raw → (k, raw.encoded) ∈ members)
    (hknown : ∀ kv ∈ known, kv ∈ members) :
    (∀ kv ∈ members, isCaseVariant fields kv.1 = false) ∧
    (∀ kv ∈ known, memberValue members kv.1 = some kv.2) ∧
    (∀ kv ∈ members, kv.1 ∈ fields → kv ∈ known) ∧
    (∀ k, (if k ∈ fields then none else (memberValue members k).map RawMessage.valid)
      = (bag.get? k).map (fun raw => RawMessage.valid raw.encoded)) := by
  rw [bagForeign_iff] at hforeign
  have hknownval : ∀ kv ∈ known, memberValue members kv.1 = some kv.2 := by
    intro kv hkv
    exact memberValue_of_mem_nodup members kv.1 kv.2 hnd (hknown kv hkv)
  refine ⟨?_, hknownval, ?_, ?_⟩
  · intro kv hkv
    have hk : kv.1 ∈ members.map Prod.fst := List.mem_map.mpr ⟨kv, hkv, rfl⟩
    rcases (hkeys kv.1).mp hk with h | h
    · exact isCaseVariant_of_mem fields kv.1 (hfields ▸ h)
    · exact isCaseVariant_of_findField_none fields kv.1
        (hforeign kv.1 ((GoMap.mem_keys bag kv.1).mp h))
  · intro kv hkv hk
    rw [← hfields] at hk
    obtain ⟨kv', hkv', hfst⟩ := List.mem_map.mp hk
    have h1 := hknownval kv' hkv'
    have h2 := memberValue_of_mem_nodup members kv.1 kv.2 hnd hkv
    rw [hfst, h2] at h1
    have : kv.2 = kv'.2 := Option.some.inj h1
    have hkv_eq : kv = kv' := Prod.ext hfst.symm this
    rw [hkv_eq]
    exact hkv'
  · intro k
    by_cases hk : k ∈ fields
    · rw [if_pos hk]
      cases hb : bag.get? k with
      | none => rfl
      | some raw =>
        have := hforeign k (by rw [hb]; rfl)
        rw [findField_of_mem fields k hk] at this
        cases this
    · rw [if_neg hk]
      cases hb : bag.get? k with
      | some raw =>
        rw [memberValue_of_mem_nodup members k raw.encoded hnd (hbag k raw hb)]
        rfl
      | none =>
        have hnot : k ∉ members.map Prod.fst := by
          intro hmem
          rcases (hkeys k).mp hmem with h | h
          · exact hk (hfields ▸ h)
          · have := (GoMap.mem_keys bag k).mp h
            rw [hb] at this
            cases this
        rw [memberValue_eq_none members k hnot]
        rfl

theorem memberString_of_value (members : List (String × JSON)) (k s : String)
    (h : memberValue members k = some (JSON.str s)) : memberString members k = s := by
  unfold memberString memberStringOr
  rw [h]
  rfl

/-- Decoding what `CustomRootFields.MarshalJSON` wrote, when the encoder
accepts the values of the bag and no key of the bag selects a field: the nine
fields come back, and the bag is read back. -/
theorem crf_round_trip (c : CustomRootFields)
    (hm : bagMarshals c.AdditionalProperties = true)
    (hf : bagForeign customRootFieldsAliasFields c.AdditionalProperties = true) :
    ∃ json c', c.MarshalJSON = .ok json ∧
      CustomRootFields.UnmarshalJSON CustomRootFields.zero (RawMessage.valid json) = .ok c' ∧
      c'.Select = c.Select ∧ c'.SelectByPk = c.SelectByPk ∧
      c'.SelectAggregate = c.SelectAggregate ∧ c'.Insert = c.Insert ∧
      c'.InsertOne = c.InsertOne ∧ c'.Update = c.Update ∧ c'.UpdateByPk = c.UpdateByPk ∧
      c'.Delete = c.Delete ∧ c'.DeleteByPk = c.DeleteByPk ∧
      ReadBack c.AdditionalProperties c'.AdditionalProperties := by
  obtain ⟨json, hjson⟩ := crf_marshal_ok c hm
  obtain ⟨members, rfl, hnd, hkeys, hbag, hknown⟩ :=
    crf_serializedAs c (bagDisjoint_of_foreign _ _ hf) json hjson
  obtain ⟨hexact, hval, hback, hget⟩ :=
    serialized_members customRootFieldsAliasFields c.knownMembers members
      c.AdditionalProperties (crf_knownMembers_keys c) hf hnd hkeys hbag hknown
  have hstr : ∀ kv ∈ members, kv.1 ∈ customRootFieldsAliasFields → ∃ s, kv.2 = JSON.str s := by
    intro kv hkv hk
    have := hback kv hkv hk
    simp only [CustomRootFields.knownMembers, List.mem_cons, List.mem_singleton,
      List.not_mem_nil, or_false] at this
    rcases this with h | h | h | h | h | h | h | h | h <;> exact ⟨_, congrArg Prod.snd h⟩
  have hs : ∀ k s, (k, JSON.str s) ∈ c.knownMembers → memberString members k = s :=
    fun k s h => memberString_of_value members k s (hval (k, JSON.str s) h)
  refine ⟨_, _, hjson, crf_unmarshal_eq CustomRootFields.zero members hexact hstr,
    hs _ _ (by simp [CustomRootFields.knownMembers]),
    hs _ _ (by simp [CustomRootFields.knownMembers]),
    hs _ _ (by simp [CustomRootFields.knownMembers]),
    hs _ _ (by simp [CustomRootFields.knownMembers]),
    hs _ _ (by simp [CustomRootFields.knownMembers]),
    hs _ _ (by simp [CustomRootFields.knownMembers]),
    hs _ _ (by simp [CustomRootFields.knownMembers]),
    hs _ _ (by simp [CustomRootFields.knownMembers]),
    hs _ _ (by simp [CustomRootFields.knownMembers]), ?_⟩
  have hgetk : ∀ k, (extraFields customRootFieldsKnownKeys
        (members.foldl (fun m kv => m.set kv.1 (RawMessage.valid kv.2))
          (GoMap.make : GoMap RawMessage))).get? k
      = (c.AdditionalProperties.get? k).map (fun raw => RawMessage.valid raw.encoded) := by
    intro k
    rw [extraFields_members_get?, customRootFieldsKnownKeys_getBool, ← hget k]
    simp only [decide_eq_true_eq]
  have hlen : (0 < (extraFields customRootFieldsKnownKeys
        (members.foldl (fun m kv => m.set kv.1 (RawMessage.valid kv.2))
          (GoMap.make : GoMap RawMessage))).len) ↔ ¬ c.AdditionalProperties.len = 0 := by
    rw [GoMap.len_pos_iff_key, GoMap.isSome_get?_iff_len, not_not]
    constructor
    · rintro ⟨k, hk⟩
      rw [hgetk k] at hk
      exact ⟨k, by cases hb : c.AdditionalProperties.get? k <;> simp_all⟩
    · rintro ⟨k, hk⟩
      refine ⟨k, ?_⟩
      rw [hgetk k]
      cases hb : c.AdditionalProperties.get? k <;> simp_all
  show ReadBack c.AdditionalProperties (if _ then _ else _)
  by_cases h0 : c.AdditionalProperties.len = 0
  · rw [if_neg (fun hp => (hlen.mp hp) h0)]
    refine ⟨by simp [h0, CustomRootFields.zero, GoMap.isNil], fun k => ?_⟩
    rw [(GoMap.len_eq_zero_iff_key _).mp h0 k]
    rfl
  · rw [if_pos (hlen.mpr h0)]
    exact ⟨by rw [extraFields_isNil]; simp [h0], hgetk⟩

/-! ## Decoding a configuration object -/

theorem decodeStringMap_loop (ms : List (String × JSON)) (init : GoMap String)
    (h : ∀ kv ∈ ms, ∃ s, kv.2 = JSON.str s) :
    ms.foldlM
        (fun m kv => do
          let s ← decodeString "" kv.2
          pure (m.set kv.1 s))
        init
      = (.ok (ms.foldl (fun m kv => m.set kv.1 (kv.2.stringOr "")) init) :
          Except GoError (GoMap String)) := by
  induction ms generalizing init with
  | nil => rfl
  | cons kv rest ih =>
    obtain ⟨s, hs⟩ := h kv (List.mem_cons_self _ _)
    rw [List.foldlM_cons, List.foldl_cons]
    rw [← ih (init.set kv.1 (kv.2.stringOr "")) (fun kv h' => h kv (List.mem_cons_of_mem _ h'))]
    rw [hs]
    rfl

/-- Decoding an object of strings into a nil `map[string]string`: the map
holds, under each name, the string of the last member of that name. -/
theorem decodeStringMap_obj (ms : List (String × JSON))
    (h : ∀ kv ∈ ms, ∃ s, kv.2 = JSON.str s) :
    ∃ m, decodeStringMap GoMap.nil (JSON.obj ms) = .ok m ∧ m.isNil = false ∧
      ∀ k, m.get? k = (memberValue ms k).map (JSON.stringOr "") := by
  refine ⟨ms.foldl (fun m kv => m.set kv.1 (kv.2.stringOr "")) GoMap.make, ?_, ?_, ?_⟩
  · unfold decodeStringMap
    exact decodeStringMap_loop ms GoMap.make h
  · rw [GoMap.foldl_set_make (fun kv : String × JSON => (kv.1, kv.2.stringOr ""))]
    rfl
  · intro k
    rw [GoMap.foldl_set_make (fun kv : String × JSON => (kv.1, kv.2.stringOr ""))]
    unfold GoMap.get? memberValue
    simp only [GoMap.entries]
    exact lookup_map_snd (JSON.stringOr "") ms.reverse k

/-- Decoding what `json.Marshal` wrote for a `map[string]string` gives the map
back. -/
theorem decodeStringMap_marshal (m : GoMap String) :
    ∃ m', decodeStringMap GoMap.nil (marshalStringMap m) = .ok m' ∧ GoMap.Same m' m := by
  cases m with
  | nil => exact ⟨GoMap.nil, rfl, rfl, fun _ => rfl⟩
  | mk es =>
    have hstr : ∀ kv ∈ (GoMap.mk es).sortedKeys.map
        (fun k => (k, JSON.str ((GoMap.mk es).getD k ""))), ∃ s, kv.2 = JSON.str s := by
      intro kv hkv
      obtain ⟨k, _, rfl⟩ := List.mem_map.mp hkv
      exact ⟨_, rfl⟩
    obtain ⟨m', hdec, hnil, hget⟩ := decodeStringMap_obj _ hstr
    refine ⟨m', hdec, by rw [hnil]; rfl, fun k => ?_⟩
    rw [hget k]
    have hkeys : ((GoMap.mk es).sortedKeys.map
        (fun k => (k, JSON.str ((GoMap.mk es).getD k "")))).map Prod.fst
        = (GoMap.mk es).sortedKeys := by
      rw [List.map_map]
      exact List.map_id'' (fun _ => rfl) _
    cases hk : (GoMap.mk es).get? k with
    | none =>
      rw [memberValue_eq_none]
      · rfl
      · rw [hkeys, GoMap.mem_sortedKeys, hk]
        simp
    | some s =>
      rw [memberValue_of_mem_nodup _ k (JSON.str s)]
      · rfl
      · rw [hkeys]
        exact GoMap.nodup_sortedKeys _
      · refine List.mem_map.mpr ⟨k, (GoMap.mem_sortedKeys _ k).mpr (by rw [hk]; rfl), ?_⟩
        unfold GoMap.getD
        rw [hk]
        rfl

theorem configuration_decodeMember_name (a : configurationAlias) (v : JSON) :
    configurationAlias.decodeMember a ("custom_name", v)
      = (decodeString a.CustomName v).bind (fun s => .ok { a with CustomName := s }) := rfl

theorem configuration_decodeMember_root (a : configurationAlias) (v : JSON) :
    configurationAlias.decodeMember a ("custom_root_fields", v)
      = (CustomRootFields.UnmarshalJSON a.CustomRootFields (RawMessage.valid v)).bind
          (fun c => .ok { a with CustomRootFields := c }) := rfl

theorem configuration_decodeMember_columns (a : configurationAlias) (v : JSON) :
    configurationAlias.decodeMember a ("custom_column_names", v)
      = (decodeStringMap a.CustomColumnNames v).bind
          (fun m => .ok { a with CustomColumnNames := m }) := rfl

theorem configuration_decodeMember_other (a : configurationAlias) (k : String) (v : JSON)
    (h : findField configurationAliasFields k = none) :
    configurationAlias.decodeMember a (k, v) = .ok a := by
  unfold configurationAlias.decodeMember
  simp only [h]
  rfl

/-- One step of a decoding loop over members with pairwise distinct names, for
one field of the target: what holds of the field after the first member and
after the rest gives what holds after all members. -/
theorem field_step {T : Type} (dec : T → JSON → Except GoError T) (key : String)
    (k : String) (v : JSON) (rest : List (String × JSON)) (t t1 t' : T)
    (hnd : (((k, v) :: rest).map Prod.fst).Nodup)
    (hhit : k = key → dec t v = .ok t1)
    (hmiss : k ≠ key → t1 = t)
    (hrest : ∀ v', (key, v') ∈ rest → dec t1 v' = .ok t')
    (hnone : key ∉ rest.map Prod.fst → t' = t1) :
    (∀ v', (key, v') ∈ (k, v) :: rest → dec t v' = .ok t') ∧
    (key ∉ ((k, v) :: rest).map Prod.fst → t' = t) := by
  simp only [List.map_cons, List.nodup_cons] at hnd
  constructor
  · intro v' hv'
    rcases List.mem_cons.mp hv' with h | h
    · cases h
      rw [hhit rfl, hnone hnd.1]
    · have hk : k ≠ key := by
        intro hk
        subst hk
        exact hnd.1 (List.mem_map.mpr ⟨(k, v'), h, rfl⟩)
      rw [← hmiss hk]
      exact hrest v' h
  · intro hnot
    simp only [List.map_cons, List.mem_cons, not_or] at hnot
    rw [hnone hnot.2, hmiss (fun h => hnot.1 h.symm)]

theorem field_rest {T : Type} (dec : T → JSON → Except GoError T) (key : String)
    (k : String) (v : JSON) (rest : List (String × JSON)) (t t1 : T)
    (hnd : (((k, v) :: rest).map Prod.fst).Nodup)
    (hmiss : k ≠ key → t1 = t)
    (h : ∀ v', (key, v') ∈ (k, v) :: rest → ∃ r, dec t v' = .ok r) :
    ∀ v', (key, v') ∈ rest → ∃ r, dec t1 v' = .ok r := by
  simp only [List.map_cons, List.nodup_cons] at hnd
  intro v' hv'
  have hk : k ≠ key := by
    intro hk
    subst hk
    exact hnd.1 (List.mem_map.mpr ⟨(k, v'), hv', rfl⟩)
  rw [hmiss hk]
  exact h v' (List.mem_cons_of_mem _ hv')

/-- Decoding one member into a `configurationAlias`. -/
theorem configuration_decodeMember_step (a : configurationAlias) (k : String) (v : JSON)
    (hexact : isCaseVariant configurationAliasFields k = false)
    (hname : k = "custom_name" → ∃ s, decodeString a.CustomName v = .ok s)
    (hroot : k = "custom_root_fields" →
      ∃ r, CustomRootFields.UnmarshalJSON a.CustomRootFields (RawMessage.valid v) = .ok r)
    (hcols : k = "custom_column_names" →
      ∃ m, decodeStringMap a.CustomColumnNames v = .ok m) :
    ∃ a1, configurationAlias.decodeMember a (k, v) = .ok a1 ∧
      (k = "custom_name" → decodeString a.CustomName v = .ok a1.CustomName) ∧
      (k ≠ "custom_name" → a1.CustomName = a.CustomName) ∧
      (k = "custom_root_fields" →
        CustomRootFields.UnmarshalJSON a.CustomRootFields (RawMessage.valid v)
          = .ok a1.CustomRootFields) ∧
      (k ≠ "custom_root_fields" → a1.CustomRootFields = a.CustomRootFields) ∧
      (k = "custom_column_names" →
        decodeStringMap a.CustomColumnNames v = .ok a1.CustomColumnNames) ∧
      (k ≠ "custom_column_names" → a1.CustomColumnNames = a.CustomColumnNames) := by
  by_cases h1 : k = "custom_name"
  · subst h1
    obtain ⟨s, hs⟩ := hname rfl
    refine ⟨{ a with CustomName := s }, ?_, fun _ => hs, fun h => absurd rfl h,
      fun h => absurd h (by decide), fun _ => rfl, fun h => absurd h (by decide), fun _ => rfl⟩
    rw [configuration_decodeMember_name, hs]
    rfl
  by_cases h2 : k = "custom_root_fields"
  · subst h2
    obtain ⟨r, hr⟩ := hroot rfl
    refine ⟨{ a with CustomRootFields := r }, ?_, fun h => absurd h (by decide), fun _ => rfl,
      fun _ => hr, fun h => absurd rfl h, fun h => absurd h (by decide), fun _ => rfl⟩
    rw [configuration_decodeMember_root, hr]
    rfl
  by_cases h3 : k = "custom_column_names"
  · subst h3
    obtain ⟨m, hm⟩ := hcols rfl
    refine ⟨{ a with CustomColumnNames := m }, ?_, fun h => absurd h (by decide), fun _ => rfl,
      fun h => absurd h (by decide), fun _ => rfl, fun _ => hm, fun h => absurd rfl h⟩
    rw [configuration_decodeMember_columns, hm]
    rfl
  · have hk : k ∉ configurationAliasFields := by
      simp [configurationAliasFields, h1, h2, h3]
    refine ⟨a, configuration_decodeMember_other a k v
        (findField_of_not_variant _ k hexact hk),
      fun h => absurd h h1, fun _ => rfl, fun h => absurd h h2, fun _ => rfl,
      fun h => absurd h h3, fun _ => rfl⟩

/-- Decoding the members of an object with pairwise distinct names, none of
them a case variant of a field name, into a `configurationAlias`: each field is
decoded from the member of its name, and is left as it was when there is none. -/
theorem configuration_alias_fold (members : List (String × JSON)) (a : configurationAlias)
    (hnd : (members.map Prod.fst).Nodup)
    (hexact : ∀ kv ∈ members, isCaseVariant configurationAliasFields kv.1 = false)
    (hname : ∀ v, ("custom_name", v) ∈ members → ∃ s, decodeString a.CustomName v = .ok s)
    (hroot : ∀ v, ("custom_root_fields", v) ∈ members →
      ∃ r, CustomRootFields.UnmarshalJSON a.CustomRootFields (RawMessage.valid v) = .ok r)
    (hcols : ∀ v, ("custom_column_names", v) ∈ members →
      ∃ m, decodeStringMap a.CustomColumnNames v = .ok m) :
    ∃ a', members.foldlM configurationAlias.decodeMember a = .ok a' ∧
      (∀ v, ("custom_name", v) ∈ members → decodeString a.CustomName v = .ok a'.CustomName) ∧
      ("custom_name" ∉ members.map Prod.fst → a'.CustomName = a.CustomName) ∧
      (∀ v, ("custom_root_fields", v) ∈ members →
        CustomRootFields.UnmarshalJSON a.CustomRootFields (RawMessage.valid v)
          = .ok a'.CustomRootFields) ∧
      ("custom_root_fields" ∉ members.map Prod.fst →
        a'.CustomRootFields = a.CustomRootFields) ∧
      (∀ v, ("custom_column_names", v) ∈ members →
        decodeStringMap a.CustomColumnNames v = .ok a'.CustomColumnNames) ∧
      ("custom_column_names" ∉ members.map Prod.fst →
        a'.CustomColumnNames = a.CustomColumnNames) := by
  induction members generalizing a with
  | nil =>
    exact ⟨a, rfl, fun _ h => absurd h (List.not_mem_nil _), fun _ => rfl,
      fun _ h => absurd h (List.not_mem_nil _), fun _ => rfl,
      fun _ h => absurd h (List.not_mem_nil _), fun _ => rfl⟩
  | cons kv rest ih =>
    obtain ⟨k, v⟩ := kv
    obtain ⟨a1, hstep, n1, n2, r1, r2, c1, c2⟩ :=
      configuration_decodeMember_step a k v (hexact (k, v) (List.mem_cons_self _ _))
        (fun h => hname v (h ▸ List.mem_cons_self _ _))
        (fun h => hroot v (h ▸ List.mem_cons_self _ _))
        (fun h => hcols v (h ▸ List.mem_cons_self _ _))
    have hnd' : (rest.map Prod.fst).Nodup := by
      simp only [List.map_cons, List.nodup_cons] at hnd
      exact hnd.2
    obtain ⟨a', hfold, n3, n4, r3, r4, c3, c4⟩ :=
      ih a1 hnd' (fun kv h => hexact kv (List.mem_cons_of_mem _ h))
        (field_rest (fun s v => decodeString s v) "custom_name" k v rest _ _ hnd n2 hname)
        (field_rest (fun c v => CustomRootFields.UnmarshalJSON c (RawMessage.valid v))
          "custom_root_fields" k v rest _ _ hnd r2 hroot)
        (field_rest (fun m v => decodeStringMap m v) "custom_column_names" k v rest _ _ hnd
          c2 hcols)
    have hn := field_step (fun s v => decodeString s v) "custom_name" k v rest
      a.CustomName a1.CustomName a'.CustomName hnd n1 n2 n3 n4
    have hr := field_step (fun c v => CustomRootFields.UnmarshalJSON c (RawMessage.valid v))
      "custom_root_fields" k v rest a.CustomRootFields a1.CustomRootFields
      a'.CustomRootFields hnd r1 r2 r3 r4
    have hc := field_step (fun m v => decodeStringMap m v) "custom_column_names" k v rest
      a.CustomColumnNames a1.CustomColumnNames a'.CustomColumnNames hnd c1 c2 c3 c4
    refine ⟨a', ?_, hn.1, hn.2, hr.1, hr.2, hc.1, hc.2⟩
    rw [List.foldlM_cons, hstep]
    exact hfold

/-- The value `(*Configuration).UnmarshalJSON` leaves in a zero receiver, given
what decoding into the alias gives. -/
theorem configuration_unmarshal_eq (members : List (String × JSON)) (a' : configurationAlias)
    (h : members.foldlM configurationAlias.decodeMember
        { CustomName := "", CustomRootFields := CustomRootFields.zero,
          CustomColumnNames := GoMap.nil } = .ok a') :
    Configuration.UnmarshalJSON Configuration.zero (RawMessage.valid (JSON.obj members))
      = .ok { CustomName := a'.CustomName
              CustomRootFields := a'.CustomRootFields
              CustomColumnNames := a'.CustomColumnNames
              AdditionalProperties :=
                if 0 < (extraFields configurationKnownKeys
                    (members.foldl (fun m kv => m.set kv.1 (RawMessage.valid kv.2))
                      (GoMap.make : GoMap RawMessage))).len
                then extraFields configurationKnownKeys
                    (members.foldl (fun m kv => m.set kv.1 (RawMessage.valid kv.2))
                      (GoMap.make : GoMap RawMessage))
                else GoMap.nil } := by
  unfold Configuration.UnmarshalJSON unmarshalConfigurationAlias unmarshalRawMessageMap
  simp only [h]
  split <;> rfl

/-! ## Reading back what was written: configurations -/

/-- The bag an `UnmarshalJSON` method leaves in a zero receiver is the bag that
was written, read back. -/
theorem readBack_of_extra (bag extra : GoMap RawMessage) (hnil : extra.isNil = false)
    (hget : ∀ k, extra.get? k
      = (bag.get? k).map (fun raw => RawMessage.valid raw.encoded)) :
    ReadBack bag (if 0 < extra.len then extra else GoMap.nil) := by
  have hlen : 0 < extra.len ↔ ¬ bag.len = 0 := by
    rw [GoMap.len_pos_iff_key, GoMap.isSome_get?_iff_len, not_not]
    constructor
    · rintro ⟨k, hk⟩
      rw [hget k] at hk
      exact ⟨k, by cases hb : bag.get? k <;> simp_all⟩
    · rintro ⟨k, hk⟩
      refine ⟨k, ?_⟩
      rw [hget k]
      cases hb : bag.get? k <;> simp_all
  by_cases h0 : bag.len = 0
  · rw [if_neg (fun hp => (hlen.mp hp) h0)]
    refine ⟨by simp [h0, GoMap.isNil], fun k => ?_⟩
    rw [(GoMap.len_eq_zero_iff_key _).mp h0 k]
    rfl
  · rw [if_pos (hlen.mpr h0)]
    exact ⟨by rw [hnil]; simp [h0], hget⟩

theorem decodeString_str (cur s s' : String)
    (h : decodeString cur (JSON.str s) = .ok s') : s' = s := by
  unfold decodeString at h
  cases h
  rfl

/-- Decoding what `Configuration.MarshalJSON` wrote, when the encoder accepts
the values of both bags and no key of a bag selects a field of its level: the
three fields come back, and both bags are read back. -/
theorem configuration_round_trip (c : Configuration)
    (hm : bagMarshals c.AdditionalProperties = true)
    (hf : bagForeign configurationAliasFields c.AdditionalProperties = true)
    (hmr : bagMarshals c.CustomRootFields.AdditionalProperties = true)
    (hfr : bagForeign customRootFieldsAliasFields c.CustomRootFields.AdditionalProperties
      = true) :
    ∃ json c', c.MarshalJSON = .ok json ∧
      Configuration.UnmarshalJSON Configuration.zero (RawMessage.valid json) = .ok c' ∧
      c'.CustomName = c.CustomName ∧
      (∃ rootFields, c.CustomRootFields.MarshalJSON = .ok rootFields ∧
        CustomRootFields.UnmarshalJSON CustomRootFields.zero (RawMessage.valid rootFields)
          = .ok c'.CustomRootFields) ∧
      GoMap.Same c'.CustomColumnNames c.CustomColumnNames ∧
      ReadBack c.AdditionalProperties c'.AdditionalProperties := by
  obtain ⟨rjson, r', hrj, hru, _⟩ := crf_round_trip c.CustomRootFields hmr hfr
  obtain ⟨m', hmdec, hmsame⟩ := decodeStringMap_marshal c.CustomColumnNames
  obtain ⟨json, hjson⟩ := configuration_marshal_ok c hm hmr
  obtain ⟨rootFields, hrf, members, rfl, hnd, hkeys, hbag, hknown⟩ :=
    configuration_serializedAs c (bagDisjoint_of_foreign _ _ hf) json hjson
  rw [hrj] at hrf
  cases hrf
  obtain ⟨hexact, hval, hback, hget⟩ :=
    serialized_members configurationAliasFields (c.knownMembers rjson) members
      c.AdditionalProperties (configuration_knownMembers_keys c rjson) hf hnd hkeys hbag hknown
  have hname_v : ∀ v, ("custom_name", v) ∈ members → v = JSON.str c.CustomName := by
    intro v hv
    have := hback _ hv (show "custom_name" ∈ configurationAliasFields by decide)
    simpa [Configuration.knownMembers] using this
  have hroot_v : ∀ v, ("custom_root_fields", v) ∈ members → v = rjson := by
    intro v hv
    have := hback _ hv (show "custom_root_fields" ∈ configurationAliasFields by decide)
    simpa [Configuration.knownMembers] using this
  have hcols_v : ∀ v, ("custom_column_names", v) ∈ members →
      v = marshalStringMap c.CustomColumnNames := by
    intro v hv
    have := hback _ hv (show "custom_column_names" ∈ configurationAliasFields by decide)
    simpa [Configuration.knownMembers] using this
  obtain ⟨a', hfold, n1, _, r1, _, c1, _⟩ :=
    configuration_alias_fold members
      { CustomName := "", CustomRootFields := CustomRootFields.zero,
        CustomColumnNames := GoMap.nil } hnd hexact
      (fun v hv => by rw [hname_v v hv]; exact ⟨_, rfl⟩)
      (fun v hv => by rw [hroot_v v hv]; exact ⟨_, hru⟩)
      (fun v hv => by rw [hcols_v v hv]; exact ⟨_, hmdec⟩)
  have hn := n1 _ (hknown ("custom_name", JSON.str c.CustomName)
    (by simp [Configuration.knownMembers]))
  have hr := r1 _ (hknown ("custom_root_fields", rjson)
    (by simp [Configuration.knownMembers]))
  have hc := c1 _ (hknown ("custom_column_names", marshalStringMap c.CustomColumnNames)
    (by simp [Configuration.knownMembers]))
  simp only at hn hr hc
  refine ⟨_, _, hjson, configuration_unmarshal_eq members a' hfold, ?_, ?_, ?_, ?_⟩
  · exact (decodeString_str _ _ _ hn)
  · exact ⟨rjson, hrj, hr⟩
  · show GoMap.Same a'.CustomColumnNames c.CustomColumnNames
    rw [hmdec] at hc
    cases hc
    exact hmsame
  · apply readBack_of_extra
    · exact extraFields_isNil _ _
    · intro k
      rw [extraFields_members_get?, configurationKnownKeys_getBool, ← hget k]
      simp only [decide_eq_true_eq]

/-! ## Round trips -/

theorem encodedMembers_congr (m m' : GoMap RawMessage)
    (h : ∀ k, (m'.get? k).map RawMessage.encoded = (m.get? k).map RawMessage.encoded) :
    encodedMembers m' = encodedMembers m := by
  unfold encodedMembers
  have hkeys : m'.sortedKeys = m.sortedKeys := by
    apply GoMap.sortedKeys_congr
    intro k
    have := congrArg Option.isSome (h k)
    simpa using this
  rw [hkeys]
  apply List.map_congr_left
  intro k _
  have := h k
  unfold GoMap.getD
  cases h1 : m'.get? k <;> cases h2 : m.get? k <;> simp_all

theorem mergedMap_congr (known : List (String × JSON)) (bag bag' : GoMap RawMessage)
    (h : ∀ k, bag'.get? k = (bag.get? k).map (fun raw => RawMessage.valid raw.encoded)) :
    encodedMembers (mergedMap known bag') = encodedMembers (mergedMap known bag) := by
  apply encodedMembers_congr
  intro k
  rw [mergedMap_get?, mergedMap_get?, h k]
  cases bag.get? k <;> rfl

theorem bagMarshals_of_readBack (bag bag' : GoMap RawMessage)
    (h : ∀ k, bag'.get? k = (bag.get? k).map (fun raw => RawMessage.valid raw.encoded)) :
    bagMarshals bag' = true := by
  unfold bagMarshals
  rw [List.all_eq_true]
  intro k _
  unfold GoMap.getD
  rw [h k]
  cases bag.get? k <;> rfl

theorem len_of_readBack (bag bag' : GoMap RawMessage)
    (h : ∀ k, bag'.get? k = (bag.get? k).map (fun raw => RawMessage.valid raw.encoded)) :
    bag'.len = 0 ↔ bag.len = 0 := by
  rw [GoMap.len_eq_zero_iff_key, GoMap.len_eq_zero_iff_key]
  constructor
  · intro h0 k
    have := h0 k
    rw [h k] at this
    cases hb : bag.get? k <;> simp_all
  · intro h0 k
    rw [h k, h0 k]
    rfl

/-- Writing a `CustomRootFields` whose bag was read back gives what writing the
first value gave. -/
theorem crf_marshal_congr (c c' : CustomRootFields)
    (hknown : c'.knownMembers = c.knownMembers)
    (hm : bagMarshals c.AdditionalProperties = true)
    (hrb : ReadBack c.AdditionalProperties c'.AdditionalProperties) :
    c'.MarshalJSON = c.MarshalJSON := by
  rw [crf_marshal_eq, crf_marshal_eq, hknown, hm, bagMarshals_of_readBack _ _ hrb.2,
    mergedMap_congr _ _ _ hrb.2]
  by_cases h0 : c.AdditionalProperties.len = 0
  · rw [if_pos h0, if_pos ((len_of_readBack _ _ hrb.2).mpr h0)]
  · rw [if_neg h0, if_neg (fun h => h0 ((len_of_readBack _ _ hrb.2).mp h))]

theorem marshalStringMap_congr (m m' : GoMap String) (h : GoMap.Same m' m) :
    marshalStringMap m' = marshalStringMap m := by
  obtain ⟨hnil, hget⟩ := h
  cases m' with
  | nil =>
    cases m with
    | nil => rfl
    | mk es => cases hnil
  | mk es' =>
    cases m with
    | nil => cases hnil
    | mk es =>
      unfold marshalStringMap
      simp only
      have hkeys : (GoMap.mk es').sortedKeys = (GoMap.mk es).sortedKeys :=
        GoMap.sortedKeys_congr _ _ (fun k => by rw [hget k])
      rw [hkeys]
      congr 1
      apply List.map_congr_left
      intro k _
      unfold GoMap.getD
      rw [hget k]

/-- Writing a `Configuration` that was read back gives what writing the first
value gave. -/
theorem configuration_marshal_congr (c c' : Configuration)
    (hname : c'.CustomName = c.CustomName)
    (hroot : c'.CustomRootFields.MarshalJSON = c.CustomRootFields.MarshalJSON)
    (hcols : GoMap.Same c'.CustomColumnNames c.CustomColumnNames)
    (hm : bagMarshals c.AdditionalProperties = true)
    (hrb : ReadBack c.AdditionalProperties c'.AdditionalProperties) :
    c'.MarshalJSON = c.MarshalJSON := by
  rw [configuration_marshal_eq, configuration_marshal_eq, hroot]
  cases c.CustomRootFields.MarshalJSON with
  | error err => rfl
  | ok rootFields =>
    simp only
    have hknown : c'.knownMembers rootFields = c.knownMembers rootFields := by
      unfold Configuration.knownMembers
      rw [hname, marshalStringMap_congr _ _ hcols]
    rw [hknown, hm, bagMarshals_of_readBack _ _ hrb.2, mergedMap_congr _ _ _ hrb.2]
    by_cases h0 : c.AdditionalProperties.len = 0
    · rw [if_pos h0, if_pos ((len_of_readBack _ _ hrb.2).mpr h0)]
    · rw [if_neg h0, if_neg (fun h => h0 ((len_of_readBack _ _ hrb.2).mp h))]

/-- A bag that is nil or not empty and holds texts of JSON values is equal to
what is read back of it. -/
theorem same_of_readBack (bag bag' : GoMap RawMessage) (hrb : ReadBack bag bag')
    (hu : unsetOrNonEmpty bag = true) (hj : bagHoldsJSON bag = true) :
    GoMap.Same bag' bag := by
  obtain ⟨hnil, hget⟩ := hrb
  constructor
  · rw [hnil]
    cases bag with
    | nil => rfl
    | mk es =>
      have hpos : 0 < (GoMap.mk es).len := by
        simpa [unsetOrNonEmpty, GoMap.isNil] using hu
      have : ¬ (GoMap.mk es).len = 0 := by omega
      simp [this, GoMap.isNil]
  · intro k
    rw [hget k]
    cases hb : bag.get? k with
    | none => rfl
    | some raw =>
      unfold bagHoldsJSON at hj
      rw [List.all_eq_true] at hj
      have := hj k ((GoMap.mem_keys bag k).mpr (by rw [hb]; rfl))
      unfold GoMap.getD at this
      rw [hb] at this
      cases raw with
      | valid v => rfl
      | nil => cases this
      | invalid b => cases this

theorem bagMarshals_of_holdsJSON (bag : GoMap RawMessage) (h : bagHoldsJSON bag = true) :
    bagMarshals bag = true := by
  unfold bagHoldsJSON at h
  unfold bagMarshals
  rw [List.all_eq_true] at h ⊢
  intro k hk
  have := h k hk
  cases hr : bag.getD k RawMessage.nil with
  | valid v => rfl
  | nil => rfl
  | invalid b => rw [hr] at this; cases this

theorem crf_knownMembers_congr (r r' : CustomRootFields)
    (h1 : r'.Select = r.Select) (h2 : r'.SelectByPk = r.SelectByPk)
    (h3 : r'.SelectAggregate = r.SelectAggregate) (h4 : r'.Insert = r.Insert)
    (h5 : r'.InsertOne = r.InsertOne) (h6 : r'.Update = r.Update)
    (h7 : r'.UpdateByPk = r.UpdateByPk) (h8 : r'.Delete = r.Delete)
    (h9 : r'.DeleteByPk = r.DeleteByPk) : r'.knownMembers = r.knownMembers := by
  unfold CustomRootFields.knownMembers
  rw [h1, h2, h3, h4, h5, h6, h7, h8, h9]

theorem bagSameJSON_of_same (a b : GoMap RawMessage) (h : GoMap.Same a b)
    (hj : bagHoldsJSON b = true) : bagSameJSON a b := by
  obtain ⟨hnil, hget⟩ := h
  refine ⟨hnil, fun k => by rw [hget k], fun k x y hx hy => ?_⟩
  rw [hget k, hy] at hx
  cases hx
  unfold bagHoldsJSON at hj
  rw [List.all_eq_true] at hj
  have := hj k ((GoMap.mem_keys b k).mpr (by rw [hy]; rfl))
  unfold GoMap.getD at this
  rw [hy] at this
  cases x with
  | valid v => simp [RawMessage.sameJSON]
  | nil => cases this
  | invalid b => cases this

/-- C21 fails as stated. Each of these values has a bag whose keys are none of
the known keys. With a number under `Select`, the text written is rejected when
read; an empty bag comes back as the nil map; a nil raw message comes back as
the text `null`; with a value that is not JSON, writing fails. And the bytes of
a bag value are not written as they are: the text of an object written with a
space and with `<` in a string is written without the space and with the escape
of `<`, so the bag read back holds other bytes than the bag written. -/
theorem value_round_trip_counterexample :
    (bagDisjoint customRootFieldsAliasFields capitalSelectRootFields.AdditionalProperties = true ∧
      capitalSelectRootFields.MarshalJSON
        = .ok (JSON.obj
            [ ("Select", JSON.num "42"), ("delete", JSON.str ""), ("delete_by_pk", JSON.str ""),
              ("insert", JSON.str ""), ("insert_one", JSON.str ""), ("select", JSON.str "s"),
              ("select_aggregate", JSON.str ""), ("select_by_pk", JSON.str ""),
              ("update", JSON.str ""), ("update_by_pk", JSON.str "") ]) ∧
      capitalSelectRootFields.roundTrip
        = .error (GoError.wrapError "unmarshaling custom root fields: " unmarshalTypeError)) ∧
    (bagDisjoint customRootFieldsAliasFields emptyBagRootFields.AdditionalProperties = true ∧
      emptyBagRootFields.roundTrip
        = .ok { emptyBagRootFields with AdditionalProperties := GoMap.nil } ∧
      emptyBagRootFields.AdditionalProperties ≠ GoMap.nil) ∧
    (bagDisjoint customRootFieldsAliasFields nilValueRootFields.AdditionalProperties = true ∧
      nilValueRootFields.roundTrip
        = .ok { nilValueRootFields with
                AdditionalProperties :=
                  GoMap.mk [("future_field", RawMessage.valid JSON.null)] }) ∧
    (bagDisjoint customRootFieldsAliasFields brokenValueRootFields.AdditionalProperties = true ∧
      brokenValueRootFields.MarshalJSON = .error (marshalerError syntaxError)) ∧
    (compactJSON spacedText = "\x7b\x22a\x22:\x22\\u003cx\\u003e\x22\x7d" ∧
      compactJSON spacedText ≠ spacedText ∧
      compactJSON (compactJSON spacedText) = compactJSON spacedText) := by
  decide

/-- C21, amended: for every `Configuration` (and every `CustomRootFields`)
whose bags are nil or not empty, hold texts of JSON values, and hold no key
that selects a known field when decoded (no known key, and no case variant of
one), writing the value and reading the text into a zero value succeeds and
gives a value with the same known fields and with bags that hold the same JSON
values: the same keys, and under each key a text of the same JSON value, at
both levels. The bytes of a bag value are those written by `compactJSON`. -/
theorem value_round_trip (c : Configuration) (r : CustomRootFields)
    (hc : c.bagsFaithful = true) (hr : r.bagFaithful = true) :
    (∃ json c', c.MarshalJSON = .ok json ∧
      Configuration.UnmarshalJSON Configuration.zero (RawMessage.valid json) = .ok c' ∧
      Configuration.SameJSON c' c) ∧
    (∃ json r', r.MarshalJSON = .ok json ∧
      CustomRootFields.UnmarshalJSON CustomRootFields.zero (RawMessage.valid json) = .ok r' ∧
      CustomRootFields.SameJSON r' r) := by
  have hcrf : ∀ r : CustomRootFields, r.bagFaithful = true →
      ∃ json r', r.MarshalJSON = .ok json ∧
        CustomRootFields.UnmarshalJSON CustomRootFields.zero (RawMessage.valid json) = .ok r' ∧
        CustomRootFields.SameJSON r' r := by
    intro r hr
    simp only [CustomRootFields.bagFaithful, Bool.and_eq_true] at hr
    obtain ⟨⟨hu, hj⟩, hf⟩ := hr
    obtain ⟨json, r', hjson, hread, h1, h2, h3, h4, h5, h6, h7, h8, h9, hrb⟩ :=
      crf_round_trip r (bagMarshals_of_holdsJSON _ hj) hf
    exact ⟨json, r', hjson, hread, h1, h2, h3, h4, h5, h6, h7, h8, h9,
      bagSameJSON_of_same _ _ (same_of_readBack _ _ hrb hu hj) hj⟩
  refine ⟨?_, hcrf r hr⟩
  simp only [Configuration.bagsFaithful, Bool.and_eq_true] at hc
  obtain ⟨⟨⟨hu, hj⟩, hf⟩, hroot⟩ := hc
  have hroot' := hroot
  simp only [CustomRootFields.bagFaithful, Bool.and_eq_true] at hroot'
  obtain ⟨⟨_, hjr⟩, hfr⟩ := hroot'
  obtain ⟨json, c', hjson, hread, hname, ⟨rootFields, hrm, hru⟩, hcols, hrb⟩ :=
    configuration_round_trip c (bagMarshals_of_holdsJSON _ hj) hf
      (bagMarshals_of_holdsJSON _ hjr) hfr
  obtain ⟨rjson, r', hrj, hrread, hrsame⟩ := hcrf c.CustomRootFields hroot
  rw [hrm] at hrj
  cases hrj
  rw [hru] at hrread
  cases hrread
  exact ⟨json, c', hjson, hread, hname, hrsame, hcols,
    bagSameJSON_of_same _ _ (same_of_readBack _ _ hrb hu hj) hj⟩

/-- C21, amended, on the values of `TestConfigurationRoundTrip` and of
`TestCustomRootFieldsRoundTrip`. -/
theorem value_round_trip_witness :
    roundTripConfiguration.bagsFaithful = true ∧ streamRootFields.bagFaithful = true ∧
    ((∃ json c', roundTripConfiguration.MarshalJSON = .ok json ∧
        Configuration.UnmarshalJSON Configuration.zero (RawMessage.valid json) = .ok c' ∧
        Configuration.SameJSON c' roundTripConfiguration) ∧
      (∃ json r', streamRootFields.MarshalJSON = .ok json ∧
        CustomRootFields.UnmarshalJSON CustomRootFields.zero (RawMessage.valid json) = .ok r' ∧
        CustomRootFields.SameJSON r' streamRootFields)) :=
  ⟨by decide, by decide,
   value_round_trip roundTripConfiguration streamRootFields (by decide) (by decide)⟩

/-- C22 fails as stated. Root fields whose bag holds the unknown field
`select` written with a long s are written with `select` equal to `"s"`, read
with `Select` equal to `"x"`, and written again with `select` equal to `"x"`:
the second object differs from the first. A configuration whose bag holds the
unknown field `Custom_name` with a number is written, and the text is rejected
when read. -/
theorem marshal_round_trip_counterexample :
    (bagDisjoint customRootFieldsAliasFields longSRootFields.AdditionalProperties = true ∧
      longSRootFields.MarshalJSON
        = .ok (JSON.obj
            [ ("delete", JSON.str ""), ("delete_by_pk", JSON.str ""),
              ("insert", JSON.str ""), ("insert_one", JSON.str ""), ("select", JSON.str "s"),
              ("select_aggregate", JSON.str ""), ("select_by_pk", JSON.str ""),
              ("update", JSON.str ""), ("update_by_pk", JSON.str ""),
              ("\u017felect", JSON.str "x") ]) ∧
      longSRootFields.roundTrip = .ok { longSRootFields with Select := "x" } ∧
      CustomRootFields.MarshalJSON { longSRootFields with Select := "x" }
        = .ok (JSON.obj
            [ ("delete", JSON.str ""), ("delete_by_pk", JSON.str ""),
              ("insert", JSON.str ""), ("insert_one", JSON.str ""), ("select", JSON.str "x"),
              ("select_aggregate", JSON.str ""), ("select_by_pk", JSON.str ""),
              ("update", JSON.str ""), ("update_by_pk", JSON.str ""),
              ("\u017felect", JSON.str "x") ]) ∧
      CustomRootFields.MarshalJSON { longSRootFields with Select := "x" }
        ≠ longSRootFields.MarshalJSON) ∧
    (bagDisjoint configurationAliasFields capitalNameConfiguration.AdditionalProperties = true ∧
      (∃ json, capitalNameConfiguration.MarshalJSON = .ok json) ∧
      capitalNameConfiguration.roundTrip
        = .error (GoError.wrapError "unmarshaling configuration: " unmarshalTypeError)) := by
  refine ⟨by decide, by decide, ?_, by decide⟩
  exact ⟨_, rfl⟩

/-- C22, amended: for every `Configuration` (and every `CustomRootFields`)
whose bags hold values the encoder accepts (texts of JSON values, or nil) under
keys that select no known field when decoded (no known key, and no case variant
of one), writing the value, reading the text into a zero value and writing the
result succeeds, and the second object is the first one, member for member. -/
theorem marshal_round_trip (c : Configuration) (r : CustomRootFields)
    (hc : c.bagsWritable = true) (hr : r.bagWritable = true) :
    (∃ json c', c.MarshalJSON = .ok json ∧
      Configuration.UnmarshalJSON Configuration.zero (RawMessage.valid json) = .ok c' ∧
      c'.MarshalJSON = .ok json) ∧
    (∃ json r', r.MarshalJSON = .ok json ∧
      CustomRootFields.UnmarshalJSON CustomRootFields.zero (RawMessage.valid json) = .ok r' ∧
      r'.MarshalJSON = .ok json) := by
  have hcrf : ∀ r : CustomRootFields, r.bagWritable = true →
      ∃ json r', r.MarshalJSON = .ok json ∧
        CustomRootFields.UnmarshalJSON CustomRootFields.zero (RawMessage.valid json) = .ok r' ∧
        r'.MarshalJSON = .ok json := by
    intro r hr
    simp only [CustomRootFields.bagWritable, Bool.and_eq_true] at hr
    obtain ⟨hm, hf⟩ := hr
    obtain ⟨json, r', hjson, hread, h1, h2, h3, h4, h5, h6, h7, h8, h9, hrb⟩ :=
      crf_round_trip r hm hf
    refine ⟨json, r', hjson, hread, ?_⟩
    rw [crf_marshal_congr r r' (crf_knownMembers_congr r r' h1 h2 h3 h4 h5 h6 h7 h8 h9) hm hrb]
    exact hjson
  refine ⟨?_, hcrf r hr⟩
  simp only [Configuration.bagsWritable, Bool.and_eq_true] at hc
  obtain ⟨⟨hm, hf⟩, hroot⟩ := hc
  have hroot' := hroot
  simp only [CustomRootFields.bagWritable, Bool.and_eq_true] at hroot'
  obtain ⟨hmr, hfr⟩ := hroot'
  obtain ⟨json, c', hjson, hread, hname, ⟨rootFields, hrm, hru⟩, hcols, hrb⟩ :=
    configuration_round_trip c hm hf hmr hfr
  obtain ⟨rjson, r', hrj, hrread, hrw⟩ := hcrf c.CustomRootFields hroot
  rw [hrm] at hrj
  cases hrj
  rw [hru] at hrread
  cases hrread
  refine ⟨json, c', hjson, hread, ?_⟩
  rw [configuration_marshal_congr c c' hname (by rw [hrw, hrm]) hcols hm hrb]
  exact hjson

/-- C22, amended, on the values of `TestConfigurationRoundTrip` and of
`TestCustomRootFieldsRoundTrip`. -/
theorem marshal_round_trip_witness :
    roundTripConfiguration.bagsWritable = true ∧ streamRootFields.bagWritable = true ∧
    ((∃ json c', roundTripConfiguration.MarshalJSON = .ok json ∧
        Configuration.UnmarshalJSON Configuration.zero (RawMessage.valid json) = .ok c' ∧
        c'.MarshalJSON = .ok json) ∧
      (∃ json r', streamRootFields.MarshalJSON = .ok json ∧
        CustomRootFields.UnmarshalJSON CustomRootFields.zero (RawMessage.valid json) = .ok r' ∧
        r'.MarshalJSON = .ok json)) :=
  ⟨by decide, by decide,
   marshal_round_trip roundTripConfiguration streamRootFields (by decide) (by decide)⟩

/-! ## Decoding a configuration object: the two bags -/

theorem isStr_iff (v : JSON) : v.isStr = true ↔ ∃ s, v = JSON.str s := by
  cases v <;> simp [JSON.isStr]

/-- The bag `(*Configuration).UnmarshalJSON` leaves in a zero receiver. -/
theorem configuration_bag_get? (members : List (String × JSON)) (k : String) :
    (if 0 < (extraFields configurationKnownKeys
          (members.foldl (fun m kv => m.set kv.1 (RawMessage.valid kv.2))
            (GoMap.make : GoMap RawMessage))).len
      then extraFields configurationKnownKeys
          (members.foldl (fun m kv => m.set kv.1 (RawMessage.valid kv.2))
            (GoMap.make : GoMap RawMessage))
      else GoMap.nil).get? k
      = if k ∈ configurationAliasFields then none
        else (memberValue members k).map RawMessage.valid := by
  have hget := extraFields_members_get? configurationKnownKeys members k
  rw [configurationKnownKeys_getBool] at hget
  simp only [decide_eq_true_eq] at hget
  split
  · exact hget
  · rename_i hlen
    have h0 := (GoMap.len_eq_zero_iff_key _).mp (Nat.eq_zero_of_not_pos hlen) k
    rw [← hget, h0]
    rfl

theorem wellTyped_name (members : List (String × JSON))
    (h : wellTypedConfiguration members = true) (v : JSON)
    (hv : ("custom_name", v) ∈ members) : ∃ s, v = JSON.str s := by
  unfold wellTypedConfiguration at h
  rw [List.all_eq_true] at h
  have := h _ hv
  simp only [if_true] at this
  exact (isStr_iff v).mp this

theorem wellTyped_root (members : List (String × JSON))
    (h : wellTypedConfiguration members = true) (v : JSON)
    (hv : ("custom_root_fields", v) ∈ members) :
    ∃ ms, v = JSON.obj ms ∧ holdsStrings customRootFieldsAliasFields ms = true := by
  unfold wellTypedConfiguration at h
  rw [List.all_eq_true] at h
  have := h _ hv
  have hne : ¬ ("custom_root_fields" : String) = "custom_name" := by decide
  simp only [hne, if_false, if_true] at this
  cases v with
  | obj ms => exact ⟨ms, rfl, this⟩
  | null => cases this
  | bool b => cases this
  | num l => cases this
  | str s => cases this
  | arr l => cases this

theorem wellTyped_columns (members : List (String × JSON))
    (h : wellTypedConfiguration members = true) (v : JSON)
    (hv : ("custom_column_names", v) ∈ members) :
    ∃ ms, v = JSON.obj ms ∧ ∀ kv ∈ ms, ∃ s, kv.2 = JSON.str s := by
  unfold wellTypedConfiguration at h
  rw [List.all_eq_true] at h
  have := h _ hv
  have hne1 : ¬ ("custom_column_names" : String) = "custom_name" := by decide
  have hne2 : ¬ ("custom_column_names" : String) = "custom_root_fields" := by decide
  simp only [hne1, hne2, if_false, if_true] at this
  cases v with
  | obj ms =>
    refine ⟨ms, rfl, fun kv hkv => ?_⟩
    simp only at this
    rw [List.all_eq_true] at this
    exact (isStr_iff kv.2).mp (this kv hkv)
  | null => cases this
  | bool b => cases this
  | num l => cases this
  | str s => cases this
  | arr l => cases this

theorem plainKeys_root (members : List (String × JSON)) (h : plainKeys members = true)
    (ms : List (String × JSON)) (hv : ("custom_root_fields", JSON.obj ms) ∈ members) :
    noCaseVariant customRootFieldsAliasFields ms = true := by
  simp only [plainKeys, Bool.and_eq_true] at h
  have := (List.all_eq_true.mp h.2) _ hv
  simpa using this

/-- C25 fails as stated. Both objects are well typed. In the first one the
member `Custom_Root_Fields` is none of the three known keys, so it goes into
the top-level bag; yet it is also decoded into `CustomRootFields`, whose
`Select` is lost and whose bag receives `stream`, an entry that is not inside
`custom_root_fields`. In the second one `custom_root_fields` occurs twice, and
the bag of `CustomRootFields` keeps `stream` from the first occurrence although
the last one has no unknown entry. In the third one the object under
`custom_root_fields` has a number under `Select`, none of the nine keys, and
decoding fails. -/
theorem configuration_unmarshal_counterexample :
    (wellTypedConfiguration
        [ ("custom_root_fields", JSON.obj [("select", JSON.str "s")]),
          ("Custom_Root_Fields", JSON.obj [("stream", JSON.str "st")]) ] = true ∧
      Configuration.UnmarshalJSON Configuration.zero
          (RawMessage.valid (JSON.obj
            [ ("custom_root_fields", JSON.obj [("select", JSON.str "s")]),
              ("Custom_Root_Fields", JSON.obj [("stream", JSON.str "st")]) ]))
        = .ok { Configuration.zero with
                CustomRootFields :=
                  { CustomRootFields.zero with
                    AdditionalProperties :=
                      GoMap.mk [("stream", RawMessage.valid (JSON.str "st"))] }
                AdditionalProperties :=
                  GoMap.mk [("Custom_Root_Fields",
                    RawMessage.valid (JSON.obj [("stream", JSON.str "st")]))] }) ∧
    (wellTypedConfiguration
        [ ("custom_root_fields", JSON.obj [("stream", JSON.str "st")]),
          ("custom_root_fields", JSON.obj []) ] = true ∧
      memberValue
        [ ("custom_root_fields", JSON.obj [("stream", JSON.str "st")]),
          ("custom_root_fields", JSON.obj []) ] "custom_root_fields" = some (JSON.obj []) ∧
      Configuration.UnmarshalJSON Configuration.zero
          (RawMessage.valid (JSON.obj
            [ ("custom_root_fields", JSON.obj [("stream", JSON.str "st")]),
              ("custom_root_fields", JSON.obj []) ]))
        = .ok { Configuration.zero with
                CustomRootFields :=
                  { CustomRootFields.zero with
                    AdditionalProperties :=
                      GoMap.mk [("stream", RawMessage.valid (JSON.str "st"))] } }) ∧
    (wellTypedConfiguration
        [("custom_root_fields", JSON.obj [("Select", JSON.num "42")])] = true ∧
      Configuration.UnmarshalJSON Configuration.zero
          (RawMessage.valid (JSON.obj
            [("custom_root_fields", JSON.obj [("Select", JSON.num "42")])]))
        = .error (GoError.wrapError "unmarshaling configuration: "
            (GoError.wrapError "unmarshaling custom root fields: " unmarshalTypeError))) := by
  decide

/-- C25, amended: for every well-typed JSON configuration object whose keys are
pairwise distinct and free of case variants of the known keys (at the top
level and inside `custom_root_fields`), `Configuration.UnmarshalJSON` on a zero
value succeeds; `custom_name`, `custom_root_fields` and `custom_column_names`
are decoded into the typed fields (which keep their zero value when the key is
absent); `Configuration.AdditionalProperties` holds exactly the other top-level
members; and `CustomRootFields.AdditionalProperties` holds exactly the members
of the object under `custom_root_fields` whose key is none of the nine, none of
which enters the top-level bag. -/
theorem configuration_unmarshal_object (members : List (String × JSON))
    (hwt : wellTypedConfiguration members = true) (hkeys : plainKeys members = true) :
    ∃ c, Configuration.UnmarshalJSON Configuration.zero (RawMessage.valid (JSON.obj members))
        = .ok c ∧
      c.CustomName = memberString members "custom_name" ∧
      (∀ v, ("custom_root_fields", v) ∈ members →
        CustomRootFields.UnmarshalJSON CustomRootFields.zero (RawMessage.valid v)
          = .ok c.CustomRootFields) ∧
      ("custom_root_fields" ∉ members.map Prod.fst →
        c.CustomRootFields = CustomRootFields.zero) ∧
      (∀ ms, ("custom_column_names", JSON.obj ms) ∈ members →
        c.CustomColumnNames.isNil = false ∧
        ∀ k, c.CustomColumnNames.get? k = (memberValue ms k).map (JSON.stringOr "")) ∧
      ("custom_column_names" ∉ members.map Prod.fst → c.CustomColumnNames = GoMap.nil) ∧
      (∀ k, c.AdditionalProperties.get? k
        = if k ∈ configurationAliasFields then none
          else (memberValue members k).map RawMessage.valid) ∧
      (∀ ms, ("custom_root_fields", JSON.obj ms) ∈ members →
        ∀ k, c.CustomRootFields.AdditionalProperties.get? k
          = if k ∈ customRootFieldsAliasFields then none
            else (memberValue ms k).map RawMessage.valid) ∧
      (∀ k raw, c.AdditionalProperties.get? k = some raw →
        k ∉ configurationAliasFields ∧ ∃ v, (k, v) ∈ members ∧ raw = RawMessage.valid v) := by
  have hk := hkeys
  simp only [plainKeys, Bool.and_eq_true, decide_eq_true_eq] at hk
  obtain ⟨⟨hnd, hexact⟩, _⟩ := hk
  rw [noCaseVariant_iff] at hexact
  have hrootdec : ∀ v, ("custom_root_fields", v) ∈ members →
      ∃ ms, v = JSON.obj ms ∧
        CustomRootFields.UnmarshalJSON CustomRootFields.zero (RawMessage.valid v)
          = .ok { Select := memberString ms "select"
                  SelectByPk := memberString ms "select_by_pk"
                  SelectAggregate := memberString ms "select_aggregate"
                  Insert := memberString ms "insert"
                  InsertOne := memberString ms "insert_one"
                  Update := memberString ms "update"
                  UpdateByPk := memberString ms "update_by_pk"
                  Delete := memberString ms "delete"
                  DeleteByPk := memberString ms "delete_by_pk"
                  AdditionalProperties :=
                    if 0 < (extraFields customRootFieldsKnownKeys
                        (ms.foldl (fun m kv => m.set kv.1 (RawMessage.valid kv.2))
                          (GoMap.make : GoMap RawMessage))).len
                    then extraFields customRootFieldsKnownKeys
                        (ms.foldl (fun m kv => m.set kv.1 (RawMessage.valid kv.2))
                          (GoMap.make : GoMap RawMessage))
                    else GoMap.nil } := by
    intro v hv
    obtain ⟨ms, rfl, hstr⟩ := wellTyped_root members hwt v hv
    exact ⟨ms, rfl, crf_unmarshal_eq CustomRootFields.zero ms
      ((noCaseVariant_iff _ _).mp (plainKeys_root members hkeys ms hv))
      ((holdsStrings_iff _ _).mp hstr)⟩
  obtain ⟨a', hfold, n1, n2, r1, r2, c1, c2⟩ :=
    configuration_alias_fold members
      { CustomName := "", CustomRootFields := CustomRootFields.zero,
        CustomColumnNames := GoMap.nil } hnd hexact
      (fun v hv => by
        obtain ⟨s, rfl⟩ := wellTyped_name members hwt v hv
        exact ⟨s, rfl⟩)
      (fun v hv => by
        obtain ⟨ms, _, hdec⟩ := hrootdec v hv
        exact ⟨_, hdec⟩)
      (fun v hv => by
        obtain ⟨ms, rfl, hstr⟩ := wellTyped_columns members hwt v hv
        obtain ⟨m, hm, _⟩ := decodeStringMap_obj ms hstr
        exact ⟨m, hm⟩)
  simp only at n1 n2 r1 r2 c1 c2
  refine ⟨_, configuration_unmarshal_eq members a' hfold, ?_, r1, r2, ?_, c2,
    configuration_bag_get? members, ?_, ?_⟩
  · show a'.CustomName = memberString members "custom_name"
    by_cases hmem : "custom_name" ∈ members.map Prod.fst
    · obtain ⟨kv, hkv, hfst⟩ := List.mem_map.mp hmem
      obtain ⟨k, v⟩ := kv
      simp only at hfst
      subst hfst
      obtain ⟨s, rfl⟩ := wellTyped_name members hwt v hkv
      rw [memberString_of_value members "custom_name" s
        (memberValue_of_mem_nodup members _ _ hnd hkv)]
      exact decodeString_str _ _ _ (n1 _ hkv)
    · rw [n2 hmem]
      unfold memberString memberStringOr
      rw [memberValue_eq_none members _ hmem]
  · intro ms hms
    show a'.CustomColumnNames.isNil = false ∧ _
    obtain ⟨_, _, hstr⟩ := wellTyped_columns members hwt _ hms
    have hstr' : ∀ kv ∈ ms, ∃ s, kv.2 = JSON.str s := by
      rename_i ms' hobj
      cases hobj
      exact hstr
    obtain ⟨m, hm, hnil, hget⟩ := decodeStringMap_obj ms hstr'
    have := c1 _ hms
    rw [hm] at this
    rw [← Except.ok.inj this]
    exact ⟨hnil, hget⟩
  · intro ms hms k
    show a'.CustomRootFields.AdditionalProperties.get? k = _
    obtain ⟨ms', hobj, hdec⟩ := hrootdec _ hms
    cases hobj
    have := r1 _ hms
    rw [hdec] at this
    rw [← Except.ok.inj this]
    exact crf_bag_get? ms k
  · intro k raw hraw
    replace hraw : (if k ∈ configurationAliasFields then none
        else (memberValue members k).map RawMessage.valid) = some raw :=
      (configuration_bag_get? members k).symm.trans hraw
    by_cases hkf : k ∈ configurationAliasFields
    · rw [if_pos hkf] at hraw
      cases hraw
    · rw [if_neg hkf] at hraw
      refine ⟨hkf, ?_⟩
      cases hm : memberValue members k with
      | none => rw [hm] at hraw; cases hraw
      | some v =>
        rw [hm] at hraw
        exact ⟨v, memberValue_mem members k v hm, (Option.some.inj hraw).symm⟩

/-- C25, amended, on the object of the case `with additional properties at both
levels` of `TestConfigurationUnmarshalJSON`: it decodes to the value the test
expects, `stream` in the bag of `CustomRootFields` and not in the top-level
bag, `comment` in the top-level bag. -/
theorem configuration_unmarshal_object_witness :
    wellTypedConfiguration bothLevelsObject = true ∧ plainKeys bothLevelsObject = true ∧
    Configuration.UnmarshalJSON Configuration.zero (RawMessage.valid (JSON.obj bothLevelsObject))
      = .ok bothLevelsDecoded ∧
    (∃ c, Configuration.UnmarshalJSON Configuration.zero
          (RawMessage.valid (JSON.obj bothLevelsObject)) = .ok c ∧
      c.CustomName = "cn" ∧
      c.AdditionalProperties.get? "comment"
        = some (RawMessage.valid (JSON.str "table comment")) ∧
      c.AdditionalProperties.get? "stream" = none ∧
      c.CustomRootFields.AdditionalProperties.get? "stream"
        = some (RawMessage.valid (JSON.str "st"))) := by
  refine ⟨by decide, by decide, by decide, ?_⟩
  obtain ⟨c, hc, hname, _, _, _, _, hbag, hroot, _⟩ :=
    configuration_unmarshal_object bothLevelsObject (by decide) (by decide)
  refine ⟨c, hc, ?_, ?_, ?_, ?_⟩
  · rw [hname]; decide
  · rw [hbag]; decide
  · rw [hbag]; decide
  · rw [hroot [("select", JSON.str "s"), ("stream", JSON.str "st")] (by decide)]
    decide

/-! ## The disjointness invariant -/

theorem extraFields_disjoint (known : GoMap Bool) (allFields : GoMap RawMessage) :
    (extraFields known allFields).keys.all (fun k => !known.getBool k) = true := by
  rw [List.all_eq_true]
  intro k hk
  have hsome := (GoMap.mem_keys _ k).mp hk
  rw [extraFields_get?] at hsome
  cases hb : known.getBool k with
  | false => rfl
  | true => rw [hb] at hsome; cases hsome

/-- The bag `(*CustomRootFields).UnmarshalJSON` leaves is the one of the
receiver or one built by the loop over `allFields`. -/
theorem crf_unmarshal_disjoint (r r' : CustomRootFields) (data : RawMessage)
    (hr : r.disjoint = true) (h : CustomRootFields.UnmarshalJSON r data = .ok r') :
    r'.disjoint = true := by
  unfold CustomRootFields.UnmarshalJSON at h
  cases ha : unmarshalCustomRootFieldsAlias data with
  | error err => rw [ha] at h; cases h
  | ok alias_ =>
    rw [ha] at h
    simp only at h
    cases hm : unmarshalRawMessageMap data with
    | error err => rw [hm] at h; cases h
    | ok allFields =>
      rw [hm] at h
      simp only at h
      split at h
      · cases h
        exact extraFields_disjoint _ _
      · cases h
        exact hr

theorem configuration_decodeMember_disjoint (a a1 : configurationAlias) (kv : String × JSON)
    (ha : a.CustomRootFields.disjoint = true)
    (h : configurationAlias.decodeMember a kv = .ok a1) :
    a1.CustomRootFields.disjoint = true := by
  unfold configurationAlias.decodeMember at h
  split at h
  · cases hd : decodeString a.CustomName kv.2 with
    | error err => rw [hd] at h; cases h
    | ok s =>
      rw [hd] at h
      cases h
      exact ha
  · cases hd : CustomRootFields.UnmarshalJSON a.CustomRootFields (RawMessage.valid kv.2) with
    | error err => rw [hd] at h; cases h
    | ok c =>
      rw [hd] at h
      cases h
      exact crf_unmarshal_disjoint _ _ _ ha hd
  · cases hd : decodeStringMap a.CustomColumnNames kv.2 with
    | error err => rw [hd] at h; cases h
    | ok m =>
      rw [hd] at h
      cases h
      exact ha
  · cases h
    exact ha

theorem configuration_fold_disjoint (members : List (String × JSON))
    (a a' : configurationAlias) (ha : a.CustomRootFields.disjoint = true)
    (h : members.foldlM configurationAlias.decodeMember a = .ok a') :
    a'.CustomRootFields.disjoint = true := by
  induction members generalizing a with
  | nil =>
    cases h
    exact ha
  | cons kv rest ih =>
    rw [List.foldlM_cons] at h
    cases hd : configurationAlias.decodeMember a kv with
    | error err => rw [hd] at h; cases h
    | ok a1 =>
      rw [hd] at h
      exact ih a1 (configuration_decodeMember_disjoint a a1 kv ha hd) h

theorem configuration_unmarshal_disjoint (c c' : Configuration) (data : RawMessage)
    (hc : c.disjoint = true) (h : Configuration.UnmarshalJSON c data = .ok c') :
    c'.disjoint = true := by
  simp only [Configuration.disjoint, Bool.and_eq_true] at hc ⊢
  unfold Configuration.UnmarshalJSON at h
  cases ha : unmarshalConfigurationAlias data with
  | error err => rw [ha] at h; cases h
  | ok alias_ =>
    rw [ha] at h
    simp only at h
    have hroot : alias_.CustomRootFields.disjoint = true := by
      unfold unmarshalConfigurationAlias at ha
      split at ha
      · exact configuration_fold_disjoint _ _ _ (by decide) ha
      · cases ha
        decide
      · cases ha
      · cases ha
    cases hm : unmarshalRawMessageMap data with
    | error err => rw [hm] at h; cases h
    | ok allFields =>
      rw [hm] at h
      simp only at h
      split at h
      · cases h
        exact ⟨extraFields_disjoint _ _, hroot⟩
      · cases h
        exact ⟨hc.1, hroot⟩

theorem mergeCustomRootFields_disjoint (existing desired : CustomRootFields)
    (he : existing.disjoint = true) (hd : desired.disjoint = true) :
    (mergeCustomRootFields existing desired).disjoint = true := by
  unfold mergeCustomRootFields
  by_cases h : existing.AdditionalProperties.len > 0
  · simp only [h, if_true, CustomRootFields.disjoint, GoMap.copy_make_of_len_pos _ h]
    exact he
  · simp only [h, if_false]
    exact hd

theorem mergeConfiguration_disjoint (existing desired : Configuration)
    (he : existing.disjoint = true) (hd : desired.disjoint = true) :
    (mergeConfiguration existing desired).disjoint = true := by
  simp only [Configuration.disjoint, Bool.and_eq_true] at he hd ⊢
  have hroot := mergeCustomRootFields_disjoint existing.CustomRootFields
    desired.CustomRootFields he.2 hd.2
  unfold mergeConfiguration
  by_cases h : existing.AdditionalProperties.len > 0
  · simp only [h, if_true, GoMap.copy_make_of_len_pos _ h]
    exact ⟨he.1, hroot⟩
  · simp only [h, if_false]
    exact ⟨hd.1, hroot⟩

/-- C26: the disjointness invariant is established and preserved. A value that
`UnmarshalJSON` produces in a zero `CustomRootFields` or `Configuration` has a
bag with none of the known keys of its level (for a `Configuration`, at both
levels); the same holds in any receiver that satisfies the invariant; and when
`existing` and `desired` both satisfy it, so do `mergeCustomRootFields` and
`mergeConfiguration` of them. -/
theorem disjointness_invariant (data : RawMessage) (r existingRoot desiredRoot : CustomRootFields)
    (c existing desired : Configuration) :
    (∀ r', CustomRootFields.UnmarshalJSON CustomRootFields.zero data = .ok r' →
      r'.disjoint = true) ∧
    (∀ c', Configuration.UnmarshalJSON Configuration.zero data = .ok c' →
      c'.disjoint = true) ∧
    (r.disjoint = true →
      ∀ r', CustomRootFields.UnmarshalJSON r data = .ok r' → r'.disjoint = true) ∧
    (c.disjoint = true →
      ∀ c', Configuration.UnmarshalJSON c data = .ok c' → c'.disjoint = true) ∧
    (existingRoot.disjoint = true → desiredRoot.disjoint = true →
      (mergeCustomRootFields existingRoot desiredRoot).disjoint = true) ∧
    (existing.disjoint = true → desired.disjoint = true →
      (mergeConfiguration existing desired).disjoint = true) :=
  ⟨fun r' h => crf_unmarshal_disjoint CustomRootFields.zero r' data (by decide) h,
   fun c' h => configuration_unmarshal_disjoint Configuration.zero c' data (by decide) h,
   fun hr r' h => crf_unmarshal_disjoint r r' data hr h,
   fun hc c' h => configuration_unmarshal_disjoint c c' data hc h,
   mergeCustomRootFields_disjoint existingRoot desiredRoot,
   mergeConfiguration_disjoint existing desired⟩

/-- C26, on the stored configuration of `TestApplyTableCustomizationWithMerge`:
what it decodes to satisfies the invariant, and so does its merge with a
desired configuration that carries bags of its own. -/
theorem disjointness_invariant_witness :
    Configuration.UnmarshalJSON Configuration.zero storedConfigJSON = .ok storedConfig ∧
    storedConfig.disjoint = true ∧
    desiredWithExtras.disjoint = true ∧
    (mergeConfiguration storedConfig desiredWithExtras).disjoint = true ∧
    (mergeCustomRootFields rootFieldsExisting rootFieldsOurs).disjoint = true :=
  ⟨by decide,
   (disjointness_invariant storedConfigJSON rootFieldsExisting rootFieldsExisting rootFieldsOurs
      storedConfig storedConfig desiredWithExtras).2.1 storedConfig (by decide),
   by decide,
   (disjointness_invariant storedConfigJSON rootFieldsExisting rootFieldsExisting rootFieldsOurs
      storedConfig storedConfig desiredWithExtras).2.2.2.2.2 (by decide) (by decide),
   (disjointness_invariant storedConfigJSON rootFieldsExisting rootFieldsExisting rootFieldsOurs
      storedConfig storedConfig desiredWithExtras).2.2.2.2.1 (by decide) (by decide)⟩

/-! ## Connection settings: defaults -/

/-- C33: the effective timeout is the configured `Timeout` when it is positive
and ten seconds when it is zero or negative; the effective database name is the
configured `DBName` when it is not empty and `default` when it is. -/
theorem config_defaults (c : Config) :
    (0 < c.Timeout → c.timeout = c.Timeout) ∧
    (c.Timeout ≤ 0 → c.timeout = 10 * timeSecond) ∧
    (c.DBName ≠ "" → c.dbName = c.DBName) ∧
    (c.DBName = "" → c.dbName = "default") := by
  unfold Config.timeout Config.dbName defaultTimeout defaultDBName
  refine ⟨fun h => by simp [h], fun h => ?_, fun h => by simp [h], fun h => by simp [h]⟩
  have : ¬ c.Timeout > 0 := by omega
  simp [this]

/-- C33, on a configuration without timeout and database name, on one with a
negative timeout, and on one that sets both. -/
theorem config_defaults_witness :
    testConfig.timeout = 10000000000 ∧ testConfig.dbName = "default" ∧
    Config.timeout { testConfig with Timeout := -5 } = 10 * timeSecond ∧
    Config.timeout { testConfig with Timeout := 3 * timeSecond } = 3 * timeSecond ∧
    Config.dbName { testConfig with DBName := "analytics" } = "analytics" :=
  ⟨((config_defaults testConfig).2.1 (by decide)).trans (by decide),
   (config_defaults testConfig).2.2.2 rfl,
   (config_defaults { testConfig with Timeout := -5 }).2.1 (by decide),
   (config_defaults { testConfig with Timeout := 3 * timeSecond }).1 (by decide),
   (config_defaults { testConfig with DBName := "analytics" }).2.2.1 (by decide)⟩

/-! ## Merge engine: algebra of the relationship merge -/

/-- Merging a merged list with `ours` again, on the closed form of the merge. -/
theorem merge_closed_absorb_left {α : Type} (name : α → String) (existing ours : List α) :
    ours ++ (ours ++ existing.filter (fun r => decide (name r ∉ ours.map name))).filter
        (fun r => decide (name r ∉ ours.map name))
      = ours ++ existing.filter (fun r => decide (name r ∉ ours.map name)) := by
  congr 1
  rw [List.filter_append, List.filter_filter]
  have h1 : ours.filter (fun r => decide (name r ∉ ours.map name)) = [] := by
    rw [List.filter_eq_nil_iff]
    intro r hr
    simp only [decide_eq_true_eq, not_not]
    exact List.mem_map.mpr ⟨r, hr, rfl⟩
  rw [h1, List.nil_append]
  apply List.filter_congr
  intro r _
  simp

/-- Merging `existing` with the merged list, on the closed form of the merge. -/
theorem merge_closed_absorb_right {α : Type} (name : α → String) (existing ours : List α) :
    (ours ++ existing.filter (fun r => decide (name r ∉ ours.map name)))
        ++ existing.filter (fun r => decide (name r ∉
            (ours ++ existing.filter (fun r => decide (name r ∉ ours.map name))).map name))
      = ours ++ existing.filter (fun r => decide (name r ∉ ours.map name)) := by
  have h : existing.filter (fun r => decide (name r ∉
      (ours ++ existing.filter (fun r => decide (name r ∉ ours.map name))).map name)) = [] := by
    rw [List.filter_eq_nil_iff]
    intro r hr
    simp only [decide_eq_true_eq, not_not, List.map_append, List.mem_append]
    by_cases hn : name r ∈ ours.map name
    · exact Or.inl hn
    · exact Or.inr (List.mem_map.mpr ⟨r, List.mem_filter.mpr ⟨hr, by simpa using hn⟩, rfl⟩)
  rw [h, List.append_nil]

/-- C36: merging is absorbing on both sides. For all relationship lists `e`
and `d`, merging the merged list with `d` again gives the merged list, and
merging `e` with the merged list gives the merged list, for object and for
array relationships. -/
theorem merge_absorption (e d : List ObjectRelationshipConfig)
    (ea da : List ArrayRelationshipConfig) :
    mergeObjectRelationships (mergeObjectRelationships e d) d = mergeObjectRelationships e d ∧
    mergeObjectRelationships e (mergeObjectRelationships e d) = mergeObjectRelationships e d ∧
    mergeArrayRelationships (mergeArrayRelationships ea da) da = mergeArrayRelationships ea da ∧
    mergeArrayRelationships ea (mergeArrayRelationships ea da)
      = mergeArrayRelationships ea da := by
  refine ⟨?_, ?_, ?_, ?_⟩
  · rw [mergeObjectRelationships_eq (mergeObjectRelationships e d) d,
      mergeObjectRelationships_eq e d]
    exact merge_closed_absorb_left ObjectRelationshipConfig.Name e d
  · rw [mergeObjectRelationships_eq e (mergeObjectRelationships e d),
      mergeObjectRelationships_eq e d]
    exact merge_closed_absorb_right ObjectRelationshipConfig.Name e d
  · rw [mergeArrayRelationships_eq (mergeArrayRelationships ea da) da,
      mergeArrayRelationships_eq ea da]
    exact merge_closed_absorb_left ArrayRelationshipConfig.Name ea da
  · rw [mergeArrayRelationships_eq ea (mergeArrayRelationships ea da),
      mergeArrayRelationships_eq ea da]
    exact merge_closed_absorb_right ArrayRelationshipConfig.Name ea da

/-- The names of a merged list, on the closed form of the merge. -/
theorem merge_closed_names {α : Type} (name : α → String) (existing ours : List α)
    (ho : (ours.map name).Nodup) (he : (existing.map name).Nodup) :
    ((ours ++ existing.filter (fun r => decide (name r ∉ ours.map name))).map name).Nodup ∧
    ∀ n, n ∈ (ours ++ existing.filter (fun r => decide (name r ∉ ours.map name))).map name
      ↔ n ∈ ours.map name ∨ n ∈ existing.map name := by
  constructor
  · rw [List.map_append, List.nodup_append]
    refine ⟨ho, ?_, ?_⟩
    · exact List.Nodup.sublist (List.Sublist.map name (List.filter_sublist _)) he
    · intro n hn1 hn2
      obtain ⟨r, hr, rfl⟩ := List.mem_map.mp hn2
      have := (List.mem_filter.mp hr).2
      simp only [decide_eq_true_eq] at this
      exact this hn1
  · intro n
    rw [List.map_append, List.mem_append]
    constructor
    · rintro (h | h)
      · exact Or.inl h
      · obtain ⟨r, hr, rfl⟩ := List.mem_map.mp h
        exact Or.inr (List.mem_map.mpr ⟨r, (List.mem_filter.mp hr).1, rfl⟩)
    · rintro (h | h)
      · exact Or.inl h
      · by_cases hn : n ∈ ours.map name
        · exact Or.inl hn
        · obtain ⟨r, hr, rfl⟩ := List.mem_map.mp h
          exact Or.inr (List.mem_map.mpr
            ⟨r, List.mem_filter.mpr ⟨hr, by simpa using hn⟩, rfl⟩)

/-- C37: merging preserves the uniqueness of names. When the names within
`desired` are pairwise distinct and the names within `existing` are pairwise
distinct, the names within the merged list are pairwise distinct, and a name
is in the merged list exactly when it is in one of the two lists; for object
and for array relationships. -/
theorem merge_names_distinct (existing desired : List ObjectRelationshipConfig)
    (existingArr desiredArr : List ArrayRelationshipConfig)
    (hd : (desired.map (·.Name)).Nodup) (he : (existing.map (·.Name)).Nodup)
    (hda : (desiredArr.map (·.Name)).Nodup) (hea : (existingArr.map (·.Name)).Nodup) :
    (((mergeObjectRelationships existing desired).map (·.Name)).Nodup ∧
      ∀ n, n ∈ (mergeObjectRelationships existing desired).map (·.Name)
        ↔ n ∈ desired.map (·.Name) ∨ n ∈ existing.map (·.Name)) ∧
    (((mergeArrayRelationships existingArr desiredArr).map (·.Name)).Nodup ∧
      ∀ n, n ∈ (mergeArrayRelationships existingArr desiredArr).map (·.Name)
        ↔ n ∈ desiredArr.map (·.Name) ∨ n ∈ existingArr.map (·.Name)) := by
  rw [mergeObjectRelationships_eq, mergeArrayRelationships_eq]
  exact ⟨merge_closed_names ObjectRelationshipConfig.Name existing desired hd he,
    merge_closed_names ArrayRelationshipConfig.Name existingArr desiredArr hda hea⟩

/-- C37, on the lists `[A, C]` desired and `[A, B]` existing: the merged names
are `A`, `C`, `B`. -/
theorem merge_names_distinct_witness :
    (mergeObjectRelationships [objRel "A" "a", objRel "B" "b"]
        [objRel "A" "x", objRel "C" "c"]).map (·.Name) = ["A", "C", "B"] ∧
    ((mergeObjectRelationships [objRel "A" "a", objRel "B" "b"]
        [objRel "A" "x", objRel "C" "c"]).map (·.Name)).Nodup ∧
    ((mergeArrayRelationships [arrRel "A" "t" "a", arrRel "B" "t" "b"]
        [arrRel "A" "t" "x", arrRel "C" "t" "c"]).map (·.Name)).Nodup :=
  ⟨by decide,
   (merge_names_distinct [objRel "A" "a", objRel "B" "b"] [objRel "A" "x", objRel "C" "c"]
      [arrRel "A" "t" "a", arrRel "B" "t" "b"] [arrRel "A" "t" "x", arrRel "C" "t" "c"]
      (by decide) (by decide) (by decide) (by decide)).1.1,
   (merge_names_distinct [objRel "A" "a", objRel "B" "b"] [objRel "A" "x", objRel "C" "c"]
      [arrRel "A" "t" "a", arrRel "B" "t" "b"] [arrRel "A" "t" "x", arrRel "C" "t" "c"]
      (by decide) (by decide) (by decide) (by decide)).2.1⟩

/-! ## Snapshot fetcher: bare tables and failures -/

/-- When the export parses, the fetch succeeds, and a table listed under
the configured source without a configuration and without relationships (as is
every table listed there with the same key, when there is more than one) has
a snapshot entry with a nil configuration and empty object and array
relationship lists. When the call of the export request returns an error, or
its body does not parse, the fetch returns an error that wraps the failure, and
no map. -/
theorem fetch_bare_table_and_failures (net : Transport) (cfg : Config)
    (trace : List Request) :
    (∀ resp, net trace exportRequest = .ok (Body.decodes resp) →
      ∃ result, (fetchExistingTableMetadata net cfg trace).1 = .ok result ∧
        ∀ table ∈ listedTables resp cfg.dbName,
          (∀ other ∈ listedTables resp cfg.dbName,
            tableKey other.Table = tableKey table.Table →
              other.Configuration = none ∧ other.ObjectRelationships = [] ∧
              other.ArrayRelationships = []) →
          result.get? (tableKey table.Table)
            = some { Configuration := RawMessage.nil
                     ObjectRelationships := []
                     ArrayRelationships := [] }) ∧
    (∀ e, net trace exportRequest = .error e →
      (fetchExistingTableMetadata net cfg trace).1
        = .error (GoError.wrapError "problem fetching metadata: " e)) ∧
    (∀ e, net trace exportRequest = .ok (Body.undecodable e) →
      (fetchExistingTableMetadata net cfg trace).1
        = .error (GoError.wrapError "problem parsing metadata response: " e)) := by
  refine ⟨?_, ?_, ?_⟩
  · intro resp hresp
    obtain ⟨result, hres, hget⟩ := fetchExistingTableMetadata_ok net cfg trace resp hresp
    refine ⟨result, hres, fun table htable hbare => ?_⟩
    rw [hget]
    cases hf : (listedTables resp cfg.dbName).reverse.find?
        (fun t => tableKey t.Table == tableKey table.Table) with
    | none =>
      have := List.find?_eq_none.mp hf table (List.mem_reverse.mpr htable)
      simp at this
    | some t =>
      have hk : tableKey t.Table = tableKey table.Table := by simpa using List.find?_some hf
      have ht : t ∈ listedTables resp cfg.dbName :=
        List.mem_reverse.mp (List.mem_of_find?_eq_some hf)
      obtain ⟨h1, h2, h3⟩ := hbare t ht hk
      simp [snapshotOf, h1, h2, h3]
  · intro e he
    unfold exportRequest at he
    unfold fetchExistingTableMetadata postMetadata
    rw [he]
  · intro e he
    unfold exportRequest at he
    unfold fetchExistingTableMetadata postMetadata
    rw [he]
    rfl

/-- The fetch on an export like the one of `TestFetchExistingTableMetadata` (the
entry of `auth.roles` has a nil configuration and no relationships), on a
gateway whose export fails and on one whose export does not parse. -/
theorem fetch_bare_table_and_failures_witness :
    (∃ result, (fetchExistingTableMetadata rolesGateway testConfig []).1 = .ok result ∧
      result.get? "auth.roles"
        = some { Configuration := RawMessage.nil
                 ObjectRelationships := []
                 ArrayRelationships := [] }) ∧
    (fetchExistingTableMetadata failingExportGateway testConfig []).1
      = .error (GoError.wrapError "problem fetching metadata: " internalError) ∧
    (fetchExistingTableMetadata garbledExportGateway testConfig []).1
      = .error (GoError.wrapError "problem parsing metadata response: " syntaxError) := by
  refine ⟨?_,
    (fetch_bare_table_and_failures failingExportGateway testConfig []).2.1 internalError rfl,
    (fetch_bare_table_and_failures garbledExportGateway testConfig []).2.2 syntaxError rfl⟩
  obtain ⟨result, hres, hbare⟩ :=
    (fetch_bare_table_and_failures rolesGateway testConfig []).1 rolesExport rfl
  refine ⟨result, hres, ?_⟩
  exact hbare
    { Table := { Schema := "auth", Name := "roles" }
      Configuration := none
      ObjectRelationships := []
      ArrayRelationships := [] }
    (by decide) (by decide)

/-! ## Merge engine: what the merge reads of the existing configuration -/

theorem GoMap.len_congr {V : Type} (a b : GoMap V) (h : ∀ k, a.get? k = b.get? k) :
    a.len = b.len := by
  unfold GoMap.len
  apply List.Perm.length_eq
  have hnd : ∀ m : GoMap V, m.keys.Nodup := fun m => List.nodup_dedup _
  rw [List.perm_ext_iff_of_nodup (hnd a) (hnd b)]
  intro k
  rw [GoMap.mem_keys, GoMap.mem_keys, h k]

theorem merged_bag_same (existing₁ existing₂ ours : GoMap RawMessage)
    (h : GoMap.Same existing₁ existing₂) :
    GoMap.Same
      (if existing₁.len > 0 then GoMap.copy GoMap.make existing₁ else ours)
      (if existing₂.len > 0 then GoMap.copy GoMap.make existing₂ else ours) := by
  have hlen := GoMap.len_congr existing₁ existing₂ h.2
  by_cases h1 : existing₁.len > 0
  · have h2 : existing₂.len > 0 := by omega
    rw [if_pos h1, if_pos h2, GoMap.copy_make_of_len_pos _ h1, GoMap.copy_make_of_len_pos _ h2]
    exact h
  · have h2 : ¬ existing₂.len > 0 := by omega
    rw [if_neg h1, if_neg h2]
    exact ⟨rfl, fun _ => rfl⟩

/-- C38: the known fields of the existing configuration never influence the
merge. For every desired `d` and all existing `e1`, `e2` whose bags are equal
at both levels, `mergeConfiguration e1 d` and `mergeConfiguration e2 d` are
equal; and when the bags are merely equal as maps (the same bindings), the two
merged configurations are equal as values. -/
theorem mergeConfiguration_ignores_known_fields (d e1 e2 : Configuration) :
    (e1.AdditionalProperties = e2.AdditionalProperties →
      e1.CustomRootFields.AdditionalProperties = e2.CustomRootFields.AdditionalProperties →
      mergeConfiguration e1 d = mergeConfiguration e2 d) ∧
    (GoMap.Same e1.AdditionalProperties e2.AdditionalProperties →
      GoMap.Same e1.CustomRootFields.AdditionalProperties
        e2.CustomRootFields.AdditionalProperties →
      Configuration.Same (mergeConfiguration e1 d) (mergeConfiguration e2 d)) := by
  constructor
  · intro h1 h2
    unfold mergeConfiguration mergeCustomRootFields
    rw [h1, h2]
  · intro h1 h2
    have hb := merged_bag_same _ _ d.AdditionalProperties h1
    have hr := merged_bag_same _ _ d.CustomRootFields.AdditionalProperties h2
    have hlen1 := GoMap.len_congr _ _ h1.2
    have hlen2 := GoMap.len_congr _ _ h2.2
    unfold mergeConfiguration mergeCustomRootFields
    by_cases c1 : e1.AdditionalProperties.len > 0 <;>
      by_cases c2 : e1.CustomRootFields.AdditionalProperties.len > 0
    all_goals
      have c1' := c1
      have c2' := c2
      rw [hlen1] at c1'
      rw [hlen2] at c2'
      simp only [c1, c2, c1', c2', if_true, if_false] at hb hr ⊢
      exact ⟨rfl, ⟨rfl, rfl, rfl, rfl, rfl, rfl, rfl, rfl, rfl, hr⟩, ⟨rfl, fun _ => rfl⟩, hb⟩

/-- C38, on two existing configurations that differ in every known field and
carry the same bags. -/
theorem mergeConfiguration_ignores_known_fields_witness :
    storedConfig ≠ { storedConfig with
                     CustomName := "renamed"
                     CustomColumnNames := GoMap.nil
                     CustomRootFields := { storedConfig.CustomRootFields with
                                           Select := "other", Delete := "gone" } } ∧
    mergeConfiguration storedConfig desiredWithExtras
      = mergeConfiguration
          { storedConfig with
            CustomName := "renamed"
            CustomColumnNames := GoMap.nil
            CustomRootFields := { storedConfig.CustomRootFields with
                                  Select := "other", Delete := "gone" } }
          desiredWithExtras :=
  ⟨by decide,
   (mergeConfiguration_ignores_known_fields desiredWithExtras storedConfig
      { storedConfig with
        CustomName := "renamed"
        CustomColumnNames := GoMap.nil
        CustomRootFields := { storedConfig.CustomRootFields with
                              Select := "other", Delete := "gone" } }).1 rfl rfl⟩

/-! ## Encoding: a known key in the bag -/

theorem value_unique_of_nodup {V : Type} (l : List (String × V)) (k : String) (v v' : V)
    (hnd : (l.map Prod.fst).Nodup) (h : (k, v) ∈ l) (h' : (k, v') ∈ l) : v' = v := by
  have h1 := lookup_of_mem_nodup l k v hnd h
  have h2 := lookup_of_mem_nodup l k v' hnd h'
  rw [h1] at h2
  exact (Option.some.inj h2).symm

/-- The object a `MarshalJSON` method returns, whatever the keys of the bag:
no key is written twice, and a key of the bag is written with the bag's
value. -/
theorem marshal_bag_wins (known : List (String × JSON)) (bag : GoMap RawMessage)
    (hnd : (known.map Prod.fst).Nodup) (json : JSON)
    (h : (if bag.len = 0 then (.ok (JSON.obj known) : Except GoError JSON)
          else if bagMarshals bag = true then
            .ok (JSON.obj (encodedMembers (mergedMap known bag)))
          else .error (marshalerError syntaxError)) = .ok json) :
    ∃ members, json = JSON.obj members ∧ (members.map Prod.fst).Nodup ∧
      (∀ k, k ∈ members.map Prod.fst ↔ k ∈ known.map Prod.fst ∨ k ∈ bag.keys) ∧
      ∀ k raw, bag.get? k = some raw →
        (k, raw.encoded) ∈ members ∧ ∀ v, (k, v) ∈ members → v = raw.encoded := by
  by_cases h0 : bag.len = 0
  · rw [if_pos h0] at h
    cases h
    refine ⟨known, rfl, hnd, ?_, ?_⟩
    · intro k
      rw [GoMap.keys_eq_nil_of_len bag h0]
      simp
    · intro k raw hk
      rw [(GoMap.len_eq_zero_iff_key bag).mp h0 k] at hk
      cases hk
  · rw [if_neg h0] at h
    by_cases hm : bagMarshals bag = true
    · rw [if_pos hm] at h
      cases h
      have hnd' : ((encodedMembers (mergedMap known bag)).map Prod.fst).Nodup := by
        rw [encodedMembers_keys]
        exact GoMap.nodup_sortedKeys _
      refine ⟨_, rfl, hnd', ?_, ?_⟩
      · intro k
        rw [encodedMembers_keys, GoMap.mem_sortedKeys, mergedMap_get?, GoMap.mem_keys,
          ← memberValue_isSome_iff]
        cases bag.get? k <;> cases memberValue known k <;> simp
      · intro k raw hk
        have hmem : (k, raw.encoded) ∈ encodedMembers (mergedMap known bag) := by
          apply mem_encodedMembers
          rw [mergedMap_get?, hk]
          rfl
        exact ⟨hmem, fun v hv => value_unique_of_nodup _ k _ v hnd' hmem hv⟩
    · rw [if_neg hm] at h
      cases h

/-- C39: for every `CustomRootFields` and every `Configuration`, the object
`MarshalJSON` returns has no key twice, and each key of the bag is written
once, with the bag's value: when the key is also a known key (such as `select`
or `custom_name`), the value of the typed field is not written. -/
theorem marshalJSON_bag_key_wins (c : Configuration) (r : CustomRootFields) :
    (∀ json, r.MarshalJSON = .ok json →
      ∃ members, json = JSON.obj members ∧ (members.map Prod.fst).Nodup ∧
        (∀ k, k ∈ members.map Prod.fst ↔
          k ∈ customRootFieldsAliasFields ∨ k ∈ r.AdditionalProperties.keys) ∧
        ∀ k raw, r.AdditionalProperties.get? k = some raw →
          (k, raw.encoded) ∈ members ∧ ∀ v, (k, v) ∈ members → v = raw.encoded) ∧
    (∀ json, c.MarshalJSON = .ok json →
      ∃ members, json = JSON.obj members ∧ (members.map Prod.fst).Nodup ∧
        (∀ k, k ∈ members.map Prod.fst ↔
          k ∈ configurationAliasFields ∨ k ∈ c.AdditionalProperties.keys) ∧
        ∀ k raw, c.AdditionalProperties.get? k = some raw →
          (k, raw.encoded) ∈ members ∧ ∀ v, (k, v) ∈ members → v = raw.encoded) ∧
    (bagMarshals r.AdditionalProperties = true → ∃ json, r.MarshalJSON = .ok json) ∧
    (bagMarshals c.AdditionalProperties = true →
      bagMarshals c.CustomRootFields.AdditionalProperties = true →
      ∃ json, c.MarshalJSON = .ok json) := by
  refine ⟨?_, ?_, crf_marshal_ok r, configuration_marshal_ok c⟩
  · intro json hjson
    rw [crf_marshal_eq] at hjson
    exact marshal_bag_wins r.knownMembers r.AdditionalProperties
      (by rw [crf_knownMembers_keys]; exact customRootFieldsAliasFields_nodup) json hjson
  · intro json hjson
    rw [configuration_marshal_eq] at hjson
    cases hr : c.CustomRootFields.MarshalJSON with
    | error err => rw [hr] at hjson; cases hjson
    | ok rootFields =>
      rw [hr] at hjson
      simp only at hjson
      have := marshal_bag_wins (c.knownMembers rootFields) c.AdditionalProperties
        (by rw [configuration_knownMembers_keys]; exact configurationAliasFields_nodup)
        json hjson
      rw [configuration_knownMembers_keys] at this
      exact this

/-- C39, on root fields with `select` in the bag and on a configuration with
`custom_name` in the bag: the key is written once, with the value of the bag,
and the typed value `"typed"` does not occur. -/
theorem marshalJSON_bag_key_wins_witness :
    shadowedSelectRootFields.MarshalJSON
      = .ok (JSON.obj
          [ ("delete", JSON.str ""), ("delete_by_pk", JSON.str ""), ("insert", JSON.str ""),
            ("insert_one", JSON.str ""), ("select", JSON.str "from_bag"),
            ("select_aggregate", JSON.str ""), ("select_by_pk", JSON.str ""),
            ("update", JSON.str ""), ("update_by_pk", JSON.str "") ]) ∧
    shadowedNameConfiguration.MarshalJSON
      = .ok (JSON.obj
          [ ("custom_column_names", JSON.null), ("custom_name", JSON.str "from_bag"),
            ("custom_root_fields", JSON.obj CustomRootFields.zero.knownMembers) ]) ∧
    (∃ members, (members.map Prod.fst).Nodup ∧
      ("select", JSON.str "from_bag") ∈ members ∧
      ("select", JSON.str "typed") ∉ members ∧
      shadowedSelectRootFields.MarshalJSON = .ok (JSON.obj members)) := by
  refine ⟨by decide, by decide, ?_⟩
  obtain ⟨members, hm, hnd, _, hbag⟩ :=
    (marshalJSON_bag_key_wins shadowedNameConfiguration shadowedSelectRootFields).1
      (JSON.obj
        [ ("delete", JSON.str ""), ("delete_by_pk", JSON.str ""), ("insert", JSON.str ""),
          ("insert_one", JSON.str ""), ("select", JSON.str "from_bag"),
          ("select_aggregate", JSON.str ""), ("select_by_pk", JSON.str ""),
          ("update", JSON.str ""), ("update_by_pk", JSON.str "") ])
      (by decide)
  obtain ⟨hmem, huniq⟩ := hbag "select" (RawMessage.valid (JSON.str "from_bag")) (by decide)
  refine ⟨members, hnd, hmem, fun hbad => ?_, ?_⟩
  · have := huniq _ hbad
    simp [RawMessage.encoded] at this
  · rw [← hm]
    decide

/-! ## The lookup key of a table -/

/-- C32 fails on the code: the table `c` of the schema `a.b` and the table
`b.c` of the schema `a` are different tables with the same lookup key `a.b.c`.
On a gateway that tracks both and exports the first one, a run that declares
the second one sends it a customization that carries the comment of the first
one, and takes the relationship `owner` of the first one for its own: the
relationship is not created. -/
theorem tableKey_collision :
    ({ Schema := "a.b", Name := "c" } : Table) ≠ { Schema := "a", Name := "b.c" } ∧
    tableKey { Schema := "a.b", Name := "c" } = tableKey { Schema := "a", Name := "b.c" } ∧
    ApplyMetadata dottedGateway testConfig [dottedNameTable] []
      = (none,
         [ exportRequest,
           Request.trackTable dottedNameTable,
           Request.setTableCustomization
             { Type_ := "pg_set_table_customization"
               Args :=
                 { Source := "default"
                   Table := { Schema := "a", Name := "b.c" }
                   Configuration :=
                     { Configuration.zero with
                       CustomName := "mine"
                       AdditionalProperties :=
                         GoMap.mk [("comment",
                           RawMessage.valid
                             (JSON.str "comment of the table c of a.b"))] } } } ]) := by
  decide

/-! ## Markers answered to the wrong request -/

theorem hasCode_exclusive (e : GoError) (c c' : String) (hne : c ≠ c')
    (h : e.hasCode c = true) : e.hasCode c' = false := by
  unfold GoError.hasCode at h ⊢
  cases ha : e.asApiError with
  | none => rfl
  | some code =>
    rw [ha] at h
    simp only [beq_iff_eq] at h
    subst h
    simpa using hne

theorem failsHard_of_misplacedMarker (r : Request) (e : GoError)
    (h : r.misplacedMarker e = true) : r.failsHard (Except.error e) = true := by
  cases r with
  | exportMetadata _ => cases h
  | trackTable _ =>
    simp only [Request.misplacedMarker] at h
    simp [Request.failsHard,
      hasCode_exclusive e errorCodeAlreadyExists errorCodeAlreadyTracked (by decide) h]
  | setTableCustomization _ => rfl
  | createObjectRelationship _ =>
    simp only [Request.misplacedMarker] at h
    simp [Request.failsHard,
      hasCode_exclusive e errorCodeAlreadyTracked errorCodeAlreadyExists (by decide) h]
  | createArrayRelationship _ =>
    simp only [Request.misplacedMarker] at h
    simp [Request.failsHard,
      hasCode_exclusive e errorCodeAlreadyTracked errorCodeAlreadyExists (by decide) h]

/-- C34: a marker is absorbed only by the request that recognises it. A
`pg_track_table` request answered with the already-exists marker, a create
request of either kind answered with the already-tracked marker, and a
`pg_set_table_customization` request answered with either marker, is the last
request of the run, and the run returns an error: the marker wrapped in the
message of the failing step. -/
theorem applyMetadata_rejects_misplaced_marker (net : Transport) (cfg : Config)
    (tables : List TrackTable) (trace₀ before after : List Request) (r : Request) (e : GoError)
    (hsplit : (ApplyMetadata net cfg tables trace₀).2 = trace₀ ++ (before ++ r :: after))
    (hnet : net (trace₀ ++ before) r = Except.error e)
    (hmarker : r.misplacedMarker e = true) :
    after = [] ∧
    (ApplyMetadata net cfg tables trace₀).1 = some (abortError r e) ∧
    (∃ pfx, abortError r e = GoError.wrapError pfx e) ∧
    (ApplyMetadata net cfg tables trace₀).1 ≠ none := by
  obtain ⟨hafter, herr⟩ := abortsOnHardFailure_at net trace₀ _
    (ApplyMetadata_aborts net cfg tables trace₀) before after r e hsplit hnet
    (failsHard_of_misplacedMarker r e hmarker)
  refine ⟨hafter, herr, ?_, by rw [herr]; exact fun h => by cases h⟩
  cases r with
  | exportMetadata _ => cases hmarker
  | trackTable _ => exact ⟨_, rfl⟩
  | setTableCustomization _ => exact ⟨_, rfl⟩
  | createObjectRelationship _ => exact ⟨_, rfl⟩
  | createArrayRelationship _ => exact ⟨_, rfl⟩

/-- C34, on three gateways: one that answers the track request with the
already-exists marker, one that answers the customization request with the
already-tracked marker, and one that answers the create request with the
already-tracked marker. Each run ends at that request with an error. -/
theorem applyMetadata_rejects_misplaced_marker_witness :
    ApplyMetadata allExistsGateway testConfig [usersTable] []
      = (some (GoError.wrapError "problem adding metadata for table auth.users: "
            alreadyExistsError),
         [exportRequest, Request.trackTable usersTable]) ∧
    ApplyMetadata allTrackedGateway testConfig [usersTable] []
      = (some (GoError.wrapError "problem updating customization for table auth.users: "
            alreadyTrackedError),
         [exportRequest, Request.trackTable usersTable,
          Request.setTableCustomization (customizationRequest usersTable RawMessage.nil)]) ∧
    ApplyMetadata trackedOnCreateGateway testConfig [usersTable] []
      = (some (GoError.wrapError
            "problem creating object relationship parent for table auth.users: "
            alreadyTrackedError),
         [exportRequest, Request.trackTable usersTable,
          Request.createObjectRelationship
            (objectRelationshipRequest usersTable (objRel "parent" "parent_id"))]) ∧
    (([] : List Request) = [] ∧
      (ApplyMetadata allExistsGateway testConfig [usersTable] []).1
        = some (abortError (Request.trackTable usersTable) alreadyExistsError) ∧
      (∃ pfx, abortError (Request.trackTable usersTable) alreadyExistsError
        = GoError.wrapError pfx alreadyExistsError) ∧
      (ApplyMetadata allExistsGateway testConfig [usersTable] []).1 ≠ none) :=
  ⟨by decide, by decide, by decide,
   applyMetadata_rejects_misplaced_marker allExistsGateway testConfig [usersTable] []
     [exportRequest] [] (Request.trackTable usersTable) alreadyExistsError
     (by decide) (by rfl) (by decide)⟩

/-! ## Phase B: the merge is not observable -/

/-- The loop of `applyObjectRelationships` over any list is the direct loop
over the relationships whose name is not recorded. -/
theorem objectLoop_eq_direct (net : Transport) (cfg : Config) (table : TrackTable)
    (names : GoMap Bool) (rels : List ObjectRelationshipConfig) (trace : List Request) :
    applyObjectRelationships.loop net cfg table names rels trace
      = applyObjectRelationships.direct net cfg table
          (rels.filter (fun rel => !names.getBool rel.Name)) trace := by
  induction rels generalizing trace with
  | nil => rfl
  | cons rel rest ih =>
    rw [applyObjectRelationships.loop]
    by_cases hn : names.getBool rel.Name = true
    · simp only [hn, if_true, List.filter_cons, Bool.not_true, Bool.false_eq_true, if_false]
      exact ih trace
    · have hf : names.getBool rel.Name = false := by simpa using hn
      simp only [hf, Bool.false_eq_true, if_false, List.filter_cons, Bool.not_false, if_true]
      rw [applyObjectRelationships.direct]
      simp only [objectRelationshipRequest, postMetadata, ih]

/-- The loop of `applyArrayRelationships` over any list is the direct loop
over the relationships whose name is not recorded. -/
theorem arrayLoop_eq_direct (net : Transport) (cfg : Config) (table : TrackTable)
    (names : GoMap Bool) (rels : List ArrayRelationshipConfig) (trace : List Request) :
    applyArrayRelationships.loop net cfg table names rels trace
      = applyArrayRelationships.direct net cfg table
          (rels.filter (fun rel => !names.getBool rel.Name)) trace := by
  induction rels generalizing trace with
  | nil => rfl
  | cons rel rest ih =>
    rw [applyArrayRelationships.loop]
    by_cases hn : names.getBool rel.Name = true
    · simp only [hn, if_true, List.filter_cons, Bool.not_true, Bool.false_eq_true, if_false]
      exact ih trace
    · have hf : names.getBool rel.Name = false := by simpa using hn
      simp only [hf, Bool.false_eq_true, if_false, List.filter_cons, Bool.not_false, if_true]
      rw [applyArrayRelationships.direct]
      simp only [arrayRelationshipRequest, postMetadata, ih]

/-- Filtering a merged list by the recorded names of `existing` leaves the
elements of `desired` whose name is the name of no existing element. -/
theorem merged_filter_eq {α : Type} (name : α → String) (existing desired : List α) :
    (desired ++ existing.filter (fun r => decide (name r ∉ desired.map name))).filter
        (fun rel => !(existing.foldl (fun m r => m.set (name r) true)
            (GoMap.make : GoMap Bool)).getBool (name rel))
      = desired.filter (fun rel => decide (∀ e ∈ existing, name e ≠ name rel)) := by
  have hpred : ∀ rel : α,
      (!(existing.foldl (fun m r => m.set (name r) true)
          (GoMap.make : GoMap Bool)).getBool (name rel))
        = decide (∀ e ∈ existing, name e ≠ name rel) := by
    intro rel
    rw [existingNames_getBool name]
    by_cases hm : name rel ∈ existing.map name
    · obtain ⟨e, he, hen⟩ := List.mem_map.mp hm
      have : ¬ ∀ e ∈ existing, name e ≠ name rel := fun h => h e he hen
      simp [hm, this, GoMap.getBool, GoMap.get?, GoMap.make, GoMap.entries]
    · have : ∀ e ∈ existing, name e ≠ name rel := fun e he hen =>
        hm (List.mem_map.mpr ⟨e, he, hen⟩)
      simp [hm, GoMap.getBool, GoMap.get?, GoMap.make, GoMap.entries]
      exact this
  simp only [hpred]
  rw [List.filter_append]
  have : (existing.filter (fun r => decide (name r ∉ desired.map name))).filter
      (fun rel => decide (∀ e ∈ existing, name e ≠ name rel)) = [] := by
    rw [List.filter_eq_nil_iff]
    intro a ha
    simp only [decide_eq_true_eq]
    exact fun h => h a (List.mem_filter.mp ha).1 rfl
  rw [this, List.append_nil]

/-- The requests of a direct loop: a create request for each relationship of a
prefix of the list, all of it when no error is returned. -/
theorem objectDirect_trace (net : Transport) (cfg : Config) (table : TrackTable)
    (rels : List ObjectRelationshipConfig) (trace : List Request) :
    ∃ issued : List ObjectRelationshipConfig,
      issued <+: rels ∧
      (applyObjectRelationships.direct net cfg table rels trace).2
        = trace ++ issued.map
            (fun rel => Request.createObjectRelationship (objectRelationshipRequest table rel)) ∧
      ((applyObjectRelationships.direct net cfg table rels trace).1 = none →
        issued = rels) := by
  have h := objectLoop_spec net cfg table GoMap.make rels trace
  have hid : rels.filter (fun rel => !(GoMap.make : GoMap Bool).getBool rel.Name) = rels := by
    rw [List.filter_eq_self]
    intro rel _
    rfl
  rw [objectLoop_eq_direct, hid] at h
  obtain ⟨issued, h1, h2, h3⟩ := h
  exact ⟨issued, h2, h1, h3⟩

theorem arrayDirect_trace (net : Transport) (cfg : Config) (table : TrackTable)
    (rels : List ArrayRelationshipConfig) (trace : List Request) :
    ∃ issued : List ArrayRelationshipConfig,
      issued <+: rels ∧
      (applyArrayRelationships.direct net cfg table rels trace).2
        = trace ++ issued.map
            (fun rel => Request.createArrayRelationship (arrayRelationshipRequest table rel)) ∧
      ((applyArrayRelationships.direct net cfg table rels trace).1 = none →
        issued = rels) := by
  have h := arrayLoop_spec net cfg table GoMap.make rels trace
  have hid : rels.filter (fun rel => !(GoMap.make : GoMap Bool).getBool rel.Name) = rels := by
    rw [List.filter_eq_self]
    intro rel _
    rfl
  rw [arrayLoop_eq_direct, hid] at h
  obtain ⟨issued, h1, h2, h3⟩ := h
  exact ⟨issued, h2, h1, h3⟩

/-- C35: the merge is not observable in Phase B. For every gateway, table and
existing list, `applyObjectRelationships` returns the same error and posts the
same requests as the direct loop over the desired relationships whose `Name`
is the name of no existing relationship, in the order of `desired`; so every
request it posts is the create request of such a desired relationship (never
of one taken from `existing`), with `fkConstraintColumns` of the desired
`Using` value as columns. The same holds for `applyArrayRelationships`. -/
theorem phaseB_merge_unobservable (net : Transport) (cfg : Config) (table : TrackTable)
    (existing : List ObjectRelationshipConfig) (existingArr : List ArrayRelationshipConfig)
    (trace : List Request) :
    applyObjectRelationships net cfg table existing trace
      = applyObjectRelationships.direct net cfg table
          (table.Args.ObjectRelationships.filter
            (fun rel => decide (∀ e ∈ existing, e.Name ≠ rel.Name))) trace ∧
    applyArrayRelationships net cfg table existingArr trace
      = applyArrayRelationships.direct net cfg table
          (table.Args.ArrayRelationships.filter
            (fun rel => decide (∀ e ∈ existingArr, e.Name ≠ rel.Name))) trace ∧
    (∃ issued : List ObjectRelationshipConfig,
      issued <+: table.Args.ObjectRelationships.filter
        (fun rel => decide (∀ e ∈ existing, e.Name ≠ rel.Name)) ∧
      (applyObjectRelationships net cfg table existing trace).2
        = trace ++ issued.map (fun rel =>
            Request.createObjectRelationship
              { Type_ := "pg_create_object_relationship"
                Args := { Source := table.Args.Source
                          Table := table.Args.Table
                          Name := rel.Name
                          Using := { ForeignKeyConstraintOn :=
                            fkConstraintColumns rel.Using.ForeignKeyConstraintOn } } }) ∧
      ((applyObjectRelationships net cfg table existing trace).1 = none →
        issued = table.Args.ObjectRelationships.filter
          (fun rel => decide (∀ e ∈ existing, e.Name ≠ rel.Name))) ∧
      ∀ rel ∈ issued, rel ∈ table.Args.ObjectRelationships ∧
        ∀ e ∈ existing, e.Name ≠ rel.Name) ∧
    (∃ issued : List ArrayRelationshipConfig,
      issued <+: table.Args.ArrayRelationships.filter
        (fun rel => decide (∀ e ∈ existingArr, e.Name ≠ rel.Name)) ∧
      (applyArrayRelationships net cfg table existingArr trace).2
        = trace ++ issued.map (fun rel =>
            Request.createArrayRelationship
              { Type_ := "pg_create_array_relationship"
                Args := { Source := table.Args.Source
                          Table := table.Args.Table
                          Name := rel.Name
                          Using := { ForeignKeyConstraintOn :=
                            rel.Using.ForeignKeyConstraintOn } } }) ∧
      ((applyArrayRelationships net cfg table existingArr trace).1 = none →
        issued = table.Args.ArrayRelationships.filter
          (fun rel => decide (∀ e ∈ existingArr, e.Name ≠ rel.Name))) ∧
      ∀ rel ∈ issued, rel ∈ table.Args.ArrayRelationships ∧
        ∀ e ∈ existingArr, e.Name ≠ rel.Name) := by
  have hobj : applyObjectRelationships net cfg table existing trace
      = applyObjectRelationships.direct net cfg table
          (table.Args.ObjectRelationships.filter
            (fun rel => decide (∀ e ∈ existing, e.Name ≠ rel.Name))) trace := by
    unfold applyObjectRelationships
    simp only
    rw [objectLoop_eq_direct, mergeObjectRelationships_eq,
      merged_filter_eq ObjectRelationshipConfig.Name]
  have harr : applyArrayRelationships net cfg table existingArr trace
      = applyArrayRelationships.direct net cfg table
          (table.Args.ArrayRelationships.filter
            (fun rel => decide (∀ e ∈ existingArr, e.Name ≠ rel.Name))) trace := by
    unfold applyArrayRelationships
    simp only
    rw [arrayLoop_eq_direct, mergeArrayRelationships_eq,
      merged_filter_eq ArrayRelationshipConfig.Name]
  refine ⟨hobj, harr, ?_, ?_⟩
  · rw [hobj]
    obtain ⟨issued, h1, h2, h3⟩ := objectDirect_trace net cfg table
      (table.Args.ObjectRelationships.filter
        (fun rel => decide (∀ e ∈ existing, e.Name ≠ rel.Name))) trace
    refine ⟨issued, h1, h2, h3, fun rel hrel => ?_⟩
    have := List.mem_filter.mp (h1.subset hrel)
    exact ⟨this.1, by simpa using this.2⟩
  · rw [harr]
    obtain ⟨issued, h1, h2, h3⟩ := arrayDirect_trace net cfg table
      (table.Args.ArrayRelationships.filter
        (fun rel => decide (∀ e ∈ existingArr, e.Name ≠ rel.Name))) trace
    refine ⟨issued, h1, h2, h3, fun rel hrel => ?_⟩
    have := List.mem_filter.mp (h1.subset hrel)
    exact ⟨this.1, by simpa using this.2⟩

/-- C35, on the table with the desired object relationships `A` and `C` and the
existing relationships `A` and `B`: one request, for `C`, and none for `B`. -/
theorem phaseB_merge_unobservable_witness :
    applyObjectRelationships acceptingGateway testConfig abcTable
        [objRel "A" "a_id", objRel "B" "b_id"] []
      = (none, [Request.createObjectRelationship
                  (objectRelationshipRequest abcTable (objRel "C" "c_id"))]) ∧
    applyObjectRelationships acceptingGateway testConfig abcTable
        [objRel "A" "a_id", objRel "B" "b_id"] []
      = applyObjectRelationships.direct acceptingGateway testConfig abcTable
          (abcTable.Args.ObjectRelationships.filter
            (fun rel => decide (∀ e ∈ [objRel "A" "a_id", objRel "B" "b_id"],
              e.Name ≠ rel.Name))) [] :=
  ⟨by decide,
   (phaseB_merge_unobservable acceptingGateway testConfig abcTable
      [objRel "A" "a_id", objRel "B" "b_id"] [] []).1⟩

/-! ## The driver on the wire: calls that return -/

theorem wire_postMetadata_trace (gw : Gateway) (cfg : Config) (data : Request)
    (trace : List Request) : (wire.postMetadata gw cfg data trace).2 = trace ++ [data] := by
  unfold wire.postMetadata
  cases gw trace data with
  | error e => rfl
  | ok reply =>
    simp only
    cases postMetadata.classify reply.Response <;> rfl

theorem wire_postMetadata_eq (gw : Gateway) (net : Transport) (h : gw.answersLike net)
    (cfg : Config) (data : Request) (trace : List Request) :
    wire.postMetadata gw cfg data trace
      = (Outcome.returns (net trace data), (postMetadata net cfg data trace).2) := by
  apply Prod.ext
  · exact h cfg data trace
  · exact wire_postMetadata_trace gw cfg data trace

theorem wire_fetch_eq (gw : Gateway) (net : Transport) (h : gw.answersLike net)
    (cfg : Config) (trace : List Request) :
    wire.fetchExistingTableMetadata gw cfg trace
      = (Outcome.returns (fetchExistingTableMetadata net cfg trace).1,
         (fetchExistingTableMetadata net cfg trace).2) := by
  unfold wire.fetchExistingTableMetadata fetchExistingTableMetadata
  rw [wire_postMetadata_eq gw net h]
  unfold postMetadata
  cases net trace (Request.exportMetadata { Type_ := "export_metadata", Version := 2 }) with
  | error e => rfl
  | ok body =>
    simp only
    cases body.unmarshal <;> rfl

theorem wire_applyTableCustomization_eq (gw : Gateway) (net : Transport)
    (h : gw.answersLike net) (cfg : Config) (table : TrackTable) (raw : RawMessage)
    (trace : List Request) :
    wire.applyTableCustomization gw cfg table raw trace
      = (Outcome.returns (applyTableCustomization net cfg table raw trace).1,
         (applyTableCustomization net cfg table raw trace).2) := by
  rw [applyTableCustomization_eq]
  unfold wire.applyTableCustomization
  simp only
  rw [wire_postMetadata_eq gw net h]
  unfold postMetadata
  simp only
  change (match (Outcome.returns (net trace
      (Request.setTableCustomization (customizationRequest table raw))),
      trace ++ [Request.setTableCustomization (customizationRequest table raw)]) with
    | (Outcome.panics, trace) => (Outcome.panics, trace)
    | (Outcome.returns (Except.error err), trace) => (Outcome.returns (some err), trace)
    | (Outcome.returns (Except.ok _), trace) => (Outcome.returns none, trace)) = _
  cases net trace (Request.setTableCustomization (customizationRequest table raw)) <;> rfl

theorem wire_objectLoop_eq (gw : Gateway) (net : Transport) (h : gw.answersLike net)
    (cfg : Config) (table : TrackTable) (names : GoMap Bool)
    (rels : List ObjectRelationshipConfig) (trace : List Request) :
    wire.applyObjectRelationships.loop gw cfg table names rels trace
      = (Outcome.returns (applyObjectRelationships.loop net cfg table names rels trace).1,
         (applyObjectRelationships.loop net cfg table names rels trace).2) := by
  induction rels generalizing trace with
  | nil => rfl
  | cons rel rest ih =>
    rw [wire.applyObjectRelationships.loop, applyObjectRelationships.loop]
    by_cases hn : names.getBool rel.Name = true
    · simp only [hn, if_true]
      exact ih trace
    · simp only [hn, if_false, Bool.false_eq_true]
      rw [wire_postMetadata_eq gw net h]
      unfold postMetadata
      simp only
      cases net trace (Request.createObjectRelationship (objectRelationshipRequest table rel)) with
      | error e =>
        simp only
        split
        · exact ih _
        · rfl
      | ok body => exact ih _

theorem wire_arrayLoop_eq (gw : Gateway) (net : Transport) (h : gw.answersLike net)
    (cfg : Config) (table : TrackTable) (names : GoMap Bool)
    (rels : List ArrayRelationshipConfig) (trace : List Request) :
    wire.applyArrayRelationships.loop gw cfg table names rels trace
      = (Outcome.returns (applyArrayRelationships.loop net cfg table names rels trace).1,
         (applyArrayRelationships.loop net cfg table names rels trace).2) := by
  induction rels generalizing trace with
  | nil => rfl
  | cons rel rest ih =>
    rw [wire.applyArrayRelationships.loop, applyArrayRelationships.loop]
    by_cases hn : names.getBool rel.Name = true
    · simp only [hn, if_true]
      exact ih trace
    · simp only [hn, if_false, Bool.false_eq_true]
      rw [wire_postMetadata_eq gw net h]
      unfold postMetadata
      simp only
      cases net trace (Request.createArrayRelationship (arrayRelationshipRequest table rel)) with
      | error e =>
        simp only
        split
        · exact ih _
        · rfl
      | ok body => exact ih _

theorem wire_trackLoop_eq (gw : Gateway) (net : Transport) (h : gw.answersLike net)
    (cfg : Config) (existingMeta : GoMap existingTableMetadata)
    (tables : List TrackTable) (trace : List Request) :
    wire.ApplyMetadata.trackLoop gw cfg existingMeta tables trace
      = (Outcome.returns (ApplyMetadata.trackLoop net cfg existingMeta tables trace).1,
         (ApplyMetadata.trackLoop net cfg existingMeta tables trace).2) := by
  induction tables generalizing trace with
  | nil => rfl
  | cons table rest ih =>
    rw [wire.ApplyMetadata.trackLoop, ApplyMetadata.trackLoop]
    rw [wire_postMetadata_eq gw net h]
    unfold postMetadata
    simp only
    cases net trace (Request.trackTable table) with
    | error e =>
      simp only
      split
      · rw [wire_applyTableCustomization_eq gw net h]
        cases hc : applyTableCustomization net cfg table
            (existingMeta.getD (tableKey table.Args.Table)
              existingTableMetadata.zero).Configuration (trace ++ [Request.trackTable table]) with
        | mk err tr =>
          cases err with
          | none => exact ih _
          | some e => rfl
      · rfl
    | ok body => exact ih _

theorem wire_relationshipLoop_eq (gw : Gateway) (net : Transport) (h : gw.answersLike net)
    (cfg : Config) (existingMeta : GoMap existingTableMetadata)
    (tables : List TrackTable) (trace : List Request) :
    wire.ApplyMetadata.relationshipLoop gw cfg existingMeta tables trace
      = (Outcome.returns (ApplyMetadata.relationshipLoop net cfg existingMeta tables trace).1,
         (ApplyMetadata.relationshipLoop net cfg existingMeta tables trace).2) := by
  induction tables generalizing trace with
  | nil => rfl
  | cons table rest ih =>
    rw [wire.ApplyMetadata.relationshipLoop, ApplyMetadata.relationshipLoop]
    unfold wire.applyObjectRelationships wire.applyArrayRelationships
      applyObjectRelationships applyArrayRelationships
    simp only
    rw [wire_objectLoop_eq gw net h]
    cases ho : applyObjectRelationships.loop net cfg table _ _ trace with
    | mk err tr =>
      cases err with
      | some e => rfl
      | none =>
        simp only
        rw [wire_arrayLoop_eq gw net h]
        cases ha : applyArrayRelationships.loop net cfg table _ _ tr with
        | mk err2 tr2 =>
          cases err2 with
          | some e => rfl
          | none => exact ih _

/-- On a gateway whose calls all return, `ApplyMetadata` on the wire returns,
and it returns the error and posts the requests of `ApplyMetadata` on the
transport of the calls. -/
theorem wire_applyMetadata_eq (gw : Gateway) (net : Transport) (h : gw.answersLike net)
    (cfg : Config) (tables : List TrackTable) (trace : List Request) :
    wire.ApplyMetadata gw cfg tables trace
      = (Outcome.returns (ApplyMetadata net cfg tables trace).1,
         (ApplyMetadata net cfg tables trace).2) := by
  unfold wire.ApplyMetadata ApplyMetadata ApplyMetadata.baseline
  rw [wire_fetch_eq gw net h]
  rcases fetchExistingTableMetadata net cfg trace with ⟨fetched, tr0⟩
  cases fetched with
  | error e =>
    simp only
    rw [wire_trackLoop_eq gw net h]
    generalize ApplyMetadata.trackLoop net cfg GoMap.make tables tr0 = x
    rcases x with ⟨_ | e, tr⟩
    · simp only
      rw [wire_relationshipLoop_eq gw net h]
    · rfl
  | ok existingMeta =>
    simp only
    rw [wire_trackLoop_eq gw net h]
    generalize ApplyMetadata.trackLoop net cfg existingMeta tables tr0 = x
    rcases x with ⟨_ | e, tr⟩
    · simp only
      rw [wire_relationshipLoop_eq gw net h]
    · rfl

/-- The calls on `badExportGateway` all return: the export call returns the
status error, every other call a body. -/
theorem badExportGateway_answersLike : badExportGateway.answersLike badExportTransport := by
  intro cfg data trace
  cases data <;> rfl

/-! ## The driver on the wire: a call that panics -/

/-- C11 fails on the code, by the defect of C20. A track request answered with
status 500 and the body `null` is a failure other than the already-tracked
marker, and so is a customization request answered that way after the marker:
the call of `postMetadata` panics, `ApplyMetadata` does not return, and no
error naming the table `auth.users` is returned. The failing request is the
last one posted. -/
theorem applyMetadata_panics_in_phaseA :
    wire.ApplyMetadata nullOnTrackGateway testConfig [usersTable] []
      = (Outcome.panics, [exportRequest, Request.trackTable usersTable]) ∧
    wire.ApplyMetadata nullOnCustomizeGateway testConfig [usersTable] []
      = (Outcome.panics,
         [exportRequest, Request.trackTable usersTable,
          Request.setTableCustomization (customizationRequest usersTable RawMessage.nil)]) ∧
    (∀ err : Option GoError,
      (wire.ApplyMetadata nullOnTrackGateway testConfig [usersTable] []).1
        ≠ Outcome.returns err) ∧
    nullReply.Response.StatusCode = 500 ∧
    postMetadata.classify nullReply.Response ≠ PostOutcome.fails
      (GoError.apiError errorCodeAlreadyTracked "already tracked") := by
  refine ⟨by decide, by decide, fun err h => ?_, by decide, by decide⟩
  have : (wire.ApplyMetadata nullOnTrackGateway testConfig [usersTable] []).1
      = Outcome.panics := by decide
  rw [this] at h
  cases h

/-- C12 fails on the code, by the defect of C20. A create request answered
with status 500 and the body `null` is a failure other than the already-exists
marker: the call of `postMetadata` panics, `ApplyMetadata` does not return, and
no error naming the relationship `parent` and the table `auth.users` is
returned. The failing request is the last one posted. -/
theorem applyMetadata_panics_in_phaseB :
    wire.ApplyMetadata nullOnCreateGateway testConfig [usersTable] []
      = (Outcome.panics,
         [exportRequest, Request.trackTable usersTable,
          Request.createObjectRelationship
            (objectRelationshipRequest usersTable (objRel "parent" "parent_id"))]) ∧
    (∀ err : Option GoError,
      (wire.ApplyMetadata nullOnCreateGateway testConfig [usersTable] []).1
        ≠ Outcome.returns err) := by
  refine ⟨by decide, fun err h => ?_⟩
  have : (wire.ApplyMetadata nullOnCreateGateway testConfig [usersTable] []).1
      = Outcome.panics := by decide
  rw [this] at h
  cases h

/-- C14 fails on the code, by the defect of C20. When the export request is
answered with status 500 and the body `null`, and every other request would be
answered with status 200, the fetch panics and `ApplyMetadata` ends with it: it
does not return, and it posts no track and no create request. With status 500
and a body that is not JSON the fetch returns an error and the run goes on: it
returns nil after the four requests of the empty baseline. -/
theorem applyMetadata_panics_on_null_export :
    wire.ApplyMetadata nullExportGateway testConfig [usersTable] []
      = (Outcome.panics, [exportRequest]) ∧
    wire.ApplyMetadata badExportGateway testConfig [usersTable] []
      = (Outcome.returns none,
         [exportRequest, Request.trackTable usersTable,
          Request.createObjectRelationship
            (objectRelationshipRequest usersTable (objRel "parent" "parent_id")),
          Request.createArrayRelationship
            (arrayRelationshipRequest usersTable (arrRel "children" "children" "users_id"))]) := by
  decide

/-- C31 fails on the code, by the defect of C20. When the export request is
answered with status 500 and the body `null`, `fetchExistingTableMetadata`
panics: it returns neither an error nor a map. With status 500 and a body that
is not JSON it returns the error of the call, wrapped. -/
theorem fetch_panics_on_null_export :
    wire.fetchExistingTableMetadata nullExportGateway testConfig []
      = (Outcome.panics, [exportRequest]) ∧
    wire.fetchExistingTableMetadata badExportGateway testConfig []
      = (Outcome.returns (.error (GoError.wrapError "problem fetching metadata: "
            (statusError badGatewayResponse))), [exportRequest]) := by
  decide

end metadata

namespace oauth2

/-! ## Userinfo: what a scope discloses -/

/-- The setter written by the code generator leaves the declared fields as
they are. -/
theorem generatedSet_keepsDeclaredFields : generatedSet.keepsDeclaredFields := by
  intro r ns c
  rfl

/-- The outcome of `GetUserinfo` for a row that was found, in terms of the
response built before the claims are set. -/
theorem getUserinfo_of_row {ρ : Type} (p : Provider ρ) (set : Setter) (userID : UUID)
    (scopes : List String) (user : AuthUser ρ) (h : p.GetUser userID = .ok user) :
    GetUserinfo p set userID scopes =
      if scopes.contains "graphql" then
        match p.resolveUserGraphQLRoles user userID with
        | .error _ =>
          .error { Err := "server_error", Description := "Internal server error" }
        | .ok roles =>
          match p.RawGraphQLClaims userID roles.IsAnonymous roles.AllowedRoles
              roles.DefaultRole with
          | .error _ =>
            .error { Err := "server_error", Description := "Internal server error" }
          | .ok (ns, c) => .ok (set (declaredResponse user userID scopes) ns c)
      else
        .ok (declaredResponse user userID scopes) := by
  unfold GetUserinfo
  rw [h]
  rfl

/-- A successful response is the response built before the claims are set,
or, when `graphql` is among the scopes, that response after one call of the
setter. -/
theorem getUserinfo_ok {ρ : Type} (p : Provider ρ) (set : Setter) (userID : UUID)
    (scopes : List String) (resp : OAuth2UserinfoResponse)
    (hresp : GetUserinfo p set userID scopes = .ok resp) :
    ∃ user, p.GetUser userID = .ok user ∧
      (("graphql" ∉ scopes ∧ resp = declaredResponse user userID scopes) ∨
       ("graphql" ∈ scopes ∧ ∃ ns c, resp = set (declaredResponse user userID scopes) ns c)) := by
  cases h : p.GetUser userID with
  | error e =>
    unfold GetUserinfo at hresp
    rw [h] at hresp
    simp only at hresp
    split at hresp <;> cases hresp
  | ok user =>
    refine ⟨user, rfl, ?_⟩
    rw [getUserinfo_of_row p set userID scopes user h] at hresp
    by_cases hg : "graphql" ∈ scopes
    · right
      refine ⟨hg, ?_⟩
      have hc : scopes.contains "graphql" = true := by simpa using hg
      rw [if_pos hc] at hresp
      cases hr : p.resolveUserGraphQLRoles user userID with
      | error e => rw [hr] at hresp; cases hresp
      | ok roles =>
        rw [hr] at hresp
        simp only at hresp
        cases hc2 : p.RawGraphQLClaims userID roles.IsAnonymous roles.AllowedRoles
            roles.DefaultRole with
        | error e => rw [hc2] at hresp; cases hresp
        | ok nc =>
          rw [hc2] at hresp
          obtain ⟨ns, c⟩ := nc
          exact ⟨ns, c, (Except.ok.inj hresp).symm⟩
    · left
      refine ⟨hg, ?_⟩
      have hc : ¬ scopes.contains "graphql" = true := by simpa using hg
      rw [if_neg hc] at hresp
      exact (Except.ok.inj hresp).symm

/-- The response built before the claims are set is the same for two rows
that agree on what the scopes disclose. -/
theorem declaredResponse_congr {ρ : Type} (p : Provider ρ) (userID : UUID)
    (scopes : List String) (u v : AuthUser ρ) (h : agreeOnScopes p userID scopes u v) :
    declaredResponse u userID scopes = declaredResponse v userID scopes := by
  obtain ⟨he, hp, hph, _⟩ := h
  have hne : ∀ scope : String, scope ∉ scopes → scopes.contains scope = false := by
    intro scope hs
    simpa using hs
  unfold declaredResponse
  congr 1
  · by_cases h1 : "email" ∈ scopes
    · rw [(he h1).1]
    · simp [hne _ h1, h1]
  · by_cases h1 : "email" ∈ scopes
    · rw [(he h1).1, (he h1).2]
    · simp [hne _ h1, h1]
  · by_cases h1 : "profile" ∈ scopes
    · rw [(hp h1).2.2]
    · simp [hne _ h1, h1]
  · by_cases h1 : "profile" ∈ scopes
    · rw [(hp h1).1]
    · simp [hne _ h1, h1]
  · by_cases h1 : "phone" ∈ scopes
    · rw [(hph h1).1]
    · simp [hne _ h1, h1]
  · by_cases h1 : "phone" ∈ scopes
    · rw [(hph h1).1, (hph h1).2]
    · simp [hne _ h1, h1]
  · by_cases h1 : "profile" ∈ scopes
    · rw [(hp h1).2.1]
    · simp [hne _ h1, h1]

/-- C40: scope gating in `GetUserinfo`. For every provider, user id and scope
list, and every setter that writes to `AdditionalProperties` only: a
successful response has `Sub` equal to the text of the user id; `Email` or
`EmailVerified` is set only if the scopes contain `email`; `Name`, `Picture`
or `Locale` is set only if they contain `profile`; `PhoneNumber` or
`PhoneNumberVerified` is set only if they contain `phone`; and
`AdditionalProperties` is the nil map unless they contain `graphql`. Moreover
(for every setter) two providers that differ only in the row found for the user
id return the same outcome whenever the two rows agree on what the requested
scopes disclose, for `graphql` on the roles resolved for the row. -/
theorem getUserinfo_scope_gating {ρ : Type} (p : Provider ρ) (set : Setter)
    (userID : UUID) (scopes : List String) :
    (set.keepsDeclaredFields →
      ∀ resp : OAuth2UserinfoResponse, GetUserinfo p set userID scopes = .ok resp →
        resp.Sub = userID.String ∧
        ((resp.Email ≠ none ∨ resp.EmailVerified ≠ none) → "email" ∈ scopes) ∧
        ((resp.Name ≠ none ∨ resp.Picture ≠ none ∨ resp.Locale ≠ none) →
          "profile" ∈ scopes) ∧
        ((resp.PhoneNumber ≠ none ∨ resp.PhoneNumberVerified ≠ none) → "phone" ∈ scopes) ∧
        ("graphql" ∉ scopes → resp.AdditionalProperties = metadata.GoMap.nil)) ∧
    (∀ (q : Provider ρ) (u v : AuthUser ρ),
      p.GetUser userID = .ok u → q.GetUser userID = .ok v →
      q.resolveUserGraphQLRoles = p.resolveUserGraphQLRoles →
      q.RawGraphQLClaims = p.RawGraphQLClaims →
      agreeOnScopes p userID scopes u v →
      GetUserinfo p set userID scopes = GetUserinfo q set userID scopes) := by
  constructor
  · intro hset resp hresp
    obtain ⟨user, _, hcase⟩ := getUserinfo_ok p set userID scopes resp hresp
    have hdecl : ∃ ap, resp = { declaredResponse user userID scopes with
        AdditionalProperties := ap } ∧
        ("graphql" ∉ scopes → ap = metadata.GoMap.nil) := by
      rcases hcase with ⟨hg, h⟩ | ⟨hg, ns, c, h⟩
      · exact ⟨metadata.GoMap.nil, h, fun _ => rfl⟩
      · exact ⟨_, h.trans (hset _ ns c), fun hn => absurd hg hn⟩
    obtain ⟨ap, rfl, hap⟩ := hdecl
    have hmem : ∀ scope : String, scopes.contains scope = true → scope ∈ scopes := by
      intro scope hs
      simpa using hs
    refine ⟨rfl, ?_, ?_, ?_, hap⟩
    · intro h
      by_contra hn
      have : scopes.contains "email" = false := by simpa using hn
      simp [declaredResponse, this, hn] at h
    · intro h
      by_contra hn
      have : scopes.contains "profile" = false := by simpa using hn
      simp [declaredResponse, this, hn] at h
    · intro h
      by_contra hn
      have : scopes.contains "phone" = false := by simpa using hn
      simp [declaredResponse, this, hn] at h
  · intro q u v hu hv hroles hclaims hagree
    rw [getUserinfo_of_row p set userID scopes u hu,
      getUserinfo_of_row q set userID scopes v hv, hroles, hclaims,
      declaredResponse_congr p userID scopes u v hagree]
    by_cases hg : "graphql" ∈ scopes
    · rw [hagree.2.2.2 hg]
    · have : ¬ scopes.contains "graphql" = true := by simpa using hg
      rw [if_neg this, if_neg this]

/-- C40, on the row `aliceRow`: the scopes `email` and `graphql` disclose the
address and the claims and nothing of the profile or the phone, and the row
with another phone number gets the same response. -/
theorem getUserinfo_scope_gating_witness :
    GetUserinfo (providerOf aliceRow) generatedSet aliceID ["email", "graphql"]
      = .ok aliceEmailGraphql ∧
    (aliceEmailGraphql.Sub = aliceID.String ∧
      ((aliceEmailGraphql.Email ≠ none ∨ aliceEmailGraphql.EmailVerified ≠ none) →
        "email" ∈ ["email", "graphql"]) ∧
      ((aliceEmailGraphql.Name ≠ none ∨ aliceEmailGraphql.Picture ≠ none ∨
          aliceEmailGraphql.Locale ≠ none) → "profile" ∈ ["email", "graphql"]) ∧
      ((aliceEmailGraphql.PhoneNumber ≠ none ∨
          aliceEmailGraphql.PhoneNumberVerified ≠ none) → "phone" ∈ ["email", "graphql"]) ∧
      ("graphql" ∉ ["email", "graphql"] →
        aliceEmailGraphql.AdditionalProperties = metadata.GoMap.nil)) ∧
    aliceRow ≠ aliceRowOtherPhone ∧
    GetUserinfo (providerOf aliceRow) generatedSet aliceID ["email", "graphql"]
      = GetUserinfo (providerOf aliceRowOtherPhone) generatedSet aliceID
          ["email", "graphql"] :=
  ⟨by decide,
   (getUserinfo_scope_gating (providerOf aliceRow) generatedSet aliceID
      ["email", "graphql"]).1 generatedSet_keepsDeclaredFields aliceEmailGraphql (by decide),
   by decide,
   (getUserinfo_scope_gating (providerOf aliceRow) generatedSet aliceID
      ["email", "graphql"]).2 (providerOf aliceRowOtherPhone) aliceRow aliceRowOtherPhone
      rfl rfl rfl rfl
      ⟨fun _ => ⟨rfl, rfl⟩, fun h => absurd h (by decide), fun h => absurd h (by decide),
       fun _ => rfl⟩⟩

end oauth2
